import Mathlib

/-!
# mrcalc: the voxel-wise image calculator of MRtrix3

A shallow embedding of `cmd/mrcalc.cpp`: the operator catalogue, the stack
machine that turns a postfix command line into an expression tree (with
constant folding), the inference of the output geometry, and the tile by
tile evaluation of the tree.

Conventions of the embedding.
* `real_type` (C++ `float`) is a NaN with its sign bit, one of the two
  infinities, the negative zero, or another finite value held as an exact
  rational: the sign of a zero and of a NaN is modelled; rounding, overflow and
  underflow are not. An arithmetic operation returns a NaN operand as it is
  (the first one when both are NaN), and an invalid operation gives the NaN
  with the sign bit set, as the x86-64 processor does.
* An exception is a value of `Error`; a function that can throw returns
  `Except Error _`. The functions that work on the stack by reference return the
  stack as it is at the moment of the throw as well. An `assert` that fails in a
  build with assertions is the error `AssertionFailed`.
* `std::vector<StackEntry> stack` is a list whose head is `stack.back()`.
* What the command takes from the rest of the library (opening an image,
  parsing a number, `<cmath>`, the random generator, the order of the
  strides) is a field of `StdMath` or `Env`.
-/

namespace MRCalc

/-! ## Scalars -/

/-- The C++ `real_type` (`float`). -/
inductive real_type where
  /-- A NaN; `negative` is its sign bit. -/
  | nan (negative : Bool)
  /-- An infinity. -/
  | inf (negative : Bool)
  /-- A finite value other than the negative zero; `fin 0` is the positive zero. -/
  | fin (q : ℚ)
  /-- The negative zero, `-0.0`. -/
  | neg_zero
  deriving DecidableEq

/-- The C++ `complex_type` (`cfloat`). -/
structure complex_type where
  real : real_type
  imag : real_type
  deriving DecidableEq

namespace real_type

/-- Conversion of a C++ `bool` to `float`. -/
def ofBool (b : Bool) : real_type := if b then fin 1 else fin 0

/-- The function `std::isnan`. -/
def isnan : real_type → Bool
  | nan _ => true
  | _ => false

/-- The function `std::isinf`. -/
def isinf : real_type → Bool
  | inf _ => true
  | _ => false

/-- The function `std::isfinite`. -/
def isfinite : real_type → Bool
  | fin _ => true
  | neg_zero => true
  | _ => false

/-- The sign bit (`std::signbit`). -/
def sign : real_type → Bool
  | nan s => s
  | inf s => s
  | fin q => decide (q < 0)
  | neg_zero => true

/-- The value is a zero, of either sign. -/
def is_zero : real_type → Bool
  | fin q => decide (q = 0)
  | neg_zero => true
  | _ => false

/-- The zero of the given sign. -/
def zero (negative : Bool) : real_type := if negative then neg_zero else fin 0

/-- The rational value of a finite number. -/
def value : real_type → ℚ
  | fin q => q
  | _ => 0

/-- Unary minus: it flips the sign bit, also of a zero and of a NaN. -/
def neg : real_type → real_type
  | nan s => nan (!s)
  | inf s => inf (!s)
  | fin q => if q = 0 then neg_zero else fin (-q)
  | neg_zero => fin 0

/-- The sum `a + b`. A NaN operand is returned as it is, the first one when
both are; an invalid operation gives the NaN with the sign bit set, as the
x86-64 processor does. The sum of two zeros is negative only when both are,
and an exact sum that is zero is the positive zero. -/
def add : real_type → real_type → real_type
  | nan s, _ => nan s
  | _, nan t => nan t
  | inf s, inf t => if s = t then inf s else nan true
  | inf s, _ => inf s
  | _, inf t => inf t
  | neg_zero, neg_zero => neg_zero
  | neg_zero, fin b => fin b
  | fin a, neg_zero => fin a
  | fin a, fin b => fin (a + b)

/-- The difference `a - b`: the sum of `a` and `-b`, a NaN operand being
returned as it is. -/
def sub : real_type → real_type → real_type
  | nan s, _ => nan s
  | _, nan t => nan t
  | a, b => add a (neg b)

/-- The product `a * b`; the sign of a zero or infinite product is the
exclusive or of the signs. -/
def mul : real_type → real_type → real_type
  | nan s, _ => nan s
  | _, nan t => nan t
  | inf s, b => if b.is_zero then nan true else inf (xor s b.sign)
  | a, inf t => if a.is_zero then nan true else inf (xor a.sign t)
  | a, b =>
    if a.is_zero || b.is_zero then zero (xor a.sign b.sign) else fin (a.value * b.value)

/-- The quotient `a / b`; the sign of a zero or infinite quotient is the
exclusive or of the signs. -/
def div : real_type → real_type → real_type
  | nan s, _ => nan s
  | _, nan t => nan t
  | inf _, inf _ => nan true
  | inf s, b => inf (xor s b.sign)
  | a, inf t => zero (xor a.sign t)
  | a, b =>
    if b.is_zero then (if a.is_zero then nan true else inf (xor a.sign b.sign))
    else if a.is_zero then zero (xor a.sign b.sign) else fin (a.value / b.value)

/-- The comparison `a < b`; the two zeros compare equal. -/
def lt : real_type → real_type → Bool
  | nan _, _ => false
  | _, nan _ => false
  | inf s, inf t => s && !t
  | inf s, _ => s
  | _, inf t => !t
  | a, b => decide (a.value < b.value)

/-- The comparison `a == b`; the two zeros compare equal. -/
def eq : real_type → real_type → Bool
  | nan _, _ => false
  | _, nan _ => false
  | inf s, inf t => s == t
  | inf _, _ => false
  | _, inf _ => false
  | a, b => decide (a.value = b.value)

/-- The comparison `a != b`. -/
def ne (a b : real_type) : Bool := !(eq a b)

/-- The comparison `a <= b`. -/
def le (a b : real_type) : Bool := lt a b || eq a b

/-- The comparison `a > b`. -/
def gt (a b : real_type) : Bool := lt b a

/-- The comparison `a >= b`. -/
def ge (a b : real_type) : Bool := le b a

/-- The function `std::abs` on `float`: it clears the sign bit. -/
def abs : real_type → real_type
  | nan _ => nan false
  | inf _ => inf false
  | fin q => fin |q|
  | neg_zero => fin 0

/-- The function `std::min`: `(b < a) ? b : a`. -/
def min (a b : real_type) : real_type := if lt b a then b else a

/-- The function `std::max`: `(a < b) ? b : a`. -/
def max (a b : real_type) : real_type := if lt a b then b else a

/-- The integer `n` as the result of rounding `q`: a zero result has the sign
of `q`. -/
def rounded (q : ℚ) (n : ℤ) : real_type := if n = 0 ∧ q < 0 then neg_zero else fin n

/-- The function `std::round`: to the nearest integer, halves away from zero. -/
def round : real_type → real_type
  | fin q => if 0 ≤ q then rounded q ⌊q + 1 / 2⌋ else rounded q ⌈q - 1 / 2⌉
  | x => x

/-- The function `std::ceil`. -/
def ceil : real_type → real_type
  | fin q => rounded q ⌈q⌉
  | x => x

/-- The function `std::floor`. -/
def floor : real_type → real_type
  | fin q => rounded q ⌊q⌋
  | x => x

/-- The conversion of a `float` to `bool` in a condition: `x != 0`. -/
def toBool (x : real_type) : Bool := ne x (fin 0)

end real_type

namespace complex_type

/-- The implicit conversion `complex_type (v)` of a `float`. -/
def ofReal (v : real_type) : complex_type := ⟨v, real_type.fin 0⟩

/-- Conversion of a C++ `bool` to `complex_type`. -/
def ofBool (b : Bool) : complex_type := ofReal (real_type.ofBool b)

/-- Unary minus. -/
def neg (v : complex_type) : complex_type := ⟨v.real.neg, v.imag.neg⟩

/-- The function `std::conj`. -/
def conj (v : complex_type) : complex_type := ⟨v.real, v.imag.neg⟩

/-- The sum `a + b`. -/
def add (a b : complex_type) : complex_type := ⟨a.real.add b.real, a.imag.add b.imag⟩

/-- The difference `a - b`. -/
def sub (a b : complex_type) : complex_type := ⟨a.real.sub b.real, a.imag.sub b.imag⟩

/-- The product `a * b`, by the textbook formula. -/
def mul (a b : complex_type) : complex_type :=
  ⟨(a.real.mul b.real).sub (a.imag.mul b.imag), (a.real.mul b.imag).add (a.imag.mul b.real)⟩

/-- The quotient `a / b`, by the textbook formula. -/
def div (a b : complex_type) : complex_type :=
  let d := (b.real.mul b.real).add (b.imag.mul b.imag)
  ⟨((a.real.mul b.real).add (a.imag.mul b.imag)).div d,
   ((a.imag.mul b.real).sub (a.real.mul b.imag)).div d⟩

/-- The comparison `a == b`. -/
def eq (a b : complex_type) : Bool := a.real.eq b.real && a.imag.eq b.imag

/-- The comparison `a != b`. -/
def ne (a b : complex_type) : Bool := !(eq a b)

end complex_type

/-! ## The library functions used by the kernels -/

/-- The functions of `<cmath>` and `<complex>` that the kernels call and that
have no exact value on the rationals. -/
structure StdMath where
  sqrt : real_type → real_type
  exp : real_type → real_type
  log : real_type → real_type
  log10 : real_type → real_type
  cos : real_type → real_type
  sin : real_type → real_type
  tan : real_type → real_type
  cosh : real_type → real_type
  sinh : real_type → real_type
  tanh : real_type → real_type
  acos : real_type → real_type
  asin : real_type → real_type
  atan : real_type → real_type
  acosh : real_type → real_type
  asinh : real_type → real_type
  atanh : real_type → real_type
  pow : real_type → real_type → real_type
  cabs : complex_type → real_type
  carg : complex_type → real_type
  csqrt : complex_type → complex_type
  cexp : complex_type → complex_type
  clog : complex_type → complex_type
  clog10 : complex_type → complex_type
  ccos : complex_type → complex_type
  csin : complex_type → complex_type
  ctan : complex_type → complex_type
  ccosh : complex_type → complex_type
  csinh : complex_type → complex_type
  ctanh : complex_type → complex_type
  cpow : complex_type → complex_type → complex_type

/-! ## Operations: basic framework -/

/-- The class `OpBase`: the format string and the two flags. -/
structure OpBase where
  format : String
  ZtoR : Bool := false
  RtoZ : Bool := false

/-- The class `OpUnary`. A kernel that the operation does not override is the
one of the base class, which throws "operation not supported!": it is `none`. -/
structure OpUnary extends OpBase where
  R : Option (real_type → complex_type) := none
  Z : Option (complex_type → complex_type) := none

/-- The class `OpBinary`, with the same reading of `none`. -/
structure OpBinary extends OpBase where
  R : Option (real_type → real_type → complex_type) := none
  Z : Option (complex_type → complex_type → complex_type) := none

/-- The class `OpTernary`, with the same reading of `none`. -/
structure OpTernary extends OpBase where
  R : Option (real_type → real_type → real_type → complex_type) := none
  Z : Option (complex_type → complex_type → complex_type → complex_type) := none

open complex_type in
/-- The unary operations, in the order of the source. -/
def OpAbs (m : StdMath) : OpUnary :=
  { format := "|%1|", ZtoR := true,
    R := some fun v => ofReal v.abs, Z := some fun v => ofReal (m.cabs v) }

open complex_type in
/-- The class `OpNeg`. -/
def OpNeg : OpUnary :=
  { format := "-%1", R := some fun v => ofReal v.neg, Z := some fun v => v.neg }

open complex_type in
/-- The class `OpSqrt`. -/
def OpSqrt (m : StdMath) : OpUnary :=
  { format := "sqrt (%1)", R := some fun v => ofReal (m.sqrt v), Z := some m.csqrt }

open complex_type in
/-- The class `OpExp`. -/
def OpExp (m : StdMath) : OpUnary :=
  { format := "exp (%1)", R := some fun v => ofReal (m.exp v), Z := some m.cexp }

open complex_type in
/-- The class `OpLog`. -/
def OpLog (m : StdMath) : OpUnary :=
  { format := "log (%1)", R := some fun v => ofReal (m.log v), Z := some m.clog }

open complex_type in
/-- The class `OpLog10`. -/
def OpLog10 (m : StdMath) : OpUnary :=
  { format := "log10 (%1)", R := some fun v => ofReal (m.log10 v), Z := some m.clog10 }

open complex_type in
/-- The class `OpCos`. -/
def OpCos (m : StdMath) : OpUnary :=
  { format := "cos (%1)", R := some fun v => ofReal (m.cos v), Z := some m.ccos }

open complex_type in
/-- The class `OpSin`. -/
def OpSin (m : StdMath) : OpUnary :=
  { format := "sin (%1)", R := some fun v => ofReal (m.sin v), Z := some m.csin }

open complex_type in
/-- The class `OpTan`. -/
def OpTan (m : StdMath) : OpUnary :=
  { format := "tan (%1)", R := some fun v => ofReal (m.tan v), Z := some m.ctan }

open complex_type in
/-- The class `OpCosh`. -/
def OpCosh (m : StdMath) : OpUnary :=
  { format := "cosh (%1)", R := some fun v => ofReal (m.cosh v), Z := some m.ccosh }

open complex_type in
/-- The class `OpSinh`. -/
def OpSinh (m : StdMath) : OpUnary :=
  { format := "sinh (%1)", R := some fun v => ofReal (m.sinh v), Z := some m.csinh }

open complex_type in
/-- The class `OpTanh`. -/
def OpTanh (m : StdMath) : OpUnary :=
  { format := "tanh (%1)", R := some fun v => ofReal (m.tanh v), Z := some m.ctanh }

open complex_type in
/-- The class `OpAcos`. -/
def OpAcos (m : StdMath) : OpUnary :=
  { format := "acos (%1)", R := some fun v => ofReal (m.acos v) }

open complex_type in
/-- The class `OpAsin`. -/
def OpAsin (m : StdMath) : OpUnary :=
  { format := "asin (%1)", R := some fun v => ofReal (m.asin v) }

open complex_type in
/-- The class `OpAtan`. -/
def OpAtan (m : StdMath) : OpUnary :=
  { format := "atan (%1)", R := some fun v => ofReal (m.atan v) }

open complex_type in
/-- The class `OpAcosh`. -/
def OpAcosh (m : StdMath) : OpUnary :=
  { format := "acosh (%1)", R := some fun v => ofReal (m.acosh v) }

open complex_type in
/-- The class `OpAsinh`. -/
def OpAsinh (m : StdMath) : OpUnary :=
  { format := "asinh (%1)", R := some fun v => ofReal (m.asinh v) }

open complex_type in
/-- The class `OpAtanh`. -/
def OpAtanh (m : StdMath) : OpUnary :=
  { format := "atanh (%1)", R := some fun v => ofReal (m.atanh v) }

open complex_type in
/-- The class `OpRound`. -/
def OpRound : OpUnary :=
  { format := "round (%1)", R := some fun v => ofReal v.round }

open complex_type in
/-- The class `OpCeil`. -/
def OpCeil : OpUnary :=
  { format := "ceil (%1)", R := some fun v => ofReal v.ceil }

open complex_type in
/-- The class `OpFloor`. -/
def OpFloor : OpUnary :=
  { format := "floor (%1)", R := some fun v => ofReal v.floor }

open complex_type in
/-- The class `OpReal`. -/
def OpReal : OpUnary :=
  { format := "real (%1)", ZtoR := true, Z := some fun v => ofReal v.real }

open complex_type in
/-- The class `OpImag`. -/
def OpImag : OpUnary :=
  { format := "imag (%1)", ZtoR := true, Z := some fun v => ofReal v.imag }

open complex_type in
/-- The class `OpPhase`. -/
def OpPhase (m : StdMath) : OpUnary :=
  { format := "phase (%1)", ZtoR := true, Z := some fun v => ofReal (m.carg v) }

/-- The class `OpConj`. -/
def OpConj : OpUnary :=
  { format := "conj (%1)", Z := some fun v => v.conj }

open complex_type in
/-- The class `OpIsNaN`. -/
def OpIsNaN : OpUnary :=
  { format := "isnan (%1)", ZtoR := true, RtoZ := false,
    R := some fun v => ofBool v.isnan,
    Z := some fun v => ofBool (v.real.isnan || v.imag.isnan) }

open complex_type in
/-- The class `OpIsInf`. -/
def OpIsInf : OpUnary :=
  { format := "isinf (%1)", ZtoR := true, RtoZ := false,
    R := some fun v => ofBool v.isinf,
    Z := some fun v => ofBool (v.real.isinf || v.imag.isinf) }

open complex_type in
/-- The class `OpFinite`. -/
def OpFinite : OpUnary :=
  { format := "finite (%1)", ZtoR := true, RtoZ := false,
    R := some fun v => ofBool v.isfinite,
    Z := some fun v => ofBool (v.real.isfinite || v.imag.isfinite) }

open complex_type in
/-- The binary operations, in the order of the source. -/
def OpAdd : OpBinary :=
  { format := "(%1 + %2)", R := some fun a b => ofReal (a.add b), Z := some fun a b => a.add b }

open complex_type in
/-- The class `OpSubtract`. -/
def OpSubtract : OpBinary :=
  { format := "(%1 - %2)", R := some fun a b => ofReal (a.sub b), Z := some fun a b => a.sub b }

open complex_type in
/-- The class `OpMultiply`. -/
def OpMultiply : OpBinary :=
  { format := "(%1 * %2)", R := some fun a b => ofReal (a.mul b), Z := some fun a b => a.mul b }

open complex_type in
/-- The class `OpDivide`. -/
def OpDivide : OpBinary :=
  { format := "(%1 / %2)", R := some fun a b => ofReal (a.div b), Z := some fun a b => a.div b }

open complex_type in
/-- The class `OpPow`. -/
def OpPow (m : StdMath) : OpBinary :=
  { format := "%1^%2", R := some fun a b => ofReal (m.pow a b), Z := some fun a b => m.cpow a b }

open complex_type in
/-- The class `OpMin`. -/
def OpMin : OpBinary :=
  { format := "min (%1, %2)", R := some fun a b => ofReal (real_type.min a b) }

open complex_type in
/-- The class `OpMax`. -/
def OpMax : OpBinary :=
  { format := "max (%1, %2)", R := some fun a b => ofReal (real_type.max a b) }

open complex_type in
/-- The class `OpLessThan`. -/
def OpLessThan : OpBinary :=
  { format := "(%1 < %2)", R := some fun a b => ofBool (a.lt b) }

open complex_type in
/-- The class `OpGreaterThan`. -/
def OpGreaterThan : OpBinary :=
  { format := "(%1 > %2)", R := some fun a b => ofBool (a.gt b) }

open complex_type in
/-- The class `OpLessThanOrEqual`. -/
def OpLessThanOrEqual : OpBinary :=
  { format := "(%1 <= %2)", R := some fun a b => ofBool (a.le b) }

open complex_type in
/-- The class `OpGreaterThanOrEqual`. -/
def OpGreaterThanOrEqual : OpBinary :=
  { format := "(%1 >= %2)", R := some fun a b => ofBool (a.ge b) }

open complex_type in
/-- The class `OpEqual`. -/
def OpEqual : OpBinary :=
  { format := "(%1 == %2)", ZtoR := true,
    R := some fun a b => ofBool (a.eq b), Z := some fun a b => ofBool (a.eq b) }

open complex_type in
/-- The class `OpNotEqual`. -/
def OpNotEqual : OpBinary :=
  { format := "(%1 != %2)", ZtoR := true,
    R := some fun a b => ofBool (a.ne b), Z := some fun a b => ofBool (a.ne b) }

/-- The class `OpComplex`. -/
def OpComplex : OpBinary :=
  { format := "(%1 + %2 i)", ZtoR := false, RtoZ := true,
    R := some fun a b => ⟨a, b⟩ }

open complex_type in
/-- The one ternary operation, `OpIf`. -/
def OpIf : OpTernary :=
  { format := "(%1 ? %2 : %3)",
    R := some fun a b c => if a.toBool then ofReal b else ofReal c,
    Z := some fun a b c => if a.real.toBool then b else c }

/-- The unary operators that `run` knows, by option name, in the order in which
it tests for them. -/
def unary_operations (m : StdMath) : List (String × OpUnary) :=
  [("abs", OpAbs m), ("neg", OpNeg), ("sqrt", OpSqrt m), ("exp", OpExp m), ("log", OpLog m),
   ("log10", OpLog10 m), ("cos", OpCos m), ("sin", OpSin m), ("tan", OpTan m),
   ("cosh", OpCosh m), ("sinh", OpSinh m), ("tanh", OpTanh m),
   ("acos", OpAcos m), ("asin", OpAsin m), ("atan", OpAtan m),
   ("acosh", OpAcosh m), ("asinh", OpAsinh m), ("atanh", OpAtanh m),
   ("round", OpRound), ("ceil", OpCeil), ("floor", OpFloor),
   ("real", OpReal), ("imag", OpImag), ("phase", OpPhase m), ("conj", OpConj),
   ("isnan", OpIsNaN), ("isinf", OpIsInf), ("finite", OpFinite)]

/-- The binary operators that `run` knows, in the order in which it tests for them. -/
def binary_operations (m : StdMath) : List (String × OpBinary) :=
  [("add", OpAdd), ("subtract", OpSubtract), ("multiply", OpMultiply), ("divide", OpDivide),
   ("pow", OpPow m), ("min", OpMin), ("max", OpMax), ("lt", OpLessThan), ("gt", OpGreaterThan),
   ("le", OpLessThanOrEqual), ("ge", OpGreaterThanOrEqual), ("eq", OpEqual),
   ("neq", OpNotEqual), ("complex", OpComplex)]

/-- The ternary operators that `run` knows. -/
def ternary_operations : List (String × OpTernary) :=
  [("if", OpIf)]

/-! ## Images, headers and errors -/

/-- Modelled from the spec: the datatypes of an image file (`datatype.h` is not
among the sources): the real and complex floating-point kinds and the integer
kinds. -/
inductive DataType where
  | Bit | Int8 | UInt8 | Int16 | UInt16 | Int32 | UInt32 | Int64 | UInt64
  | Float32 | Float64 | CFloat32 | CFloat64
  deriving DecidableEq

/-- The method `DataType::is_complex`. -/
def DataType.is_complex : DataType → Bool
  | CFloat32 => true
  | CFloat64 => true
  | _ => false

/-- One axis of a header: its size and its voxel spacing (`none` when the
spacing is not finite). A new axis has size 1 and a NaN spacing. -/
structure Axis where
  size : Nat := 1
  spacing : Option ℚ := none
  deriving DecidableEq

/-- The class `Header`, as far as the command reads it. -/
structure Header where
  name : String
  axes : List Axis
  datatype : DataType
  deriving DecidableEq

/-- The method `Header::ndim`. -/
def Header.ndim (h : Header) : Nat := h.axes.length

/-- The method `Header::size`. -/
def Header.size (h : Header) (n : Nat) : Nat := (h.axes.getD n {}).size

/-- The method `Header::spacing`. -/
def Header.spacing (h : Header) (n : Nat) : Option ℚ := (h.axes.getD n {}).spacing

/-- The sizes of all the axes. -/
def Header.sizes (h : Header) : List Nat := h.axes.map Axis.size

/-- The class `Image<complex_type>` as held by a stack entry: a header and the
voxel values, by position. Its cursor is at the origin, where `get_image` puts it:
the builder never moves it. -/
structure Image where
  header : Header
  data : List Nat → complex_type

/-- The method `Image::ndim`. -/
def Image.ndim (i : Image) : Nat := i.header.ndim

/-- The method `Image::size`. -/
def Image.size (i : Image) (n : Nat) : Nat := i.header.size n

/-- The class `LoadedImage`. -/
structure LoadedImage where
  image : Image
  image_is_complex : Bool

/-- The exceptions of the command, by kind. -/
inductive Error where
  /-- Thrown by the conversion of an operand to a number. -/
  | ParseError
  /-- The messages "no operand in stack for operation" and "not enough operands
  in stack for operation". -/
  | StackUnderflow
  /-- The messages "too many operands left on stack!" and "output image not
  specified". -/
  | StackImbalance
  /-- The messages "operation not supported!" and "operation not supported for
  data type supplied". -/
  | OperationNotSupported
  /-- The message "dimensions of input images do not match - aborting". -/
  | GeometryMismatch
  /-- The message "output datatype must be complex". -/
  | DatatypeMismatch
  /-- The output image could not be created. -/
  | IOError
  /-- The message "operation not yet implemented!". -/
  | NotImplemented
  /-- An access outside a vector, which C++ leaves undefined. -/
  | OutOfBounds
  /-- The program is aborted by an `assert` whose condition is false. -/
  | AssertionFailed
  deriving DecidableEq

/-- What the command takes from its surroundings. -/
structure Env where
  /-- The call `Header::open (arg)` followed by `get_image`; `none` when it throws. -/
  open_image : String → Option Image
  /-- The call `to<complex_type> (arg)`; `none` when it throws. -/
  to_complex : String → Option complex_type
  /-- The value of a datatype specifier on the command line. -/
  parse_datatype : String → Option DataType
  /-- Whether `Header::create` succeeds. -/
  can_create : String → Header → Bool
  /-- The two inner axes that `ThreadedLoop` picks for an output image. -/
  inner_axes : Header → Nat × Nat
  /-- The successive draws of the uniform and of the normal generator. -/
  uniform : Nat → real_type
  normal : Nat → real_type
  /-- Whether the command is built with its `assert` statements (without
  `NDEBUG`); a build without them skips the statements. -/
  assertions : Bool

/-- The function `lowercase`. -/
def lowercase (s : String) : String := String.mk (s.data.map Char.toLower)

/-! ## Stack framework -/

/-- The class `StackEntry`. Of the members `arg`, `evaluator`, `image` and `rng`
at most one is set, and `value` is meaningful when none is: the entry is an
unresolved operand, an image, a random source, a value, or it holds an
evaluator, which is a `UnaryEvaluator`, a `BinaryEvaluator` or a
`TernaryEvaluator` with its name, its operation and its operands. -/
inductive StackEntry where
  | arg (entry : String)
  | image (image : Image) (image_is_complex : Bool)
  | rng (rng_gausssian : Bool)
  | value (value : complex_type)
  | unary (id : String) (op : OpUnary) (a : StackEntry)
  | binary (id : String) (op : OpBinary) (a b : StackEntry)
  | ternary (id : String) (op : OpTernary) (a b c : StackEntry)

namespace StackEntry

/-- The test `entry.evaluator`. -/
def has_evaluator : StackEntry → Bool
  | unary .. => true
  | binary .. => true
  | ternary .. => true
  | _ => false

/-- The test `entry.image`. -/
def has_image : StackEntry → Bool
  | image .. => true
  | _ => false

/-- The test `entry.rng`. -/
def has_rng : StackEntry → Bool
  | rng _ => true
  | _ => false

/-- The test `entry.arg`. -/
def has_arg : StackEntry → Bool
  | arg _ => true
  | _ => false

/-- The member `value`: zero unless a number was loaded or folded into it. -/
def get_value : StackEntry → complex_type
  | value v => v
  | _ => ⟨real_type.fin 0, real_type.fin 0⟩

/-- The member `evaluator->operands`. -/
def operands : StackEntry → List StackEntry
  | unary _ _ a => [a]
  | binary _ _ a b => [a, b]
  | ternary _ _ a b c => [a, b, c]
  | _ => []

/-- The member `evaluator->ZtoR`. -/
def ZtoR : StackEntry → Bool
  | unary _ op _ => op.ZtoR
  | binary _ op _ _ => op.ZtoR
  | ternary _ op _ _ _ => op.ZtoR
  | _ => false

/-- The member `evaluator->RtoZ`. -/
def RtoZ : StackEntry → Bool
  | unary _ op _ => op.RtoZ
  | binary _ op _ _ => op.RtoZ
  | ternary _ op _ _ _ => op.RtoZ
  | _ => false

/-- The methods `StackEntry::is_complex` and `Evaluator::is_complex`: the latter
returns `!ZtoR` at the first complex operand and `RtoZ` when there is none. -/
def is_complex : StackEntry → Bool
  | image _ c => c
  | unary _ op a => if a.is_complex then !op.ZtoR else op.RtoZ
  | binary _ op a b =>
    if a.is_complex then !op.ZtoR else if b.is_complex then !op.ZtoR else op.RtoZ
  | ternary _ op a b c =>
    if a.is_complex then !op.ZtoR else if b.is_complex then !op.ZtoR
    else if c.is_complex then !op.ZtoR else op.RtoZ
  | rng _ => false
  | value v => v.imag.ne (real_type.fin 0)
  | arg _ => false

/-- The method `StackEntry::load`, on the entry and the static `image_list`. When
the operand is not a number the conversion throws and nothing is changed. -/
def load (env : Env) (e : StackEntry) (image_list : List (String × LoadedImage)) :
    Except Error (StackEntry × List (String × LoadedImage)) :=
  match e with
  | arg a =>
    match image_list.lookup a with
    | some found => .ok (image found.image found.image_is_complex, image_list)
    | none =>
      match env.open_image a with
      | some img =>
        let c := img.header.datatype.is_complex
        .ok (image img c, (a, ⟨img, c⟩) :: image_list)
      | none =>
        let l := lowercase a
        if l = "nan" then .ok (value (complex_type.ofReal (real_type.nan false)), image_list)
        else if l = "-nan" then .ok (value (complex_type.ofReal (real_type.nan false).neg), image_list)
        else if l = "inf" then .ok (value (complex_type.ofReal (real_type.inf false)), image_list)
        else if l = "-inf" then
          .ok (value (complex_type.ofReal (real_type.inf false).neg), image_list)
        else if l = "rand" then .ok (rng false, image_list)
        else if l = "randn" then .ok (rng true, image_list)
        else match env.to_complex a with
          | some v => .ok (value v, image_list)
          | none => .error Error.ParseError
  | e => .ok (e, image_list)

end StackEntry

/-! ## The stack machine -/

/-- The state that the operations of `run` work on: the stack (its head is
`stack.back()`) and the static member `StackEntry::image_list`. -/
structure Builder where
  stack : List StackEntry
  image_list : List (String × LoadedImage)

/-- The outcome of a function that works on the stack by reference: the
exception thrown, if any, and the state it leaves. -/
abbrev Outcome := Option Error × Builder

/-- The test `a.evaluator || a.image || a.rng`. -/
def StackEntry.is_node_operand (a : StackEntry) : Bool :=
  a.has_evaluator || a.has_image || a.has_rng

/-- The expression `a.value.imag() == 0.0 ? operation.R (a.value.real()) :
operation.Z (a.value)` of `unary_operation`; `none` when the kernel called throws. -/
def unary_fold (operation : OpUnary) (a : complex_type) : Option complex_type :=
  if a.imag.eq (real_type.fin 0) then operation.R.map fun R => R a.real
  else operation.Z.map fun Z => Z a

/-- The expression of `binary_operation` that folds two values. -/
def binary_fold (operation : OpBinary) (a b : complex_type) : Option complex_type :=
  if a.imag.eq (real_type.fin 0) && b.imag.eq (real_type.fin 0) then
    operation.R.map fun R => R a.real b.real
  else operation.Z.map fun Z => Z a b

/-- The expression of `ternary_operation` that folds three values. -/
def ternary_fold (operation : OpTernary) (a b c : complex_type) : Option complex_type :=
  if a.imag.eq (real_type.fin 0) && b.imag.eq (real_type.fin 0)
      && c.imag.eq (real_type.fin 0) then
    operation.R.map fun R => R a.real b.real c.real
  else operation.Z.map fun Z => Z a b c

/-- The function `unary_operation`. -/
def unary_operation (env : Env) (operation_name : String) (operation : OpUnary)
    (s : Builder) : Outcome :=
  match s.stack with
  | [] => (some Error.StackUnderflow, s)
  | a :: rest =>
    match a.load env s.image_list with
    | .error e => (some e, s)
    | .ok (a, il) =>
      if a.is_node_operand then
        (none, ⟨StackEntry.unary operation_name operation a :: rest, il⟩)
      else
        match unary_fold operation a.get_value with
        | some v => (none, ⟨StackEntry.value v :: rest, il⟩)
        | none => (some Error.OperationNotSupported, ⟨a :: rest, il⟩)

/-- The function `binary_operation`. -/
def binary_operation (env : Env) (operation_name : String) (operation : OpBinary)
    (s : Builder) : Outcome :=
  match s.stack with
  | b :: a :: rest =>
    match a.load env s.image_list with
    | .error e => (some e, s)
    | .ok (a, il) =>
      match b.load env il with
      | .error e => (some e, ⟨b :: a :: rest, il⟩)
      | .ok (b, il) =>
        if a.is_node_operand || b.is_node_operand then
          (none, ⟨StackEntry.binary operation_name operation a b :: rest, il⟩)
        else
          match binary_fold operation a.get_value b.get_value with
          | some v => (none, ⟨StackEntry.value v :: rest, il⟩)
          | none => (some Error.OperationNotSupported, ⟨b :: a :: rest, il⟩)
  | _ => (some Error.StackUnderflow, s)

/-- The function `ternary_operation`. -/
def ternary_operation (env : Env) (operation_name : String) (operation : OpTernary)
    (s : Builder) : Outcome :=
  match s.stack with
  | c :: b :: a :: rest =>
    match a.load env s.image_list with
    | .error e => (some e, s)
    | .ok (a, il) =>
      match b.load env il with
      | .error e => (some e, ⟨c :: b :: a :: rest, il⟩)
      | .ok (b, il) =>
        match c.load env il with
        | .error e => (some e, ⟨c :: b :: a :: rest, il⟩)
        | .ok (c, il) =>
          if a.is_node_operand || b.is_node_operand || c.is_node_operand then
            (none, ⟨StackEntry.ternary operation_name operation a b c :: rest, il⟩)
          else
            match ternary_fold operation a.get_value b.get_value c.get_value with
            | some v => (none, ⟨StackEntry.value v :: rest, il⟩)
            | none => (some Error.OperationNotSupported, ⟨c :: b :: a :: rest, il⟩)
  | _ => (some Error.StackUnderflow, s)

/-- One argument of the command line, as `match_option` sorts it: an operand, or
an option given by its full name. -/
inductive Token where
  | operand (arg : String)
  | option (id : String)
  deriving DecidableEq

/-- The body of the loop of `run` for an option: the chain of tests on `opt->id`.
The result says whether the next argument is skipped (`++n`). -/
def run_option (env : Env) (m : StdMath) (id : String) (s : Builder) : Outcome × Bool :=
  match (unary_operations m).lookup id with
  | some op => (unary_operation env id op s, false)
  | none =>
    match (binary_operations m).lookup id with
    | some op => (binary_operation env id op s, false)
    | none =>
      match ternary_operations.lookup id with
      | some op => (ternary_operation env id op s, false)
      | none =>
        if id = "datatype" then ((none, s), true)
        else if id = "nthreads" then ((none, s), true)
        else if id = "force" ∨ id = "info" ∨ id = "debug" ∨ id = "quiet" then ((none, s), false)
        else ((some Error.NotImplemented, s), false)

/-- The loop of `run` over the arguments; `skip` is set when the previous option
has stepped over its own argument. -/
def run_loop (env : Env) (m : StdMath) : List Token → Bool → Builder → Outcome
  | [], _, s => (none, s)
  | _ :: rest, true, s => run_loop env m rest false s
  | Token.operand a :: rest, false, s =>
    run_loop env m rest false ⟨StackEntry.arg a :: s.stack, s.image_list⟩
  | Token.option id :: rest, false, s =>
    match run_option env m id s with
    | ((none, s), skip) => run_loop env m rest skip s
    | ((some e, s), _) => (some e, s)

/-! ## The header of the output -/

/-- The header that `Header header;` declares: it has no axis. -/
def Header.empty : Header := ⟨"", [], DataType.Float32⟩

/-- The assignment `header.ndim() = n`, which resizes the vector of axes. -/
def Header.set_ndim (h : Header) (n : Nat) : Header :=
  { h with axes := h.axes.take n ++ List.replicate (n - h.axes.length) {} }

/-- The assignment `header.size(n) = v`. -/
def Header.set_size (h : Header) (n v : Nat) : Header :=
  { h with axes := h.axes.set n { h.axes.getD n {} with size := v } }

/-- The assignment `header.spacing(n) = v`. -/
def Header.set_spacing (h : Header) (n : Nat) (v : Option ℚ) : Header :=
  { h with axes := h.axes.set n { h.axes.getD n {} with spacing := v } }

/-- The body of the loop of `get_header` over the axes, for axis `n`. -/
def get_header_axis (image : Image) (header : Header) (n : Nat) : Except Error Header :=
  if header.size n > 1 ∧ image.size n > 1 ∧ header.size n ≠ image.size n then
    .error Error.GeometryMismatch
  else
    let header := header.set_size n (max (header.size n) (image.size n))
    if (header.spacing n).isNone then
      .ok (header.set_spacing n (image.header.spacing n))
    else .ok header

/-- The part of `get_header` that handles an image. -/
def get_header_image (image : Image) (header : Header) : Except Error Header :=
  if header.ndim = 0 then .ok image.header
  else
    let header := if header.ndim < image.ndim then header.set_ndim image.ndim else header
    (List.range (min header.ndim image.ndim)).foldlM (get_header_axis image) header

/-- The function `get_header`. -/
def get_header : StackEntry → Header → Except Error Header
  | StackEntry.unary _ _ a, header => get_header a header
  | StackEntry.binary _ _ a b, header => do
    let header ← get_header a header
    get_header b header
  | StackEntry.ternary _ _ a b c, header => do
    let header ← get_header a header
    let header ← get_header b header
    get_header c header
  | StackEntry.image image _, header => get_header_image image header
  | _, header => .ok header

/-! ## Thread-local storage and evaluation over a tile -/

/-- The class `Chunk`: a vector of values and the member `value`. -/
structure Chunk where
  data : List complex_type := []
  value : complex_type := ⟨real_type.fin 0, real_type.fin 0⟩

/-- An `Image<complex_type>` of a worker: the image and the position of its
cursor on every axis. -/
structure Cursor where
  image : Image
  index : List Nat

/-- The method `Image::value` of a cursor. -/
def Cursor.value (c : Cursor) : complex_type := c.image.data c.index

/-- The assignment `image.index(n) = v`. -/
def Cursor.set_index (c : Cursor) (n v : Nat) : Cursor := { c with index := c.index.set n v }

/-- The class `ThreadLocalStorageItem`. -/
structure ThreadLocalStorageItem where
  chunk : Chunk := {}
  image : Option Cursor := none

/-- The class `ThreadLocalStorage`: the vector of items, with `iter`, `axes`,
`size` and `current`. The member `draws` counts the numbers drawn so far from
the random generators. -/
structure ThreadLocalStorage where
  items : List ThreadLocalStorageItem := []
  iter : List Nat := []
  axes : Nat × Nat
  size : Nat × Nat
  current : Nat := 0
  draws : Nat := 0

namespace ThreadLocalStorage

/-- The innermost statements of `load`, for column `x`: the cursor is moved on
the first inner axis and its value is stored at `chunk[n++]`. -/
def load_x (st : ThreadLocalStorage) (r : Chunk × Cursor × Nat) (x : Nat) : Chunk × Cursor × Nat :=
  let image := r.2.1
  let image :=
    if st.axes.1 < image.image.ndim then
      if image.image.size st.axes.1 > 1 then image.set_index st.axes.1 x else image
    else image
  ({ r.1 with data := r.1.data.set r.2.2 image.value }, image, r.2.2 + 1)

/-- The body of the outer loop of `load`, for row `y`. -/
def load_y (st : ThreadLocalStorage) (r : Chunk × Cursor × Nat) (y : Nat) : Chunk × Cursor × Nat :=
  let image := r.2.1
  let image :=
    if st.axes.2 < image.image.ndim then
      if image.image.size st.axes.2 > 1 then image.set_index st.axes.2 y else image
    else image
  (List.range st.size.1).foldl st.load_x (r.1, image, r.2.2)

/-- The method `ThreadLocalStorage::load`. -/
def load (st : ThreadLocalStorage) (chunk : Chunk) (image : Cursor) : Chunk × Cursor :=
  let image := (List.range image.image.ndim).foldl
    (fun (image : Cursor) n =>
      if image.image.size n > 1 then image.set_index n (st.iter.getD n 0) else image) image
  let r := (List.range st.size.2).foldl st.load_y (chunk, image, 0)
  (r.1, r.2.1)

/-- The chunk of item `i`; a reference `Chunk&` is the number of its item. -/
def chunk (st : ThreadLocalStorage) (i : Nat) : Chunk := (st.items.getD i {}).chunk

/-- An assignment to the elements of the chunk of item `i`. -/
def set_data (st : ThreadLocalStorage) (i : Nat) (data : List complex_type) :
    ThreadLocalStorage :=
  { st with items := st.items.set i { st.items.getD i {} with
      chunk := { (st.items.getD i {}).chunk with data := data } } }

/-- The method `ThreadLocalStorage::next`. -/
def next (st : ThreadLocalStorage) : Except Error (Nat × ThreadLocalStorage) :=
  match st.items.get? st.current with
  | none => .error Error.OutOfBounds
  | some item =>
    let st1 := { st with current := st.current + 1 }
    match item.image with
    | some image =>
      let r := st1.load item.chunk image
      .ok (st.current, { st1 with items := st1.items.set st.current ⟨r.1, some r.2⟩ })
    | none => .ok (st.current, st1)

/-- The method `ThreadLocalStorage::reset`. -/
def reset (st : ThreadLocalStorage) (current_position : List Nat) : ThreadLocalStorage :=
  { st with current := 0, iter := current_position }

end ThreadLocalStorage

/-- The call of a kernel: the kernel of the base class throws. -/
def call_kernel {α : Type} (kernel : Option α) : Except Error α :=
  match kernel with
  | some k => .ok k
  | none => .error Error.OperationNotSupported

/-- The operand `c.size() ? c[n] : c.value` of a kernel. Reading past the end of
the vector is undefined in C++ and an error here. -/
def Chunk.operand (c : Chunk) (n : Nat) : Except Error complex_type :=
  if c.data.length ≠ 0 then
    match c.data.get? n with
    | some v => .ok v
    | none => .error Error.OutOfBounds
  else .ok c.value

/-- The method `UnaryEvaluator::evaluate (Chunk& in)`. The loop over `n` is a
map over the elements, each element being read before it is written. -/
def UnaryEvaluator.evaluate (op : OpUnary) (operand0 : StackEntry) (in1 : Nat)
    (st : ThreadLocalStorage) : Except Error (Nat × ThreadLocalStorage) := do
  let data ←
    if operand0.is_complex then
      (st.chunk in1).data.mapM fun v => do
        let Z ← call_kernel op.Z
        pure (Z v)
    else
      (st.chunk in1).data.mapM fun v => do
        let R ← call_kernel op.R
        pure (R v.real)
  pure (in1, st.set_data in1 data)

/-- The method `BinaryEvaluator::evaluate (Chunk& a, Chunk& b)`. -/
def BinaryEvaluator.evaluate (op : OpBinary) (operand0 operand1 : StackEntry) (a b : Nat)
    (st : ThreadLocalStorage) : Except Error (Nat × ThreadLocalStorage) := do
  let out := if (st.chunk a).data.length ≠ 0 then a else b
  let data ←
    if operand0.is_complex || operand1.is_complex then
      (List.range (st.chunk out).data.length).mapM fun n => do
        let x ← (st.chunk a).operand n
        let y ← (st.chunk b).operand n
        let Z ← call_kernel op.Z
        pure (Z x y)
    else
      (List.range (st.chunk out).data.length).mapM fun n => do
        let x ← (st.chunk a).operand n
        let y ← (st.chunk b).operand n
        let R ← call_kernel op.R
        pure (R x.real y.real)
  pure (out, st.set_data out data)

/-- The method `TernaryEvaluator::evaluate (Chunk& a, Chunk& b, Chunk& c)`. -/
def TernaryEvaluator.evaluate (op : OpTernary) (operand0 operand1 operand2 : StackEntry)
    (a b c : Nat) (st : ThreadLocalStorage) : Except Error (Nat × ThreadLocalStorage) := do
  let out :=
    if (st.chunk a).data.length ≠ 0 then a
    else if (st.chunk b).data.length ≠ 0 then b else c
  let data ←
    if operand0.is_complex || operand1.is_complex || operand2.is_complex then
      (List.range (st.chunk out).data.length).mapM fun n => do
        let x ← (st.chunk a).operand n
        let y ← (st.chunk b).operand n
        let z ← (st.chunk c).operand n
        let Z ← call_kernel op.Z
        pure (Z x y z)
    else
      (List.range (st.chunk out).data.length).mapM fun n => do
        let x ← (st.chunk a).operand n
        let y ← (st.chunk b).operand n
        let z ← (st.chunk c).operand n
        let R ← call_kernel op.R
        pure (R x.real y.real z.real)
  pure (out, st.set_data out data)

/-- The filling of the chunk of a random source: element `n` is the next draw. -/
def fill_random (env : Env) (gaussian : Bool) (i : Nat) (st : ThreadLocalStorage) :
    ThreadLocalStorage :=
  let size := (st.chunk i).data.length
  let draw := fun n : Nat =>
    complex_type.ofReal (if gaussian then env.normal (st.draws + n) else env.uniform (st.draws + n))
  { st.set_data i ((List.range size).map draw) with draws := st.draws + size }

/-- The methods `StackEntry::evaluate` and `Evaluator::evaluate`, on the storage
of the worker. The result is the number of the item whose chunk is returned. -/
def StackEntry.evaluate (env : Env) :
    StackEntry → ThreadLocalStorage → Except Error (Nat × ThreadLocalStorage)
  | StackEntry.unary _ op a, st => do
    let r1 ← a.evaluate env st
    UnaryEvaluator.evaluate op a r1.1 r1.2
  | StackEntry.binary _ op a b, st => do
    let r1 ← a.evaluate env st
    let r2 ← b.evaluate env r1.2
    BinaryEvaluator.evaluate op a b r1.1 r2.1 r2.2
  | StackEntry.ternary _ op a b c, st => do
    let r1 ← a.evaluate env st
    let r2 ← b.evaluate env r1.2
    let r3 ← c.evaluate env r2.2
    TernaryEvaluator.evaluate op a b c r1.1 r2.1 r3.1 r3.2
  | StackEntry.rng gaussian, st => do
    let r ← st.next
    pure (r.1, fill_random env gaussian r.1 r.2)
  | _, st => st.next

/-- The class `ThreadFunctor`: the root of the expression, the output image
(its header and the values written so far), the storage and the size of a
chunk. The inner axes of the loop are `storage.axes`. -/
structure ThreadFunctor where
  top_entry : StackEntry
  image : Image
  storage : ThreadLocalStorage
  chunk_size : Nat

/-- The method `ThreadFunctor::allocate_storage`; `resize` fills a chunk with
zeros. -/
def allocate_storage (chunk_size : Nat) :
    StackEntry → List ThreadLocalStorageItem → List ThreadLocalStorageItem
  | StackEntry.unary _ _ a, storage => allocate_storage chunk_size a storage
  | StackEntry.binary _ _ a b, storage =>
    allocate_storage chunk_size b (allocate_storage chunk_size a storage)
  | StackEntry.ternary _ _ a b c, storage =>
    allocate_storage chunk_size c
      (allocate_storage chunk_size b (allocate_storage chunk_size a storage))
  | StackEntry.image image _, storage =>
    storage ++ [{ chunk := { data := List.replicate chunk_size ⟨real_type.fin 0, real_type.fin 0⟩ },
                  image := some ⟨image, List.replicate image.ndim 0⟩ }]
  | StackEntry.rng _, storage =>
    storage ++ [{ chunk := { data := List.replicate chunk_size ⟨real_type.fin 0, real_type.fin 0⟩ } }]
  | e, storage => storage ++ [{ chunk := { value := e.get_value } }]

/-- The constructor of `ThreadFunctor`. -/
def ThreadFunctor.create (inner_axes : Nat × Nat) (top_of_stack : StackEntry)
    (output_image : Image) : ThreadFunctor :=
  let size := (output_image.size inner_axes.1, output_image.size inner_axes.2)
  let chunk_size := output_image.size inner_axes.1 * output_image.size inner_axes.2
  { top_entry := top_of_stack, image := output_image, chunk_size := chunk_size,
    storage := { axes := inner_axes, size := size,
                 items := allocate_storage chunk_size top_of_stack [] } }

/-- The assignment `image.value() = v` of the output image at a position. -/
def Image.set_value (image : Image) (pos : List Nat) (v : complex_type) : Image :=
  { image with data := fun p => if p = pos then v else image.data p }

/-- The inner statement of the loop that writes a chunk back, for column `x` of
row `y`: `image.value() = *(value++)`, the cursor of the output being at `iter`
on the outer axes. Reading past the end of the chunk is undefined in C++ and
an error here. -/
def write_x (axes : Nat × Nat) (iter : List Nat) (chunk : Chunk) (y : Nat) (r : Image × Nat)
    (x : Nat) : Except Error (Image × Nat) :=
  match chunk.data.get? r.2 with
  | some v => .ok (r.1.set_value ((iter.set axes.1 x).set axes.2 y) v, r.2 + 1)
  | none => .error Error.OutOfBounds

/-- The loop `for (auto l = loop (image); l; ++l)` over the two inner axes, the
first of them running fastest. -/
def write_chunk (image : Image) (axes : Nat × Nat) (iter : List Nat) (chunk : Chunk) :
    Except Error Image := do
  let r ← (List.range (image.size axes.2)).foldlM
    (fun r y => (List.range (image.size axes.1)).foldlM (write_x axes iter chunk y) r) (image, 0)
  pure r.1

/-- The method `ThreadFunctor::operator()`. -/
def ThreadFunctor.call (env : Env) (f : ThreadFunctor) (iter : List Nat) :
    Except Error ThreadFunctor := do
  let storage := f.storage.reset iter
  let r ← f.top_entry.evaluate env storage
  let image ← write_chunk f.image f.storage.axes iter (r.2.chunk r.1)
  pure { f with storage := r.2, image := image }

/-- All the positions of an image of the given sizes. -/
def all_positions : List Nat → List (List Nat)
  | [] => [[]]
  | n :: sizes => (List.range n).flatMap fun i => (all_positions sizes).map fun p => i :: p

/-- Modelled from the spec: the outer positions of `ThreadedLoop`
(`algo/threaded_loop.h` is not among the sources): every position of the axes
other than the two inner ones, the inner axes being at zero. -/
def outer_positions (sizes : List Nat) (inner_axes : Nat × Nat) : List (List Nat) :=
  all_positions ((sizes.set inner_axes.1 1).set inner_axes.2 1)

/-- Modelled from the spec: the method `run_outer` of `ThreadedLoop`, with one
worker: the functor is called once for each outer position. -/
def run_outer (env : Env) (f : ThreadFunctor) (positions : List (List Nat)) :
    Except Error ThreadFunctor :=
  positions.foldlM (ThreadFunctor.call env) f

/-- The argument of the option `datatype` on the command line, if it is given. -/
def datatype_option : List Token → Option String
  | [] => none
  | Token.option id :: rest =>
    if id = "datatype" then
      match rest with
      | Token.operand a :: _ => some a
      | Token.option a :: _ => some a
      | [] => none
    else datatype_option rest
  | _ :: rest => datatype_option rest

/-- Modelled from the spec: the function `DataType::from_command_line`
(`datatype.h` is not among the sources): the datatype asked for on the command
line, or the default. -/
def from_command_line (env : Env) (cmdline : List Token) (default : DataType) :
    Except Error DataType :=
  match datatype_option cmdline with
  | none => .ok default
  | some a =>
    match env.parse_datatype a with
    | some dt => .ok dt
    | none => .error Error.ParseError

/-- What a run of the command produces: a value printed on the standard
output, or an image written at a path. -/
inductive Result where
  | printed (value : complex_type)
  | written (path : String) (output : Image)

/-- The member `arg` of an entry. -/
def StackEntry.get_arg : StackEntry → String
  | StackEntry.arg a => a
  | _ => ""

/-- The function `run_operations`; the vector `stack` is the reverse of the
list. In the calculator branch the two statements `assert (!stack[0].evaluator)`
and `assert (!stack[0].image)` abort the program when the build has assertions
and the condition is false. When the function throws after `Header::create`,
the image that has been created is the one that `created_output` gives. -/
def run_operations (env : Env) (cmdline : List Token) (stack : List StackEntry) :
    Except Error Result :=
  let v := stack.reverse
  match v.get? 0 with
  | none => .error Error.OutOfBounds
  | some s0 => do
    let header ← get_header s0 Header.empty
    if header.ndim = 0 then
      if v.length ≠ 1 then .error Error.StackImbalance
      else if env.assertions && s0.has_evaluator then .error Error.AssertionFailed
      else if env.assertions && s0.has_image then .error Error.AssertionFailed
      else pure (Result.printed s0.get_value)
    else if v.length = 1 then .error Error.StackImbalance
    else if v.length > 2 then .error Error.StackImbalance
    else
      match v.get? 1 with
      | none => .error Error.OutOfBounds
      | some s1 =>
        if !s1.has_arg then .error Error.StackImbalance
        else do
          let datatype ←
            if s0.is_complex then do
              let dt ← from_command_line env cmdline DataType.CFloat32
              if !dt.is_complex then .error Error.DatatypeMismatch else pure dt
            else from_command_line env cmdline DataType.Float32
          let header := { header with datatype := datatype }
          if !env.can_create s1.get_arg header then .error Error.IOError
          else do
            let output : Image :=
              ⟨{ header with name := s1.get_arg }, fun _ => ⟨real_type.fin 0, real_type.fin 0⟩⟩
            let inner_axes := env.inner_axes output.header
            let functor := ThreadFunctor.create inner_axes s0 output
            let functor ← run_outer env functor (outer_positions output.header.sizes inner_axes)
            pure (Result.written s1.get_arg functor.image)

/-- The statement `stack[0].load()` of `run`. -/
def load_bottom (env : Env) (s : Builder) : Outcome :=
  match s.stack.reverse with
  | [] => (some Error.OutOfBounds, s)
  | s0 :: up =>
    match s0.load env s.image_list with
    | .error e => (some e, s)
    | .ok (s0, il) => (none, ⟨(s0 :: up).reverse, il⟩)

/-- The part of `run` that builds the stack: the loop over the arguments, from
an empty stack, and then `stack[0].load()`. -/
def build (env : Env) (m : StdMath) (cmdline : List Token) : Outcome :=
  match run_loop env m cmdline false ⟨[], []⟩ with
  | (some e, s) => (some e, s)
  | (none, s) => load_bottom env s

/-- The function `run`, on the arguments of the command line. -/
def run (env : Env) (m : StdMath) (cmdline : List Token) : Except Error Result :=
  match build env m cmdline with
  | (some e, _) => .error e
  | (none, s) => run_operations env cmdline s.stack

/-- The image that `run_operations` has created when it returns or throws: the
statements of the function up to `Header::create (stack[1].arg, header)`, which
gives the path and the header of the image created, or `none` when the
function returns or throws before that statement or in it. -/
def created_output (env : Env) (cmdline : List Token) (stack : List StackEntry) :
    Option (String × Header) :=
  let v := stack.reverse
  match v.get? 0 with
  | none => none
  | some s0 =>
    match get_header s0 Header.empty with
    | .error _ => none
    | .ok header =>
      if header.ndim = 0 then none
      else if v.length = 1 then none
      else if v.length > 2 then none
      else
        match v.get? 1 with
        | none => none
        | some s1 =>
          if !s1.has_arg then none
          else
            let datatype : Except Error DataType :=
              if s0.is_complex then do
                let dt ← from_command_line env cmdline DataType.CFloat32
                if !dt.is_complex then .error Error.DatatypeMismatch else pure dt
              else from_command_line env cmdline DataType.Float32
            match datatype with
            | .error _ => none
            | .ok datatype =>
              let header := { header with datatype := datatype }
              if !env.can_create s1.get_arg header then none
              else some (s1.get_arg, { header with name := s1.get_arg })

/-- The image that a run of the command has created when it returns or throws. -/
def created (env : Env) (m : StdMath) (cmdline : List Token) : Option (String × Header) :=
  match build env m cmdline with
  | (some _, _) => none
  | (none, s) => created_output env cmdline s.stack

/-! ## Notions used in the statements -/

/-- An expression, as the usage text writes them: an operand of the command
line, or an operator, named by its option, applied to expressions. -/
inductive Expr where
  | operand (arg : String)
  | unary (id : String) (a : Expr)
  | binary (id : String) (a b : Expr)
  | ternary (id : String) (a b c : Expr)

/-- The postfix sequence of the arguments of an expression: the operands of an
operator, in order, and then the operator. -/
def Expr.tokens : Expr → List Token
  | Expr.operand arg => [Token.operand arg]
  | Expr.unary id a => a.tokens ++ [Token.option id]
  | Expr.binary id a b => a.tokens ++ b.tokens ++ [Token.option id]
  | Expr.ternary id a b c => a.tokens ++ b.tokens ++ c.tokens ++ [Token.option id]

/-- The tree that an expression stands for: an operand is what `load` makes of
it, and an operator is a node with the operation that `run` gives its name,
over the trees of its operands, nothing being folded. -/
def Expr.tree (env : Env) (m : StdMath) : Expr → Option StackEntry
  | Expr.operand arg =>
    match (StackEntry.arg arg).load env [] with
    | .ok r => some r.1
    | .error _ => none
  | Expr.unary id a => do
    let op ← (unary_operations m).lookup id
    let a ← a.tree env m
    pure (StackEntry.unary id op a)
  | Expr.binary id a b => do
    let op ← (binary_operations m).lookup id
    let a ← a.tree env m
    let b ← b.tree env m
    pure (StackEntry.binary id op a b)
  | Expr.ternary id a b c => do
    let op ← ternary_operations.lookup id
    let a ← a.tree env m
    let b ← b.tree env m
    let c ← c.tree env m
    pure (StackEntry.ternary id op a b c)

/-- Every operator node of the tree has an operand that is an image, a random
source or an operator node. -/
def StackEntry.no_scalar_node : StackEntry → Bool
  | StackEntry.unary _ _ a => a.is_node_operand && a.no_scalar_node
  | StackEntry.binary _ _ a b =>
    (a.is_node_operand || b.is_node_operand) && a.no_scalar_node && b.no_scalar_node
  | StackEntry.ternary _ _ a b c =>
    (a.is_node_operand || b.is_node_operand || c.is_node_operand)
      && a.no_scalar_node && b.no_scalar_node && c.no_scalar_node
  | _ => true

/-- The entry is an operator node whose operation is the one that `run` gives
to its name. -/
def StackEntry.is_catalogue_node (m : StdMath) : StackEntry → Prop
  | StackEntry.unary id op _ => (unary_operations m).lookup id = some op
  | StackEntry.binary id op _ _ => (binary_operations m).lookup id = some op
  | StackEntry.ternary id op _ _ _ => ternary_operations.lookup id = some op
  | _ => False

/-- The image leaves of a tree, in the order in which `get_header` meets them. -/
def StackEntry.image_leaves : StackEntry → List Image
  | StackEntry.unary _ _ a => a.image_leaves
  | StackEntry.binary _ _ a b => a.image_leaves ++ b.image_leaves
  | StackEntry.ternary _ _ a b c => a.image_leaves ++ b.image_leaves ++ c.image_leaves
  | StackEntry.image img _ => [img]
  | _ => []

/-- Two NaNs whose sign bits differ. -/
def real_type.opposite_nans : real_type → real_type → Bool
  | real_type.nan s, real_type.nan t => s != t
  | _, _ => false

/-- Neither part of the value is NaN. -/
def complex_type.no_nan (x : complex_type) : Bool := !x.real.isnan && !x.imag.isnan

/-- The operand values `x` and `y` do not tell the kernel of the operator `id`
the order of its operands; `c` tells that the kernel is the complex one. For
`min` and `max`: one operand is less than the other or they are the same
value, since `std::min (a, b)` and `std::max (a, b)` return `a` when neither is
less, which tells the order when an operand is NaN and when the operands are
the zeros of opposite sign. For `add` and `multiply`: the operands are not NaNs
of opposite sign, since the NaN of the result is that of one operand; this is
asked of the real parts for the real kernel, and of the real and of the
imaginary parts for the complex kernel of `add`; the complex kernel of
`multiply` adds products of the parts, and no part is to be NaN. For `eq` and
`neq`: nothing is asked. -/
def order_hidden (id : String) (c : Bool) (x y : complex_type) : Prop :=
  if id = "min" ∨ id = "max" then
    x.real.lt y.real = true ∨ y.real.lt x.real = true ∨ x.real = y.real
  else if id = "add" then
    x.real.opposite_nans y.real = false ∧ (c = true → x.imag.opposite_nans y.imag = false)
  else if id = "multiply" then
    if c then x.no_nan = true ∧ y.no_nan = true
    else x.real.opposite_nans y.real = false
  else True

/-! ## Sample data for closed statements -/

/-- A stand-in for the library functions, for closed statements about inputs
on which none of them is called: each returns NaN. -/
def no_math : StdMath :=
  let r := fun _ : real_type => real_type.nan false
  let c := fun _ : complex_type => (⟨real_type.nan false, real_type.nan false⟩ : complex_type)
  { sqrt := r, exp := r, log := r, log10 := r, cos := r, sin := r, tan := r, cosh := r,
    sinh := r, tanh := r, acos := r, asin := r, atan := r, acosh := r, asinh := r, atanh := r,
    pow := fun _ _ => real_type.nan false, cabs := fun _ => real_type.nan false,
    carg := fun _ => real_type.nan false,
    csqrt := c, cexp := c, clog := c, clog10 := c, ccos := c, csin := c, ctan := c, ccosh := c,
    csinh := c, ctanh := c, cpow := fun _ _ => ⟨real_type.nan false, real_type.nan false⟩ }

/-- A real number as a `complex_type`. -/
def real_value (q : ℚ) : complex_type := ⟨real_type.fin q, real_type.fin 0⟩

/-- An image of the given sizes and datatype whose voxels are given by rows. -/
def sample_image (name : String) (sizes : List Nat) (datatype : DataType)
    (data : List Nat → complex_type) : Image :=
  ⟨⟨name, sizes.map fun n => { size := n }, datatype⟩, data⟩

/-- The 2×2 real image with rows 1 2 and 3 4. -/
def image_a : Image :=
  sample_image "a.mif" [2, 2] DataType.Float32
    fun p => real_value (1 + 2 * (p.getD 0 0 : ℚ) + (p.getD 1 0 : ℚ))

/-- A real image of shape 2×2×1. -/
def image_b : Image :=
  sample_image "b.mif" [2, 2, 1] DataType.Float32
    fun p => real_value (10 * (p.getD 0 0 : ℚ) + (p.getD 1 0 : ℚ))

/-- A real image of shape 1×1×3. -/
def image_c : Image :=
  sample_image "c.mif" [1, 1, 3] DataType.Float32 fun p => real_value (100 * (p.getD 2 0 : ℚ))

/-- A complex image of shape 2×2. -/
def image_d : Image :=
  sample_image "d.mif" [2, 2] DataType.CFloat32
    fun p => ⟨real_type.fin (p.getD 0 0 : ℚ), real_type.fin (p.getD 1 0 : ℚ)⟩

/-- A real image of shape 3×2, whose first axis does not match that of `a.mif`. -/
def image_e : Image :=
  sample_image "e.mif" [3, 2] DataType.Float32 fun _ => real_value 1

/-- An environment with the five sample images and a few numbers, for a build
with assertions. -/
def sample_env : Env :=
  { open_image := fun s =>
      if s = "a.mif" then some image_a else if s = "b.mif" then some image_b
      else if s = "c.mif" then some image_c else if s = "d.mif" then some image_d
      else if s = "e.mif" then some image_e else none
    to_complex := fun s =>
      if s = "2" then some (real_value 2) else if s = "3" then some (real_value 3)
      else if s = "5" then some (real_value 5)
      else if s = "9.3" then some (real_value (93 / 10))
      else if s = "4.2" then some (real_value (21 / 5))
      else if s = "1+2i" then some ⟨real_type.fin 1, real_type.fin 2⟩
      else if s = "0" then some (real_value 0)
      else none
    parse_datatype := fun s =>
      if s = "float32" then some DataType.Float32
      else if s = "cfloat32" then some DataType.CFloat32 else none
    can_create := fun _ _ => true
    inner_axes := fun _ => (0, 1)
    uniform := fun _ => real_type.fin (1 / 2)
    normal := fun _ => real_type.fin 0
    assertions := true }

/-- The list of loaded images holds what `Header::open` gives. -/
def consistent (env : Env) (il : List (String × LoadedImage)) : Prop :=
  ∀ k li, il.lookup k = some li →
    env.open_image k = some li.image ∧ li.image_is_complex = li.image.header.datatype.is_complex

/-- The sizes of an image are at least 1. -/
def Image.well_formed (i : Image) : Bool := i.header.axes.all fun x => decide (1 ≤ x.size)

/-- Two images do not match: on an axis that both have, their sizes differ and
both exceed 1. -/
def Image.mismatch (i j : Image) : Prop :=
  ∃ a, a < i.ndim ∧ a < j.ndim ∧ i.size a ≠ j.size a ∧ 1 < i.size a ∧ 1 < j.size a

/-- The test of `get_header` on axis `n`: both sizes exceed 1 and they differ. -/
def axis_mismatch (image : Image) (header : Header) (n : Nat) : Prop :=
  header.size n > 1 ∧ image.size n > 1 ∧ header.size n ≠ image.size n

/-- What `get_header` keeps true of the header `h` while it walks through the
image leaves `L`. -/
def header_invariant (L : List Image) (h : Header) : Prop :=
  (∀ a, 1 ≤ h.size a) ∧
  (∀ l ∈ L, l.ndim ≤ h.ndim) ∧
  (h.ndim = 0 ∨ ∃ l ∈ L, l.ndim = h.ndim) ∧
  (∀ l ∈ L, ∀ a, l.size a = 1 ∨ l.size a = h.size a) ∧
  (∀ a, 1 < h.size a → ∃ l ∈ L, l.size a = h.size a) ∧
  (∀ l1 ∈ L, ∀ l2 ∈ L, ¬ l1.mismatch l2)

/-- The position of the cursor of an image when `load` reads the value of column
`x` and row `y` of a tile: `x` and `y` on the inner axes and the outer position
elsewhere, on the axes where the image has more than one voxel, and zero on the
others. -/
def tile_position (image : Image) (iter : List Nat) (axes : Nat × Nat) (x y : Nat) : List Nat :=
  (List.range image.ndim).map fun n =>
    if image.size n > 1 then
      (if n = axes.1 then x else if n = axes.2 then y else iter.getD n 0)
    else 0

/-- The cursor of a worker is on its image, within its axes, and at zero on
every axis where the image has a single voxel. -/
def Cursor.at_origin (c : Cursor) : Prop :=
  c.index.length = c.image.ndim ∧
  ∀ n, n < c.image.ndim → c.image.size n ≤ 1 → c.index.getD n 0 = 0

/-- What the loops of `load` keep true of the chunk, the cursor and the counter
`n`: the cursor is on the image, at zero where the image has a single voxel and
at the outer position on the outer axes, and the first `n` elements of the chunk
hold the values of their cells. -/
def load_invariant (st : ThreadLocalStorage) (img : Image) (value : complex_type) (L : Nat)
    (r : Chunk × Cursor × Nat) : Prop :=
  r.2.1.image = img ∧ r.2.1.index.length = img.ndim ∧
  (∀ n, n < img.ndim →
    (img.size n ≤ 1 → r.2.1.index.getD n 0 = 0) ∧
    (img.size n > 1 → n ≠ st.axes.1 → n ≠ st.axes.2 →
      r.2.1.index.getD n 0 = st.iter.getD n 0)) ∧
  r.1.value = value ∧ r.1.data.length = L ∧
  ∀ k, k < r.2.2 → r.1.data[k]? =
    some (img.data (tile_position img st.iter st.axes (k % st.size.1) (k / st.size.1)))

/-- The number of leaves of a tree: the entries that hold no evaluator. -/
def StackEntry.leaf_count : StackEntry → Nat
  | StackEntry.unary _ _ a => a.leaf_count
  | StackEntry.binary _ _ a b => a.leaf_count + b.leaf_count
  | StackEntry.ternary _ _ a b c => a.leaf_count + b.leaf_count + c.leaf_count
  | _ => 1

/-- The number of random sources of a tree. -/
def StackEntry.rng_count : StackEntry → Nat
  | StackEntry.unary _ _ a => a.rng_count
  | StackEntry.binary _ _ a b => a.rng_count + b.rng_count
  | StackEntry.ternary _ _ a b c => a.rng_count + b.rng_count + c.rng_count
  | StackEntry.rng _ => 1
  | _ => 0

/-- The chunk that the evaluation of the tree returns has no element: the tree
has neither an image nor a random source. -/
def StackEntry.is_broadcast : StackEntry → Bool
  | StackEntry.unary _ _ a => a.is_broadcast
  | StackEntry.binary _ _ a b => a.is_broadcast && b.is_broadcast
  | StackEntry.ternary _ _ a b c => a.is_broadcast && b.is_broadcast && c.is_broadcast
  | StackEntry.image _ _ => false
  | StackEntry.rng _ => false
  | _ => true

/-- Every kernel that the evaluation of the tree over a tile calls exists: each
node whose chunk has elements has the kernel that its operands select. -/
def StackEntry.kernels_exist : StackEntry → Bool
  | StackEntry.unary _ op a =>
    a.kernels_exist &&
      (a.is_broadcast || (if a.is_complex then op.Z.isSome else op.R.isSome))
  | StackEntry.binary _ op a b =>
    a.kernels_exist && b.kernels_exist &&
      ((a.is_broadcast && b.is_broadcast) ||
        (if a.is_complex || b.is_complex then op.Z.isSome else op.R.isSome))
  | StackEntry.ternary _ op a b c =>
    a.kernels_exist && b.kernels_exist && c.kernels_exist &&
      ((a.is_broadcast && b.is_broadcast && c.is_broadcast) ||
        (if a.is_complex || b.is_complex || c.is_complex then op.Z.isSome else op.R.isSome))
  | _ => true

/-- The value that the evaluation of the tree leaves in cell `k` of its chunk
(or as the value of a chunk without elements), for the tile at the outer
position `iter`, when `d` numbers have been drawn before; `N` is the number of
cells of a tile. A kernel that is absent leaves its first argument. -/
def StackEntry.cell (env : Env) (iter : List Nat) (axes size : Nat × Nat) :
    StackEntry → Nat → Nat → complex_type
  | StackEntry.image img _, _, k =>
    img.data (tile_position img iter axes (k % size.1) (k / size.1))
  | StackEntry.rng gaussian, d, k =>
    complex_type.ofReal (if gaussian then env.normal (d + k) else env.uniform (d + k))
  | StackEntry.unary _ op a, d, k =>
    let x := a.cell env iter axes size d k
    if a.is_broadcast then x
    else if a.is_complex then
      match op.Z with
      | some Z => Z x
      | none => x
    else
      match op.R with
      | some R => R x.real
      | none => x
  | StackEntry.binary _ op a b, d, k =>
    let x := a.cell env iter axes size d k
    let y := b.cell env iter axes size (d + size.1 * size.2 * a.rng_count) k
    if a.is_broadcast && b.is_broadcast then y
    else if a.is_complex || b.is_complex then
      match op.Z with
      | some Z => Z x y
      | none => x
    else
      match op.R with
      | some R => R x.real y.real
      | none => x
  | StackEntry.ternary _ op a b c, d, k =>
    let x := a.cell env iter axes size d k
    let y := b.cell env iter axes size (d + size.1 * size.2 * a.rng_count) k
    let z := c.cell env iter axes size
      (d + size.1 * size.2 * a.rng_count + size.1 * size.2 * b.rng_count) k
    if a.is_broadcast && b.is_broadcast && c.is_broadcast then z
    else if a.is_complex || b.is_complex || c.is_complex then
      match op.Z with
      | some Z => Z x y z
      | none => x
    else
      match op.R with
      | some R => R x.real y.real z.real
      | none => x
  | e, _, _ => e.get_value

/-- The chunk holds the values `f`: in its `N` elements, or, when it is a
chunk without elements, as its value. -/
def chunk_holds (N : Nat) (broadcast : Bool) (f : Nat → complex_type) (c : Chunk) : Prop :=
  if broadcast then c.data = [] ∧ ∀ k, c.value = f k
  else c.data = (List.range N).map f

/-- The item of the storage is the one that `allocate_storage` makes for the
leaf, up to the values of a chunk of `N` elements and the moves of the cursor. -/
def slot_fits (N : Nat) : StackEntry → ThreadLocalStorageItem → Prop
  | StackEntry.image img _, item =>
    item.chunk.data.length = N ∧ ∃ cur, item.image = some cur ∧ cur.image = img ∧ cur.at_origin
  | StackEntry.rng _, item => item.chunk.data.length = N ∧ item.image = none
  | StackEntry.unary .., _ => False
  | StackEntry.binary .., _ => False
  | StackEntry.ternary .., _ => False
  | e, item => item.chunk.data = [] ∧ item.chunk.value = e.get_value ∧ item.image = none

/-- From item `c` on, the storage holds the items of the leaves of the tree, in
the order of `allocate_storage`. -/
def storage_fits (N : Nat) : StackEntry → List ThreadLocalStorageItem → Nat → Prop
  | StackEntry.unary _ _ a, items, c => storage_fits N a items c
  | StackEntry.binary _ _ a b, items, c =>
    storage_fits N a items c ∧ storage_fits N b items (c + a.leaf_count)
  | StackEntry.ternary _ _ a b c1, items, c =>
    storage_fits N a items c ∧ storage_fits N b items (c + a.leaf_count) ∧
      storage_fits N c1 items (c + a.leaf_count + b.leaf_count)
  | e, items, c => c < items.length ∧ slot_fits N e (items.getD c {})

/-- The state in which the evaluation of the tree `t` leaves the storage, and
the chunk `r` that it returns. -/
def evaluate_post (env : Env) (t : StackEntry) (st st1 : ThreadLocalStorage) (r : Nat) : Prop :=
  st1.iter = st.iter ∧ st1.axes = st.axes ∧ st1.size = st.size ∧
  st1.current = st.current + t.leaf_count ∧
  st1.draws = st.draws + st.size.1 * st.size.2 * t.rng_count ∧
  st1.items.length = st.items.length ∧
  (∀ i, i < st.current ∨ st.current + t.leaf_count ≤ i →
    st1.items.getD i {} = st.items.getD i {}) ∧
  st.current ≤ r ∧ r < st.current + t.leaf_count ∧
  chunk_holds (st.size.1 * st.size.2) t.is_broadcast
    (t.cell env st.iter st.axes st.size st.draws) (st1.chunk r) ∧
  storage_fits (st.size.1 * st.size.2) t st1.items st.current

/-- The position of an output voxel as an image sees it (the `proj` of the
specification): the coordinate is kept on the axes where the image has more
than one voxel and is zero on the others; the axes that the image does not have
are dropped. -/
def Image.project (image : Image) (p : List Nat) : List Nat :=
  (List.range image.ndim).map fun n => if image.size n > 1 then p.getD n 0 else 0

/-- The value of a tree without random source at the output position `p`: the
value of the cell of `p` in the tile of `p`. -/
def StackEntry.voxel (env : Env) (axes size : Nat × Nat) (t : StackEntry) (p : List Nat) :
    complex_type :=
  t.cell env p axes size 0 (p.getD axes.2 0 * size.1 + p.getD axes.1 0)

/-- The position `p` lies within an image of the given sizes. -/
def in_bounds (sizes p : List Nat) : Prop :=
  p.length = sizes.length ∧ ∀ n, n < sizes.length → p.getD n 0 < sizes.getD n 0

/-- The functor of a worker is set up for the tree `t` and an output image of
header `header`, with inner axes `axes`: its storage holds the items of the
leaves of `t`. -/
def ThreadFunctor.ready (f : ThreadFunctor) (t : StackEntry) (axes : Nat × Nat)
    (header : Header) : Prop :=
  f.top_entry = t ∧ f.image.header = header ∧ f.storage.axes = axes ∧
  f.storage.size = (header.size axes.1, header.size axes.2) ∧
  storage_fits (header.size axes.1 * header.size axes.2) t f.storage.items 0

/-- The tree is over the catalogue: every operator node holds the operation that
`run` gives to its name, every image leaf carries the bit that `load` gives it,
and no operand is left unresolved. -/
def StackEntry.over_catalogue (m : StdMath) : StackEntry → Prop
  | StackEntry.unary id op a => (unary_operations m).lookup id = some op ∧ a.over_catalogue m
  | StackEntry.binary id op a b =>
    (binary_operations m).lookup id = some op ∧ a.over_catalogue m ∧ b.over_catalogue m
  | StackEntry.ternary id op a b c =>
    ternary_operations.lookup id = some op ∧ a.over_catalogue m ∧ b.over_catalogue m ∧
      c.over_catalogue m
  | StackEntry.image img c => c = img.header.datatype.is_complex
  | StackEntry.arg _ => False
  | _ => True

/-- The names of the operators that map a complex operand to a real result. -/
def ZtoR_operators : List String :=
  ["abs", "real", "imag", "phase", "isnan", "isinf", "finite", "eq", "neq"]

/-- The leaf is complex: a complex image, or a number whose imaginary part is
not zero. -/
def StackEntry.is_complex_leaf : StackEntry → Bool
  | StackEntry.image img _ => img.header.datatype.is_complex
  | StackEntry.value v => v.imag.ne (real_type.fin 0)
  | _ => false

/-- The tree has a complex leaf or a `complex` operator node. -/
def StackEntry.has_complex_source : StackEntry → Bool
  | StackEntry.unary _ _ a => a.has_complex_source
  | StackEntry.binary id _ a b =>
    decide (id = "complex") || a.has_complex_source || b.has_complex_source
  | StackEntry.ternary _ _ a b c =>
    a.has_complex_source || b.has_complex_source || c.has_complex_source
  | e => e.is_complex_leaf

/-- Some complex leaf or `complex` operator node of the tree has no operator of
`ZtoR_operators` strictly above it on the path to the root. -/
def StackEntry.has_exposed_source : StackEntry → Bool
  | StackEntry.unary id _ a => !ZtoR_operators.contains id && a.has_exposed_source
  | StackEntry.binary id _ a b =>
    decide (id = "complex") ||
      (!ZtoR_operators.contains id && (a.has_exposed_source || b.has_exposed_source))
  | StackEntry.ternary id _ a b c =>
    !ZtoR_operators.contains id &&
      (a.has_exposed_source || b.has_exposed_source || c.has_exposed_source)
  | e => e.is_complex_leaf

/-- A storage of one item whose chunk holds the single element 3 + 4i. -/
def sample_storage : ThreadLocalStorage :=
  { items := [{ chunk := { data := [⟨real_type.fin 3, real_type.fin 4⟩] } }],
    axes := (0, 1), size := (1, 1) }

/-- The operation of the node lacks the kernel that its operands select: Z when
an operand is complex, R when none is. -/
def StackEntry.lacks_kernel : StackEntry → Bool
  | StackEntry.unary _ op a => if a.is_complex then op.Z.isNone else op.R.isNone
  | StackEntry.binary _ op a b =>
    if a.is_complex || b.is_complex then op.Z.isNone else op.R.isNone
  | StackEntry.ternary _ op a b c =>
    if a.is_complex || b.is_complex || c.is_complex then op.Z.isNone else op.R.isNone
  | _ => false

/-- Every leaf of the tree is a number: it has neither an image nor a random
source nor an unresolved operand. -/
def StackEntry.scalars_only : StackEntry → Bool
  | StackEntry.value _ => true
  | StackEntry.unary _ _ a => a.scalars_only
  | StackEntry.binary _ _ a b => a.scalars_only && b.scalars_only
  | StackEntry.ternary _ _ a b c => a.scalars_only && b.scalars_only && c.scalars_only
  | _ => false

/-- The value to which the builder folds a tree of numbers, by `unary_fold`,
`binary_fold` and `ternary_fold`; `none` when a kernel that it calls is absent. -/
def StackEntry.folded : StackEntry → Option complex_type
  | StackEntry.value v => some v
  | StackEntry.unary _ op a => a.folded.bind fun x => unary_fold op x
  | StackEntry.binary _ op a b =>
    a.folded.bind fun x => b.folded.bind fun y => binary_fold op x y
  | StackEntry.ternary _ op a b c =>
    a.folded.bind fun x => b.folded.bind fun y => c.folded.bind fun z => ternary_fold op x y z
  | _ => none

/-- At every operator of the tree the builder and the evaluator select the same
kernel: the operands, when they fold to values, all have a zero imaginary part
exactly when none of them is flagged complex. -/
def StackEntry.same_dispatch : StackEntry → Prop
  | StackEntry.unary _ _ a =>
    a.same_dispatch ∧ ∀ x, a.folded = some x → a.is_complex = !x.imag.eq (real_type.fin 0)
  | StackEntry.binary _ _ a b =>
    a.same_dispatch ∧ b.same_dispatch ∧
      ∀ x y, a.folded = some x → b.folded = some y →
        (a.is_complex || b.is_complex)
          = !(x.imag.eq (real_type.fin 0) && y.imag.eq (real_type.fin 0))
  | StackEntry.ternary _ _ a b c =>
    a.same_dispatch ∧ b.same_dispatch ∧ c.same_dispatch ∧
      ∀ x y z, a.folded = some x → b.folded = some y → c.folded = some z →
        (a.is_complex || b.is_complex || c.is_complex)
          = !(x.imag.eq (real_type.fin 0) && y.imag.eq (real_type.fin 0)
              && z.imag.eq (real_type.fin 0))
  | _ => True

/-- The single-voxel image that stands for a number in a forced tree
evaluation: one voxel on two axes, complex exactly when the imaginary part of
the number is not zero. -/
def single_voxel (v : complex_type) : Image :=
  ⟨⟨"", [{ size := 1 }, { size := 1 }],
    if v.imag.ne (real_type.fin 0) then DataType.CFloat32 else DataType.Float32⟩, fun _ => v⟩

/-- The tree of a forced evaluation: each number is replaced by a single-voxel
leaf that holds it, flagged complex exactly when its imaginary part is not
zero. -/
def StackEntry.forced : StackEntry → StackEntry
  | StackEntry.value v => StackEntry.image (single_voxel v) (v.imag.ne (real_type.fin 0))
  | StackEntry.unary id op a => StackEntry.unary id op a.forced
  | StackEntry.binary id op a b => StackEntry.binary id op a.forced b.forced
  | StackEntry.ternary id op a b c => StackEntry.ternary id op a.forced b.forced c.forced
  | e => e

/-- The forced tree evaluation of a tree of numbers: the forced tree is
evaluated by `StackEntry::evaluate` over a tile of one element, on the storage
that `allocate_storage` makes for it, and the element of the chunk returned is
the result. -/
def forced_evaluation (env : Env) (t : StackEntry) : Except Error complex_type := do
  let r ← t.forced.evaluate env
    { items := allocate_storage 1 t.forced [], iter := [0, 0], axes := (0, 1), size := (1, 1) }
  match (r.2.chunk r.1).data.get? 0 with
  | some v => pure v
  | none => .error Error.OutOfBounds

/-- The errors of the evaluator: "operation not supported!", and an access
outside a vector. -/
def evaluation_error (e : Error) : Prop :=
  e = Error.OperationNotSupported ∨ e = Error.OutOfBounds

/-- The datatype that `run_operations` gives to the header of the output: the
one asked for on the command line, or `CFloat32` for a complex root and
`Float32` otherwise; a complex root refuses a datatype that is not complex. -/
def output_datatype (env : Env) (cmdline : List Token) (root : StackEntry) :
    Except Error DataType :=
  if root.is_complex then do
    let dt ← from_command_line env cmdline DataType.CFloat32
    if !dt.is_complex then .error Error.DatatypeMismatch else pure dt
  else from_command_line env cmdline DataType.Float32

/-- Every image leaf of the tree that is not flagged complex holds values whose
imaginary part is zero. -/
def StackEntry.real_images : StackEntry → Prop
  | StackEntry.unary _ _ a => a.real_images
  | StackEntry.binary _ _ a b => a.real_images ∧ b.real_images
  | StackEntry.ternary _ _ a b c => a.real_images ∧ b.real_images ∧ c.real_images
  | StackEntry.image img cx => cx = false → ∀ p, (img.data p).imag = real_type.fin 0
  | _ => True

/-- The character `%`. -/
def percent : Char := Char.ofNat 37

/-- The opening parenthesis. -/
def lparen : Char := Char.ofNat 40

/-- The closing parenthesis. -/
def rparen : Char := Char.ofNat 41

/-- The method `std::string::find`, by characters: the position of the first
occurrence of `pat` in the string, `none` standing for `npos`. -/
def find : List Char → List Char → Option Nat
  | [], pat => if pat = [] then some 0 else none
  | c :: s, pat =>
    if (c :: s).take pat.length = pat then some 0 else (find s pat).map fun pos => pos + 1

/-- The function `str` on a `size_t`: its decimal digits. -/
def str (n : Nat) : List Char := (toString n).data

/-- The function `replace (orig, n, value)`, on strings as lists of characters.
A string that starts with `(` and ends with `)` has its first `(%n+1)`, if any,
replaced by the value, parentheses included; otherwise the first `%n+1`, if
any, is replaced. -/
def replace (orig : List Char) (n : Nat) (value : List Char) : List Char :=
  match (if orig.head? = some lparen ∧ orig.getLast? = some rparen then
      find orig ([lparen, percent] ++ str (n + 1) ++ [rparen]) else none) with
  | some pos => orig.take pos ++ value ++ orig.drop (pos + 4)
  | none =>
    match find orig (percent :: str (n + 1)) with
    | some pos => orig.take pos ++ value ++ orig.drop (pos + 2)
    | none => orig

/-- The function `operation_string`; `str_value` is the function `str` on a
`complex_type`. -/
def operation_string (str_value : complex_type → String) : StackEntry → List Char
  | StackEntry.image image _ => image.header.name.data
  | StackEntry.rng rng_gausssian => if rng_gausssian then "randn()".data else "rand()".data
  | StackEntry.unary _ op a => replace op.format.data 0 (operation_string str_value a)
  | StackEntry.binary _ op a b =>
    replace (replace op.format.data 0 (operation_string str_value a)) 1
      (operation_string str_value b)
  | StackEntry.ternary _ op a b c =>
    replace (replace (replace op.format.data 0 (operation_string str_value a)) 1
      (operation_string str_value b)) 2 (operation_string str_value c)
  | e => (str_value e.get_value).data

/-- The member `evaluator->format` of an operator node. -/
def StackEntry.format : StackEntry → List Char
  | StackEntry.unary _ op _ => op.format.data
  | StackEntry.binary _ op _ _ => op.format.data
  | StackEntry.ternary _ op _ _ _ => op.format.data
  | _ => []

/-- The substitution that the specification describes: the format with every
placeholder `%1`, `%2`, `%3` that numbers one of the strings `ps` replaced by
that string, all the placeholders at once. -/
def substitute (ps : List (List Char)) : List Char → List Char
  | c :: d :: rest =>
    if c = percent ∧ 49 ≤ d.toNat ∧ d.toNat - 49 < ps.length then
      ps.getD (d.toNat - 49) [] ++ substitute ps rest
    else c :: substitute ps (d :: rest)
  | s => s

/-- An image whose name is `name`. -/
def named_image (name : String) : Image := sample_image name [2, 2] DataType.Float32 fun _ =>
  real_value 0
/-- The part of a format before its first `%`. -/
def before_percent (F : List Char) : List Char := F.takeWhile fun c => c != percent

/-- The part of a format after the two characters of its first placeholder. -/
def after_percent (F : List Char) : List Char := (F.dropWhile fun c => c != percent).drop 2

/-- The format of a unary operation has the placeholder `%1` once, and `replace`
does not take the parenthesised form of it. -/
def unary_format_ok (F : List Char) : Bool :=
  decide (F = before_percent F ++ percent :: Char.ofNat 49 :: after_percent F) &&
  !(before_percent F).contains percent && !(after_percent F).contains percent &&
  decide ((F.head? ≠ some lparen ∨ F.getLast? ≠ some rparen) ∨
    ((before_percent F).getLast? ≠ some lparen ∨ (after_percent F).head? ≠ some rparen))

/-- The format of a binary operation has the placeholders `%1` and `%2` once
each, in this order and with text in between that does not end with `(` nor
start with the digit 2, and `replace` does not take the parenthesised form of
`%1`. -/
def binary_format_ok (F : List Char) : Bool :=
  decide (F = before_percent F ++ percent :: Char.ofNat 49 ::
    (before_percent (after_percent F) ++ percent :: Char.ofNat 50 ::
      after_percent (after_percent F))) &&
  !(before_percent F).contains percent && !(before_percent (after_percent F)).contains percent &&
  !(after_percent (after_percent F)).contains percent &&
  decide (before_percent (after_percent F) ≠ []) &&
  decide ((before_percent (after_percent F)).getLast? ≠ some lparen) &&
  decide ((F.head? ≠ some lparen ∨ F.getLast? ≠ some rparen) ∨
    (((before_percent F).getLast? ≠ some lparen ∨
        (before_percent (after_percent F) ++ percent :: Char.ofNat 50 ::
          after_percent (after_percent F)).head? ≠ some rparen) ∧
      find (before_percent (after_percent F) ++ percent :: Char.ofNat 50 ::
          after_percent (after_percent F)) [lparen, percent, Char.ofNat 49, rparen] = none)) &&
  decide ((before_percent (after_percent F)).head? ≠ some (Char.ofNat 50))

/-- The format of a ternary operation has the placeholders `%1`, `%2` and `%3`
once each, in this order and with text in between that does not end with `(`
nor start with the digit 2 or 3, and `replace` does not take the parenthesised
form of `%1` or of `%2`. -/
def ternary_format_ok (F : List Char) : Bool :=
  decide (F = before_percent F ++ percent :: Char.ofNat 49 ::
    (before_percent (after_percent F) ++ percent :: Char.ofNat 50 ::
      (before_percent (after_percent (after_percent F)) ++ percent :: Char.ofNat 51 ::
        after_percent (after_percent (after_percent F))))) &&
  !(before_percent F).contains percent && !(before_percent (after_percent F)).contains percent &&
  !(before_percent (after_percent (after_percent F))).contains percent &&
  !(after_percent (after_percent (after_percent F))).contains percent &&
  decide (before_percent (after_percent F) ≠ []) &&
  decide ((before_percent (after_percent F)).getLast? ≠ some lparen) &&
  decide (before_percent (after_percent (after_percent F)) ≠ []) &&
  decide ((before_percent (after_percent (after_percent F))).getLast? ≠ some lparen) &&
  decide (find (before_percent (after_percent (after_percent F)) ++ percent :: Char.ofNat 51 ::
      after_percent (after_percent (after_percent F))) [lparen, percent, Char.ofNat 50, rparen]
    = none) &&
  decide ((F.head? ≠ some lparen ∨ F.getLast? ≠ some rparen) ∨
    (((before_percent F).getLast? ≠ some lparen ∨
        (before_percent (after_percent F) ++ percent :: Char.ofNat 50 ::
          (before_percent (after_percent (after_percent F)) ++ percent :: Char.ofNat 51 ::
            after_percent (after_percent (after_percent F)))).head? ≠ some rparen) ∧
      find (before_percent (after_percent F) ++ percent :: Char.ofNat 50 ::
          (before_percent (after_percent (after_percent F)) ++ percent :: Char.ofNat 51 ::
            after_percent (after_percent (after_percent F))))
        [lparen, percent, Char.ofNat 49, rparen] = none)) &&
  decide ((before_percent (after_percent F)).head? ≠ some (Char.ofNat 50)) &&
  decide ((before_percent (after_percent F)).head? ≠ some (Char.ofNat 51)) &&
  decide ((before_percent (after_percent (after_percent F))).head? ≠ some (Char.ofNat 51))

/-- No operand string holds the placeholder of a later operand: the string of
the first operand has neither `%2` nor `%3` and the string of the second one
has no `%3`, as far as there are such operands. -/
def placeholders_apart (ps : List (List Char)) : Prop :=
  ∀ i j, i < j → j < ps.length → find (ps.getD i []) (percent :: str (j + 1)) = none

/-- The two assertions of the calculator branch of `run_operations`,
`assert (!stack[0].evaluator)` and `assert (!stack[0].image)`, on the entry
`stack[0]`. -/
def calculator_assertions (s0 : StackEntry) : Bool := !s0.has_evaluator && !s0.has_image

/-- The entry `stack[0]` with which `run` reaches the assertions of the
calculator branch of `run_operations`, if it does: the stack has been built, it
holds one entry, and `get_header` has left the header without axes. -/
def calculator_entry (env : Env) (m : StdMath) (cmdline : List Token) : Option StackEntry :=
  match build env m cmdline with
  | (some _, _) => none
  | (none, s) =>
    match s.stack.reverse with
    | [s0] =>
      match get_header s0 Header.empty with
      | .ok header => if header.ndim = 0 then some s0 else none
      | .error _ => none
    | _ => none

/-! ## The region of interest of `dwi/tractography/roi.cpp` -/

/-- The conversion of an integer to `size_t`, which has 64 bits. -/
def to_size_t (i : Int) : Nat := (i % 2 ^ 64).toNat

/-- The sum of two `size_t`. -/
def size_t_add (a b : Nat) : Nat := (a + b) % 2 ^ 64

/-- The difference of two `size_t`. -/
def size_t_sub (a b : Nat) : Nat := (a + 2 ^ 64 - b % 2 ^ 64) % 2 ^ 64

/-- An `Image::Buffer<float>` of three axes: the sizes `dim (0)`, `dim (1)` and
`dim (2)`, which are `int`, and the value of each voxel. -/
structure Buffer where
  dim : Nat × Nat × Nat
  value : Nat × Nat × Nat → real_type

/-- The local variables of `ROI::get_mask`; they are also what it passes on:
`bottom` and `top` to the adapter `Subset`, `max` to the seed image and `sum`
to the volume. -/
structure Locals where
  bottom : Nat × Nat × Nat
  top : Nat × Nat × Nat
  sum : real_type
  max : real_type

/-- The exception of `ROI::get_mask`, "cannot have negative values in ROI". -/
inductive Exception where
  | NegativeValues
  deriving DecidableEq

/-- The positions that `Image::Loop loop (0,3)` visits, the first axis running
fastest. -/
def loop_positions (data : Buffer) : List (Nat × Nat × Nat) :=
  (List.range data.dim.2.2).flatMap fun z =>
    (List.range data.dim.2.1).flatMap fun y =>
      (List.range data.dim.1).map fun x => (x, y, z)

/-- The body of the loop of `ROI::get_mask`, at the voxel `vox`. -/
def get_mask_step (data : Buffer) (s : Locals) (vox : Nat × Nat × Nat) :
    Except Exception Locals :=
  if (data.value vox).gt (real_type.fin 0) then
    .ok { sum := s.sum.add (data.value vox),
          max := real_type.max s.max (data.value vox),
          bottom :=
            (if to_size_t vox.1 < s.bottom.1 then to_size_t vox.1 else s.bottom.1,
             if to_size_t vox.2.1 < s.bottom.2.1 then to_size_t vox.2.1 else s.bottom.2.1,
             if to_size_t vox.2.2 < s.bottom.2.2 then to_size_t vox.2.2 else s.bottom.2.2),
          top :=
            (if to_size_t vox.1 > s.top.1 then to_size_t vox.1 else s.top.1,
             if to_size_t vox.2.1 > s.top.2.1 then to_size_t vox.2.1 else s.top.2.1,
             if to_size_t vox.2.2 > s.top.2.2 then to_size_t vox.2.2 else s.top.2.2) }
  else if (data.value vox).lt (real_type.fin 0) then .error Exception.NegativeValues
  else .ok s

/-- The statement `if (bottom[a]) --bottom[a];`. -/
def lower_margin (bottom : Nat) : Nat := if bottom ≠ 0 then size_t_sub bottom 1 else bottom

/-- The statement `top[a] = std::min (size_t (data.dim(a)-1), top[a]+2-bottom[a]);`. -/
def upper_margin (dim top bottom : Nat) : Nat :=
  min (to_size_t ((dim : Int) - 1)) (size_t_sub (size_t_add top 2) bottom)

/-- The method `ROI::get_mask`, up to the call of the adapter `Subset`: the
result holds the arrays `bottom` and `top` that the adapter is given. -/
def get_mask (data : Buffer) : Except Exception Locals := do
  let s ← (loop_positions data).foldlM (get_mask_step data)
    { bottom := (2 ^ 64 - 1, 2 ^ 64 - 1, 2 ^ 64 - 1), top := (0, 0, 0),
      sum := real_type.fin 0, max := real_type.fin 0 }
  let bottom := (lower_margin s.bottom.1, lower_margin s.bottom.2.1, lower_margin s.bottom.2.2)
  let top := (upper_margin data.dim.1 s.top.1 bottom.1,
    upper_margin data.dim.2.1 s.top.2.1 bottom.2.1,
    upper_margin data.dim.2.2 s.top.2.2 bottom.2.2)
  pure { s with bottom := bottom, top := top }

/-- The voxel `p` of the image is positive. -/
def Buffer.positive (data : Buffer) (p : Nat × Nat × Nat) : Prop :=
  p.1 < data.dim.1 ∧ p.2.1 < data.dim.2.1 ∧ p.2.2 < data.dim.2.2 ∧
    (data.value p).gt (real_type.fin 0) = true

/-- No voxel of the image is negative. -/
def Buffer.no_negative (data : Buffer) : Prop :=
  ∀ p : Nat × Nat × Nat, p.1 < data.dim.1 → p.2.1 < data.dim.2.1 → p.2.2 < data.dim.2.2 →
    (data.value p).lt (real_type.fin 0) = false

/-- Modelled from the spec: the sub-volume of the adapter `Subset`
(`image/adapter/subset.h` is not among the sources), with origin `bottom` and
extent `top` on each axis, contains the voxel `p`. -/
def subset_contains (bottom top p : Nat × Nat × Nat) : Prop :=
  (bottom.1 ≤ p.1 ∧ p.1 < bottom.1 + top.1) ∧
  (bottom.2.1 ≤ p.2.1 ∧ p.2.1 < bottom.2.1 + top.2.1) ∧
  (bottom.2.2 ≤ p.2.2 ∧ p.2.2 < bottom.2.2 + top.2.2)

/-- The sub-volume with origin `bottom` and extent `top` lies within an image of
sizes `dim`. -/
def subset_inside (bottom top dim : Nat × Nat × Nat) : Prop :=
  bottom.1 + top.1 ≤ dim.1 ∧ bottom.2.1 + top.2.1 ≤ dim.2.1 ∧ bottom.2.2 + top.2.2 ≤ dim.2.2

/-- The 2×2×2 image whose voxels all hold 1. -/
def roi_full : Buffer := { dim := (2, 2, 2), value := fun _ => real_type.fin 1 }

/-- The 4×4×4 image whose only positive voxel is the last one, (3, 3, 3). -/
def roi_corner : Buffer :=
  { dim := (4, 4, 4), value := fun p => if p = (3, 3, 3) then real_type.fin 1 else real_type.fin 0 }

/-- The 5×5×5 image whose only positive voxel is the middle one, (2, 2, 2). -/
def roi_middle : Buffer :=
  { dim := (5, 5, 5), value := fun p => if p = (2, 2, 2) then real_type.fin 1 else real_type.fin 0 }
/-- The coordinate of a position, or the entry of an array of three, on axis
`a` (0, 1 or 2). -/
def coordinate (p : Nat × Nat × Nat) (a : Nat) : Nat :=
  match a with
  | 0 => p.1
  | 1 => p.2.1
  | _ => p.2.2

/-- The sizes of the image are those of an `int` and at least 1. -/
def Buffer.well_sized (data : Buffer) : Prop :=
  ∀ a, 1 ≤ coordinate data.dim a ∧ coordinate data.dim a < 2 ^ 31

/-! # Properties -/

/-! ## Lemmas on the stack machine -/

theorem load_not_arg (env : Env) (e : StackEntry) (il : List (String × LoadedImage))
    (h : e.has_arg = false) : e.load env il = .ok (e, il) := by
  cases e <;> simp_all [StackEntry.load, StackEntry.has_arg]

/-- C9. An operator of arity k applied to a stack of height less than k throws
StackUnderflow and leaves the stack and the list of loaded images as they
were: nothing has been resolved or modified. -/
theorem C9_stack_underflow (env : Env) (operation_name : String) (s : Builder) :
    (∀ op : OpUnary, s.stack.length < 1 →
      unary_operation env operation_name op s = (some Error.StackUnderflow, s)) ∧
    (∀ op : OpBinary, s.stack.length < 2 →
      binary_operation env operation_name op s = (some Error.StackUnderflow, s)) ∧
    (∀ op : OpTernary, s.stack.length < 3 →
      ternary_operation env operation_name op s = (some Error.StackUnderflow, s)) := by
  refine ⟨?_, ?_, ?_⟩
  · intro op h
    match hs : s.stack, h with
    | [], _ => simp [unary_operation, hs]
  · intro op h
    match hs : s.stack, h with
    | [], _ => simp [binary_operation, hs]
    | [_], _ => simp [binary_operation, hs]
  · intro op h
    match hs : s.stack, h with
    | [], _ => simp [ternary_operation, hs]
    | [_], _ => simp [ternary_operation, hs]
    | [_, _], _ => simp [ternary_operation, hs]

/-- C9, at a stack of one unresolved operand and the operators `add` and `if`. -/
theorem C9_stack_underflow_witness :
    binary_operation sample_env "add" OpAdd ⟨[StackEntry.arg "a.mif"], []⟩
        = (some Error.StackUnderflow, ⟨[StackEntry.arg "a.mif"], []⟩) ∧
    ternary_operation sample_env "if" OpIf ⟨[StackEntry.arg "a.mif"], []⟩
        = (some Error.StackUnderflow, ⟨[StackEntry.arg "a.mif"], []⟩) :=
  ⟨(C9_stack_underflow sample_env "add" ⟨[StackEntry.arg "a.mif"], []⟩).2.1 OpAdd (by decide),
   (C9_stack_underflow sample_env "if" ⟨[StackEntry.arg "a.mif"], []⟩).2.2 OpIf (by decide)⟩

theorem unary_operation_loaded (env : Env) (operation_name : String) (op : OpUnary)
    (a a1 : StackEntry) (rest : List StackEntry) (il il1 : List (String × LoadedImage))
    (ha : a.load env il = .ok (a1, il1)) :
    unary_operation env operation_name op ⟨a :: rest, il⟩ =
      if a1.is_node_operand then
        (none, ⟨StackEntry.unary operation_name op a1 :: rest, il1⟩)
      else match unary_fold op a1.get_value with
        | some v => (none, ⟨StackEntry.value v :: rest, il1⟩)
        | none => (some Error.OperationNotSupported, ⟨a1 :: rest, il1⟩) := by
  simp [unary_operation, ha]

theorem binary_operation_loaded (env : Env) (operation_name : String) (op : OpBinary)
    (a b a1 b1 : StackEntry) (rest : List StackEntry) (il il1 il2 : List (String × LoadedImage))
    (ha : a.load env il = .ok (a1, il1)) (hb : b.load env il1 = .ok (b1, il2)) :
    binary_operation env operation_name op ⟨b :: a :: rest, il⟩ =
      if a1.is_node_operand || b1.is_node_operand then
        (none, ⟨StackEntry.binary operation_name op a1 b1 :: rest, il2⟩)
      else match binary_fold op a1.get_value b1.get_value with
        | some v => (none, ⟨StackEntry.value v :: rest, il2⟩)
        | none => (some Error.OperationNotSupported, ⟨b1 :: a1 :: rest, il2⟩) := by
  simp [binary_operation, ha, hb]

theorem ternary_operation_loaded (env : Env) (operation_name : String) (op : OpTernary)
    (a b c a1 b1 c1 : StackEntry) (rest : List StackEntry)
    (il il1 il2 il3 : List (String × LoadedImage))
    (ha : a.load env il = .ok (a1, il1)) (hb : b.load env il1 = .ok (b1, il2))
    (hc : c.load env il2 = .ok (c1, il3)) :
    ternary_operation env operation_name op ⟨c :: b :: a :: rest, il⟩ =
      if a1.is_node_operand || b1.is_node_operand || c1.is_node_operand then
        (none, ⟨StackEntry.ternary operation_name op a1 b1 c1 :: rest, il3⟩)
      else match ternary_fold op a1.get_value b1.get_value c1.get_value with
        | some v => (none, ⟨StackEntry.value v :: rest, il3⟩)
        | none => (some Error.OperationNotSupported, ⟨c1 :: b1 :: a1 :: rest, il3⟩) := by
  simp [ternary_operation, ha, hb, hc]

/-- C8, as stated, fails on the stack that holds the operand `3` and the operator
`real`: the operand resolves to the value 3, yet no entry replaces it, for the
operation has no kernel for a real value and the step throws. -/
theorem C8_counterexample :
    (StackEntry.arg "3").load sample_env [] = .ok (StackEntry.value (real_value 3), []) ∧
    unary_operation sample_env "real" OpReal ⟨[StackEntry.arg "3"], []⟩
      = (some Error.OperationNotSupported, ⟨[StackEntry.value (real_value 3)], []⟩) := by
  constructor
  · rfl
  · rfl
/-- C8 (amended). When the top k entries of the stack resolve, the entries below
them are left as they were; the k entries are replaced by one operator node that
holds them in push order if one of them is an image, a random source or an
operator node, and otherwise by one folded value if the kernel chosen for the
folding exists; if that kernel is absent the step throws OperationNotSupported
and the k entries stay on the stack, resolved. -/
theorem C8_builder_step (env : Env) (operation_name : String) (rest : List StackEntry)
    (il : List (String × LoadedImage)) :
    (∀ (op : OpUnary) (a a1 : StackEntry) (il1 : List (String × LoadedImage)),
      a.load env il = .ok (a1, il1) →
      (a1.is_node_operand = true →
        unary_operation env operation_name op ⟨a :: rest, il⟩
          = (none, ⟨StackEntry.unary operation_name op a1 :: rest, il1⟩)) ∧
      (a1.is_node_operand = false → ∀ v, unary_fold op a1.get_value = some v →
        unary_operation env operation_name op ⟨a :: rest, il⟩
          = (none, ⟨StackEntry.value v :: rest, il1⟩)) ∧
      (a1.is_node_operand = false → unary_fold op a1.get_value = none →
        unary_operation env operation_name op ⟨a :: rest, il⟩
          = (some Error.OperationNotSupported, ⟨a1 :: rest, il1⟩))) ∧
    (∀ (op : OpBinary) (a b a1 b1 : StackEntry) (il1 il2 : List (String × LoadedImage)),
      a.load env il = .ok (a1, il1) → b.load env il1 = .ok (b1, il2) →
      ((a1.is_node_operand || b1.is_node_operand) = true →
        binary_operation env operation_name op ⟨b :: a :: rest, il⟩
          = (none, ⟨StackEntry.binary operation_name op a1 b1 :: rest, il2⟩)) ∧
      ((a1.is_node_operand || b1.is_node_operand) = false →
        ∀ v, binary_fold op a1.get_value b1.get_value = some v →
        binary_operation env operation_name op ⟨b :: a :: rest, il⟩
          = (none, ⟨StackEntry.value v :: rest, il2⟩)) ∧
      ((a1.is_node_operand || b1.is_node_operand) = false →
        binary_fold op a1.get_value b1.get_value = none →
        binary_operation env operation_name op ⟨b :: a :: rest, il⟩
          = (some Error.OperationNotSupported, ⟨b1 :: a1 :: rest, il2⟩))) ∧
    (∀ (op : OpTernary) (a b c a1 b1 c1 : StackEntry) (il1 il2 il3 : List (String × LoadedImage)),
      a.load env il = .ok (a1, il1) → b.load env il1 = .ok (b1, il2) →
      c.load env il2 = .ok (c1, il3) →
      ((a1.is_node_operand || b1.is_node_operand || c1.is_node_operand) = true →
        ternary_operation env operation_name op ⟨c :: b :: a :: rest, il⟩
          = (none, ⟨StackEntry.ternary operation_name op a1 b1 c1 :: rest, il3⟩)) ∧
      ((a1.is_node_operand || b1.is_node_operand || c1.is_node_operand) = false →
        ∀ v, ternary_fold op a1.get_value b1.get_value c1.get_value = some v →
        ternary_operation env operation_name op ⟨c :: b :: a :: rest, il⟩
          = (none, ⟨StackEntry.value v :: rest, il3⟩)) ∧
      ((a1.is_node_operand || b1.is_node_operand || c1.is_node_operand) = false →
        ternary_fold op a1.get_value b1.get_value c1.get_value = none →
        ternary_operation env operation_name op ⟨c :: b :: a :: rest, il⟩
          = (some Error.OperationNotSupported, ⟨c1 :: b1 :: a1 :: rest, il3⟩))) := by
  refine ⟨?_, ?_, ?_⟩
  · intro op a a1 il1 ha
    rw [unary_operation_loaded env operation_name op a a1 rest il il1 ha]
    refine ⟨fun h => by simp [h], fun h v hv => by simp [h, hv], fun h hv => by simp [h, hv]⟩
  · intro op a b a1 b1 il1 il2 ha hb
    rw [binary_operation_loaded env operation_name op a b a1 b1 rest il il1 il2 ha hb]
    refine ⟨fun h => by rw [if_pos h], fun h v hv => by rw [if_neg (by simp [h]), hv],
      fun h hv => by rw [if_neg (by simp [h]), hv]⟩
  · intro op a b c a1 b1 c1 il1 il2 il3 ha hb hc
    rw [ternary_operation_loaded env operation_name op a b c a1 b1 c1 rest il il1 il2 il3 ha hb hc]
    refine ⟨fun h => by rw [if_pos h], fun h v hv => by rw [if_neg (by simp [h]), hv],
      fun h hv => by rw [if_neg (by simp [h]), hv]⟩

/-- C8 (amended), at the stack `a.mif 2` and the operator `multiply`. -/
theorem C8_builder_step_witness :
    binary_operation sample_env "multiply" OpMultiply
        ⟨[StackEntry.arg "2", StackEntry.arg "a.mif"], []⟩
      = (none, ⟨[StackEntry.binary "multiply" OpMultiply (StackEntry.image image_a false)
                  (StackEntry.value (real_value 2))], [("a.mif", ⟨image_a, false⟩)]⟩) :=
  ((C8_builder_step sample_env "multiply" [] []).2.1 OpMultiply (StackEntry.arg "a.mif")
    (StackEntry.arg "2") (StackEntry.image image_a false) (StackEntry.value (real_value 2))
    [("a.mif", ⟨image_a, false⟩)] [("a.mif", ⟨image_a, false⟩)] rfl rfl).1 rfl
/-- C7. When the k operands of an operator all resolve to values, they are
replaced by R of their real parts if every imaginary part is zero and by Z of
the values otherwise, and the step throws OperationNotSupported exactly when the
kernel so chosen is absent; the arguments `3 2 -multiply` print 6. -/
theorem C7_constant_folding (env : Env) (m : StdMath) (operation_name : String)
    (rest : List StackEntry) (il : List (String × LoadedImage)) :
    (∀ (op : OpUnary) (a : StackEntry) (va : complex_type) (il1 : List (String × LoadedImage)),
      a.load env il = .ok (StackEntry.value va, il1) →
      (∀ R, op.R = some R → va.imag.eq (real_type.fin 0) = true →
        unary_operation env operation_name op ⟨a :: rest, il⟩
          = (none, ⟨StackEntry.value (R va.real) :: rest, il1⟩)) ∧
      (∀ Z, op.Z = some Z → va.imag.eq (real_type.fin 0) = false →
        unary_operation env operation_name op ⟨a :: rest, il⟩
          = (none, ⟨StackEntry.value (Z va) :: rest, il1⟩)) ∧
      ((unary_operation env operation_name op ⟨a :: rest, il⟩).1
          = some Error.OperationNotSupported ↔
        (if va.imag.eq (real_type.fin 0) then op.R = none else op.Z = none))) ∧
    (∀ (op : OpBinary) (a b : StackEntry) (va vb : complex_type)
        (il1 il2 : List (String × LoadedImage)),
      a.load env il = .ok (StackEntry.value va, il1) →
      b.load env il1 = .ok (StackEntry.value vb, il2) →
      (∀ R, op.R = some R →
        (va.imag.eq (real_type.fin 0) && vb.imag.eq (real_type.fin 0)) = true →
        binary_operation env operation_name op ⟨b :: a :: rest, il⟩
          = (none, ⟨StackEntry.value (R va.real vb.real) :: rest, il2⟩)) ∧
      (∀ Z, op.Z = some Z →
        (va.imag.eq (real_type.fin 0) && vb.imag.eq (real_type.fin 0)) = false →
        binary_operation env operation_name op ⟨b :: a :: rest, il⟩
          = (none, ⟨StackEntry.value (Z va vb) :: rest, il2⟩)) ∧
      ((binary_operation env operation_name op ⟨b :: a :: rest, il⟩).1
          = some Error.OperationNotSupported ↔
        (if (va.imag.eq (real_type.fin 0) && vb.imag.eq (real_type.fin 0)) then op.R = none
         else op.Z = none))) ∧
    (∀ (op : OpTernary) (a b c : StackEntry) (va vb vc : complex_type)
        (il1 il2 il3 : List (String × LoadedImage)),
      a.load env il = .ok (StackEntry.value va, il1) →
      b.load env il1 = .ok (StackEntry.value vb, il2) →
      c.load env il2 = .ok (StackEntry.value vc, il3) →
      (∀ R, op.R = some R →
        (va.imag.eq (real_type.fin 0) && vb.imag.eq (real_type.fin 0)
          && vc.imag.eq (real_type.fin 0)) = true →
        ternary_operation env operation_name op ⟨c :: b :: a :: rest, il⟩
          = (none, ⟨StackEntry.value (R va.real vb.real vc.real) :: rest, il3⟩)) ∧
      (∀ Z, op.Z = some Z →
        (va.imag.eq (real_type.fin 0) && vb.imag.eq (real_type.fin 0)
          && vc.imag.eq (real_type.fin 0)) = false →
        ternary_operation env operation_name op ⟨c :: b :: a :: rest, il⟩
          = (none, ⟨StackEntry.value (Z va vb vc) :: rest, il3⟩)) ∧
      ((ternary_operation env operation_name op ⟨c :: b :: a :: rest, il⟩).1
          = some Error.OperationNotSupported ↔
        (if (va.imag.eq (real_type.fin 0) && vb.imag.eq (real_type.fin 0)
              && vc.imag.eq (real_type.fin 0)) then op.R = none
         else op.Z = none))) ∧
    run sample_env m [Token.operand "3", Token.operand "2", Token.option "multiply"]
      = .ok (Result.printed (real_value 6)) := by
  refine ⟨?_, ?_, ?_, ?_⟩
  · intro op a va il1 ha
    rw [unary_operation_loaded env operation_name op a _ rest il il1 ha]
    simp only [StackEntry.is_node_operand, StackEntry.has_evaluator, StackEntry.has_image,
      StackEntry.has_rng, StackEntry.get_value, unary_fold, Bool.or_self, Bool.false_eq_true,
      if_false]
    refine ⟨fun R hR h => by simp [hR, h], fun Z hZ h => by simp [hZ, h], ?_⟩
    cases h : va.imag.eq (real_type.fin 0) <;> simp
    · cases op.Z <;> simp
    · cases op.R <;> simp
  · intro op a b va vb il1 il2 ha hb
    rw [binary_operation_loaded env operation_name op a b _ _ rest il il1 il2 ha hb]
    simp only [StackEntry.is_node_operand, StackEntry.has_evaluator, StackEntry.has_image,
      StackEntry.has_rng, StackEntry.get_value, binary_fold, Bool.or_self, Bool.false_eq_true,
      if_false]
    refine ⟨fun R hR h => by simp [hR, h], fun Z hZ h => by simp [hZ, h], ?_⟩
    cases h : (va.imag.eq (real_type.fin 0) && vb.imag.eq (real_type.fin 0)) <;> simp
    · cases op.Z <;> simp
    · cases op.R <;> simp
  · intro op a b c va vb vc il1 il2 il3 ha hb hc
    rw [ternary_operation_loaded env operation_name op a b c _ _ _ rest il il1 il2 il3 ha hb hc]
    simp only [StackEntry.is_node_operand, StackEntry.has_evaluator, StackEntry.has_image,
      StackEntry.has_rng, StackEntry.get_value, ternary_fold, Bool.or_self, Bool.false_eq_true,
      if_false]
    refine ⟨fun R hR h => by simp [hR, h], fun Z hZ h => by simp [hZ, h], ?_⟩
    cases h : (va.imag.eq (real_type.fin 0) && vb.imag.eq (real_type.fin 0)
        && vc.imag.eq (real_type.fin 0)) <;> simp
    · cases op.Z <;> simp
    · cases op.R <;> simp
  · with_unfolding_all rfl

/-- C7, at the stacks `3 2` with `multiply` and `1+2i` with `round`. -/
theorem C7_constant_folding_witness :
    binary_operation sample_env "multiply" OpMultiply
        ⟨[StackEntry.arg "2", StackEntry.arg "3"], []⟩
      = (none, ⟨[StackEntry.value
          (complex_type.ofReal ((real_type.fin 3).mul (real_type.fin 2)))], []⟩) ∧
    (unary_operation sample_env "round" OpRound ⟨[StackEntry.arg "1+2i"], []⟩).1
      = some Error.OperationNotSupported :=
  ⟨((C7_constant_folding sample_env no_math "multiply" [] []).2.1 OpMultiply
      (StackEntry.arg "3") (StackEntry.arg "2") (real_value 3) (real_value 2) [] [] rfl rfl).1
      _ rfl rfl,
   ((C7_constant_folding sample_env no_math "round" [] []).1 OpRound
      (StackEntry.arg "1+2i") ⟨real_type.fin 1, real_type.fin 2⟩ [] rfl).2.2.2 rfl⟩
theorem lookup_mem {α : Type} (l : List (String × α)) (k : String) (v : α)
    (h : l.lookup k = some v) : (k, v) ∈ l := by
  induction l with
  | nil => simp [List.lookup] at h
  | cons p l ih =>
    obtain ⟨k1, v1⟩ := p
    simp only [List.lookup] at h
    split at h
    · rename_i heq
      have : k = k1 := by simpa using heq
      simp at h
      simp [this, h]
    · exact List.mem_cons_of_mem _ (ih h)

theorem unary_flags (m : StdMath) (id : String) (op : OpUnary)
    (h : (unary_operations m).lookup id = some op) : ¬ (op.ZtoR = true ∧ op.RtoZ = true) := by
  have hm := lookup_mem _ _ _ h
  simp only [unary_operations, List.mem_cons, Prod.mk.injEq, List.mem_nil_iff, or_false] at hm
  rcases hm with h | h | h | h | h | h | h | h | h | h | h | h | h | h | h | h | h | h | h | h | h
    | h | h | h | h | h | h | h <;> (rw [h.2]; simp [OpAbs, OpNeg, OpSqrt, OpExp, OpLog, OpLog10, OpCos, OpSin, OpTan, OpCosh, OpSinh, OpTanh, OpAcos, OpAsin, OpAtan, OpAcosh, OpAsinh, OpAtanh, OpRound, OpCeil, OpFloor, OpReal, OpImag, OpPhase, OpConj, OpIsNaN, OpIsInf, OpFinite])

theorem binary_flags (m : StdMath) (id : String) (op : OpBinary)
    (h : (binary_operations m).lookup id = some op) : ¬ (op.ZtoR = true ∧ op.RtoZ = true) := by
  have hm := lookup_mem _ _ _ h
  simp only [binary_operations, List.mem_cons, Prod.mk.injEq, List.mem_nil_iff, or_false] at hm
  rcases hm with h | h | h | h | h | h | h | h | h | h | h | h | h | h <;>
    (rw [h.2]; simp [OpAdd, OpSubtract, OpMultiply, OpDivide, OpPow, OpMin, OpMax, OpLessThan, OpGreaterThan, OpLessThanOrEqual, OpGreaterThanOrEqual, OpEqual, OpNotEqual, OpComplex])

theorem ternary_flags (id : String) (op : OpTernary)
    (h : ternary_operations.lookup id = some op) : ¬ (op.ZtoR = true ∧ op.RtoZ = true) := by
  have hm := lookup_mem _ _ _ h
  simp only [ternary_operations, List.mem_cons, Prod.mk.injEq, List.mem_nil_iff, or_false] at hm
  rw [hm.2]; simp [OpIf]

/-- C10. An operator node of the catalogue is complex if and only if its
operation is RtoZ, or is not ZtoR and has a complex operand. -/
theorem C10_is_complex (m : StdMath) (e : StackEntry) (h : e.is_catalogue_node m) :
    (e.is_complex = true ↔
      (e.RtoZ = true ∨ (e.ZtoR = false ∧ ∃ o ∈ e.operands, o.is_complex = true))) := by
  cases e with
  | arg _ => exact h.elim
  | image _ _ => exact h.elim
  | rng _ => exact h.elim
  | value _ => exact h.elim
  | unary id op a =>
    have hf := unary_flags m id op h
    simp only [StackEntry.is_complex, StackEntry.RtoZ, StackEntry.ZtoR, StackEntry.operands]
    cases ha : a.is_complex <;> cases hz : op.ZtoR <;> cases hr : op.RtoZ <;> simp_all
  | binary id op a b =>
    have hf := binary_flags m id op h
    simp only [StackEntry.is_complex, StackEntry.RtoZ, StackEntry.ZtoR, StackEntry.operands]
    cases ha : a.is_complex <;> cases hb : b.is_complex <;> cases hz : op.ZtoR <;>
      cases hr : op.RtoZ <;> simp_all
  | ternary id op a b c =>
    have hf := ternary_flags id op h
    simp only [StackEntry.is_complex, StackEntry.RtoZ, StackEntry.ZtoR, StackEntry.operands]
    cases ha : a.is_complex <;> cases hb : b.is_complex <;> cases hc : c.is_complex <;>
      cases hz : op.ZtoR <;> cases hr : op.RtoZ <;> simp_all

/-- C10, at the node `complex` over a real image and a real value. -/
theorem C10_is_complex_witness :
    (StackEntry.binary "complex" OpComplex (StackEntry.image image_a false)
        (StackEntry.value (real_value 2))).is_complex = true ↔
      ((StackEntry.binary "complex" OpComplex (StackEntry.image image_a false)
        (StackEntry.value (real_value 2))).RtoZ = true ∨
       ((StackEntry.binary "complex" OpComplex (StackEntry.image image_a false)
        (StackEntry.value (real_value 2))).ZtoR = false ∧
        ∃ o ∈ (StackEntry.binary "complex" OpComplex (StackEntry.image image_a false)
          (StackEntry.value (real_value 2))).operands, o.is_complex = true)) :=
  C10_is_complex no_math _ rfl
theorem binary_not_unary (m : StdMath) (id : String) (op : OpBinary)
    (h : (binary_operations m).lookup id = some op) : (unary_operations m).lookup id = none := by
  have hm := lookup_mem _ _ _ h
  simp only [binary_operations, List.mem_cons, Prod.mk.injEq, List.mem_nil_iff, or_false] at hm
  rcases hm with h | h | h | h | h | h | h | h | h | h | h | h | h | h <;>
    (rw [h.1]; rfl)

theorem ternary_not_unary (m : StdMath) (id : String) (op : OpTernary)
    (h : ternary_operations.lookup id = some op) :
    (unary_operations m).lookup id = none ∧ (binary_operations m).lookup id = none := by
  have hm := lookup_mem _ _ _ h
  simp only [ternary_operations, List.mem_cons, Prod.mk.injEq, List.mem_nil_iff, or_false] at hm
  rw [hm.1]; exact ⟨rfl, rfl⟩

theorem consistent_nil (env : Env) : consistent env [] := by
  intro k li h; simp [List.lookup] at h

theorem load_consistent (env : Env) (s : String) (e : StackEntry)
    (il0 il : List (String × LoadedImage)) (hc : consistent env il)
    (h : (StackEntry.arg s).load env [] = .ok (e, il0)) :
    ∃ il1, (StackEntry.arg s).load env il = .ok (e, il1) ∧ consistent env il1 := by
  simp only [StackEntry.load, List.lookup] at h ⊢
  cases hl : il.lookup s with
  | some li =>
    obtain ⟨ho, hcx⟩ := hc s li hl
    simp only [ho] at h
    simp only [Except.ok.injEq, Prod.mk.injEq] at h
    refine ⟨il, ?_, hc⟩
    simp [← h.1, hcx]
  | none =>
    simp only
    cases ho : env.open_image s with
    | some img =>
      simp only [ho, Except.ok.injEq, Prod.mk.injEq] at h
      refine ⟨(s, ⟨img, img.header.datatype.is_complex⟩) :: il, by simp [← h.1], ?_⟩
      intro k li hk
      simp only [List.lookup] at hk
      split at hk
      · rename_i heq
        have hks : k = s := by simpa using heq
        simp only [Option.some.injEq] at hk
        subst hk; subst hks
        exact ⟨ho, rfl⟩
      · exact hc k li hk
    | none =>
      simp only [ho] at h ⊢
      refine ⟨il, ?_, hc⟩
      split_ifs at h ⊢
      any_goals (simp only [Except.ok.injEq, Prod.mk.injEq] at h; simp [← h.1])
      cases hp : env.to_complex s with
      | none => simp [hp] at h
      | some v =>
        simp only [hp, Except.ok.injEq, Prod.mk.injEq] at h
        simp [← h.1]
theorem load_arg_not_arg (env : Env) (s : String) (il il1 : List (String × LoadedImage))
    (t : StackEntry) (h : (StackEntry.arg s).load env il = .ok (t, il1)) : t.has_arg = false := by
  simp only [StackEntry.load] at h
  split at h
  · simp only [Except.ok.injEq, Prod.mk.injEq] at h; simp [← h.1, StackEntry.has_arg]
  · split at h
    · simp only [Except.ok.injEq, Prod.mk.injEq] at h; simp [← h.1, StackEntry.has_arg]
    · split_ifs at h
      any_goals (simp only [Except.ok.injEq, Prod.mk.injEq] at h; simp [← h.1, StackEntry.has_arg])
      split at h
      · simp only [Except.ok.injEq, Prod.mk.injEq] at h; simp [← h.1, StackEntry.has_arg]
      · simp at h

theorem run_loop_unary (env : Env) (m : StdMath) (id : String) (op : OpUnary)
    (rest : List Token) (s : Builder) (h : (unary_operations m).lookup id = some op) :
    run_loop env m (Token.option id :: rest) false s =
      match unary_operation env id op s with
      | (none, s1) => run_loop env m rest false s1
      | (some e, s1) => (some e, s1) := by
  simp only [run_loop, run_option, h]
  rcases unary_operation env id op s with ⟨_ | e, s1⟩ <;> rfl

theorem run_loop_binary (env : Env) (m : StdMath) (id : String) (op : OpBinary)
    (rest : List Token) (s : Builder) (h : (binary_operations m).lookup id = some op) :
    run_loop env m (Token.option id :: rest) false s =
      match binary_operation env id op s with
      | (none, s1) => run_loop env m rest false s1
      | (some e, s1) => (some e, s1) := by
  simp only [run_loop, run_option, h, binary_not_unary m id op h]
  rcases binary_operation env id op s with ⟨_ | e, s1⟩ <;> rfl

theorem run_loop_ternary (env : Env) (m : StdMath) (id : String) (op : OpTernary)
    (rest : List Token) (s : Builder) (h : ternary_operations.lookup id = some op) :
    run_loop env m (Token.option id :: rest) false s =
      match ternary_operation env id op s with
      | (none, s1) => run_loop env m rest false s1
      | (some e, s1) => (some e, s1) := by
  simp only [run_loop, run_option, h, (ternary_not_unary m id op h).1,
    (ternary_not_unary m id op h).2]
  rcases ternary_operation env id op s with ⟨_ | e, s1⟩ <;> rfl

theorem run_loop_tokens (env : Env) (m : StdMath) (e : Expr) :
    ∀ (t : StackEntry) (stk : List StackEntry) (il : List (String × LoadedImage))
      (rest : List Token),
      e.tree env m = some t → t.no_scalar_node = true → consistent env il →
      ∃ p il1, consistent env il1 ∧
        run_loop env m (e.tokens ++ rest) false ⟨stk, il⟩
          = run_loop env m rest false ⟨p :: stk, il1⟩ ∧
        ∀ il2, consistent env il2 → ∃ il3, p.load env il2 = .ok (t, il3) ∧ consistent env il3 := by
  induction e with
  | operand s =>
    intro t stk il rest ht _ hc
    simp only [Expr.tree] at ht
    split at ht
    · rename_i r hr
      simp only [Option.some.injEq] at ht
      refine ⟨StackEntry.arg s, il, hc, by simp [Expr.tokens, run_loop], ?_⟩
      intro il2 hc2
      obtain ⟨il3, h3, hc3⟩ := load_consistent env s t r.2 il2 hc2 (by rw [hr, ← ht])
      exact ⟨il3, h3, hc3⟩
    · simp at ht
  | unary id a iha =>
    intro t stk il rest ht hn hc
    simp only [Expr.tree, Option.bind_eq_bind, Option.pure_def, Option.bind_eq_some] at ht
    obtain ⟨op, hop, ta, hta, ht⟩ := ht
    simp only [Option.some.injEq] at ht
    subst ht
    simp only [StackEntry.no_scalar_node, Bool.and_eq_true] at hn
    obtain ⟨pa, il1, hc1, hrun, hload⟩ := iha ta stk il (Token.option id :: rest) hta hn.2 hc
    obtain ⟨il3, hl3, hc3⟩ := hload il1 hc1
    refine ⟨StackEntry.unary id op ta, il3, hc3, ?_, ?_⟩
    · simp only [Expr.tokens, List.append_assoc, List.singleton_append]
      rw [hrun, run_loop_unary env m id op rest _ hop,
        unary_operation_loaded env id op pa ta stk il1 il3 hl3]
      simp [hn.1]
    · intro il2 hc2
      exact ⟨il2, load_not_arg env _ il2 rfl, hc2⟩
  | binary id a b iha ihb =>
    intro t stk il rest ht hn hc
    simp only [Expr.tree, Option.bind_eq_bind, Option.pure_def, Option.bind_eq_some] at ht
    obtain ⟨op, hop, ta, hta, tb, htb, ht⟩ := ht
    simp only [Option.some.injEq] at ht
    subst ht
    simp only [StackEntry.no_scalar_node, Bool.and_eq_true] at hn
    obtain ⟨pa, il1, hc1, hrun1, hload1⟩ :=
      iha ta stk il (b.tokens ++ Token.option id :: rest) hta hn.1.2 hc
    obtain ⟨pb, il2, hc2, hrun2, hload2⟩ :=
      ihb tb (pa :: stk) il1 (Token.option id :: rest) htb hn.2 hc1
    obtain ⟨il3, hl3, hc3⟩ := hload1 il2 hc2
    obtain ⟨il4, hl4, hc4⟩ := hload2 il3 hc3
    refine ⟨StackEntry.binary id op ta tb, il4, hc4, ?_, ?_⟩
    · simp only [Expr.tokens, List.append_assoc, List.singleton_append]
      rw [hrun1, hrun2, run_loop_binary env m id op rest _ hop,
        binary_operation_loaded env id op pa pb ta tb stk il2 il3 il4 hl3 hl4]
      simp [hn.1.1]
    · intro il5 hc5
      exact ⟨il5, load_not_arg env _ il5 rfl, hc5⟩
  | ternary id a b c iha ihb ihc =>
    intro t stk il rest ht hn hc
    simp only [Expr.tree, Option.bind_eq_bind, Option.pure_def, Option.bind_eq_some] at ht
    obtain ⟨op, hop, ta, hta, tb, htb, tc, htc, ht⟩ := ht
    simp only [Option.some.injEq] at ht
    subst ht
    simp only [StackEntry.no_scalar_node, Bool.and_eq_true] at hn
    obtain ⟨pa, il1, hc1, hrun1, hload1⟩ :=
      iha ta stk il (b.tokens ++ (c.tokens ++ Token.option id :: rest)) hta hn.1.1.2 hc
    obtain ⟨pb, il2, hc2, hrun2, hload2⟩ :=
      ihb tb (pa :: stk) il1 (c.tokens ++ Token.option id :: rest) htb hn.1.2 hc1
    obtain ⟨pc, il3, hc3, hrun3, hload3⟩ :=
      ihc tc (pb :: pa :: stk) il2 (Token.option id :: rest) htc hn.2 hc2
    obtain ⟨il4, hl4, hc4⟩ := hload1 il3 hc3
    obtain ⟨il5, hl5, hc5⟩ := hload2 il4 hc4
    obtain ⟨il6, hl6, hc6⟩ := hload3 il5 hc5
    refine ⟨StackEntry.ternary id op ta tb tc, il6, hc6, ?_, ?_⟩
    · simp only [Expr.tokens, List.append_assoc, List.singleton_append]
      rw [hrun1, hrun2, hrun3, run_loop_ternary env m id op rest _ hop,
        ternary_operation_loaded env id op pa pb pc ta tb tc stk il3 il4 il5 il6 hl4 hl5 hl6]
      simp [hn.1.1.1]
    · intro il7 hc7
      exact ⟨il7, load_not_arg env _ il7 rfl, hc7⟩

theorem build_tokens (env : Env) (m : StdMath) (e : Expr) (t : StackEntry)
    (ht : e.tree env m = some t) (hn : t.no_scalar_node = true) :
    ∃ il, build env m e.tokens = (none, ⟨[t], il⟩) := by
  obtain ⟨p, il1, hc1, hrun, hload⟩ :=
    run_loop_tokens env m e t [] [] [] ht hn (consistent_nil env)
  obtain ⟨il2, hl2, _⟩ := hload il1 hc1
  refine ⟨il2, ?_⟩
  simp only [List.append_nil] at hrun
  simp [build, hrun, run_loop, load_bottom, hl2]
/-- C5. The postfix sequence of an expression whose tree has an image, a random
source or an operator node under every operator builds that very tree, alone on
the stack; so do the two streams of the usage text, with images for a, b, c
and d. -/
theorem C5_postfix_construction (env : Env) (m : StdMath) :
    (∀ (e : Expr) (t : StackEntry), e.tree env m = some t → t.no_scalar_node = true →
      ∃ il, build env m e.tokens = (none, ⟨[t], il⟩)) ∧
    (∃ il, build sample_env m
        [Token.operand "a.mif", Token.option "neg", Token.operand "b.mif", Token.option "divide",
         Token.option "exp", Token.operand "9.3", Token.option "multiply"]
      = (none, ⟨[StackEntry.binary "multiply" OpMultiply
          (StackEntry.unary "exp" (OpExp m)
            (StackEntry.binary "divide" OpDivide
              (StackEntry.unary "neg" OpNeg (StackEntry.image image_a false))
              (StackEntry.image image_b false)))
          (StackEntry.value (real_value (93 / 10)))], il⟩)) ∧
    (∃ il, build sample_env m
        [Token.operand "a.mif", Token.operand "b.mif", Token.option "add", Token.operand "c.mif",
         Token.operand "d.mif", Token.option "multiply", Token.operand "4.2", Token.option "add",
         Token.option "divide"]
      = (none, ⟨[StackEntry.binary "divide" OpDivide
          (StackEntry.binary "add" OpAdd (StackEntry.image image_a false)
            (StackEntry.image image_b false))
          (StackEntry.binary "add" OpAdd
            (StackEntry.binary "multiply" OpMultiply (StackEntry.image image_c false)
              (StackEntry.image image_d true))
            (StackEntry.value (real_value (21 / 5))))], il⟩)) :=
  ⟨build_tokens env m, ⟨_, rfl⟩, ⟨_, rfl⟩⟩

/-- C5, at the expression `a.mif 2 -multiply`. -/
theorem C5_postfix_construction_witness :
    ∃ il, build sample_env no_math
        [Token.operand "a.mif", Token.operand "2", Token.option "multiply"]
      = (none, ⟨[StackEntry.binary "multiply" OpMultiply (StackEntry.image image_a false)
          (StackEntry.value (real_value 2))], il⟩) :=
  (C5_postfix_construction sample_env no_math).1
    (Expr.binary "multiply" (Expr.operand "a.mif") (Expr.operand "2")) _ rfl rfl

theorem getD_set_axis (l : List Axis) (n n1 : Nat) (a : Axis) :
    (l.set n a).getD n1 {} = if n = n1 ∧ n < l.length then a else l.getD n1 {} := by
  simp only [List.getD_eq_getElem?_getD, List.getElem?_set]
  by_cases h : n = n1
  · subst h
    by_cases h2 : n < l.length
    · simp [h2]
    · simp [h2, List.getElem?_eq_none (Nat.le_of_not_lt h2)]
  · simp [h]

theorem Header.ndim_set_size (h : Header) (n v : Nat) : (h.set_size n v).ndim = h.ndim := by
  simp [Header.set_size, Header.ndim]

theorem Header.ndim_set_spacing (h : Header) (n : Nat) (v : Option ℚ) :
    (h.set_spacing n v).ndim = h.ndim := by
  simp [Header.set_spacing, Header.ndim]

theorem Header.size_set_size (h : Header) (n v n1 : Nat) :
    (h.set_size n v).size n1 = if n = n1 ∧ n < h.ndim then v else h.size n1 := by
  simp only [Header.set_size, Header.size, Header.ndim, getD_set_axis]
  split <;> rfl

theorem Header.size_set_spacing (h : Header) (n n1 : Nat) (v : Option ℚ) :
    (h.set_spacing n v).size n1 = h.size n1 := by
  simp only [Header.set_spacing, Header.size, getD_set_axis]
  split
  · rename_i hh; rw [hh.1]
  · rfl

theorem Header.size_default (h : Header) (n : Nat) (hn : h.ndim ≤ n) : h.size n = 1 := by
  simp only [Header.size, Header.ndim] at *
  rw [List.getD_eq_default _ _ hn]

theorem Header.ndim_set_ndim (h : Header) (n : Nat) (hn : h.ndim ≤ n) :
    (h.set_ndim n).ndim = n := by
  simp only [Header.set_ndim, Header.ndim, List.length_append, List.length_take,
    List.length_replicate] at *
  omega

theorem Header.size_set_ndim (h : Header) (n a : Nat) (hn : h.ndim ≤ n) :
    (h.set_ndim n).size a = h.size a := by
  simp only [Header.set_ndim, Header.size, Header.ndim] at *
  rw [List.take_of_length_le hn]
  by_cases ha : a < h.axes.length
  · rw [List.getD_append _ _ _ _ ha]
  · have ha : h.axes.length ≤ a := Nat.le_of_not_lt ha
    rw [List.getD_append_right _ _ _ _ ha, List.getD_eq_default _ _ ha]
    simp only [List.getD_eq_getElem?_getD]
    by_cases hb : a - h.axes.length < n - h.axes.length
    · simp [List.getElem?_replicate, hb]
    · simp [List.getElem?_replicate, hb]
theorem get_header_axis_error (image : Image) (header : Header) (n : Nat)
    (h : axis_mismatch image header n) :
    get_header_axis image header n = .error Error.GeometryMismatch := by
  unfold axis_mismatch at h
  simp [get_header_axis, h]

theorem get_header_axis_ok (image : Image) (header : Header) (n : Nat)
    (h : ¬ axis_mismatch image header n) :
    ∃ h1, get_header_axis image header n = .ok h1 ∧ h1.ndim = header.ndim ∧
      ∀ a, h1.size a =
        if n = a ∧ n < header.ndim then max (header.size n) (image.size n) else header.size a := by
  unfold axis_mismatch at h
  simp only [get_header_axis, h, if_false]
  split
  · refine ⟨_, rfl, ?_, ?_⟩
    · rw [Header.ndim_set_spacing, Header.ndim_set_size]
    · intro a; rw [Header.size_set_spacing, Header.size_set_size]
  · refine ⟨_, rfl, ?_, ?_⟩
    · rw [Header.ndim_set_size]
    · intro a; rw [Header.size_set_size]

theorem get_header_loop (image : Image) (header : Header) (j : Nat) (hj : j ≤ header.ndim) :
    ((∃ n, n < j ∧ axis_mismatch image header n) ∧
      (List.range j).foldlM (get_header_axis image) header = .error Error.GeometryMismatch) ∨
    ((¬ ∃ n, n < j ∧ axis_mismatch image header n) ∧
      ∃ h1, (List.range j).foldlM (get_header_axis image) header = .ok h1 ∧
        h1.ndim = header.ndim ∧
        ∀ a, h1.size a = if a < j then max (header.size a) (image.size a) else header.size a) := by
  induction j with
  | zero =>
    right
    refine ⟨by simp, header, by simp [pure, Except.pure], rfl, by simp⟩
  | succ j ih =>
    rw [List.range_succ, List.foldlM_append]
    rcases ih (by omega) with ⟨⟨n, hn, hm⟩, he⟩ | ⟨hno, h1, hok, hnd, hsz⟩
    · left
      exact ⟨⟨n, by omega, hm⟩, by rw [he]; rfl⟩
    · rw [hok]
      simp only [bind, Except.bind, List.foldlM, pure, Except.pure]
      by_cases hm : axis_mismatch image header j
      · left
        refine ⟨⟨j, by omega, hm⟩, ?_⟩
        have hm1 : axis_mismatch image h1 j := by
          unfold axis_mismatch at hm ⊢
          rw [hsz j]; simpa using hm
        rw [get_header_axis_error image h1 j hm1]
      · right
        have hm1 : ¬ axis_mismatch image h1 j := by
          unfold axis_mismatch at hm ⊢
          rw [hsz j]; simpa using hm
        obtain ⟨h2, hok2, hnd2, hsz2⟩ := get_header_axis_ok image h1 j hm1
        refine ⟨?_, h2, by rw [hok2], by rw [hnd2, hnd], ?_⟩
        · rintro ⟨n, hn, hmn⟩
          rcases Nat.lt_succ_iff_lt_or_eq.mp hn with h | h
          · exact hno ⟨n, h, hmn⟩
          · exact hm (h ▸ hmn)
        · intro a
          rw [hsz2 a, hsz a, hsz j, hnd]
          by_cases haj : j = a
          · subst haj
            have : j < header.ndim := by omega
            simp [this]
          · by_cases ha : a < j
            · have : a < j + 1 := by omega
              simp [haj, ha, this]
            · have : ¬ a < j + 1 := by omega
              simp [haj, ha, this]
theorem get_header_image_spec (image : Image) (header : Header)
    (hh : ∀ a, 1 ≤ header.size a) (hi : ∀ a, 1 ≤ image.size a) :
    ((∃ n, n < image.ndim ∧ axis_mismatch image header n) ∧
      get_header_image image header = .error Error.GeometryMismatch) ∨
    ((¬ ∃ n, n < image.ndim ∧ axis_mismatch image header n) ∧
      ∃ h1, get_header_image image header = .ok h1 ∧
        h1.ndim = max header.ndim image.ndim ∧
        ∀ a, h1.size a = max (header.size a) (image.size a)) := by
  unfold get_header_image
  by_cases h0 : header.ndim = 0
  · right
    have hs : ∀ a, header.size a = 1 := fun a => Header.size_default header a (by omega)
    refine ⟨?_, image.header, by simp [h0], ?_, ?_⟩
    · rintro ⟨n, _, hm⟩
      unfold axis_mismatch at hm
      rw [hs n] at hm
      omega
    · simp [h0, Image.ndim]
    · intro a
      rw [hs a]
      have := hi a
      simp only [Image.size] at this ⊢
      omega
  · simp only [h0, if_false]
    generalize hh1 : (if header.ndim < image.ndim then header.set_ndim image.ndim else header) = h1
    have hnd : h1.ndim = max header.ndim image.ndim := by
      rw [← hh1]
      split
      · rename_i hlt
        rw [Header.ndim_set_ndim _ _ (by omega)]; omega
      · omega
    have hsz : ∀ a, h1.size a = header.size a := by
      intro a
      rw [← hh1]
      split
      · rename_i hlt
        rw [Header.size_set_ndim _ _ _ (by omega)]
      · rfl
    have hmin : min h1.ndim image.ndim = image.ndim := by rw [hnd]; omega
    rw [hmin]
    have hmm : ∀ n, axis_mismatch image h1 n ↔ axis_mismatch image header n := by
      intro n; unfold axis_mismatch; rw [hsz n]
    rcases get_header_loop image h1 image.ndim (by rw [hnd]; omega) with
      ⟨⟨n, hn, hm⟩, he⟩ | ⟨hno, h2, hok, hnd2, hsz2⟩
    · left
      exact ⟨⟨n, hn, (hmm n).mp hm⟩, he⟩
    · right
      refine ⟨?_, h2, hok, by rw [hnd2, hnd], ?_⟩
      · rintro ⟨n, hn, hm⟩
        exact hno ⟨n, hn, (hmm n).mpr hm⟩
      · intro a
        rw [hsz2 a, hsz a]
        split
        · rfl
        · rename_i ha
          have h1a : image.size a = 1 := Header.size_default image.header a (by
            simp only [Image.ndim] at ha; omega)
          have := hh a
          omega

theorem get_header_leaves (e : StackEntry) :
    ∀ header, get_header e header
      = e.image_leaves.foldlM (fun h image => get_header_image image h) header := by
  induction e with
  | arg _ => intro h; rfl
  | image _ _ => intro h; simp [get_header, StackEntry.image_leaves]
  | rng _ => intro h; rfl
  | value _ => intro h; rfl
  | unary _ _ a iha => intro h; simp [get_header, StackEntry.image_leaves, iha]
  | binary _ _ a b iha ihb =>
    intro h
    simp only [get_header, StackEntry.image_leaves, List.foldlM_append, iha]
    congr 1
    funext h1
    exact ihb h1
  | ternary _ _ a b c iha ihb ihc =>
    intro h
    simp only [get_header, StackEntry.image_leaves, List.foldlM_append, iha, bind_assoc]
    congr 1
    funext h1
    rw [ihb]
    congr 1
    funext h2
    exact ihc h2
theorem Image.size_ge_one (i : Image) (h : i.well_formed = true) (a : Nat) : 1 ≤ i.size a := by
  by_cases ha : a < i.ndim
  · simp only [Image.well_formed, List.all_eq_true, decide_eq_true_eq] at h
    simp only [Image.ndim, Header.ndim] at ha
    simp only [Image.size, Header.size, List.getD_eq_getElem?_getD, List.getElem?_eq_getElem ha,
      Option.getD_some]
    exact h _ (List.getElem_mem ha)
  · rw [Image.size, Header.size_default i.header a (by simp only [Image.ndim] at ha; omega)]

theorem Image.lt_ndim_of_size (i : Image) (a : Nat) (h : 1 < i.size a) : a < i.ndim := by
  by_contra ha
  rw [Image.size, Header.size_default i.header a (by simp only [Image.ndim] at ha; omega)] at h
  omega

theorem header_invariant_step (L : List Image) (h h1 : Header) (image : Image)
    (hinv : header_invariant L h) (hw : image.well_formed = true)
    (hno : ¬ ∃ n, n < image.ndim ∧ axis_mismatch image h n)
    (hnd : h1.ndim = max h.ndim image.ndim)
    (hsz : ∀ a, h1.size a = max (h.size a) (image.size a)) :
    header_invariant (L ++ [image]) h1 := by
  obtain ⟨i1, i2, i3, i4, i5, i6⟩ := hinv
  have hcompat : ∀ a, 1 < h.size a → 1 < image.size a → h.size a = image.size a := by
    intro a ha hb
    by_contra hne
    exact hno ⟨a, Image.lt_ndim_of_size image a hb, ha, hb, hne⟩
  have hi1 := Image.size_ge_one image hw
  refine ⟨?_, ?_, ?_, ?_, ?_, ?_⟩
  · intro a; rw [hsz a]; have := i1 a; omega
  · intro l hl
    rw [hnd]
    rcases List.mem_append.mp hl with hl | hl
    · have := i2 l hl; omega
    · simp only [List.mem_singleton] at hl; subst hl; omega
  · right
    by_cases hc : image.ndim ≤ h.ndim
    · rcases i3 with h0 | ⟨l, hl, hln⟩
      · exact ⟨image, by simp, by rw [hnd, h0]; simp⟩
      · exact ⟨l, List.mem_append_left _ hl, by rw [hnd, hln]; exact (Nat.max_eq_left hc).symm⟩
    · exact ⟨image, by simp, by
        rw [hnd]; exact (Nat.max_eq_right (Nat.le_of_lt (Nat.lt_of_not_le hc))).symm⟩
  · intro l hl a
    rw [hsz a]
    rcases List.mem_append.mp hl with hl | hl
    · rcases i4 l hl a with hs | hs
      · left; exact hs
      · by_cases h1a : 1 < h.size a
        · by_cases h2a : 1 < image.size a
          · right; rw [hs, hcompat a h1a h2a]; simp
          · right; have := hi1 a; rw [hs]; omega
        · left; have := i1 a; omega
    · simp only [List.mem_singleton] at hl; subst hl
      by_cases h2a : 1 < l.size a
      · by_cases h1a : 1 < h.size a
        · right; rw [hcompat a h1a h2a]; simp
        · right; have := i1 a; omega
      · left; have := hi1 a; omega
  · intro a ha
    rw [hsz a] at ha ⊢
    by_cases h1a : 1 < h.size a
    · by_cases h2a : 1 < image.size a
      · exact ⟨image, by simp, by rw [hcompat a h1a h2a]; simp⟩
      · obtain ⟨l, hl, hls⟩ := i5 a h1a
        exact ⟨l, List.mem_append_left _ hl, by rw [hls]; omega⟩
    · exact ⟨image, by simp, by have := i1 a; omega⟩
  · have hpair : ∀ l ∈ L, ∀ a, 1 < l.size a → 1 < image.size a → l.size a = image.size a := by
      intro l hl a ha hb
      rcases i4 l hl a with hs | hs
      · omega
      · rw [hs]; exact hcompat a (by omega) hb
    intro l1 hl1 l2 hl2
    rcases List.mem_append.mp hl1 with hm1 | hm1 <;>
      rcases List.mem_append.mp hl2 with hm2 | hm2
    · exact i6 l1 hm1 l2 hm2
    · simp only [List.mem_singleton] at hm2
      rintro ⟨a, _, _, hne, h1, h2⟩
      exact hne (hpair l1 hm1 a h1 (hm2 ▸ h2) ▸ hm2 ▸ rfl)
    · simp only [List.mem_singleton] at hm1
      rintro ⟨a, _, _, hne, h1, h2⟩
      exact hne (hm1 ▸ (hpair l2 hm2 a h2 (hm1 ▸ h1)).symm)
    · simp only [List.mem_singleton] at hm1 hm2
      rintro ⟨a, _, _, hne, _, _⟩
      exact hne (by rw [hm1, hm2])

theorem get_header_fold (R : List Image) :
    ∀ (L : List Image) (h : Header), header_invariant L h → (∀ l ∈ R, l.well_formed = true) →
    ((∃ l1 ∈ L ++ R, ∃ l2 ∈ L ++ R, l1.mismatch l2) ∧
      R.foldlM (fun h image => get_header_image image h) h = .error Error.GeometryMismatch) ∨
    ((¬ ∃ l1 ∈ L ++ R, ∃ l2 ∈ L ++ R, l1.mismatch l2) ∧
      ∃ h1, R.foldlM (fun h image => get_header_image image h) h = .ok h1 ∧
        header_invariant (L ++ R) h1) := by
  induction R with
  | nil =>
    intro L h hinv _
    right
    simp only [List.append_nil]
    refine ⟨?_, h, rfl, hinv⟩
    rintro ⟨l1, hl1, l2, hl2, hm⟩
    exact hinv.2.2.2.2.2 l1 hl1 l2 hl2 hm
  | cons image R ih =>
    intro L h hinv hw
    have hwi := hw image (by simp)
    simp only [List.foldlM]
    rcases get_header_image_spec image h hinv.1 (Image.size_ge_one image hwi) with
      ⟨⟨n, hn, hm⟩, he⟩ | ⟨hno, h1, hok, hnd, hsz⟩
    · left
      obtain ⟨l, hl, hls⟩ := hinv.2.2.2.2.1 n hm.1
      refine ⟨⟨l, by simp [hl], image, by simp, n, ?_, hn, ?_, ?_, hm.2.1⟩, by rw [he]; rfl⟩
      · exact Image.lt_ndim_of_size l n (by rw [hls]; exact hm.1)
      · rw [hls]; exact hm.2.2
      · rw [hls]; exact hm.1
    · rw [hok]
      have hstep := header_invariant_step L h h1 image hinv hwi hno hnd hsz
      have := ih (L ++ [image]) h1 hstep (fun l hl => hw l (by simp [hl]))
      simpa only [List.append_assoc, List.singleton_append, bind, Except.bind] using this

theorem header_invariant_empty : header_invariant [] Header.empty := by
  refine ⟨fun a => by simp [Header.size, Header.empty], by simp, Or.inl rfl, by simp, ?_, by simp⟩
  intro a ha
  simp [Header.size, Header.empty] at ha

theorem get_header_spec (e : StackEntry) (hw : ∀ l ∈ e.image_leaves, l.well_formed = true) :
    ((∃ l1 ∈ e.image_leaves, ∃ l2 ∈ e.image_leaves, l1.mismatch l2) ∧
      get_header e Header.empty = .error Error.GeometryMismatch) ∨
    ((¬ ∃ l1 ∈ e.image_leaves, ∃ l2 ∈ e.image_leaves, l1.mismatch l2) ∧
      ∃ h1, get_header e Header.empty = .ok h1 ∧ header_invariant e.image_leaves h1) := by
  rw [get_header_leaves]
  simpa using get_header_fold e.image_leaves [] Header.empty header_invariant_empty hw

/-- C3. When `get_header` succeeds on a tree of well-formed images that has an
image leaf, the number of axes of the header is the greatest number of axes of
an image leaf, and its size on an axis is the greatest size on that axis of the
image leaves that have the axis; leaves of shapes 2×2×1 and 1×1×3 give the
shape 2×2×3. -/
theorem C3_output_geometry (e : StackEntry) (header : Header)
    (hw : ∀ l ∈ e.image_leaves, l.well_formed = true) (hne : e.image_leaves ≠ [])
    (h : get_header e Header.empty = .ok header) :
    ((∀ l ∈ e.image_leaves, l.ndim ≤ header.ndim) ∧
      ∃ l ∈ e.image_leaves, l.ndim = header.ndim) ∧
    (∀ a, a < header.ndim →
      (∀ l ∈ e.image_leaves, a < l.ndim → l.size a ≤ header.size a) ∧
      ∃ l ∈ e.image_leaves, a < l.ndim ∧ l.size a = header.size a) ∧
    (get_header (StackEntry.binary "add" OpAdd (StackEntry.image image_b false)
        (StackEntry.image image_c false)) Header.empty).map Header.sizes = .ok [2, 2, 3] := by
  rcases get_header_spec e hw with ⟨_, he⟩ | ⟨_, h1, hok, i1, i2, i3, i4, i5, _⟩
  · rw [he] at h; cases h
  · rw [hok] at h
    simp only [Except.ok.injEq] at h
    subst h
    have hlead : ∃ l ∈ e.image_leaves, l.ndim = h1.ndim := by
      rcases i3 with h0 | hl
      · obtain ⟨l, hl⟩ := List.exists_mem_of_ne_nil _ hne
        exact ⟨l, hl, by have := i2 l hl; omega⟩
      · exact hl
    refine ⟨⟨i2, hlead⟩, ?_, rfl⟩
    intro a ha
    refine ⟨?_, ?_⟩
    · intro l hl _
      rcases i4 l hl a with hs | hs
      · rw [hs]; exact i1 a
      · rw [hs]
    · by_cases h1a : 1 < h1.size a
      · obtain ⟨l, hl, hls⟩ := i5 a h1a
        exact ⟨l, hl, Image.lt_ndim_of_size l a (by rw [hls]; exact h1a), hls⟩
      · obtain ⟨l, hl, hln⟩ := hlead
        refine ⟨l, hl, by rw [hln]; exact ha, ?_⟩
        rcases i4 l hl a with hs | hs
        · rw [hs]; have := i1 a; omega
        · exact hs

/-- C3, at the sum of the images of shapes 2×2×1 and 1×1×3 and the third axis. -/
theorem C3_output_geometry_witness :
    ∃ l ∈ [image_b, image_c], 2 < l.ndim ∧ l.size 2 = 3 :=
  ((C3_output_geometry (StackEntry.binary "add" OpAdd (StackEntry.image image_b false)
      (StackEntry.image image_c false))
    (Header.mk "b.mif" [⟨2, none⟩, ⟨2, none⟩, ⟨3, none⟩] DataType.Float32)
    (by decide) (by simp [StackEntry.image_leaves]) rfl).2.1 2 (by decide)).2

/-- C4. On a tree of well-formed images `get_header` throws GeometryMismatch if
and only if two image leaves have an axis in common on which their sizes differ
and both exceed 1; otherwise it succeeds, and the size of every image leaf on
each of its axes is 1 or the size of the header. -/
theorem C4_geometry_compatibility (e : StackEntry)
    (hw : ∀ l ∈ e.image_leaves, l.well_formed = true) :
    (get_header e Header.empty = .error Error.GeometryMismatch ↔
      ∃ l1 ∈ e.image_leaves, ∃ l2 ∈ e.image_leaves, l1.mismatch l2) ∧
    ((¬ ∃ l1 ∈ e.image_leaves, ∃ l2 ∈ e.image_leaves, l1.mismatch l2) →
      ∃ header, get_header e Header.empty = .ok header) ∧
    (∀ header, get_header e Header.empty = .ok header →
      ∀ l ∈ e.image_leaves, ∀ a, a < l.ndim → l.size a = 1 ∨ l.size a = header.size a) := by
  rcases get_header_spec e hw with ⟨hm, he⟩ | ⟨hno, h1, hok, hinv⟩
  · refine ⟨⟨fun _ => hm, fun _ => he⟩, fun hno => (hno hm).elim, ?_⟩
    intro header hh
    rw [he] at hh; cases hh
  · refine ⟨⟨fun hh => ?_, fun hm => (hno hm).elim⟩, fun _ => ⟨h1, hok⟩, ?_⟩
    · rw [hok] at hh; cases hh
    · intro header hh l hl a _
      rw [hok] at hh
      simp only [Except.ok.injEq] at hh
      subst hh
      exact hinv.2.2.2.1 l hl a

/-- C4, at the images `a.mif` of shape 2×2 and `e.mif` of shape 3×2. -/
theorem C4_geometry_compatibility_witness :
    get_header (StackEntry.binary "add" OpAdd (StackEntry.image image_a false)
      (StackEntry.image image_e false)) Header.empty = .error Error.GeometryMismatch :=
  (C4_geometry_compatibility (StackEntry.binary "add" OpAdd (StackEntry.image image_a false)
      (StackEntry.image image_e false)) (by decide)).1.mpr
    ⟨image_a, by simp [StackEntry.image_leaves], image_e, by simp [StackEntry.image_leaves],
      0, by decide, by decide, by decide, by decide, by decide⟩

theorem foldl_range_invariant {α : Type} (f : α → Nat → α) (P : Nat → α → Prop) (init : α)
    (n : Nat) (h0 : P 0 init) (hstep : ∀ k a, k < n → P k a → P (k + 1) (f a k)) :
    P n ((List.range n).foldl f init) := by
  induction n with
  | zero => simpa using h0
  | succ n ih =>
    rw [List.range_succ, List.foldl_append]
    simp only [List.foldl_cons, List.foldl_nil]
    exact hstep n _ (by omega) (ih (fun k a hk hp => hstep k a (by omega) hp))

theorem getD_set (l : List Nat) (n n1 v : Nat) :
    (l.set n v).getD n1 0 = if n = n1 ∧ n < l.length then v else l.getD n1 0 := by
  simp only [List.getD_eq_getElem?_getD, List.getElem?_set]
  by_cases h : n = n1
  · subst h
    by_cases h2 : n < l.length
    · simp [h2]
    · simp [h2, List.getElem?_eq_none (Nat.le_of_not_lt h2)]
  · simp [h]

theorem list_eq_of_getD (l1 l2 : List Nat) (hlen : l1.length = l2.length)
    (h : ∀ n, n < l1.length → l1.getD n 0 = l2.getD n 0) : l1 = l2 := by
  apply List.ext_getElem hlen
  intro n h1 h2
  have := h n h1
  simpa [List.getD_eq_getElem?_getD, List.getElem?_eq_getElem h1,
    List.getElem?_eq_getElem h2] using this

theorem tile_position_length (image : Image) (iter : List Nat) (axes : Nat × Nat) (x y : Nat) :
    (tile_position image iter axes x y).length = image.ndim := by
  simp [tile_position]

theorem tile_position_getD (image : Image) (iter : List Nat) (axes : Nat × Nat) (x y n : Nat)
    (hn : n < image.ndim) :
    (tile_position image iter axes x y).getD n 0 =
      if image.size n > 1 then
        (if n = axes.1 then x else if n = axes.2 then y else iter.getD n 0)
      else 0 := by
  simp [tile_position, List.getD_eq_getElem?_getD, List.getElem?_map, List.getElem?_range hn]

/-- The first loop of `load`. -/
theorem load_outer_index (st : ThreadLocalStorage) (cur : Cursor)
    (hlen : cur.index.length = cur.image.ndim) :
    let c1 := (List.range cur.image.ndim).foldl
      (fun (image : Cursor) n =>
        if image.image.size n > 1 then image.set_index n (st.iter.getD n 0) else image) cur
    c1.image = cur.image ∧ c1.index.length = cur.image.ndim ∧
    ∀ n, n < cur.image.ndim → c1.index.getD n 0 =
      if cur.image.size n > 1 then st.iter.getD n 0 else cur.index.getD n 0 := by
  intro c1
  have := foldl_range_invariant
    (fun (image : Cursor) n =>
        if image.image.size n > 1 then image.set_index n (st.iter.getD n 0) else image)
    (fun k c => c.image = cur.image ∧ c.index.length = cur.image.ndim ∧
      ∀ n, n < cur.image.ndim → c.index.getD n 0 =
        if n < k ∧ cur.image.size n > 1 then st.iter.getD n 0 else cur.index.getD n 0)
    cur cur.image.ndim ⟨rfl, hlen, by simp⟩ (by
      intro k c hk ⟨hi, hl, hp⟩
      simp only [hi]
      split
      · rename_i hs
        refine ⟨hi, by simp [Cursor.set_index, hl], ?_⟩
        intro n hn
        simp only [Cursor.set_index, getD_set, hl, hp n hn]
        by_cases hkn : k = n
        · subst hkn; simp [hk, hs]
        · have : (n < k + 1) ↔ (n < k) := by omega
          simp [hkn, this]
      · rename_i hs
        refine ⟨hi, hl, ?_⟩
        intro n hn
        rw [hp n hn]
        by_cases hkn : k = n
        · subst hkn; simp [hs]
        · have : (n < k + 1) ↔ (n < k) := by omega
          simp [this])
  obtain ⟨h1, h2, h3⟩ := this
  refine ⟨h1, h2, ?_⟩
  intro n hn
  rw [h3 n hn]
  simp [hn]
theorem load_x_step (st : ThreadLocalStorage) (img : Image) (value : complex_type) (L y x : Nat)
    (r : Chunk × Cursor × Nat) (hx : x < st.size.1) (hL : (y + 1) * st.size.1 ≤ L)
    (hinv : load_invariant st img value L r) (hn : r.2.2 = y * st.size.1 + x)
    (hy : st.axes.2 < img.ndim → img.size st.axes.2 > 1 → st.axes.2 ≠ st.axes.1 →
      r.2.1.index.getD st.axes.2 0 = y) :
    load_invariant st img value L (st.load_x r x) ∧
    (st.load_x r x).2.2 = y * st.size.1 + (x + 1) ∧
    (st.axes.2 < img.ndim → img.size st.axes.2 > 1 → st.axes.2 ≠ st.axes.1 →
      (st.load_x r x).2.1.index.getD st.axes.2 0 = y) := by
  obtain ⟨hi, hl, hR, hv, hd, hp⟩ := hinv
  -- the cursor after the move on the first inner axis
  generalize hc : (if st.axes.1 < r.2.1.image.ndim then
      if r.2.1.image.size st.axes.1 > 1 then r.2.1.set_index st.axes.1 x else r.2.1
    else r.2.1) = c
  have hci : c.image = img := by
    rw [← hc]; split
    · split <;> simp [Cursor.set_index, hi]
    · exact hi
  have hcl : c.index.length = img.ndim := by
    rw [← hc]; split
    · split <;> simp [Cursor.set_index, hl]
    · exact hl
  have hcg : ∀ n, c.index.getD n 0 =
      if n = st.axes.1 ∧ st.axes.1 < img.ndim ∧ img.size st.axes.1 > 1 then x
      else r.2.1.index.getD n 0 := by
    intro n
    rw [← hc, hi]
    by_cases h1 : st.axes.1 < img.ndim
    · by_cases h2 : img.size st.axes.1 > 1
      · simp only [h1, h2, if_true, Cursor.set_index, getD_set, hl, and_true]
        by_cases h3 : st.axes.1 = n
        · simp [h3]
        · have : ¬ n = st.axes.1 := fun h => h3 h.symm
          simp [h3, this]
      · simp [h1, h2]
    · simp [h1]
  have hpos : c.index = tile_position img st.iter st.axes x y := by
    apply list_eq_of_getD
    · rw [hcl, tile_position_length]
    · intro n hn
      rw [hcl] at hn
      rw [tile_position_getD _ _ _ _ _ _ hn, hcg n]
      by_cases hs : img.size n > 1
      · by_cases h0 : n = st.axes.1
        · subst h0; simp [hs, hn]
        · by_cases h1 : n = st.axes.2
          · subst h1
            simp only [hs, h0, if_true, if_false, false_and]
            exact hy hn hs h0
          · simp only [hs, h0, h1, if_true, if_false, false_and]
            exact (hR n hn).2 hs h0 h1
      · have hs1 : img.size n ≤ 1 := by omega
        have h0 : ¬ (n = st.axes.1 ∧ st.axes.1 < img.ndim ∧ img.size st.axes.1 > 1) := by
          rintro ⟨h, _, h2⟩; rw [← h] at h2; exact hs h2
        simp only [hs, h0, if_false]
        exact (hR n hn).1 hs1
  have hload : st.load_x r x = ({ r.1 with data := r.1.data.set r.2.2 c.value }, c, r.2.2 + 1) := by
    simp only [ThreadLocalStorage.load_x, hc]
  rw [hload]
  refine ⟨⟨hci, hcl, ?_, hv, by simp [hd], ?_⟩, by simp [hn]; omega, ?_⟩
  · intro n hn1
    rw [hcg n]
    refine ⟨fun hs => ?_, fun hs h0 h1 => ?_⟩
    · have h0 : ¬ (n = st.axes.1 ∧ st.axes.1 < img.ndim ∧ img.size st.axes.1 > 1) := by
        rintro ⟨h, _, h2⟩; rw [← h] at h2; omega
      simp only [h0, if_false]
      exact (hR n hn1).1 hs
    · simp only [h0, false_and, if_false]
      exact (hR n hn1).2 hs h0 h1
  · intro k hk
    simp only [List.getElem?_set]
    by_cases hkn : r.2.2 = k
    · have hlt : r.2.2 < r.1.data.length := by
        rw [hd, hn]
        have : y * st.size.1 + x < (y + 1) * st.size.1 := by
          rw [Nat.add_mul, Nat.one_mul]; omega
        omega
      have hmod : k % st.size.1 = x := by
        rw [← hkn, hn, Nat.mul_comm, Nat.mul_add_mod, Nat.mod_eq_of_lt hx]
      have hdiv : k / st.size.1 = y := by
        rw [← hkn, hn, Nat.mul_comm, Nat.mul_add_div (by omega), Nat.div_eq_of_lt hx]; simp
      simp only [hkn ▸ hlt, hkn, if_true, Cursor.value, hpos, hci, hmod, hdiv]
    · simp only [hkn, if_false]
      exact hp k (by simp only at hk; omega)
  · intro h1 h2 h3
    rw [hcg]
    have : ¬ (st.axes.2 = st.axes.1 ∧ st.axes.1 < img.ndim ∧ img.size st.axes.1 > 1) :=
      fun h => h3 h.1
    simp only [this, if_false]
    exact hy h1 h2 h3
theorem load_y_step (st : ThreadLocalStorage) (img : Image) (value : complex_type) (L y : Nat)
    (r : Chunk × Cursor × Nat) (hL : (y + 1) * st.size.1 ≤ L)
    (hinv : load_invariant st img value L r) (hn : r.2.2 = y * st.size.1) :
    load_invariant st img value L (st.load_y r y) ∧
    (st.load_y r y).2.2 = (y + 1) * st.size.1 := by
  obtain ⟨hi, hl, hR, hv, hd, hp⟩ := hinv
  generalize hc : (if st.axes.2 < r.2.1.image.ndim then
      if r.2.1.image.size st.axes.2 > 1 then r.2.1.set_index st.axes.2 y else r.2.1
    else r.2.1) = c
  have hci : c.image = img := by
    rw [← hc]; split
    · split <;> simp [Cursor.set_index, hi]
    · exact hi
  have hcl : c.index.length = img.ndim := by
    rw [← hc]; split
    · split <;> simp [Cursor.set_index, hl]
    · exact hl
  have hcg : ∀ n, c.index.getD n 0 =
      if n = st.axes.2 ∧ st.axes.2 < img.ndim ∧ img.size st.axes.2 > 1 then y
      else r.2.1.index.getD n 0 := by
    intro n
    rw [← hc, hi]
    by_cases h1 : st.axes.2 < img.ndim
    · by_cases h2 : img.size st.axes.2 > 1
      · simp only [h1, h2, if_true, Cursor.set_index, getD_set, hl, and_true]
        by_cases h3 : st.axes.2 = n
        · simp [h3]
        · have : ¬ n = st.axes.2 := fun h => h3 h.symm
          simp [h3, this]
      · simp [h1, h2]
    · simp [h1]
  have hstart : load_invariant st img value L (r.1, c, r.2.2) := by
    refine ⟨hci, hcl, ?_, hv, hd, hp⟩
    intro n hn1
    rw [hcg n]
    refine ⟨fun hs => ?_, fun hs h0 h1 => ?_⟩
    · have h0 : ¬ (n = st.axes.2 ∧ st.axes.2 < img.ndim ∧ img.size st.axes.2 > 1) := by
        rintro ⟨h, _, h2⟩; rw [← h] at h2; omega
      simp only [h0, if_false]
      exact (hR n hn1).1 hs
    · simp only [h1, false_and, if_false]
      exact (hR n hn1).2 hs h0 h1
  have hrow : (st.axes.2 < img.ndim → img.size st.axes.2 > 1 → st.axes.2 ≠ st.axes.1 →
      c.index.getD st.axes.2 0 = y) := by
    intro h1 h2 _
    rw [hcg]; simp [h1, h2]
  have hload : st.load_y r y = (List.range st.size.1).foldl st.load_x (r.1, c, r.2.2) := by
    simp only [ThreadLocalStorage.load_y, hc]
  rw [hload]
  have := foldl_range_invariant st.load_x
    (fun x r1 => load_invariant st img value L r1 ∧ r1.2.2 = y * st.size.1 + x ∧
      (st.axes.2 < img.ndim → img.size st.axes.2 > 1 → st.axes.2 ≠ st.axes.1 →
        r1.2.1.index.getD st.axes.2 0 = y))
    (r.1, c, r.2.2) st.size.1 ⟨hstart, by simp [hn], hrow⟩
    (fun x r1 hx ⟨h1, h2, h3⟩ => load_x_step st img value L y x r1 hx hL h1 h2 h3)
  exact ⟨this.1, by rw [this.2.1, Nat.add_mul, Nat.one_mul]⟩

theorem load_spec (st : ThreadLocalStorage) (chunk : Chunk) (cur : Cursor)
    (hcur : cur.at_origin) (hL : chunk.data.length = st.size.1 * st.size.2) :
    (st.load chunk cur).1.value = chunk.value ∧
    (st.load chunk cur).1.data = (List.range (st.size.1 * st.size.2)).map (fun k =>
      cur.image.data (tile_position cur.image st.iter st.axes (k % st.size.1) (k / st.size.1))) ∧
    (st.load chunk cur).2.image = cur.image ∧ (st.load chunk cur).2.at_origin := by
  obtain ⟨h1, h2, h3⟩ := load_outer_index st cur hcur.1
  generalize hc : (List.range cur.image.ndim).foldl
      (fun (image : Cursor) n =>
        if image.image.size n > 1 then image.set_index n (st.iter.getD n 0) else image) cur = c1
    at h1 h2 h3
  have hstart : load_invariant st cur.image chunk.value (st.size.1 * st.size.2) (chunk, c1, 0) := by
    refine ⟨h1, h2, ?_, rfl, hL, by simp⟩
    intro n hn
    rw [h3 n hn]
    refine ⟨fun hs => ?_, fun hs _ _ => ?_⟩
    · have : ¬ cur.image.size n > 1 := by omega
      simp only [this, if_false]
      exact hcur.2 n hn hs
    · simp [hs]
  have := foldl_range_invariant st.load_y
    (fun y r => load_invariant st cur.image chunk.value (st.size.1 * st.size.2) r ∧
      r.2.2 = y * st.size.1)
    (chunk, c1, 0) st.size.2 ⟨hstart, by simp⟩
    (fun y r hy ⟨h4, h5⟩ => load_y_step st cur.image chunk.value _ y r (by
      rw [Nat.mul_comm st.size.1]; exact Nat.mul_le_mul_right _ hy) h4 h5)
  have hload : st.load chunk cur =
      (((List.range st.size.2).foldl st.load_y (chunk, c1, 0)).1,
       ((List.range st.size.2).foldl st.load_y (chunk, c1, 0)).2.1) := by
    simp only [ThreadLocalStorage.load, hc]
  rw [hload]
  obtain ⟨⟨gi, gl, gR, gv, gd, gp⟩, gn⟩ := this
  refine ⟨gv, ?_, gi, ?_⟩
  · apply List.ext_getElem?
    intro k
    by_cases hk : k < st.size.1 * st.size.2
    · rw [gp k (by rw [gn, Nat.mul_comm]; exact hk)]
      simp [List.getElem?_map, List.getElem?_range hk]
    · rw [List.getElem?_eq_none (by rw [gd]; omega), List.getElem?_eq_none (by simp; omega)]
  · refine ⟨by rw [gl, gi], ?_⟩
    intro n hn hs
    rw [gi] at hn hs
    exact (gR n hn).1 hs
theorem mapM_ok {α β : Type} (f : α → Except Error β) (g : α → β) (l : List α)
    (h : ∀ x ∈ l, f x = .ok (g x)) : l.mapM f = .ok (l.map g) := by
  induction l with
  | nil => rfl
  | cons x l ih =>
    rw [List.mapM_cons, h x (by simp), ih (fun y hy => h y (by simp [hy]))]
    rfl

theorem mapM_error {α β : Type} (f : α → Except Error β) (e : Error) (l : List α)
    (hl : l ≠ []) (h : ∀ x ∈ l, f x = .error e) : l.mapM f = .error e := by
  cases l with
  | nil => exact (hl rfl).elim
  | cons x l =>
    rw [List.mapM_cons, h x (by simp)]
    rfl

theorem getD_set_item (l : List ThreadLocalStorageItem) (n n1 : Nat)
    (a : ThreadLocalStorageItem) :
    (l.set n a).getD n1 {} = if n = n1 ∧ n < l.length then a else l.getD n1 {} := by
  simp only [List.getD_eq_getElem?_getD, List.getElem?_set]
  by_cases h : n = n1
  · subst h
    by_cases h2 : n < l.length
    · simp [h2]
    · simp [h2, List.getElem?_eq_none (Nat.le_of_not_lt h2)]
  · simp [h]

theorem set_data_length (st : ThreadLocalStorage) (i : Nat) (data : List complex_type) :
    (st.set_data i data).items.length = st.items.length := by
  simp [ThreadLocalStorage.set_data]

theorem set_data_getD (st : ThreadLocalStorage) (i j : Nat) (data : List complex_type) :
    (st.set_data i data).items.getD j {} =
      if i = j ∧ i < st.items.length then
        { st.items.getD i {} with chunk := { (st.items.getD i {}).chunk with data := data } }
      else st.items.getD j {} := by
  simp only [ThreadLocalStorage.set_data, getD_set_item]

theorem set_data_chunk (st : ThreadLocalStorage) (i j : Nat) (data : List complex_type) :
    (st.set_data i data).chunk j =
      if i = j ∧ i < st.items.length then { st.chunk i with data := data } else st.chunk j := by
  simp only [ThreadLocalStorage.chunk, set_data_getD]
  split <;> rfl

theorem storage_fits_congr (N : Nat) (t : StackEntry) :
    ∀ (items items1 : List ThreadLocalStorageItem) (c : Nat),
      items1.length = items.length →
      (∀ i, c ≤ i → i < c + t.leaf_count → items1.getD i {} = items.getD i {}) →
      storage_fits N t items c → storage_fits N t items1 c := by
  induction t with
  | arg s =>
    intro items items1 c hl h hf
    simp only [storage_fits, StackEntry.leaf_count] at *
    rw [hl, h c (by omega) (by omega)]; exact hf
  | image _ _ =>
    intro items items1 c hl h hf
    simp only [storage_fits, StackEntry.leaf_count] at *
    rw [hl, h c (by omega) (by omega)]; exact hf
  | rng _ =>
    intro items items1 c hl h hf
    simp only [storage_fits, StackEntry.leaf_count] at *
    rw [hl, h c (by omega) (by omega)]; exact hf
  | value _ =>
    intro items items1 c hl h hf
    simp only [storage_fits, StackEntry.leaf_count] at *
    rw [hl, h c (by omega) (by omega)]; exact hf
  | unary _ _ a iha =>
    intro items items1 c hl h hf
    simp only [storage_fits, StackEntry.leaf_count] at *
    exact iha items items1 c hl h hf
  | binary _ _ a b iha ihb =>
    intro items items1 c hl h hf
    simp only [storage_fits, StackEntry.leaf_count] at *
    exact ⟨iha items items1 c hl (fun i h1 h2 => h i h1 (by omega)) hf.1,
      ihb items items1 _ hl (fun i h1 h2 => h i (by omega) (by omega)) hf.2⟩
  | ternary _ _ a b c1 iha ihb ihc =>
    intro items items1 c hl h hf
    simp only [storage_fits, StackEntry.leaf_count] at *
    exact ⟨iha items items1 c hl (fun i h1 h2 => h i h1 (by omega)) hf.1,
      ihb items items1 _ hl (fun i h1 h2 => h i (by omega) (by omega)) hf.2.1,
      ihc items items1 _ hl (fun i h1 h2 => h i (by omega) (by omega)) hf.2.2⟩

theorem slot_fits_set_data (N : Nat) (e : StackEntry) (item : ThreadLocalStorageItem)
    (data : List complex_type) (hd : data.length = item.chunk.data.length)
    (h : slot_fits N e item) :
    slot_fits N e { item with chunk := { item.chunk with data := data } } := by
  cases e with
  | arg _ =>
    simp only [slot_fits] at *
    exact ⟨List.eq_nil_of_length_eq_zero (by rw [hd, h.1]; rfl), h.2⟩
  | value _ =>
    simp only [slot_fits] at *
    exact ⟨List.eq_nil_of_length_eq_zero (by rw [hd, h.1]; rfl), h.2⟩
  | image _ _ => simp only [slot_fits] at *; exact ⟨by rw [hd]; exact h.1, h.2⟩
  | rng _ => simp only [slot_fits] at *; exact ⟨by rw [hd]; exact h.1, h.2⟩
  | unary _ _ _ => exact h
  | binary _ _ _ _ => exact h
  | ternary _ _ _ _ _ => exact h

theorem storage_fits_set_data (N : Nat) (t : StackEntry) :
    ∀ (st : ThreadLocalStorage) (c r : Nat) (data : List complex_type),
      data.length = (st.chunk r).data.length →
      storage_fits N t st.items c → storage_fits N t (st.set_data r data).items c := by
  induction t with
  | arg s =>
    intro st c r data hd hf
    simp only [storage_fits, set_data_length, set_data_getD] at *
    refine ⟨hf.1, ?_⟩
    split
    · rename_i h; rw [h.1]
      exact slot_fits_set_data N _ _ data (by rw [hd, ← h.1]; rfl) hf.2
    · exact hf.2
  | image _ _ =>
    intro st c r data hd hf
    simp only [storage_fits, set_data_length, set_data_getD] at *
    refine ⟨hf.1, ?_⟩
    split
    · rename_i h; rw [h.1]
      exact slot_fits_set_data N _ _ data (by rw [hd, ← h.1]; rfl) hf.2
    · exact hf.2
  | rng _ =>
    intro st c r data hd hf
    simp only [storage_fits, set_data_length, set_data_getD] at *
    refine ⟨hf.1, ?_⟩
    split
    · rename_i h; rw [h.1]
      exact slot_fits_set_data N _ _ data (by rw [hd, ← h.1]; rfl) hf.2
    · exact hf.2
  | value _ =>
    intro st c r data hd hf
    simp only [storage_fits, set_data_length, set_data_getD] at *
    refine ⟨hf.1, ?_⟩
    split
    · rename_i h; rw [h.1]
      exact slot_fits_set_data N _ _ data (by rw [hd, ← h.1]; rfl) hf.2
    · exact hf.2
  | unary _ _ a iha =>
    intro st c r data hd hf
    simp only [storage_fits] at *
    exact iha st c r data hd hf
  | binary _ _ a b iha ihb =>
    intro st c r data hd hf
    simp only [storage_fits] at *
    exact ⟨iha st c r data hd hf.1, ihb st _ r data hd hf.2⟩
  | ternary _ _ a b c1 iha ihb ihc =>
    intro st c r data hd hf
    simp only [storage_fits] at *
    exact ⟨iha st c r data hd hf.1, ihb st _ r data hd hf.2.1, ihc st _ r data hd hf.2.2⟩
theorem chunk_operand (N : Nat) (bc : Bool) (f : Nat → complex_type) (c : Chunk)
    (h : chunk_holds N bc f c) (n : Nat) (hn : n < N) : c.operand n = .ok (f n) := by
  unfold chunk_holds at h
  cases bc with
  | true =>
    simp only [if_true] at h
    simp [Chunk.operand, h.1, h.2 n]
  | false =>
    simp only [Bool.false_eq_true, if_false] at h
    have hl : c.data.length ≠ 0 := by rw [h]; simp; omega
    have hg : c.data.get? n = some (f n) := by
      rw [h]; simp [List.getElem?_map, List.getElem?_range hn]
    simp only [Chunk.operand, hl, ne_eq, not_false_eq_true, if_true, hg]

theorem chunk_holds_length (N : Nat) (bc : Bool) (f : Nat → complex_type) (c : Chunk)
    (h : chunk_holds N bc f c) : c.data.length = if bc then 0 else N := by
  unfold chunk_holds at h
  cases bc with
  | true => simp only [if_true] at h ⊢; rw [h.1]; rfl
  | false => simp only [Bool.false_eq_true, if_false] at h ⊢; rw [h]; simp

theorem unary_evaluate_spec (op : OpUnary) (a : StackEntry) (r : Nat) (st : ThreadLocalStorage)
    (N : Nat) (f : Nat → complex_type)
    (hc : chunk_holds N a.is_broadcast f (st.chunk r)) :
    UnaryEvaluator.evaluate op a r st =
      if a.is_broadcast then .ok (r, st.set_data r [])
      else if N = 0 then .ok (r, st.set_data r [])
      else match (if a.is_complex then op.Z else op.R.map fun R v => R v.real) with
        | some K => .ok (r, st.set_data r ((List.range N).map fun k => K (f k)))
        | none => .error Error.OperationNotSupported := by
  unfold chunk_holds at hc
  cases hb : a.is_broadcast with
  | true =>
    simp only [hb, if_true] at hc
    simp only [UnaryEvaluator.evaluate, hc.1, List.mapM_nil, if_true]
    split <;> rfl
  | false =>
    simp only [hb, Bool.false_eq_true, if_false] at hc
    simp only [UnaryEvaluator.evaluate, hc, Bool.false_eq_true, if_false]
    by_cases hN : N = 0
    · subst hN
      simp only [List.range_zero, List.map_nil, List.mapM_nil, if_true]
      split <;> rfl
    · have hne : (List.range N).map f ≠ [] := by
        cases N with
        | zero => exact (hN rfl).elim
        | succ n => simp [List.range_succ]
      simp only [hN, if_false]
      cases hcx : a.is_complex with
      | true =>
        simp only [if_true]
        cases hZ : op.Z with
        | none =>
          rw [mapM_error _ Error.OperationNotSupported _ hne (fun x _ => by
            simp [call_kernel, bind, Except.bind])]
          rfl
        | some Z =>
          rw [mapM_ok _ (fun v => Z v) _ (fun x _ => by
            simp [call_kernel, bind, Except.bind, pure, Except.pure])]
          simp [bind, Except.bind, pure, Except.pure, List.map_map, Function.comp_def]
      | false =>
        simp only [Bool.false_eq_true, if_false]
        cases hR : op.R with
        | none =>
          rw [mapM_error _ Error.OperationNotSupported _ hne (fun x _ => by
            simp [call_kernel, bind, Except.bind])]
          rfl
        | some R =>
          rw [mapM_ok _ (fun v => R v.real) _ (fun x _ => by
            simp [call_kernel, bind, Except.bind, pure, Except.pure])]
          simp [bind, Except.bind, pure, Except.pure, List.map_map, Function.comp_def]
theorem range_ne_nil (N : Nat) (hN : 1 ≤ N) : List.range N ≠ [] := by
  cases N with
  | zero => omega
  | succ n => simp [List.range_succ]

theorem binary_evaluate_spec (op : OpBinary) (a b : StackEntry) (ra rb : Nat)
    (st : ThreadLocalStorage) (N : Nat) (hN : 1 ≤ N) (fa fb : Nat → complex_type)
    (ha : chunk_holds N a.is_broadcast fa (st.chunk ra))
    (hb : chunk_holds N b.is_broadcast fb (st.chunk rb)) :
    BinaryEvaluator.evaluate op a b ra rb st =
      if a.is_broadcast && b.is_broadcast then .ok (rb, st.set_data rb [])
      else match (if a.is_complex || b.is_complex then op.Z
                  else op.R.map fun R x y => R x.real y.real) with
        | some K => .ok (if a.is_broadcast then rb else ra,
            st.set_data (if a.is_broadcast then rb else ra)
              ((List.range N).map fun k => K (fa k) (fb k)))
        | none => .error Error.OperationNotSupported := by
  have hla := chunk_holds_length N _ fa _ ha
  have hlb := chunk_holds_length N _ fb _ hb
  have hout : (if (st.chunk ra).data.length ≠ 0 then ra else rb)
      = if a.is_broadcast then rb else ra := by
    rw [hla]; cases a.is_broadcast <;> simp <;> omega
  have hlen : (st.chunk (if a.is_broadcast then rb else ra)).data.length
      = if a.is_broadcast && b.is_broadcast then 0 else N := by
    cases h1 : a.is_broadcast <;> cases h2 : b.is_broadcast <;> simp [h1, h2, hla, hlb]
  simp only [BinaryEvaluator.evaluate, hout, hlen]
  by_cases hbc : (a.is_broadcast && b.is_broadcast) = true
  · have hbc1 := hbc
    simp only [Bool.and_eq_true] at hbc1
    simp only [hbc1.1, hbc1.2, Bool.and_self, if_true, List.range_zero, List.mapM_nil]
    split <;> rfl
  · simp only [hbc, Bool.false_eq_true, if_false]
    have hops : ∀ n ∈ List.range N, (st.chunk ra).operand n = .ok (fa n) ∧
        (st.chunk rb).operand n = .ok (fb n) := fun n hn =>
      ⟨chunk_operand N _ fa _ ha n (List.mem_range.mp hn),
       chunk_operand N _ fb _ hb n (List.mem_range.mp hn)⟩
    cases hcx : (a.is_complex || b.is_complex) with
    | true =>
      simp only [if_true]
      cases hZ : op.Z with
      | none =>
        rw [mapM_error _ Error.OperationNotSupported _ (range_ne_nil N hN) (fun n hn => by
          simp [(hops n hn).1, (hops n hn).2, call_kernel, bind, Except.bind])]
        rfl
      | some Z =>
        rw [mapM_ok _ (fun n => Z (fa n) (fb n)) _ (fun n hn => by
          simp [(hops n hn).1, (hops n hn).2, call_kernel, bind, Except.bind, pure, Except.pure])]
        rfl
    | false =>
      simp only [Bool.false_eq_true, if_false]
      cases hR : op.R with
      | none =>
        rw [mapM_error _ Error.OperationNotSupported _ (range_ne_nil N hN) (fun n hn => by
          simp [(hops n hn).1, (hops n hn).2, call_kernel, bind, Except.bind])]
        rfl
      | some R =>
        rw [mapM_ok _ (fun n => R (fa n).real (fb n).real) _ (fun n hn => by
          simp [(hops n hn).1, (hops n hn).2, call_kernel, bind, Except.bind, pure, Except.pure])]
        rfl

theorem ternary_evaluate_spec (op : OpTernary) (a b c : StackEntry) (ra rb rc : Nat)
    (st : ThreadLocalStorage) (N : Nat) (hN : 1 ≤ N) (fa fb fc : Nat → complex_type)
    (ha : chunk_holds N a.is_broadcast fa (st.chunk ra))
    (hb : chunk_holds N b.is_broadcast fb (st.chunk rb))
    (hc : chunk_holds N c.is_broadcast fc (st.chunk rc)) :
    TernaryEvaluator.evaluate op a b c ra rb rc st =
      if a.is_broadcast && b.is_broadcast && c.is_broadcast then .ok (rc, st.set_data rc [])
      else match (if a.is_complex || b.is_complex || c.is_complex then op.Z
                  else op.R.map fun R x y z => R x.real y.real z.real) with
        | some K => .ok (if a.is_broadcast then (if b.is_broadcast then rc else rb) else ra,
            st.set_data (if a.is_broadcast then (if b.is_broadcast then rc else rb) else ra)
              ((List.range N).map fun k => K (fa k) (fb k) (fc k)))
        | none => .error Error.OperationNotSupported := by
  have hla := chunk_holds_length N _ fa _ ha
  have hlb := chunk_holds_length N _ fb _ hb
  have hlc := chunk_holds_length N _ fc _ hc
  have hout : (if (st.chunk ra).data.length ≠ 0 then ra
      else if (st.chunk rb).data.length ≠ 0 then rb else rc)
      = if a.is_broadcast then (if b.is_broadcast then rc else rb) else ra := by
    rw [hla, hlb]; cases a.is_broadcast <;> cases b.is_broadcast <;> simp <;> omega
  have hlen : (st.chunk (if a.is_broadcast then (if b.is_broadcast then rc else rb)
      else ra)).data.length
      = if a.is_broadcast && b.is_broadcast && c.is_broadcast then 0 else N := by
    cases h1 : a.is_broadcast <;> cases h2 : b.is_broadcast <;> cases h3 : c.is_broadcast <;>
      simp [h1, h2, h3, hla, hlb, hlc]
  simp only [TernaryEvaluator.evaluate, hout, hlen]
  by_cases hbc : (a.is_broadcast && b.is_broadcast && c.is_broadcast) = true
  · have hbc1 := hbc
    simp only [Bool.and_eq_true] at hbc1
    simp only [hbc1.1.1, hbc1.1.2, hbc1.2, Bool.and_self, if_true, List.range_zero,
      List.mapM_nil]
    split <;> rfl
  · simp only [hbc, Bool.false_eq_true, if_false]
    have hops : ∀ n ∈ List.range N, (st.chunk ra).operand n = .ok (fa n) ∧
        (st.chunk rb).operand n = .ok (fb n) ∧ (st.chunk rc).operand n = .ok (fc n) :=
      fun n hn =>
      ⟨chunk_operand N _ fa _ ha n (List.mem_range.mp hn),
       chunk_operand N _ fb _ hb n (List.mem_range.mp hn),
       chunk_operand N _ fc _ hc n (List.mem_range.mp hn)⟩
    cases hcx : (a.is_complex || b.is_complex || c.is_complex) with
    | true =>
      simp only [if_true]
      cases hZ : op.Z with
      | none =>
        rw [mapM_error _ Error.OperationNotSupported _ (range_ne_nil N hN) (fun n hn => by
          simp [(hops n hn).1, (hops n hn).2.1, (hops n hn).2.2, call_kernel, bind,
            Except.bind])]
        rfl
      | some Z =>
        rw [mapM_ok _ (fun n => Z (fa n) (fb n) (fc n)) _ (fun n hn => by
          simp [(hops n hn).1, (hops n hn).2.1, (hops n hn).2.2, call_kernel, bind,
            Except.bind, pure, Except.pure])]
        rfl
    | false =>
      simp only [Bool.false_eq_true, if_false]
      cases hR : op.R with
      | none =>
        rw [mapM_error _ Error.OperationNotSupported _ (range_ne_nil N hN) (fun n hn => by
          simp [(hops n hn).1, (hops n hn).2.1, (hops n hn).2.2, call_kernel, bind,
            Except.bind])]
        rfl
      | some R =>
        rw [mapM_ok _ (fun n => R (fa n).real (fb n).real (fc n).real) _ (fun n hn => by
          simp [(hops n hn).1, (hops n hn).2.1, (hops n hn).2.2, call_kernel, bind,
            Except.bind, pure, Except.pure])]
        rfl
theorem next_plain (st : ThreadLocalStorage) (hc : st.current < st.items.length)
    (hi : (st.items.getD st.current {}).image = none) :
    st.next = .ok (st.current, { st with current := st.current + 1 }) := by
  have hg : st.items.get? st.current = some (st.items.getD st.current {}) := by
    simp [List.getD_eq_getElem?_getD, List.getElem?_eq_getElem hc]
  simp only [ThreadLocalStorage.next, hg, hi]

theorem next_image (st : ThreadLocalStorage) (cur : Cursor) (hc : st.current < st.items.length)
    (hi : (st.items.getD st.current {}).image = some cur) :
    st.next = .ok (st.current,
      { st with
        current := st.current + 1,
        items := st.items.set st.current
          ⟨(({ st with current := st.current + 1 } : ThreadLocalStorage).load
              (st.items.getD st.current {}).chunk cur).1,
           some (({ st with current := st.current + 1 } : ThreadLocalStorage).load
              (st.items.getD st.current {}).chunk cur).2⟩ }) := by
  have hg : st.items.get? st.current = some (st.items.getD st.current {}) := by
    simp [List.getD_eq_getElem?_getD, List.getElem?_eq_getElem hc]
  simp only [ThreadLocalStorage.next, hg, hi]

theorem evaluate_value_leaf (env : Env) (e : StackEntry) (st : ThreadLocalStorage)
    (hev : e.evaluate env st = st.next) (hlc : e.leaf_count = 1) (hrc : e.rng_count = 0)
    (hbc : e.is_broadcast = true)
    (hcell : ∀ k, e.cell env st.iter st.axes st.size st.draws k = e.get_value)
    (hsf : ∀ items c, storage_fits (st.size.1 * st.size.2) e items c ↔
      (c < items.length ∧ (items.getD c {}).chunk.data = [] ∧
        (items.getD c {}).chunk.value = e.get_value ∧ (items.getD c {}).image = none))
    (hf : storage_fits (st.size.1 * st.size.2) e st.items st.current) :
    ∃ r st1, e.evaluate env st = .ok (r, st1) ∧ evaluate_post env e st st1 r := by
  obtain ⟨hc, hd, hv, hi⟩ := (hsf _ _).mp hf
  refine ⟨st.current, { st with current := st.current + 1 }, ?_, ?_⟩
  · rw [hev, next_plain st hc hi]
  · refine ⟨rfl, rfl, rfl, by simp [hlc], by simp [hrc], rfl, fun _ _ => rfl, Nat.le_refl _,
      by omega, ?_, hf⟩
    simp only [chunk_holds, hbc, if_true, ThreadLocalStorage.chunk]
    exact ⟨hd, fun k => by rw [hcell k, hv]⟩

theorem evaluate_image_leaf (env : Env) (img : Image) (cx : Bool) (st : ThreadLocalStorage)
    (hf : storage_fits (st.size.1 * st.size.2) (StackEntry.image img cx) st.items st.current) :
    ∃ r st1, (StackEntry.image img cx).evaluate env st = .ok (r, st1) ∧
      evaluate_post env (StackEntry.image img cx) st st1 r := by
  simp only [storage_fits, slot_fits] at hf
  obtain ⟨hc, hl, cur, hi, hci, hco⟩ := hf
  have hload := load_spec ({ st with current := st.current + 1 } : ThreadLocalStorage)
    (st.items.getD st.current {}).chunk cur hco hl
  simp only at hload
  obtain ⟨_, l2, l3, l4⟩ := hload
  have hev : (StackEntry.image img cx).evaluate env st = st.next := by
    simp only [StackEntry.evaluate]
  rw [hev, next_image st cur hc hi]
  refine ⟨_, _, rfl, ?_⟩
  · refine ⟨rfl, rfl, rfl, by simp [StackEntry.leaf_count], by simp [StackEntry.rng_count],
      by simp, ?_, Nat.le_refl _, by simp [StackEntry.leaf_count], ?_, ?_⟩
    · intro i hi
      simp only [StackEntry.leaf_count] at hi
      simp only [getD_set_item]
      have : ¬ (st.current = i ∧ st.current < st.items.length) := by omega
      simp [this]
    · simp only [chunk_holds, StackEntry.is_broadcast, Bool.false_eq_true, if_false,
        ThreadLocalStorage.chunk, getD_set_item, hc, and_self, if_true, l2, StackEntry.cell, hci]
    · simp only [storage_fits, slot_fits, List.length_set, getD_set_item, hc, and_self, if_true,
        true_and]
      exact ⟨by rw [l2]; simp, _, rfl, by rw [l3, hci], l4⟩

theorem evaluate_rng_leaf (env : Env) (g : Bool) (st : ThreadLocalStorage)
    (hf : storage_fits (st.size.1 * st.size.2) (StackEntry.rng g) st.items st.current) :
    ∃ r st1, (StackEntry.rng g).evaluate env st = .ok (r, st1) ∧
      evaluate_post env (StackEntry.rng g) st st1 r := by
  simp only [storage_fits, slot_fits] at hf
  obtain ⟨hc, hl, hi⟩ := hf
  have hev : (StackEntry.rng g).evaluate env st = .ok (st.current,
      fill_random env g st.current { st with current := st.current + 1 }) := by
    simp only [StackEntry.evaluate, next_plain st hc hi, bind, Except.bind, pure, Except.pure]
  rw [hev]
  refine ⟨_, _, rfl, ?_⟩
  · have hlen : (({ st with current := st.current + 1 } : ThreadLocalStorage).chunk
        st.current).data.length = st.size.1 * st.size.2 := hl
    refine ⟨rfl, rfl, rfl, by simp [StackEntry.leaf_count, fill_random,
      ThreadLocalStorage.set_data], ?_, ?_, ?_,
      Nat.le_refl _, by simp [StackEntry.leaf_count], ?_, ?_⟩
    · simp only [fill_random, hlen, StackEntry.rng_count, Nat.mul_one]
    · simp only [fill_random, set_data_length]
    · intro i hi
      simp only [StackEntry.leaf_count] at hi
      have : ¬ (st.current = i ∧ st.current < st.items.length) := by omega
      simp only [fill_random, set_data_getD]
      simp [this]
    · simp only [chunk_holds, StackEntry.is_broadcast, Bool.false_eq_true, if_false, fill_random,
        ThreadLocalStorage.chunk, set_data_getD, hc, and_self, if_true, StackEntry.cell]
      rw [show (({ st with current := st.current + 1 } : ThreadLocalStorage).items.getD
        st.current {}).chunk.data.length = st.size.1 * st.size.2 from hl]
    · have := storage_fits_set_data (st.size.1 * st.size.2) (StackEntry.rng g)
        ({ st with current := st.current + 1 } : ThreadLocalStorage) st.current st.current
        ((List.range (st.size.1 * st.size.2)).map fun n =>
          complex_type.ofReal (if g then env.normal (st.draws + n) else env.uniform (st.draws + n)))
        (by rw [hlen]; simp) ⟨hc, hl, hi⟩
      simpa only [fill_random, hlen] using this
theorem storage_fits_length (N : Nat) (t : StackEntry) :
    ∀ (items : List ThreadLocalStorageItem) (c : Nat),
      storage_fits N t items c → c + t.leaf_count ≤ items.length := by
  induction t with
  | arg _ => intro items c h; simp only [storage_fits, StackEntry.leaf_count] at *; omega
  | image _ _ => intro items c h; simp only [storage_fits, StackEntry.leaf_count] at *; omega
  | rng _ => intro items c h; simp only [storage_fits, StackEntry.leaf_count] at *; omega
  | value _ => intro items c h; simp only [storage_fits, StackEntry.leaf_count] at *; omega
  | unary _ _ a iha =>
    intro items c h; simp only [storage_fits, StackEntry.leaf_count] at *; exact iha items c h
  | binary _ _ a b iha ihb =>
    intro items c h
    simp only [storage_fits, StackEntry.leaf_count] at *
    have := ihb items _ h.2
    omega
  | ternary _ _ a b c1 iha ihb ihc =>
    intro items c h
    simp only [storage_fits, StackEntry.leaf_count] at *
    have := ihc items _ h.2.2
    omega

theorem leaf_count_pos (t : StackEntry) : 1 ≤ t.leaf_count := by
  induction t with
  | arg _ => simp [StackEntry.leaf_count]
  | image _ _ => simp [StackEntry.leaf_count]
  | rng _ => simp [StackEntry.leaf_count]
  | value _ => simp [StackEntry.leaf_count]
  | unary _ _ a iha => simpa [StackEntry.leaf_count] using iha
  | binary _ _ a b iha ihb => simp only [StackEntry.leaf_count]; omega
  | ternary _ _ a b c iha ihb ihc => simp only [StackEntry.leaf_count]; omega

theorem evaluate_post_set_data (env : Env) (t : StackEntry) (st st2 : ThreadLocalStorage)
    (r : Nat) (data : List complex_type)
    (h1 : st2.iter = st.iter) (h2 : st2.axes = st.axes) (h3 : st2.size = st.size)
    (h4 : st2.current = st.current + t.leaf_count)
    (h5 : st2.draws = st.draws + st.size.1 * st.size.2 * t.rng_count)
    (h6 : st2.items.length = st.items.length)
    (h7 : ∀ i, i < st.current ∨ st.current + t.leaf_count ≤ i →
      st2.items.getD i {} = st.items.getD i {})
    (h8 : st.current ≤ r) (h9 : r < st.current + t.leaf_count)
    (hd : data.length = (st2.chunk r).data.length)
    (hh : chunk_holds (st.size.1 * st.size.2) t.is_broadcast
      (t.cell env st.iter st.axes st.size st.draws) { st2.chunk r with data := data })
    (hfit : storage_fits (st.size.1 * st.size.2) t st2.items st.current) :
    evaluate_post env t st (st2.set_data r data) r := by
  have hlen := storage_fits_length _ t _ _ hfit
  have hr : r < st2.items.length := by omega
  refine ⟨h1, h2, h3, h4, h5, by rw [set_data_length, h6], ?_, h8, h9, ?_, ?_⟩
  · intro i hi
    rw [set_data_getD]
    have : ¬ (r = i ∧ r < st2.items.length) := by omega
    simp only [this, if_false]
    exact h7 i hi
  · rw [set_data_chunk]
    simpa [hr] using hh
  · exact storage_fits_set_data _ t st2 _ r data hd hfit
theorem evaluate_unary_node (env : Env) (id : String) (op : OpUnary) (a : StackEntry)
    (iha : ∀ st : ThreadLocalStorage, 1 ≤ st.size.1 * st.size.2 →
      storage_fits (st.size.1 * st.size.2) a st.items st.current →
      (a.kernels_exist = true →
        ∃ r st1, a.evaluate env st = .ok (r, st1) ∧ evaluate_post env a st st1 r) ∧
      (a.kernels_exist = false → a.evaluate env st = .error Error.OperationNotSupported))
    (st : ThreadLocalStorage) (hN : 1 ≤ st.size.1 * st.size.2)
    (hf : storage_fits (st.size.1 * st.size.2) (StackEntry.unary id op a) st.items st.current) :
    ((StackEntry.unary id op a).kernels_exist = true →
      ∃ r st1, (StackEntry.unary id op a).evaluate env st = .ok (r, st1) ∧
        evaluate_post env (StackEntry.unary id op a) st st1 r) ∧
    ((StackEntry.unary id op a).kernels_exist = false →
      (StackEntry.unary id op a).evaluate env st = .error Error.OperationNotSupported) := by
  simp only [storage_fits] at hf
  obtain ⟨ih1, ih2⟩ := iha st hN hf
  cases hk : a.kernels_exist with
  | false =>
    refine ⟨fun h => by simp [StackEntry.kernels_exist, hk] at h, fun _ => ?_⟩
    simp only [StackEntry.evaluate, ih2 hk, bind, Except.bind]
  | true =>
    obtain ⟨r1, st1, hev, p1, p2, p3, p4, p5, p6, p7, p8, p9, p10, p11⟩ := ih1 hk
    have hue := unary_evaluate_spec op a r1 st1 (st.size.1 * st.size.2) _ p10
    have hN0 : ¬ st.size.1 * st.size.2 = 0 := by omega
    have hev2 : (StackEntry.unary id op a).evaluate env st
        = UnaryEvaluator.evaluate op a r1 st1 := by
      simp only [StackEntry.evaluate, hev, bind, Except.bind]
    rw [hev2, hue]
    have hlen := chunk_holds_length _ _ _ _ p10
    cases hb : a.is_broadcast with
    | true =>
      simp only [hb, if_true] at hlen ⊢
      refine ⟨fun _ => ⟨r1, _, rfl, ?_⟩, fun h => by
        simp [StackEntry.kernels_exist, hk, hb] at h⟩
      apply evaluate_post_set_data env (StackEntry.unary id op a) st st1 r1 [] p1 p2 p3 p4 p5 p6 p7 p8 p9
        (by rw [hlen]; rfl) _ p11
      simp only [chunk_holds, hb, if_true, StackEntry.is_broadcast, StackEntry.cell] at p10 ⊢
      exact ⟨trivial, p10.2⟩
    | false =>
      simp only [hb, Bool.false_eq_true, if_false, hN0] at hlen ⊢
      simp only [chunk_holds, hb, Bool.false_eq_true, if_false] at p10
      cases hcx : a.is_complex with
      | true =>
        simp only [if_true]
        cases hZ : op.Z with
        | none =>
          refine ⟨fun h => by simp [StackEntry.kernels_exist, hk, hb, hcx, hZ] at h,
            fun _ => rfl⟩
        | some Z =>
          refine ⟨fun _ => ⟨r1, _, rfl, ?_⟩, fun h => by
            simp [StackEntry.kernels_exist, hk, hb, hcx, hZ] at h⟩
          apply evaluate_post_set_data env (StackEntry.unary id op a) st st1 r1 _ p1 p2 p3 p4 p5 p6 p7 p8 p9
            (by rw [hlen]; simp) _ p11
          simp only [chunk_holds, hb, Bool.false_eq_true, if_false, StackEntry.is_broadcast,
            StackEntry.cell, hcx, if_true, hZ]
      | false =>
        simp only [Bool.false_eq_true, if_false]
        cases hR : op.R with
        | none =>
          refine ⟨fun h => by simp [StackEntry.kernels_exist, hk, hb, hcx, hR] at h,
            fun _ => rfl⟩
        | some R =>
          refine ⟨fun _ => ⟨r1, _, rfl, ?_⟩, fun h => by
            simp [StackEntry.kernels_exist, hk, hb, hcx, hR] at h⟩
          apply evaluate_post_set_data env (StackEntry.unary id op a) st st1 r1 _ p1 p2 p3 p4 p5 p6 p7 p8 p9
            (by rw [hlen]; simp) _ p11
          simp only [chunk_holds, hb, Bool.false_eq_true, if_false, StackEntry.is_broadcast,
            StackEntry.cell, hcx, hR, Option.map_some']
theorem evaluate_binary_node (env : Env) (id : String) (op : OpBinary) (a b : StackEntry)
    (iha : ∀ st : ThreadLocalStorage, 1 ≤ st.size.1 * st.size.2 →
      storage_fits (st.size.1 * st.size.2) a st.items st.current →
      (a.kernels_exist = true →
        ∃ r st1, a.evaluate env st = .ok (r, st1) ∧ evaluate_post env a st st1 r) ∧
      (a.kernels_exist = false → a.evaluate env st = .error Error.OperationNotSupported))
    (ihb : ∀ st : ThreadLocalStorage, 1 ≤ st.size.1 * st.size.2 →
      storage_fits (st.size.1 * st.size.2) b st.items st.current →
      (b.kernels_exist = true →
        ∃ r st1, b.evaluate env st = .ok (r, st1) ∧ evaluate_post env b st st1 r) ∧
      (b.kernels_exist = false → b.evaluate env st = .error Error.OperationNotSupported))
    (st : ThreadLocalStorage) (hN : 1 ≤ st.size.1 * st.size.2)
    (hf : storage_fits (st.size.1 * st.size.2) (StackEntry.binary id op a b) st.items
      st.current) :
    ((StackEntry.binary id op a b).kernels_exist = true →
      ∃ r st1, (StackEntry.binary id op a b).evaluate env st = .ok (r, st1) ∧
        evaluate_post env (StackEntry.binary id op a b) st st1 r) ∧
    ((StackEntry.binary id op a b).kernels_exist = false →
      (StackEntry.binary id op a b).evaluate env st = .error Error.OperationNotSupported) := by
  simp only [storage_fits] at hf
  obtain ⟨ih1, ih2⟩ := iha st hN hf.1
  cases hka : a.kernels_exist with
  | false =>
    refine ⟨fun h => by simp [StackEntry.kernels_exist, hka] at h, fun _ => ?_⟩
    simp only [StackEntry.evaluate, ih2 hka, bind, Except.bind]
  | true =>
    obtain ⟨ra, st1, heva, p1, p2, p3, p4, p5, p6, p7, p8, p9, p10, p11⟩ := ih1 hka
    have hfb : storage_fits (st1.size.1 * st1.size.2) b st1.items st1.current := by
      rw [p3, p4]
      exact storage_fits_congr _ b st.items st1.items _ p6 (fun i h1 _ => p7 i (Or.inr h1)) hf.2
    obtain ⟨ih3, ih4⟩ := ihb st1 (by rw [p3]; exact hN) hfb
    cases hkb : b.kernels_exist with
    | false =>
      refine ⟨fun h => by simp [StackEntry.kernels_exist, hka, hkb] at h, fun _ => ?_⟩
      simp only [StackEntry.evaluate, heva, ih4 hkb, bind, Except.bind]
    | true =>
      obtain ⟨rb, st2, hevb, q1, q2, q3, q4, q5, q6, q7, q8, q9, q10, q11⟩ := ih3 hkb
      rw [p1, p2, p3, p5] at q10
      rw [p3, p4] at q11
      rw [p4] at q4 q7 q8 q9
      rw [p5, p3] at q5
      have hca : st2.chunk ra = st1.chunk ra := by
        simp only [ThreadLocalStorage.chunk, q7 ra (Or.inl p9)]
      have ha2 : chunk_holds (st.size.1 * st.size.2) a.is_broadcast
          (a.cell env st.iter st.axes st.size st.draws) (st2.chunk ra) := by
        rw [hca]; exact p10
      have hbe := binary_evaluate_spec op a b ra rb st2 (st.size.1 * st.size.2) hN _ _ ha2 q10
      have hev2 : (StackEntry.binary id op a b).evaluate env st
          = BinaryEvaluator.evaluate op a b ra rb st2 := by
        simp only [StackEntry.evaluate, heva, hevb, bind, Except.bind]
      rw [hev2, hbe]
      have hla := chunk_holds_length _ _ _ _ ha2
      have hlb := chunk_holds_length _ _ _ _ q10
      have hfit2 : storage_fits (st.size.1 * st.size.2) (StackEntry.binary id op a b)
          st2.items st.current := by
        simp only [storage_fits]
        exact ⟨storage_fits_congr _ a st1.items st2.items _ q6
          (fun i _ h2 => q7 i (Or.inl h2)) p11, q11⟩
      have hframe : ∀ i, i < st.current ∨
          st.current + (StackEntry.binary id op a b).leaf_count ≤ i →
          st2.items.getD i {} = st.items.getD i {} := by
        intro i hi
        simp only [StackEntry.leaf_count] at hi
        rw [q7 i (by omega), p7 i (by omega)]
      have hpost : ∀ (out : Nat) (data : List complex_type), st.current ≤ out →
          out < st.current + (a.leaf_count + b.leaf_count) →
          data.length = (st2.chunk out).data.length →
          chunk_holds (st.size.1 * st.size.2) (StackEntry.binary id op a b).is_broadcast
            ((StackEntry.binary id op a b).cell env st.iter st.axes st.size st.draws)
            { st2.chunk out with data := data } →
          evaluate_post env (StackEntry.binary id op a b) st (st2.set_data out data) out :=
        fun out data h8 h9 hd hh =>
          evaluate_post_set_data env (StackEntry.binary id op a b) st st2 out data
            (q1.trans p1) (q2.trans p2) (q3.trans p3)
            (by rw [q4]; simp only [StackEntry.leaf_count]; omega)
            (by rw [q5]; simp only [StackEntry.rng_count, Nat.mul_add]; omega)
            (q6.trans p6) hframe h8 h9 hd hh hfit2
      cases hba : a.is_broadcast with
      | true =>
        cases hbb : b.is_broadcast with
        | true =>
          simp only [hba, hbb, Bool.and_self, if_true] at hlb ⊢
          refine ⟨fun _ => ⟨rb, _, rfl, ?_⟩, fun h => by
            simp [StackEntry.kernels_exist, hka, hkb, hba, hbb] at h⟩
          apply hpost rb [] (by omega) (by omega) (by rw [hlb]; rfl)
          simp only [chunk_holds, hbb, if_true, StackEntry.is_broadcast, StackEntry.cell, hba,
            Bool.and_self] at q10 ⊢
          exact ⟨trivial, q10.2⟩
        | false =>
          simp only [hba, hbb, Bool.and_false, Bool.false_eq_true, if_false, if_true] at hlb ⊢
          cases hcx : (a.is_complex || b.is_complex) with
          | true =>
            simp only [if_true]
            cases hZ : op.Z with
            | none =>
              refine ⟨fun h => by
                simp only [StackEntry.kernels_exist, hka, hkb, hba, hbb, hcx, hZ] at h
                simp at h, fun _ => rfl⟩
            | some Z =>
              refine ⟨fun _ => ⟨rb, _, rfl, ?_⟩, fun h => by
                simp only [StackEntry.kernels_exist, hka, hkb, hba, hbb, hcx, hZ] at h
                simp at h⟩
              apply hpost rb _ (by omega) (by omega) (by rw [hlb]; simp)
              simp only [chunk_holds, StackEntry.is_broadcast, hba, hbb, Bool.and_false,
                Bool.false_eq_true, if_false, StackEntry.cell, hcx, if_true, hZ]
          | false =>
            simp only [Bool.false_eq_true, if_false]
            cases hR : op.R with
            | none =>
              refine ⟨fun h => by
                simp only [StackEntry.kernels_exist, hka, hkb, hba, hbb, hcx, hR] at h
                simp at h, fun _ => rfl⟩
            | some R =>
              refine ⟨fun _ => ⟨rb, _, rfl, ?_⟩, fun h => by
                simp only [StackEntry.kernels_exist, hka, hkb, hba, hbb, hcx, hR] at h
                simp at h⟩
              apply hpost rb _ (by omega) (by omega) (by rw [hlb]; simp)
              simp only [chunk_holds, StackEntry.is_broadcast, hba, hbb, Bool.and_false,
                Bool.false_eq_true, if_false, StackEntry.cell, hcx, hR, Option.map_some']
      | false =>
        simp only [hba, Bool.false_and, Bool.false_eq_true, if_false] at hla ⊢
        cases hcx : (a.is_complex || b.is_complex) with
        | true =>
          simp only [if_true]
          cases hZ : op.Z with
          | none =>
            refine ⟨fun h => by
              simp only [StackEntry.kernels_exist, hka, hkb, hba, hcx, hZ] at h
              simp at h, fun _ => rfl⟩
          | some Z =>
            refine ⟨fun _ => ⟨ra, _, rfl, ?_⟩, fun h => by
              simp only [StackEntry.kernels_exist, hka, hkb, hba, hcx, hZ] at h
              simp at h⟩
            apply hpost ra _ p8 (by omega) (by rw [hla]; simp)
            simp only [chunk_holds, StackEntry.is_broadcast, hba, Bool.false_and,
              Bool.false_eq_true, if_false, StackEntry.cell, hcx, if_true, hZ]
        | false =>
          simp only [Bool.false_eq_true, if_false]
          cases hR : op.R with
          | none =>
            refine ⟨fun h => by
              simp only [StackEntry.kernels_exist, hka, hkb, hba, hcx, hR] at h
              simp at h, fun _ => rfl⟩
          | some R =>
            refine ⟨fun _ => ⟨ra, _, rfl, ?_⟩, fun h => by
              simp only [StackEntry.kernels_exist, hka, hkb, hba, hcx, hR] at h
              simp at h⟩
            apply hpost ra _ p8 (by omega) (by rw [hla]; simp)
            simp only [chunk_holds, StackEntry.is_broadcast, hba, Bool.false_and,
              Bool.false_eq_true, if_false, StackEntry.cell, hcx, hR, Option.map_some']
theorem evaluate_ternary_node (env : Env) (id : String) (op : OpTernary) (a b c : StackEntry)
    (iha : ∀ st : ThreadLocalStorage, 1 ≤ st.size.1 * st.size.2 →
      storage_fits (st.size.1 * st.size.2) a st.items st.current →
      (a.kernels_exist = true →
        ∃ r st1, a.evaluate env st = .ok (r, st1) ∧ evaluate_post env a st st1 r) ∧
      (a.kernels_exist = false → a.evaluate env st = .error Error.OperationNotSupported))
    (ihb : ∀ st : ThreadLocalStorage, 1 ≤ st.size.1 * st.size.2 →
      storage_fits (st.size.1 * st.size.2) b st.items st.current →
      (b.kernels_exist = true →
        ∃ r st1, b.evaluate env st = .ok (r, st1) ∧ evaluate_post env b st st1 r) ∧
      (b.kernels_exist = false → b.evaluate env st = .error Error.OperationNotSupported))
    (ihc : ∀ st : ThreadLocalStorage, 1 ≤ st.size.1 * st.size.2 →
      storage_fits (st.size.1 * st.size.2) c st.items st.current →
      (c.kernels_exist = true →
        ∃ r st1, c.evaluate env st = .ok (r, st1) ∧ evaluate_post env c st st1 r) ∧
      (c.kernels_exist = false → c.evaluate env st = .error Error.OperationNotSupported))
    (st : ThreadLocalStorage) (hN : 1 ≤ st.size.1 * st.size.2)
    (hf : storage_fits (st.size.1 * st.size.2) (StackEntry.ternary id op a b c) st.items
      st.current) :
    ((StackEntry.ternary id op a b c).kernels_exist = true →
      ∃ r st1, (StackEntry.ternary id op a b c).evaluate env st = .ok (r, st1) ∧
        evaluate_post env (StackEntry.ternary id op a b c) st st1 r) ∧
    ((StackEntry.ternary id op a b c).kernels_exist = false →
      (StackEntry.ternary id op a b c).evaluate env st = .error Error.OperationNotSupported) := by
  simp only [storage_fits] at hf
  obtain ⟨ih1, ih2⟩ := iha st hN hf.1
  cases hka : a.kernels_exist with
  | false =>
    refine ⟨fun h => by simp [StackEntry.kernels_exist, hka] at h, fun _ => ?_⟩
    simp only [StackEntry.evaluate, ih2 hka, bind, Except.bind]
  | true =>
    obtain ⟨ra, st1, heva, p1, p2, p3, p4, p5, p6, p7, p8, p9, p10, p11⟩ := ih1 hka
    have hfb : storage_fits (st1.size.1 * st1.size.2) b st1.items st1.current := by
      rw [p3, p4]
      exact storage_fits_congr _ b st.items st1.items _ p6 (fun i h1 _ => p7 i (Or.inr h1))
        hf.2.1
    obtain ⟨ih3, ih4⟩ := ihb st1 (by rw [p3]; exact hN) hfb
    cases hkb : b.kernels_exist with
    | false =>
      refine ⟨fun h => by simp [StackEntry.kernels_exist, hka, hkb] at h, fun _ => ?_⟩
      simp only [StackEntry.evaluate, heva, ih4 hkb, bind, Except.bind]
    | true =>
      obtain ⟨rb, st2, hevb, q1, q2, q3, q4, q5, q6, q7, q8, q9, q10, q11⟩ := ih3 hkb
      rw [p1, p2, p3, p5] at q10
      rw [p3, p4] at q11
      rw [p4] at q4 q7 q8 q9
      rw [p5, p3] at q5
      have hfc : storage_fits (st2.size.1 * st2.size.2) c st2.items st2.current := by
        rw [q3, p3, q4]
        refine storage_fits_congr _ c st.items st2.items _ (q6.trans p6) (fun i h1 _ => ?_) hf.2.2
        rw [q7 i (by omega), p7 i (by omega)]
      obtain ⟨ih5, ih6⟩ := ihc st2 (by rw [q3, p3]; exact hN) hfc
      cases hkc : c.kernels_exist with
      | false =>
        refine ⟨fun h => by simp [StackEntry.kernels_exist, hka, hkb, hkc] at h, fun _ => ?_⟩
        simp only [StackEntry.evaluate, heva, hevb, ih6 hkc, bind, Except.bind]
      | true =>
        obtain ⟨rc, st3, hevc, s1, s2, s3, s4, s5, s6, s7, s8, s9, s10, s11⟩ := ih5 hkc
        rw [q1, q2, q3, q5, p1, p2, p3] at s10
        rw [q3, p3, q4] at s11
        rw [q4] at s4 s7 s8 s9
        rw [q5, q3, p3] at s5
        have hcb : st3.chunk rb = st2.chunk rb := by
          simp only [ThreadLocalStorage.chunk, s7 rb (Or.inl q9)]
        have hca : st3.chunk ra = st1.chunk ra := by
          simp only [ThreadLocalStorage.chunk, s7 ra (Or.inl (by omega)), q7 ra (Or.inl p9)]
        have ha3 : chunk_holds (st.size.1 * st.size.2) a.is_broadcast
            (a.cell env st.iter st.axes st.size st.draws) (st3.chunk ra) := by
          rw [hca]; exact p10
        have hb3 : chunk_holds (st.size.1 * st.size.2) b.is_broadcast
            (b.cell env st.iter st.axes st.size
              (st.draws + st.size.1 * st.size.2 * a.rng_count)) (st3.chunk rb) := by
          rw [hcb]; exact q10
        have hte := ternary_evaluate_spec op a b c ra rb rc st3 (st.size.1 * st.size.2) hN
          _ _ _ ha3 hb3 s10
        have hev2 : (StackEntry.ternary id op a b c).evaluate env st
            = TernaryEvaluator.evaluate op a b c ra rb rc st3 := by
          simp only [StackEntry.evaluate, heva, hevb, hevc, bind, Except.bind]
        rw [hev2, hte]
        have hla := chunk_holds_length _ _ _ _ ha3
        have hlb := chunk_holds_length _ _ _ _ hb3
        have hlc := chunk_holds_length _ _ _ _ s10
        have hfit3 : storage_fits (st.size.1 * st.size.2) (StackEntry.ternary id op a b c)
            st3.items st.current := by
          simp only [storage_fits]
          refine ⟨storage_fits_congr _ a st1.items st3.items _ (s6.trans q6)
            (fun i _ h2 => ?_) p11,
            storage_fits_congr _ b st2.items st3.items _ s6
              (fun i _ h2 => s7 i (Or.inl h2)) q11, s11⟩
          rw [s7 i (by omega), q7 i (by omega)]
        have hframe : ∀ i, i < st.current ∨
            st.current + (StackEntry.ternary id op a b c).leaf_count ≤ i →
            st3.items.getD i {} = st.items.getD i {} := by
          intro i hi
          simp only [StackEntry.leaf_count] at hi
          rw [s7 i (by omega), q7 i (by omega), p7 i (by omega)]
        have hpost : ∀ (out : Nat) (data : List complex_type), st.current ≤ out →
            out < st.current + (a.leaf_count + b.leaf_count + c.leaf_count) →
            data.length = (st3.chunk out).data.length →
            chunk_holds (st.size.1 * st.size.2) (StackEntry.ternary id op a b c).is_broadcast
              ((StackEntry.ternary id op a b c).cell env st.iter st.axes st.size st.draws)
              { st3.chunk out with data := data } →
            evaluate_post env (StackEntry.ternary id op a b c) st (st3.set_data out data) out :=
          fun out data h8 h9 hd hh =>
            evaluate_post_set_data env (StackEntry.ternary id op a b c) st st3 out data
              (s1.trans (q1.trans p1)) (s2.trans (q2.trans p2)) (s3.trans (q3.trans p3))
              (by rw [s4]; simp only [StackEntry.leaf_count]; omega)
              (by rw [s5]; simp only [StackEntry.rng_count, Nat.mul_add]; omega)
              (s6.trans (q6.trans p6)) hframe h8 h9 hd hh hfit3
        cases hall : (a.is_broadcast && b.is_broadcast && c.is_broadcast) with
        | true =>
          have hall1 := hall
          simp only [Bool.and_eq_true] at hall1
          obtain ⟨⟨hba, hbb⟩, hbc⟩ := hall1
          simp only [hbc, if_true] at hlc
          simp only [if_true]
          refine ⟨fun _ => ⟨rc, _, rfl, ?_⟩, fun h => by
            simp [StackEntry.kernels_exist, hka, hkb, hkc, hba, hbb, hbc] at h⟩
          apply hpost rc [] (by omega) (by omega) (by rw [hlc]; rfl)
          simp only [chunk_holds, hbc, if_true, StackEntry.is_broadcast, StackEntry.cell, hba,
            hbb, Bool.and_self] at s10 ⊢
          exact ⟨trivial, s10.2⟩
        | false =>
          simp only [Bool.false_eq_true, if_false]
          have hout : st.current ≤ (if a.is_broadcast then (if b.is_broadcast then rc else rb)
                else ra) ∧
              (if a.is_broadcast then (if b.is_broadcast then rc else rb) else ra)
                < st.current + (a.leaf_count + b.leaf_count + c.leaf_count) ∧
              (st3.chunk (if a.is_broadcast then (if b.is_broadcast then rc else rb)
                else ra)).data.length = st.size.1 * st.size.2 := by
            cases hba : a.is_broadcast with
            | false =>
              simp only [hba, Bool.false_eq_true, if_false] at hla ⊢
              exact ⟨p8, by omega, hla⟩
            | true =>
              cases hbb : b.is_broadcast with
              | false =>
                simp only [hbb, Bool.false_eq_true, if_false, if_true] at hlb ⊢
                exact ⟨by omega, by omega, hlb⟩
              | true =>
                have hbc : c.is_broadcast = false := by simpa [hba, hbb] using hall
                simp only [hbc, Bool.false_eq_true, if_false, if_true] at hlc ⊢
                exact ⟨by omega, by omega, hlc⟩
          cases hcx : (a.is_complex || b.is_complex || c.is_complex) with
          | true =>
            simp only [if_true]
            cases hZ : op.Z with
            | none =>
              refine ⟨fun h => by
                simp only [StackEntry.kernels_exist, hka, hkb, hkc, hall, hcx, hZ] at h
                simp at h, fun _ => rfl⟩
            | some Z =>
              refine ⟨fun _ => ⟨_, _, rfl, ?_⟩, fun h => by
                simp only [StackEntry.kernels_exist, hka, hkb, hkc, hall, hcx, hZ] at h
                simp at h⟩
              apply hpost _ _ hout.1 hout.2.1 (by rw [hout.2.2]; simp)
              simp only [chunk_holds, StackEntry.is_broadcast, hall, Bool.false_eq_true, if_false,
                StackEntry.cell, hcx, if_true, hZ]
          | false =>
            simp only [Bool.false_eq_true, if_false]
            cases hR : op.R with
            | none =>
              refine ⟨fun h => by
                simp only [StackEntry.kernels_exist, hka, hkb, hkc, hall, hcx, hR] at h
                simp at h, fun _ => rfl⟩
            | some R =>
              refine ⟨fun _ => ⟨_, _, rfl, ?_⟩, fun h => by
                simp only [StackEntry.kernels_exist, hka, hkb, hkc, hall, hcx, hR] at h
                simp at h⟩
              apply hpost _ _ hout.1 hout.2.1 (by rw [hout.2.2]; simp)
              simp only [chunk_holds, StackEntry.is_broadcast, hall, Bool.false_eq_true, if_false,
                StackEntry.cell, hcx, hR, Option.map_some']

/-- The evaluation of a tree over a tile: when every kernel that it calls
exists it returns a chunk that holds the values of the tree and leaves the
storage fit for the next tile; otherwise it throws. -/
theorem evaluate_spec (env : Env) (t : StackEntry) :
    ∀ st : ThreadLocalStorage, 1 ≤ st.size.1 * st.size.2 →
      storage_fits (st.size.1 * st.size.2) t st.items st.current →
      (t.kernels_exist = true →
        ∃ r st1, t.evaluate env st = .ok (r, st1) ∧ evaluate_post env t st st1 r) ∧
      (t.kernels_exist = false → t.evaluate env st = .error Error.OperationNotSupported) := by
  induction t with
  | arg s =>
    intro st _ hf
    exact ⟨fun _ => evaluate_value_leaf env _ st rfl rfl rfl rfl (fun _ => rfl)
      (fun _ _ => Iff.rfl) hf, fun h => by simp [StackEntry.kernels_exist] at h⟩
  | value v =>
    intro st _ hf
    exact ⟨fun _ => evaluate_value_leaf env _ st rfl rfl rfl rfl (fun _ => rfl)
      (fun _ _ => Iff.rfl) hf, fun h => by simp [StackEntry.kernels_exist] at h⟩
  | image img cx =>
    intro st _ hf
    exact ⟨fun _ => evaluate_image_leaf env img cx st hf,
      fun h => by simp [StackEntry.kernels_exist] at h⟩
  | rng g =>
    intro st _ hf
    exact ⟨fun _ => evaluate_rng_leaf env g st hf,
      fun h => by simp [StackEntry.kernels_exist] at h⟩
  | unary id op a iha => exact fun st hN hf => evaluate_unary_node env id op a iha st hN hf
  | binary id op a b iha ihb =>
    exact fun st hN hf => evaluate_binary_node env id op a b iha ihb st hN hf
  | ternary id op a b c iha ihb ihc =>
    exact fun st hN hf => evaluate_ternary_node env id op a b c iha ihb ihc st hN hf

theorem allocate_storage_append (N : Nat) (t : StackEntry) :
    ∀ items : List ThreadLocalStorageItem,
      ∃ L : List ThreadLocalStorageItem, L.length = t.leaf_count ∧
        allocate_storage N t items = items ++ L := by
  induction t with
  | arg s => intro items; exact ⟨[_], rfl, rfl⟩
  | image _ _ => intro items; exact ⟨[_], rfl, rfl⟩
  | rng _ => intro items; exact ⟨[_], rfl, rfl⟩
  | value _ => intro items; exact ⟨[_], rfl, rfl⟩
  | unary _ _ a iha => intro items; exact iha items
  | binary _ _ a b iha ihb =>
    intro items
    obtain ⟨L1, h1, e1⟩ := iha items
    obtain ⟨L2, h2, e2⟩ := ihb (items ++ L1)
    refine ⟨L1 ++ L2, by simp [StackEntry.leaf_count, h1, h2], ?_⟩
    simp only [allocate_storage, e1, e2, List.append_assoc]
  | ternary _ _ a b c iha ihb ihc =>
    intro items
    obtain ⟨L1, h1, e1⟩ := iha items
    obtain ⟨L2, h2, e2⟩ := ihb (items ++ L1)
    obtain ⟨L3, h3, e3⟩ := ihc (items ++ L1 ++ L2)
    refine ⟨L1 ++ L2 ++ L3, by simp [StackEntry.leaf_count, h1, h2, h3, Nat.add_assoc], ?_⟩
    simp only [allocate_storage, e1, e2, e3]
    simp only [← List.append_assoc, e1, e2, e3]

theorem getD_append_left_item (l1 l2 : List ThreadLocalStorageItem) (i : Nat)
    (h : i < l1.length) : (l1 ++ l2).getD i {} = l1.getD i {} :=
  List.getD_append _ _ _ _ h

theorem storage_fits_append (N : Nat) (t : StackEntry) (items L : List ThreadLocalStorageItem)
    (c : Nat) (h : storage_fits N t items c) : storage_fits N t (items ++ L) c := by
  have hlen := storage_fits_length N t items c h
  -- the appended items lie beyond the leaves of the tree
  suffices hs : ∀ (t : StackEntry) (c : Nat), c + t.leaf_count ≤ items.length →
      storage_fits N t items c → storage_fits N t (items ++ L) c from hs t c hlen h
  intro t
  induction t with
  | arg s =>
    intro c hl h
    simp only [storage_fits, StackEntry.leaf_count, List.length_append] at *
    rw [getD_append_left_item _ _ _ (by omega)]
    exact ⟨by omega, h.2⟩
  | image _ _ =>
    intro c hl h
    simp only [storage_fits, StackEntry.leaf_count, List.length_append] at *
    rw [getD_append_left_item _ _ _ (by omega)]
    exact ⟨by omega, h.2⟩
  | rng _ =>
    intro c hl h
    simp only [storage_fits, StackEntry.leaf_count, List.length_append] at *
    rw [getD_append_left_item _ _ _ (by omega)]
    exact ⟨by omega, h.2⟩
  | value _ =>
    intro c hl h
    simp only [storage_fits, StackEntry.leaf_count, List.length_append] at *
    rw [getD_append_left_item _ _ _ (by omega)]
    exact ⟨by omega, h.2⟩
  | unary _ _ a iha =>
    intro c hl h
    simp only [storage_fits, StackEntry.leaf_count] at *
    exact iha c hl h
  | binary _ _ a b iha ihb =>
    intro c hl h
    simp only [storage_fits, StackEntry.leaf_count] at *
    exact ⟨iha c (by omega) h.1, ihb _ (by omega) h.2⟩
  | ternary _ _ a b c1 iha ihb ihc =>
    intro c hl h
    simp only [storage_fits, StackEntry.leaf_count] at *
    exact ⟨iha c (by omega) h.1, ihb _ (by omega) h.2.1, ihc _ (by omega) h.2.2⟩

theorem replicate_at_origin (img : Image) :
    (⟨img, List.replicate img.ndim 0⟩ : Cursor).at_origin := by
  refine ⟨by simp, ?_⟩
  intro n hn _
  simp [List.getD_eq_getElem?_getD, List.getElem?_replicate, hn]

theorem allocate_storage_fits (N : Nat) (t : StackEntry) :
    ∀ items : List ThreadLocalStorageItem,
      storage_fits N t (allocate_storage N t items) items.length := by
  induction t with
  | arg s =>
    intro items
    simp [storage_fits, allocate_storage, slot_fits, List.getD_eq_getElem?_getD]
  | value v =>
    intro items
    simp [storage_fits, allocate_storage, slot_fits, List.getD_eq_getElem?_getD]
  | rng g =>
    intro items
    simp [storage_fits, allocate_storage, slot_fits, List.getD_eq_getElem?_getD]
  | image img cx =>
    intro items
    simp only [storage_fits, allocate_storage, slot_fits, List.length_append, List.length_singleton,
      Nat.lt_add_one, true_and, List.getD_eq_getElem?_getD, List.getElem?_concat_length,
      Option.getD_some, List.length_replicate]
    exact ⟨_, rfl, rfl, replicate_at_origin img⟩
  | unary _ _ a iha => intro items; exact iha items
  | binary _ _ a b iha ihb =>
    intro items
    simp only [storage_fits, allocate_storage]
    obtain ⟨L1, h1, e1⟩ := allocate_storage_append N a items
    obtain ⟨L2, _, e2⟩ := allocate_storage_append N b (items ++ L1)
    refine ⟨?_, ?_⟩
    · rw [e1, e2]
      exact storage_fits_append N a _ L2 _ (e1 ▸ iha items)
    · have := ihb (allocate_storage N a items)
      rw [e1] at this ⊢
      simpa [h1] using this
  | ternary _ _ a b c iha ihb ihc =>
    intro items
    simp only [storage_fits, allocate_storage]
    obtain ⟨L1, h1, e1⟩ := allocate_storage_append N a items
    obtain ⟨L2, h2, e2⟩ := allocate_storage_append N b (items ++ L1)
    obtain ⟨L3, _, e3⟩ := allocate_storage_append N c (items ++ L1 ++ L2)
    refine ⟨?_, ?_, ?_⟩
    · rw [e1, e2, e3]
      exact storage_fits_append N a _ L3 _ (storage_fits_append N a _ L2 _ (e1 ▸ iha items))
    · have := ihb (allocate_storage N a items)
      rw [e1] at this ⊢
      rw [e2, e3]
      have h3 := storage_fits_append N b _ L3 _ (e2 ▸ this)
      simpa [h1] using h3
    · have := ihc (allocate_storage N b (allocate_storage N a items))
      rw [e1, e2] at this ⊢
      simpa [h1, h2, Nat.add_assoc] using this
theorem foldlM_range_invariant {α : Type} (f : α → Nat → Except Error α) (P : Nat → α → Prop)
    (init : α) (n : Nat) (h0 : P 0 init)
    (hstep : ∀ k a, k < n → P k a → ∃ b, f a k = .ok b ∧ P (k + 1) b) :
    ∃ b, (List.range n).foldlM f init = .ok b ∧ P n b := by
  induction n with
  | zero => exact ⟨init, rfl, h0⟩
  | succ n ih =>
    obtain ⟨b, hb, hp⟩ := ih (fun k a hk hp => hstep k a (by omega) hp)
    obtain ⟨c, hc, hq⟩ := hstep n b (by omega) hp
    refine ⟨c, ?_, hq⟩
    rw [List.range_succ, List.foldlM_append, hb]
    simp only [bind, Except.bind, List.foldlM, hc, pure, Except.pure]

theorem tile_cell_getD (iter : List Nat) (a0 a1 x y : Nat) (h01 : a0 ≠ a1)
    (h0 : a0 < iter.length) (h1 : a1 < iter.length) :
    ((iter.set a0 x).set a1 y).getD a0 0 = x ∧ ((iter.set a0 x).set a1 y).getD a1 0 = y := by
  simp only [getD_set, List.length_set]
  have : ¬ a1 = a0 := fun h => h01 h.symm
  simp [h0, h1, this]

theorem tile_cell_injective (iter : List Nat) (a0 a1 x y x1 y1 : Nat) (h01 : a0 ≠ a1)
    (h0 : a0 < iter.length) (h1 : a1 < iter.length)
    (h : (iter.set a0 x).set a1 y = (iter.set a0 x1).set a1 y1) : x = x1 ∧ y = y1 := by
  have e1 := tile_cell_getD iter a0 a1 x y h01 h0 h1
  have e2 := tile_cell_getD iter a0 a1 x1 y1 h01 h0 h1
  rw [h] at e1
  exact ⟨e1.1.symm.trans e2.1, e1.2.symm.trans e2.2⟩

theorem write_chunk_spec (image : Image) (axes : Nat × Nat) (iter : List Nat) (chunk : Chunk)
    (h01 : axes.1 ≠ axes.2) (h0 : axes.1 < iter.length) (h1 : axes.2 < iter.length)
    (hlen : chunk.data.length = image.size axes.1 * image.size axes.2) :
    ∃ image1, write_chunk image axes iter chunk = .ok image1 ∧
      image1.header = image.header ∧
      (∀ x y, x < image.size axes.1 → y < image.size axes.2 →
        some (image1.data ((iter.set axes.1 x).set axes.2 y))
          = chunk.data.get? (y * image.size axes.1 + x)) ∧
      (∀ p, (∀ x y, x < image.size axes.1 → y < image.size axes.2 →
          p ≠ (iter.set axes.1 x).set axes.2 y) → image1.data p = image.data p) := by
  have hrows := foldlM_range_invariant
    (fun r y => (List.range (image.size axes.1)).foldlM (write_x axes iter chunk y) r)
    (fun y (r : Image × Nat) => r.2 = y * image.size axes.1 ∧ r.1.header = image.header ∧
      (∀ x1 y1, x1 < image.size axes.1 → y1 < y →
        some (r.1.data ((iter.set axes.1 x1).set axes.2 y1))
          = chunk.data.get? (y1 * image.size axes.1 + x1)) ∧
      (∀ p, (∀ x1 y1, x1 < image.size axes.1 → y1 < y →
          p ≠ (iter.set axes.1 x1).set axes.2 y1) → r.1.data p = image.data p))
    (image, 0) (image.size axes.2)
    ⟨by simp, rfl, fun _ _ _ h => by omega, fun _ _ => rfl⟩
    (by
      intro y r hy ⟨hn, hh, hw, hu⟩
      have hcols := foldlM_range_invariant (write_x axes iter chunk y)
        (fun x (r1 : Image × Nat) => r1.2 = y * image.size axes.1 + x ∧
          r1.1.header = image.header ∧
          (∀ x1 y1, x1 < image.size axes.1 → (y1 < y ∨ (y1 = y ∧ x1 < x)) →
            some (r1.1.data ((iter.set axes.1 x1).set axes.2 y1))
              = chunk.data.get? (y1 * image.size axes.1 + x1)) ∧
          (∀ p, (∀ x1 y1, x1 < image.size axes.1 → (y1 < y ∨ (y1 = y ∧ x1 < x)) →
              p ≠ (iter.set axes.1 x1).set axes.2 y1) → r1.1.data p = image.data p))
        r (image.size axes.1)
        ⟨by simp [hn], hh, fun x1 y1 hx1 h => hw x1 y1 hx1 (by omega),
          fun p hp => hu p (fun x1 y1 hx1 hy1 => hp x1 y1 hx1 (Or.inl hy1))⟩
        (by
          intro x r1 hx ⟨hn1, hh1, hw1, hu1⟩
          have hlt : r1.2 < chunk.data.length := by
            rw [hlen, hn1]
            calc y * image.size axes.1 + x < y * image.size axes.1 + image.size axes.1 := by omega
              _ = (y + 1) * image.size axes.1 := by rw [Nat.add_mul, Nat.one_mul]
              _ ≤ image.size axes.2 * image.size axes.1 := Nat.mul_le_mul_right _ hy
              _ = image.size axes.1 * image.size axes.2 := Nat.mul_comm _ _
          have hget : chunk.data.get? r1.2 = some (chunk.data.get ⟨r1.2, hlt⟩) :=
            List.get?_eq_get hlt
          refine ⟨(r1.1.set_value ((iter.set axes.1 x).set axes.2 y)
              (chunk.data.get ⟨r1.2, hlt⟩), r1.2 + 1),
            by simp only [write_x, hget], by simp only [hn1]; omega, hh1, ?_, ?_⟩
          · intro x1 y1 hx1 hp
            simp only [Image.set_value]
            by_cases hq : (iter.set axes.1 x1).set axes.2 y1 = (iter.set axes.1 x).set axes.2 y
            · obtain ⟨e1, e2⟩ := tile_cell_injective iter _ _ _ _ _ _ h01 h0 h1 hq
              subst e1; subst e2
              simp only [if_true]
              rw [← hn1, hget]
            · simp only [hq, if_false]
              apply hw1 x1 y1 hx1
              rcases hp with hp | ⟨hp1, hp2⟩
              · exact Or.inl hp
              · refine Or.inr ⟨hp1, ?_⟩
                rcases Nat.lt_succ_iff_lt_or_eq.mp hp2 with h | h
                · exact h
                · exact (hq (by rw [hp1, h])).elim
          · intro p hp
            simp only [Image.set_value]
            have hq : p ≠ (iter.set axes.1 x).set axes.2 y := hp x y hx (Or.inr ⟨rfl, by omega⟩)
            simp only [hq, if_false]
            exact hu1 p (fun x1 y1 hx1 h => hp x1 y1 hx1 (by
              rcases h with h | ⟨h2, h3⟩
              · exact Or.inl h
              · exact Or.inr ⟨h2, by omega⟩)))
      obtain ⟨b, hb, hn2, hh2, hw2, hu2⟩ := hcols
      refine ⟨b, hb, by rw [hn2, Nat.add_mul, Nat.one_mul], hh2, ?_, ?_⟩
      · intro x1 y1 hx1 hy1
        apply hw2 x1 y1 hx1
        rcases Nat.lt_succ_iff_lt_or_eq.mp hy1 with h | h
        · exact Or.inl h
        · exact Or.inr ⟨h, hx1⟩
      · intro p hp
        apply hu2 p
        intro x1 y1 hx1 h
        apply hp x1 y1 hx1
        rcases h with h | ⟨h2, _⟩
        · omega
        · omega)
  obtain ⟨b, hb, _, hh, hw, hu⟩ := hrows
  refine ⟨b.1, ?_, hh, fun x y hx hy => hw x y hx hy, hu⟩
  simp only [write_chunk, hb, bind, Except.bind, pure, Except.pure]
theorem tile_position_project (image : Image) (iter : List Nat) (axes : Nat × Nat) (x y : Nat)
    (h01 : axes.1 ≠ axes.2) (h0 : axes.1 < iter.length) (h1 : axes.2 < iter.length) :
    tile_position image iter axes x y = image.project ((iter.set axes.1 x).set axes.2 y) := by
  simp only [tile_position, Image.project]
  apply List.map_congr_left
  intro n _
  have h10 : ¬ axes.2 = axes.1 := fun h => h01 h.symm
  split
  · simp only [getD_set, List.length_set]
    by_cases hn0 : n = axes.1
    · subst hn0; simp [h0, h10]
    · by_cases hn1 : n = axes.2
      · subst hn1; simp [hn0, h1]
      · have e0 : ¬ axes.1 = n := fun h => hn0 h.symm
        have e1 : ¬ axes.2 = n := fun h => hn1 h.symm
        simp [hn0, hn1, e0, e1]
  · rfl

theorem cell_voxel (env : Env) (iter : List Nat) (axes size : Nat × Nat) (x y : Nat)
    (h01 : axes.1 ≠ axes.2) (h0 : axes.1 < iter.length) (h1 : axes.2 < iter.length)
    (hx : x < size.1) (t : StackEntry) :
    ∀ d, t.rng_count = 0 →
      t.cell env iter axes size d (y * size.1 + x)
        = t.voxel env axes size ((iter.set axes.1 x).set axes.2 y) := by
  have hg := tile_cell_getD iter axes.1 axes.2 x y h01 h0 h1
  have hmod : (y * size.1 + x) % size.1 = x := by
    rw [Nat.mul_comm, Nat.mul_add_mod, Nat.mod_eq_of_lt hx]
  have hdiv : (y * size.1 + x) / size.1 = y := by
    rw [Nat.mul_comm, Nat.mul_add_div (by omega), Nat.div_eq_of_lt hx]; simp
  have hlen : axes.1 < ((iter.set axes.1 x).set axes.2 y).length ∧
      axes.2 < ((iter.set axes.1 x).set axes.2 y).length := by simp [h0, h1]
  have hpp : ((((iter.set axes.1 x).set axes.2 y).set axes.1 x).set axes.2 y)
      = (iter.set axes.1 x).set axes.2 y := by
    apply list_eq_of_getD
    · simp
    · intro n _
      have h10 : ¬ axes.2 = axes.1 := fun h => h01 h.symm
      simp only [getD_set, List.length_set]
      by_cases e1 : axes.2 = n
      · subst e1; simp [h1]
      · by_cases e0 : axes.1 = n
        · subst e0; simp [h0, h10]
        · simp [e0, e1]
  simp only [StackEntry.voxel, hg.1, hg.2]
  induction t with
  | arg s => intro d _; rfl
  | value v => intro d _; rfl
  | rng g => intro d h; simp [StackEntry.rng_count] at h
  | image img cx =>
    intro d _
    simp only [StackEntry.cell, hmod, hdiv]
    rw [tile_position_project img iter axes x y h01 h0 h1,
      tile_position_project img _ axes x y h01 hlen.1 hlen.2, hpp]
  | unary id op a iha =>
    intro d h
    simp only [StackEntry.rng_count] at h
    simp only [StackEntry.cell, iha d h]
  | binary id op a b iha ihb =>
    intro d h
    simp only [StackEntry.rng_count] at h
    have ha : a.rng_count = 0 := by omega
    have hb : b.rng_count = 0 := by omega
    simp only [StackEntry.cell, iha d ha, ihb _ hb, ha, Nat.mul_zero, Nat.add_zero]
  | ternary id op a b c iha ihb ihc =>
    intro d h
    simp only [StackEntry.rng_count] at h
    have ha : a.rng_count = 0 := by omega
    have hb : b.rng_count = 0 := by omega
    have hc : c.rng_count = 0 := by omega
    simp only [StackEntry.cell, iha d ha, ihb _ hb, ihc _ hc, ha, hb, Nat.mul_zero, Nat.add_zero]
theorem call_spec (env : Env) (f : ThreadFunctor) (t : StackEntry) (axes : Nat × Nat)
    (header : Header) (iter : List Nat) (hr : f.ready t axes header)
    (hN : 1 ≤ header.size axes.1 * header.size axes.2)
    (hk : t.kernels_exist = true) (hb : t.is_broadcast = false) (hrng : t.rng_count = 0)
    (h01 : axes.1 ≠ axes.2) (h0 : axes.1 < iter.length) (h1 : axes.2 < iter.length) :
    ∃ f1, f.call env iter = .ok f1 ∧ f1.ready t axes header ∧
      (∀ x y, x < header.size axes.1 → y < header.size axes.2 →
        f1.image.data ((iter.set axes.1 x).set axes.2 y)
          = t.voxel env axes (header.size axes.1, header.size axes.2)
              ((iter.set axes.1 x).set axes.2 y)) ∧
      (∀ p, (∀ x y, x < header.size axes.1 → y < header.size axes.2 →
          p ≠ (iter.set axes.1 x).set axes.2 y) → f1.image.data p = f.image.data p) := by
  obtain ⟨r1, r2, r3, r4, r5⟩ := hr
  have hsz : (f.storage.reset iter).size = (header.size axes.1, header.size axes.2) := r4
  have hev := (evaluate_spec env t (f.storage.reset iter) (by rw [hsz]; exact hN)
    (by rw [hsz]; exact r5)).1 hk
  obtain ⟨r, st1, hev, p1, p2, p3, p4, p5, p6, p7, p8, p9, p10, p11⟩ := hev
  rw [hsz] at p10 p11
  simp only [chunk_holds, hb, Bool.false_eq_true, if_false] at p10
  have hax : (f.storage.reset iter).axes = axes := r3
  have hit : (f.storage.reset iter).iter = iter := rfl
  rw [hax, hit] at p10
  have hsi0 : f.image.size axes.1 = header.size axes.1 := by rw [Image.size, r2]
  have hsi1 : f.image.size axes.2 = header.size axes.2 := by rw [Image.size, r2]
  obtain ⟨image1, hw, w1, w2, w3⟩ := write_chunk_spec f.image axes iter (st1.chunk r) h01 h0 h1
    (by rw [p10, hsi0, hsi1]; simp)
  rw [hsi0, hsi1] at w2 w3
  refine ⟨{ f with storage := st1, image := image1 }, ?_, ?_, ?_, w3⟩
  · simp only [ThreadFunctor.call, r1, hev, bind, Except.bind, r3, hw, pure, Except.pure]
  · exact ⟨r1, w1.trans r2, p2.trans r3, p3.trans r4, p11⟩
  · intro x y hx hy
    have hlt : y * header.size axes.1 + x < header.size axes.1 * header.size axes.2 := by
      calc y * header.size axes.1 + x < y * header.size axes.1 + header.size axes.1 := by omega
        _ = (y + 1) * header.size axes.1 := by rw [Nat.add_mul, Nat.one_mul]
        _ ≤ header.size axes.2 * header.size axes.1 := Nat.mul_le_mul_right _ hy
        _ = header.size axes.1 * header.size axes.2 := Nat.mul_comm _ _
    have := w2 x y hx hy
    rw [p10] at this
    simp only [List.get?_eq_getElem?, List.getElem?_map, List.getElem?_range hlt, Option.map_some',
      Option.some.injEq] at this
    rw [this]
    exact cell_voxel env iter axes (header.size axes.1, header.size axes.2) x y h01 h0 h1 hx t _
      hrng

theorem run_outer_spec (env : Env) (t : StackEntry) (axes : Nat × Nat) (header : Header)
    (hN : 1 ≤ header.size axes.1 * header.size axes.2)
    (hk : t.kernels_exist = true) (hb : t.is_broadcast = false) (hrng : t.rng_count = 0)
    (h01 : axes.1 ≠ axes.2) (positions : List (List Nat)) :
    ∀ f : ThreadFunctor, f.ready t axes header →
      (∀ iter ∈ positions, axes.1 < iter.length ∧ axes.2 < iter.length) →
      ∃ f1, run_outer env f positions = .ok f1 ∧ f1.ready t axes header ∧
        (∀ iter ∈ positions, ∀ x y, x < header.size axes.1 → y < header.size axes.2 →
          f1.image.data ((iter.set axes.1 x).set axes.2 y)
            = t.voxel env axes (header.size axes.1, header.size axes.2)
                ((iter.set axes.1 x).set axes.2 y)) ∧
        (∀ p, (∀ iter ∈ positions, ∀ x y, x < header.size axes.1 → y < header.size axes.2 →
            p ≠ (iter.set axes.1 x).set axes.2 y) → f1.image.data p = f.image.data p) := by
  induction positions with
  | nil =>
    intro f hr _
    exact ⟨f, rfl, hr, by simp, fun _ _ => rfl⟩
  | cons iter rest ih =>
    intro f hr hp
    obtain ⟨h0, h1⟩ := hp iter (by simp)
    obtain ⟨f1, hc, hr1, hv1, hu1⟩ := call_spec env f t axes header iter hr hN hk hb hrng h01 h0 h1
    obtain ⟨f2, hc2, hr2, hv2, hu2⟩ := ih f1 hr1 (fun it hit => hp it (by simp [hit]))
    refine ⟨f2, ?_, hr2, ?_, ?_⟩
    · simp only [run_outer, List.foldlM, hc, bind, Except.bind] at hc2 ⊢
      exact hc2
    · intro it hit x y hx hy
      rcases List.mem_cons.mp hit with h | h
      · subst h
        by_cases hcov : ∃ it1 ∈ rest, ∃ x1 y1, x1 < header.size axes.1 ∧
            y1 < header.size axes.2 ∧
            (it.set axes.1 x).set axes.2 y = (it1.set axes.1 x1).set axes.2 y1
        · obtain ⟨it1, hit1, x1, y1, hx1, hy1, he⟩ := hcov
          rw [he]
          exact hv2 it1 hit1 x1 y1 hx1 hy1
        · rw [hu2 _ (fun it1 hit1 x1 y1 hx1 hy1 he => hcov ⟨it1, hit1, x1, y1, hx1, hy1, he⟩)]
          exact hv1 x y hx hy
      · exact hv2 it h x y hx hy
    · intro p hp2
      rw [hu2 p (fun it hit x y hx hy => hp2 it (by simp [hit]) x y hx hy)]
      exact hu1 p (fun x y hx hy => hp2 iter (by simp) x y hx hy)
theorem mem_all_positions (sizes : List Nat) :
    ∀ p : List Nat, in_bounds sizes p → p ∈ all_positions sizes := by
  induction sizes with
  | nil =>
    intro p ⟨hl, _⟩
    have : p = [] := List.eq_nil_of_length_eq_zero hl
    simp [this, all_positions]
  | cons n sizes ih =>
    intro p ⟨hl, hp⟩
    cases p with
    | nil => simp at hl
    | cons i q =>
      simp only [all_positions, List.mem_flatMap, List.mem_range, List.mem_map]
      refine ⟨i, by simpa using hp 0 (by simp), q, ih q ⟨by simpa using hl, ?_⟩, rfl⟩
      intro k hk
      simpa using hp (k + 1) (by simpa using hk)

theorem length_of_mem_all_positions (sizes : List Nat) :
    ∀ p : List Nat, p ∈ all_positions sizes → p.length = sizes.length := by
  induction sizes with
  | nil => intro p hp; simp [all_positions] at hp; simp [hp]
  | cons n sizes ih =>
    intro p hp
    simp only [all_positions, List.mem_flatMap, List.mem_range, List.mem_map] at hp
    obtain ⟨i, _, q, hq, rfl⟩ := hp
    simp [ih q hq]

theorem outer_position_mem (sizes p : List Nat) (axes : Nat × Nat) (hp : in_bounds sizes p) :
    (p.set axes.1 0).set axes.2 0 ∈ outer_positions sizes axes := by
  apply mem_all_positions
  refine ⟨by simp [hp.1], ?_⟩
  intro n hn
  simp only [List.length_set] at hn
  have hlt := hp.2 n hn
  have hn1 : n < p.length := by rw [hp.1]; exact hn
  simp only [getD_set, List.length_set]
  by_cases e1 : axes.2 = n
  · subst e1; simp [hn, hn1]
  · by_cases e0 : axes.1 = n
    · subst e0; simp [hn, hn1, e1]
    · simp only [e1, e0, false_and, if_false]; exact hlt

theorem outer_position_cell (p : List Nat) (axes : Nat × Nat) :
    (((p.set axes.1 0).set axes.2 0).set axes.1 (p.getD axes.1 0)).set axes.2 (p.getD axes.2 0)
      = p := by
  apply list_eq_of_getD
  · simp
  · intro n _
    simp only [getD_set, List.length_set]
    by_cases e1 : axes.2 = n
    · subst e1
      by_cases h : axes.2 < p.length
      · simp [h]
      · simp [h]
        by_cases e0 : axes.1 = axes.2
        · simp [e0, h]
        · simp [e0]
    · by_cases e0 : axes.1 = n
      · subst e0
        by_cases h : axes.1 < p.length
        · simp [h, e1]
        · simp [h, e1]
      · simp [e0, e1]

theorem create_ready (axes : Nat × Nat) (t : StackEntry) (output : Image) :
    (ThreadFunctor.create axes t output).ready t axes output.header := by
  refine ⟨rfl, rfl, rfl, rfl, ?_⟩
  exact allocate_storage_fits _ t []

theorem header_sizes_getD (h : Header) (n : Nat) (hn : n < h.ndim) :
    h.sizes.getD n 0 = h.size n := by
  simp only [Header.ndim] at hn
  simp [Header.sizes, Header.size, List.getD_eq_getElem?_getD, List.getElem?_map,
    List.getElem?_eq_getElem hn]
theorem run_operations_image (env : Env) (cmdline : List Token) (t : StackEntry) (out : String)
    (header : Header) (axes : Nat × Nat) (dt : DataType)
    (hh : get_header t Header.empty = .ok header)
    (hsz : ∀ a, 1 ≤ header.size a)
    (hdt : datatype_option cmdline = none)
    (hdtv : dt = if t.is_complex then DataType.CFloat32 else DataType.Float32)
    (hcreate : env.can_create out { header with datatype := dt } = true)
    (hax : env.inner_axes { header with datatype := dt, name := out } = axes)
    (h01 : axes.1 ≠ axes.2) (h0 : axes.1 < header.ndim) (h1 : axes.2 < header.ndim)
    (hk : t.kernels_exist = true) (hb : t.is_broadcast = false) (hrng : t.rng_count = 0) :
    ∃ output, run_operations env cmdline [StackEntry.arg out, t]
        = .ok (Result.written out output) ∧
      output.header = { header with datatype := dt, name := out } ∧
      ∀ p, in_bounds header.sizes p →
        output.data p = t.voxel env axes (header.size axes.1, header.size axes.2) p := by
  have hnd : ¬ header.ndim = 0 := by omega
  generalize hoh : ({ header with datatype := dt, name := out } : Header) = oh at hax
  have hohs : ∀ a, oh.size a = header.size a := by intro a; rw [← hoh]; rfl
  have hohz : oh.sizes = header.sizes := by rw [← hoh]; rfl
  have hready := create_ready axes t ⟨oh, fun _ => ⟨real_type.fin 0, real_type.fin 0⟩⟩
  have hpos : ∀ iter ∈ outer_positions oh.sizes axes,
      axes.1 < iter.length ∧ axes.2 < iter.length := by
    intro iter hi
    have := length_of_mem_all_positions _ _ hi
    rw [List.length_set, List.length_set, hohz] at this
    simp only [Header.sizes, List.length_map] at this
    simp only [Header.ndim] at h0 h1
    omega
  obtain ⟨f1, hrun, hr1, hv, _⟩ := run_outer_spec env t axes oh
    (by rw [hohs, hohs]; exact Nat.mul_le_mul (hsz _) (hsz _)) hk hb hrng h01
    (outer_positions oh.sizes axes) _ hready hpos
  refine ⟨f1.image, ?_, hr1.2.1, ?_⟩
  · simp only [run_operations, List.reverse_cons, List.reverse_nil, List.nil_append,
      List.singleton_append, List.get?_cons_zero, hh, bind, Except.bind, hnd, if_false,
      List.length_cons, List.length_nil, List.get?_cons_succ, StackEntry.has_arg,
      StackEntry.get_arg, pure, Except.pure]
    cases hcx : t.is_complex <;>
      simp only [hcx, if_true, if_false, Bool.false_eq_true] at hdtv <;>
      subst hdtv <;>
      simp [from_command_line, hdt, DataType.is_complex, hcreate, hoh, hax, hrun]
  · intro p hp
    have hmem := outer_position_mem oh.sizes p axes (by rw [hohz]; exact hp)
    have hx : p.getD axes.1 0 < oh.size axes.1 := by
      rw [hohs, ← header_sizes_getD header _ h0]
      exact hp.2 _ (by simpa [Header.sizes, Header.ndim] using h0)
    have hy : p.getD axes.2 0 < oh.size axes.2 := by
      rw [hohs, ← header_sizes_getD header _ h1]
      exact hp.2 _ (by simpa [Header.sizes, Header.ndim] using h1)
    have := hv _ hmem _ _ hx hy
    rw [outer_position_cell p axes] at this
    rw [this, hohs, hohs]
theorem tree_not_arg (env : Env) (m : StdMath) (e : Expr) (t : StackEntry)
    (h : e.tree env m = some t) : t.has_arg = false := by
  cases e with
  | operand s =>
    simp only [Expr.tree] at h
    split at h
    · rename_i r hr
      simp only [Option.some.injEq] at h
      exact load_arg_not_arg env s [] r.2 t (by rw [hr, ← h])
    · simp at h
  | unary id a =>
    simp only [Expr.tree, Option.bind_eq_bind, Option.pure_def, Option.bind_eq_some] at h
    obtain ⟨_, _, _, _, h⟩ := h
    simp only [Option.some.injEq] at h
    rw [← h]; rfl
  | binary id a b =>
    simp only [Expr.tree, Option.bind_eq_bind, Option.pure_def, Option.bind_eq_some] at h
    obtain ⟨_, _, _, _, _, _, h⟩ := h
    simp only [Option.some.injEq] at h
    rw [← h]; rfl
  | ternary id a b c =>
    simp only [Expr.tree, Option.bind_eq_bind, Option.pure_def, Option.bind_eq_some] at h
    obtain ⟨_, _, _, _, _, _, _, _, h⟩ := h
    simp only [Option.some.injEq] at h
    rw [← h]; rfl

theorem build_tokens_output (env : Env) (m : StdMath) (e : Expr) (t : StackEntry) (out : String)
    (ht : e.tree env m = some t) (hn : t.no_scalar_node = true) :
    ∃ il, build env m (e.tokens ++ [Token.operand out])
      = (none, ⟨[StackEntry.arg out, t], il⟩) := by
  obtain ⟨p, il1, hc1, hrun, hload⟩ :=
    run_loop_tokens env m e t [] [] [Token.operand out] ht hn (consistent_nil env)
  obtain ⟨il2, hl2, _⟩ := hload il1 hc1
  refine ⟨il2, ?_⟩
  simp [build, hrun, run_loop, load_bottom, hl2]

theorem datatype_option_tokens (env : Env) (m : StdMath) (e : Expr) :
    ∀ (t : StackEntry) (rest : List Token), e.tree env m = some t →
      datatype_option (e.tokens ++ rest) = datatype_option rest := by
  induction e with
  | operand s => intro t rest _; rfl
  | unary id a iha =>
    intro t rest h
    simp only [Expr.tree, Option.bind_eq_bind, Option.pure_def, Option.bind_eq_some] at h
    obtain ⟨op, hop, ta, hta, _⟩ := h
    have hid : id ≠ "datatype" := by
      intro hc; rw [hc] at hop; exact absurd hop (by rw [show
        (unary_operations m).lookup "datatype" = none from rfl]; simp)
    simp only [Expr.tokens, List.append_assoc, List.singleton_append]
    rw [iha ta _ hta]
    simp [datatype_option, hid]
  | binary id a b iha ihb =>
    intro t rest h
    simp only [Expr.tree, Option.bind_eq_bind, Option.pure_def, Option.bind_eq_some] at h
    obtain ⟨op, hop, ta, hta, tb, htb, _⟩ := h
    have hid : id ≠ "datatype" := by
      intro hc; rw [hc] at hop; exact absurd hop (by rw [show
        (binary_operations m).lookup "datatype" = none from rfl]; simp)
    simp only [Expr.tokens, List.append_assoc, List.singleton_append]
    rw [iha ta _ hta, ihb tb _ htb]
    simp [datatype_option, hid]
  | ternary id a b c iha ihb ihc =>
    intro t rest h
    simp only [Expr.tree, Option.bind_eq_bind, Option.pure_def, Option.bind_eq_some] at h
    obtain ⟨op, hop, ta, hta, tb, htb, tc, htc, _⟩ := h
    have hid : id ≠ "datatype" := by
      intro hc; rw [hc] at hop; exact absurd hop (by rw [show
        ternary_operations.lookup "datatype" = none from rfl]; simp)
    simp only [Expr.tokens, List.append_assoc, List.singleton_append]
    rw [iha ta _ hta, ihb tb _ htb, ihc tc _ htc]
    simp [datatype_option, hid]

/-- The run of the command on the arguments of an expression followed by the
name of the output: when the tree of the expression has no random source, every
kernel that its evaluation calls exists and its images match, the output image
has the header that `get_header` computes and every voxel of it is the value of
the tree at its position. -/
theorem run_spec (env : Env) (m : StdMath) (e : Expr) (t : StackEntry) (out : String)
    (header : Header) (axes : Nat × Nat) (dt : DataType)
    (ht : e.tree env m = some t) (hn : t.no_scalar_node = true)
    (hw : ∀ l ∈ t.image_leaves, l.well_formed = true)
    (hh : get_header t Header.empty = .ok header)
    (hdtv : dt = if t.is_complex then DataType.CFloat32 else DataType.Float32)
    (hcreate : env.can_create out { header with datatype := dt } = true)
    (hax : env.inner_axes { header with datatype := dt, name := out } = axes)
    (h01 : axes.1 ≠ axes.2) (h0 : axes.1 < header.ndim) (h1 : axes.2 < header.ndim)
    (hk : t.kernels_exist = true) (hb : t.is_broadcast = false) (hrng : t.rng_count = 0) :
    ∃ output, run env m (e.tokens ++ [Token.operand out]) = .ok (Result.written out output) ∧
      output.header = { header with datatype := dt, name := out } ∧
      ∀ p, in_bounds header.sizes p →
        output.data p = t.voxel env axes (header.size axes.1, header.size axes.2) p := by
  obtain ⟨il, hbuild⟩ := build_tokens_output env m e t out ht hn
  have hsz : ∀ a, 1 ≤ header.size a := by
    rcases get_header_spec t hw with ⟨_, he⟩ | ⟨_, h2, hok, hinv⟩
    · rw [he] at hh; cases hh
    · rw [hok] at hh
      simp only [Except.ok.injEq] at hh
      subst hh
      exact hinv.1
  have hdt : datatype_option (e.tokens ++ [Token.operand out]) = none := by
    rw [datatype_option_tokens env m e t _ ht]; rfl
  obtain ⟨output, hro, hoh, hov⟩ := run_operations_image env (e.tokens ++ [Token.operand out])
    t out header axes dt hh hsz hdt hdtv hcreate hax h01 h0 h1 hk hb hrng
  exact ⟨output, by simp only [run, hbuild, hro], hoh, hov⟩

theorem voxel_image (env : Env) (img : Image) (cx : Bool) (axes size : Nat × Nat) (p : List Nat)
    (hx : p.getD axes.1 0 < size.1) :
    (StackEntry.image img cx).voxel env axes size p = img.data (img.project p) := by
  have hmod : (p.getD axes.2 0 * size.1 + p.getD axes.1 0) % size.1 = p.getD axes.1 0 := by
    rw [Nat.mul_comm, Nat.mul_add_mod, Nat.mod_eq_of_lt hx]
  have hdiv : (p.getD axes.2 0 * size.1 + p.getD axes.1 0) / size.1 = p.getD axes.2 0 := by
    rw [Nat.mul_comm, Nat.mul_add_div (by omega), Nat.div_eq_of_lt hx]; simp
  simp only [StackEntry.voxel, StackEntry.cell, hmod, hdiv, tile_position, Image.project]
  congr 1
  apply List.map_congr_left
  intro n _
  split
  · by_cases h0 : n = axes.1
    · rw [if_pos h0, h0]
    · by_cases h1 : n = axes.2
      · rw [if_neg h0, if_pos h1, h1]
      · rw [if_neg h0, if_neg h1]
  · rfl

theorem project_in_bounds (img : Image) (p : List Nat) (hp : in_bounds img.header.sizes p) :
    img.project p = p := by
  obtain ⟨hlen, hlt⟩ := hp
  have hl : img.header.sizes.length = img.ndim := by simp [Header.sizes, Image.ndim, Header.ndim]
  apply list_eq_of_getD
  · simp [Image.project, hlen, hl]
  · intro n hn
    simp only [Image.project, List.length_map, List.length_range] at hn
    have h1 := hlt n (by omega)
    rw [header_sizes_getD img.header n hn] at h1
    simp only [Image.project, List.getD_eq_getElem?_getD, List.getElem?_map,
      List.getElem?_range hn, Option.map_some', Option.getD_some]
    split
    · rfl
    · rename_i hs
      simp only [Image.size, gt_iff_lt, not_lt] at hs
      simp only [List.getD_eq_getElem?_getD] at h1
      omega

theorem is_node_operand_of_not_broadcast (t : StackEntry) (h : t.is_broadcast = false) :
    t.is_node_operand = true := by
  cases t <;> simp_all [StackEntry.is_broadcast, StackEntry.is_node_operand,
    StackEntry.has_evaluator, StackEntry.has_image, StackEntry.has_rng]

theorem voxel_binary (env : Env) (id : String) (op : OpBinary) (a b : StackEntry)
    (axes size : Nat × Nat) (p : List Nat) (K : complex_type → complex_type → complex_type)
    (ha : a.rng_count = 0) (hbc : (a.is_broadcast && b.is_broadcast) = false)
    (hK : (if a.is_complex || b.is_complex then op.Z
      else op.R.map fun R x y => R x.real y.real) = some K) :
    (StackEntry.binary id op a b).voxel env axes size p
      = K (a.voxel env axes size p) (b.voxel env axes size p) := by
  simp only [StackEntry.voxel, StackEntry.cell, ha, Nat.mul_zero, Nat.add_zero, hbc]
  cases hc : (a.is_complex || b.is_complex)
  · simp only [hc, Bool.false_eq_true, if_false] at hK ⊢
    cases hR : op.R with
    | none => simp [hR] at hK
    | some R =>
      simp only [hR, Option.map_some', Option.some.injEq] at hK
      subst hK
      rfl
  · simp only [hc, if_true, Bool.false_eq_true, if_false] at hK ⊢
    rw [hK]

/-- The run of the command on `a b -op out`, for two operand expressions whose
trees have no random source: every voxel of the output is the kernel that the
operands select, applied to their values at the voxel, the first argument being
that of the operand pushed first. -/
theorem run_binary_spec (env : Env) (m : StdMath) (id : String) (op : OpBinary) (ea eb : Expr)
    (ta tb : StackEntry) (out : String) (header : Header)
    (K : complex_type → complex_type → complex_type)
    (hop : (binary_operations m).lookup id = some op)
    (hta : ea.tree env m = some ta) (htb : eb.tree env m = some tb)
    (hna : ta.no_scalar_node = true) (hnb : tb.no_scalar_node = true)
    (hka : ta.kernels_exist = true) (hkb : tb.kernels_exist = true)
    (hra : ta.rng_count = 0) (hrb : tb.rng_count = 0)
    (hbc : (ta.is_broadcast && tb.is_broadcast) = false)
    (hw : ∀ l ∈ ta.image_leaves ++ tb.image_leaves, l.well_formed = true)
    (hh : get_header (StackEntry.binary id op ta tb) Header.empty = .ok header)
    (hK : (if ta.is_complex || tb.is_complex then op.Z
      else op.R.map fun R x y => R x.real y.real) = some K)
    (hcreate : ∀ h, env.can_create out h = true)
    (hax : ∀ h : Header, h.ndim = header.ndim →
      (env.inner_axes h).1 ≠ (env.inner_axes h).2 ∧ (env.inner_axes h).1 < h.ndim ∧
        (env.inner_axes h).2 < h.ndim) :
    ∃ output axes, run env m (ea.tokens ++ eb.tokens ++ [Token.option id, Token.operand out])
        = .ok (Result.written out output) ∧
      output.header.axes = header.axes ∧
      ∀ p, in_bounds header.sizes p →
        p.getD axes.1 0 < header.size axes.1 ∧
        output.data p = K (ta.voxel env axes (header.size axes.1, header.size axes.2) p)
          (tb.voxel env axes (header.size axes.1, header.size axes.2) p) := by
  have htree : (Expr.binary id ea eb).tree env m = some (StackEntry.binary id op ta tb) := by
    simp [Expr.tree, hop, hta, htb]
  have htok : (Expr.binary id ea eb).tokens ++ [Token.operand out]
      = ea.tokens ++ eb.tokens ++ [Token.option id, Token.operand out] := by
    simp [Expr.tokens]
  have hnode : (ta.is_node_operand || tb.is_node_operand) = true := by
    cases hba : ta.is_broadcast
    · simp [is_node_operand_of_not_broadcast ta hba]
    · cases hbb : tb.is_broadcast
      · simp [is_node_operand_of_not_broadcast tb hbb]
      · simp [hba, hbb] at hbc
  have hn : (StackEntry.binary id op ta tb).no_scalar_node = true := by
    simp only [StackEntry.no_scalar_node, hnode, hna, hnb, Bool.and_self]
  have hk : (StackEntry.binary id op ta tb).kernels_exist = true := by
    simp only [StackEntry.kernels_exist, hka, hkb, hbc, Bool.and_self, Bool.true_and,
      Bool.false_or]
    cases hc : (ta.is_complex || tb.is_complex)
    · simp only [hc, Bool.false_eq_true, if_false] at hK ⊢
      cases hR : op.R with
      | none => simp [hR] at hK
      | some R => rfl
    · simp only [hc, if_true] at hK ⊢
      rw [hK]; rfl
  have hr : (StackEntry.binary id op ta tb).rng_count = 0 := by
    simp [StackEntry.rng_count, hra, hrb]
  obtain ⟨ax, hax1⟩ : ∃ ax, env.inner_axes { header with
    datatype := if (StackEntry.binary id op ta tb).is_complex then DataType.CFloat32
      else DataType.Float32, name := out } = ax := ⟨_, rfl⟩
  obtain ⟨h0, h1, h2⟩ := hax { header with
    datatype := if (StackEntry.binary id op ta tb).is_complex then DataType.CFloat32
      else DataType.Float32, name := out } rfl
  rw [hax1] at h0 h1 h2
  have h1a : ax.1 < header.ndim := h1
  obtain ⟨output, hrun, hoh, hov⟩ := run_spec env m (Expr.binary id ea eb) _ out header ax _
    htree hn hw hh rfl (hcreate _) hax1 h0 h1 h2 hk hbc hr
  rw [htok] at hrun
  refine ⟨output, ax, hrun, by rw [hoh], ?_⟩
  intro p hp
  have hlt : p.getD ax.1 0 < header.size ax.1 := by
    have hl : header.sizes.length = header.ndim := by simp [Header.sizes, Header.ndim]
    have := hp.2 _ (by rw [hl]; exact h1a)
    rwa [header_sizes_getD header _ h1a] at this
  exact ⟨hlt, by rw [hov p hp, voxel_binary env id op ta tb _ _ p K hra hbc hK]⟩

theorem call_unsupported (env : Env) (f : ThreadFunctor) (t : StackEntry) (axes : Nat × Nat)
    (header : Header) (iter : List Nat) (hr : f.ready t axes header)
    (hN : 1 ≤ header.size axes.1 * header.size axes.2)
    (hk : t.kernels_exist = false) :
    f.call env iter = .error Error.OperationNotSupported := by
  obtain ⟨r1, r2, r3, r4, r5⟩ := hr
  have hsz : (f.storage.reset iter).size = (header.size axes.1, header.size axes.2) := r4
  have hev := (evaluate_spec env t (f.storage.reset iter) (by rw [hsz]; exact hN)
    (by rw [hsz]; exact r5)).2 hk
  simp only [ThreadFunctor.call, r1, hev, bind, Except.bind]

theorem outer_positions_ne_nil (sizes : List Nat) (axes : Nat × Nat)
    (h : ∀ n, n < sizes.length → 0 < sizes.getD n 0) : outer_positions sizes axes ≠ [] := by
  have hp : in_bounds sizes (List.replicate sizes.length 0) := by
    refine ⟨by simp, ?_⟩
    intro n hn
    have : (List.replicate sizes.length 0).getD n 0 = 0 := by
      simp [List.getD_eq_getElem?_getD, List.getElem?_replicate, hn]
    rw [this]
    exact h n hn
  exact List.ne_nil_of_mem (outer_position_mem sizes _ axes hp)

/-- The run of the operations on a tree one of whose nodes lacks the kernel that
its operands select: the first tile throws. -/
theorem run_operations_unsupported (env : Env) (cmdline : List Token) (t : StackEntry)
    (out : String) (header : Header) (dt : DataType)
    (hh : get_header t Header.empty = .ok header)
    (hsz : ∀ a, 1 ≤ header.size a)
    (hdt : datatype_option cmdline = none)
    (hdtv : dt = if t.is_complex then DataType.CFloat32 else DataType.Float32)
    (hcreate : env.can_create out { header with datatype := dt } = true)
    (hnd : header.ndim ≠ 0)
    (hk : t.kernels_exist = false) :
    run_operations env cmdline [StackEntry.arg out, t]
      = .error Error.OperationNotSupported := by
  generalize hoh : ({ header with datatype := dt, name := out } : Header) = oh
  have hohs : ∀ a, oh.size a = header.size a := by intro a; rw [← hoh]; rfl
  have hready := create_ready (env.inner_axes oh) t
    ⟨oh, fun _ => ⟨real_type.fin 0, real_type.fin 0⟩⟩
  have hne := outer_positions_ne_nil oh.sizes (env.inner_axes oh) (by
    intro n hn
    have hn1 : n < oh.ndim := by simpa [Header.sizes, Header.ndim] using hn
    rw [header_sizes_getD oh n hn1, hohs]
    exact hsz n)
  have hrun : run_outer env (ThreadFunctor.create (env.inner_axes oh) t
      ⟨oh, fun _ => ⟨real_type.fin 0, real_type.fin 0⟩⟩)
      (outer_positions oh.sizes (env.inner_axes oh)) = .error Error.OperationNotSupported := by
    cases hl : outer_positions oh.sizes (env.inner_axes oh) with
    | nil => exact absurd hl hne
    | cons p rest =>
      simp only [run_outer, List.foldlM, bind, Except.bind,
        call_unsupported env _ t (env.inner_axes oh) oh p hready
          (by rw [hohs, hohs]; exact Nat.mul_le_mul (hsz _) (hsz _)) hk]
  simp only [run_operations, List.reverse_cons, List.reverse_nil, List.nil_append,
    List.singleton_append, List.get?_cons_zero, hh, bind, Except.bind, hnd, if_false,
    List.length_cons, List.length_nil, List.get?_cons_succ, StackEntry.has_arg,
    StackEntry.get_arg, pure, Except.pure]
  cases hcx : t.is_complex <;>
    simp only [hcx, if_true, if_false, Bool.false_eq_true] at hdtv <;>
    subst hdtv <;>
    simp [from_command_line, hdt, DataType.is_complex, hcreate, hoh, hrun]

/-- The run of the command on the arguments of an expression followed by the
name of the output, when a node of the tree lacks the kernel that its operands
select: the command throws, the tree having an image. -/
theorem run_unsupported (env : Env) (m : StdMath) (e : Expr) (t : StackEntry) (out : String)
    (header : Header)
    (ht : e.tree env m = some t) (hn : t.no_scalar_node = true)
    (hw : ∀ l ∈ t.image_leaves, l.well_formed = true)
    (hh : get_header t Header.empty = .ok header)
    (hcreate : ∀ h, env.can_create out h = true)
    (hnd : header.ndim ≠ 0)
    (hk : t.kernels_exist = false) :
    run env m (e.tokens ++ [Token.operand out]) = .error Error.OperationNotSupported := by
  obtain ⟨il, hbuild⟩ := build_tokens_output env m e t out ht hn
  have hsz : ∀ a, 1 ≤ header.size a := by
    rcases get_header_spec t hw with ⟨_, he⟩ | ⟨_, h2, hok, hinv⟩
    · rw [he] at hh; cases hh
    · rw [hok] at hh
      simp only [Except.ok.injEq] at hh
      subst hh
      exact hinv.1
  have hdt : datatype_option (e.tokens ++ [Token.operand out]) = none := by
    rw [datatype_option_tokens env m e t _ ht]; rfl
  simp only [run, hbuild]
  exact run_operations_unsupported env _ t out header _ hh hsz hdt rfl (hcreate _) hnd hk

/-- The image that `run_operations` has created on a stack of the root and the
name of the output, the root having an image and no datatype being asked for:
whatever the loop over the tiles does, the output image exists, with the header
of the broadcast. -/
theorem created_output_image (env : Env) (cmdline : List Token) (t : StackEntry)
    (out : String) (header : Header) (dt : DataType)
    (hh : get_header t Header.empty = .ok header)
    (hdt : datatype_option cmdline = none)
    (hdtv : dt = if t.is_complex then DataType.CFloat32 else DataType.Float32)
    (hcreate : env.can_create out { header with datatype := dt } = true)
    (hnd : header.ndim ≠ 0) :
    created_output env cmdline [StackEntry.arg out, t]
      = some (out, { header with datatype := dt, name := out }) := by
  simp only [created_output, List.reverse_cons, List.reverse_nil, List.nil_append,
    List.singleton_append, List.get?_cons_zero, hh, bind, Except.bind, hnd, if_false,
    List.length_cons, List.length_nil, List.get?_cons_succ, StackEntry.has_arg,
    StackEntry.get_arg, pure, Except.pure]
  cases hcx : t.is_complex <;>
    simp only [hcx, if_true, if_false, Bool.false_eq_true] at hdtv <;>
    subst hdtv <;>
    simp [from_command_line, hdt, DataType.is_complex, hcreate]

/-- The image that the command has created on the arguments of an expression
followed by the name of the output, the tree having an image. -/
theorem created_tokens (env : Env) (m : StdMath) (e : Expr) (t : StackEntry) (out : String)
    (header : Header)
    (ht : e.tree env m = some t) (hn : t.no_scalar_node = true)
    (hh : get_header t Header.empty = .ok header)
    (hcreate : ∀ h, env.can_create out h = true)
    (hnd : header.ndim ≠ 0) :
    created env m (e.tokens ++ [Token.operand out])
      = some (out, { header with
          datatype := if t.is_complex then DataType.CFloat32 else DataType.Float32,
          name := out }) := by
  obtain ⟨il, hbuild⟩ := build_tokens_output env m e t out ht hn
  have hdt : datatype_option (e.tokens ++ [Token.operand out]) = none := by
    rw [datatype_option_tokens env m e t _ ht]; rfl
  simp only [created, hbuild]
  exact created_output_image env _ t out header _ hh hdt rfl (hcreate _) hnd

theorem tree_image (env : Env) (m : StdMath) (name : String) (A : Image)
    (h : env.open_image name = some A) :
    (Expr.operand name).tree env m
      = some (StackEntry.image A A.header.datatype.is_complex) := by
  simp [Expr.tree, StackEntry.load, h]

theorem mismatch_symm (A B : Image) (h : A.mismatch B) : B.mismatch A := by
  obtain ⟨a, h1, h2, h3, h4, h5⟩ := h
  exact ⟨a, h2, h1, fun e => h3 e.symm, h5, h4⟩

theorem mismatch_irrefl (A : Image) : ¬ A.mismatch A := by
  rintro ⟨a, _, _, h3, _, _⟩
  exact h3 rfl

/-- The header of the output of a binary node over two compatible images. -/
theorem get_header_pair (id : String) (op : OpBinary) (A B : Image) (cA cB : Bool)
    (hwA : A.well_formed = true) (hwB : B.well_formed = true) (hcompat : ¬ A.mismatch B) :
    ∃ header, get_header (StackEntry.binary id op (StackEntry.image A cA)
        (StackEntry.image B cB)) Header.empty = .ok header ∧
      header.ndim = max A.ndim B.ndim := by
  have hw : ∀ l ∈ (StackEntry.binary id op (StackEntry.image A cA)
      (StackEntry.image B cB)).image_leaves, l.well_formed = true := by
    intro l hl
    simp only [StackEntry.image_leaves, List.singleton_append, List.mem_cons,
      List.mem_singleton, List.mem_nil_iff, or_false] at hl
    rcases hl with h | h <;> (rw [h]; assumption)
  rcases get_header_spec _ hw with ⟨⟨l1, hl1, l2, hl2, hm⟩, _⟩ | ⟨_, h1, hok, _, i2, i3, _⟩
  · simp only [StackEntry.image_leaves, List.singleton_append, List.mem_cons,
      List.mem_singleton, List.mem_nil_iff, or_false] at hl1 hl2
    rcases hl1 with e1 | e1 <;> rcases hl2 with e2 | e2 <;> subst e1 <;> subst e2
    · exact absurd hm (mismatch_irrefl _)
    · exact absurd hm hcompat
    · exact absurd (mismatch_symm _ _ hm) hcompat
    · exact absurd hm (mismatch_irrefl _)
  · refine ⟨h1, hok, ?_⟩
    have hA := i2 A (by simp [StackEntry.image_leaves])
    have hB := i2 B (by simp [StackEntry.image_leaves])
    rcases i3 with h0 | ⟨l, hl, he⟩
    · omega
    · simp only [StackEntry.image_leaves, List.singleton_append, List.mem_cons,
        List.mem_singleton, List.mem_nil_iff, or_false] at hl
      rcases hl with e | e <;> subst e <;> omega

/-- C1 fails for the operator `min` on a real and a complex image of the same
shape: one leaf being complex the Z kernel is selected, `OpMin` has none, and
the command throws instead of computing the voxels of an output; the output
image `out.mif`, of shape 2×2 and complex, has been created before. -/
theorem C1_counterexample :
    OpMin.Z.isNone = true ∧
    run sample_env no_math [Token.operand "a.mif", Token.operand "d.mif", Token.option "min",
      Token.operand "out.mif"] = .error Error.OperationNotSupported ∧
    created sample_env no_math [Token.operand "a.mif", Token.operand "d.mif",
      Token.option "min", Token.operand "out.mif"]
      = some ("out.mif", ⟨"out.mif", [⟨2, none⟩, ⟨2, none⟩], DataType.CFloat32⟩) :=
  ⟨rfl, rfl, rfl⟩

/-- C1. For a binary operator of the catalogue and two images A and B that are
compatible on every axis, the command `A B -op out` selects the Z kernel of the
operator when A or B is complex and its R kernel, on the real parts, otherwise.
When the operator has that kernel, the command writes an output image of which
every voxel i equals kernel (A[proj_A (i)], B[proj_B (i)]), where proj_X puts the
coordinate to 0 on every axis where X has size 1 and drops the axes that X does
not have; when it has not, the command throws OperationNotSupported, after it
has created the output image, with the axes of the broadcast. -/
theorem C1_broadcast_correctness (env : Env) (m : StdMath) (id nameA nameB out : String)
    (op : OpBinary) (A B : Image)
    (hop : (binary_operations m).lookup id = some op)
    (hA : env.open_image nameA = some A) (hB : env.open_image nameB = some B)
    (hwA : A.well_formed = true) (hwB : B.well_formed = true)
    (hcompat : ¬ A.mismatch B)
    (hcreate : ∀ h, env.can_create out h = true)
    (hax : ∀ h : Header, h.ndim = max A.ndim B.ndim →
      (env.inner_axes h).1 ≠ (env.inner_axes h).2 ∧ (env.inner_axes h).1 < h.ndim ∧
        (env.inner_axes h).2 < h.ndim) :
    (∀ K, (if A.header.datatype.is_complex || B.header.datatype.is_complex then op.Z
        else op.R.map fun R x y => R x.real y.real) = some K →
      ∃ output, run env m [Token.operand nameA, Token.operand nameB, Token.option id,
          Token.operand out] = .ok (Result.written out output) ∧
        output.header.ndim = max A.ndim B.ndim ∧
        ∀ p, in_bounds output.header.sizes p →
          output.data p = K (A.data (A.project p)) (B.data (B.project p))) ∧
    ((if A.header.datatype.is_complex || B.header.datatype.is_complex then op.Z.isNone
        else op.R.isNone) = true →
      run env m [Token.operand nameA, Token.operand nameB, Token.option id,
        Token.operand out] = .error Error.OperationNotSupported ∧
      ∃ header, created env m [Token.operand nameA, Token.operand nameB, Token.option id,
          Token.operand out] = some (out, header) ∧
        header.ndim = max A.ndim B.ndim) := by
  obtain ⟨header, hh, hnd⟩ := get_header_pair id op A B A.header.datatype.is_complex
    B.header.datatype.is_complex hwA hwB hcompat
  have hw : ∀ l ∈ (StackEntry.image A A.header.datatype.is_complex).image_leaves ++
      (StackEntry.image B B.header.datatype.is_complex).image_leaves,
      l.well_formed = true := by
    intro l hl
    simp only [StackEntry.image_leaves, List.singleton_append, List.mem_cons,
      List.mem_singleton, List.mem_nil_iff, or_false] at hl
    rcases hl with h | h <;> (rw [h]; assumption)
  constructor
  · intro K hK
    obtain ⟨output, axes, hrun, hoa, hov⟩ := run_binary_spec env m id op (Expr.operand nameA)
      (Expr.operand nameB) _ _ out header K hop (tree_image env m nameA A hA)
      (tree_image env m nameB B hB) rfl rfl rfl rfl rfl rfl rfl hw hh hK hcreate
      (fun h e => hax h (e.trans hnd))
    refine ⟨output, hrun, ?_, ?_⟩
    · rw [← hnd]; simp only [Header.ndim, hoa]
    · intro p hp
      have hs : output.header.sizes = header.sizes := by simp only [Header.sizes, hoa]
      rw [hs] at hp
      obtain ⟨hx, hv⟩ := hov p hp
      rw [hv, voxel_image env A _ _ _ p hx, voxel_image env B _ _ _ p hx]
  · intro hK
    have htree : (Expr.binary id (Expr.operand nameA) (Expr.operand nameB)).tree env m
        = some (StackEntry.binary id op (StackEntry.image A A.header.datatype.is_complex)
          (StackEntry.image B B.header.datatype.is_complex)) := by
      simp [Expr.tree, hop, StackEntry.load, hA, hB]
    have hk : (StackEntry.binary id op (StackEntry.image A A.header.datatype.is_complex)
        (StackEntry.image B B.header.datatype.is_complex)).kernels_exist = false := by
      simp only [StackEntry.kernels_exist, StackEntry.is_broadcast, StackEntry.is_complex,
        Bool.and_self, Bool.true_and, Bool.false_or]
      by_cases hc : (A.header.datatype.is_complex || B.header.datatype.is_complex) = true
      · rw [if_pos hc] at hK ⊢
        cases hZ : op.Z <;> simp_all
      · rw [if_neg hc] at hK ⊢
        cases hR : op.R <;> simp_all
    have h2 := (hax header hnd).2.1
    refine ⟨run_unsupported env m (Expr.binary id (Expr.operand nameA) (Expr.operand nameB)) _
      out header htree rfl hw hh hcreate (by omega) hk, _,
      created_tokens env m (Expr.binary id (Expr.operand nameA) (Expr.operand nameB)) _ out
        header htree rfl hh hcreate (by omega), hnd⟩

/-- C1, at the sum of the images `b.mif` of shape 2×2×1 and `c.mif` of shape
1×1×3. -/
theorem C1_broadcast_correctness_witness :
    ∃ output, run sample_env no_math [Token.operand "b.mif", Token.operand "c.mif",
        Token.option "add", Token.operand "out.mif"] = .ok (Result.written "out.mif" output) ∧
      output.header.ndim = 3 ∧
      ∀ p, in_bounds output.header.sizes p →
        output.data p = complex_type.ofReal
          ((image_b.data (image_b.project p)).real.add (image_c.data (image_c.project p)).real) :=
  (C1_broadcast_correctness sample_env no_math "add" "b.mif" "c.mif" "out.mif" OpAdd
    image_b image_c rfl rfl rfl rfl rfl
    (by
      rintro ⟨a, h1, _, _, h4, h5⟩
      have h1 : a < 3 := h1
      interval_cases a <;> revert h4 h5 <;> decide)
    (fun _ => rfl)
    (fun h hh => by
      have h3 : h.ndim = 3 := hh
      exact ⟨by show (0 : Nat) ≠ 1; decide, by show 0 < h.ndim; omega,
        by show 1 < h.ndim; omega⟩)).1
    (fun x y => complex_type.ofReal (x.real.add y.real)) rfl

theorem tree_value (env : Env) (m : StdMath) (s : String) (v : complex_type)
    (h : (StackEntry.arg s).load env [] = .ok (StackEntry.value v, [])) :
    (Expr.operand s).tree env m = some (StackEntry.value v) := by
  simp [Expr.tree, h]

theorem get_header_image_left (id : String) (op : OpBinary) (A : Image) (cA : Bool)
    (v : complex_type) :
    get_header (StackEntry.binary id op (StackEntry.image A cA) (StackEntry.value v))
      Header.empty = .ok A.header := by
  simp [get_header, get_header_image, Header.empty, Header.ndim, bind, Except.bind]

theorem get_header_image_right (id : String) (op : OpBinary) (A : Image) (cA : Bool)
    (v : complex_type) :
    get_header (StackEntry.binary id op (StackEntry.value v) (StackEntry.image A cA))
      Header.empty = .ok A.header := by
  simp [get_header, get_header_image, Header.empty, Header.ndim, bind, Except.bind]

theorem value_not_complex (v : complex_type) (hv : v.imag = real_type.fin 0) :
    (StackEntry.value v).is_complex = false := by
  simp [StackEntry.is_complex, real_type.ne, real_type.eq, hv]

/-- C2. For a real image A, a scalar literal s whose value is real and a binary
operator of the catalogue that has an R kernel, the command `A s -op out`
writes an output image with the sizes of A in which every voxel i equals
R (A[i], s); for A = [[1,2],[3,4]] the command `A 2 -multiply out` (the option
that `-mult` abbreviates) gives [[2,4],[6,8]]. -/
theorem C2_image_with_scalar (env : Env) (m : StdMath) (id nameA s out : String)
    (op : OpBinary) (A : Image) (v : complex_type)
    (R : real_type → real_type → complex_type)
    (hop : (binary_operations m).lookup id = some op) (hR : op.R = some R)
    (hA : env.open_image nameA = some A)
    (hreal : A.header.datatype.is_complex = false) (hwA : A.well_formed = true)
    (hs : (StackEntry.arg s).load env [] = .ok (StackEntry.value v, []))
    (hv : v.imag = real_type.fin 0)
    (hcreate : ∀ h, env.can_create out h = true)
    (hax : ∀ h : Header, h.ndim = A.ndim →
      (env.inner_axes h).1 ≠ (env.inner_axes h).2 ∧ (env.inner_axes h).1 < h.ndim ∧
        (env.inner_axes h).2 < h.ndim) :
    (∃ output, run env m [Token.operand nameA, Token.operand s, Token.option id,
        Token.operand out] = .ok (Result.written out output) ∧
      output.header.sizes = A.header.sizes ∧
      ∀ p, in_bounds A.header.sizes p → output.data p = R (A.data p).real v.real) ∧
    (∃ output, run sample_env m [Token.operand "a.mif", Token.operand "2",
        Token.option "multiply", Token.operand "out.mif"]
        = .ok (Result.written "out.mif" output) ∧
      output.header.sizes = [2, 2] ∧
      image_a.data [0, 0] = real_value 1 ∧ image_a.data [0, 1] = real_value 2 ∧
      image_a.data [1, 0] = real_value 3 ∧ image_a.data [1, 1] = real_value 4 ∧
      output.data [0, 0] = real_value 2 ∧ output.data [0, 1] = real_value 4 ∧
      output.data [1, 0] = real_value 6 ∧ output.data [1, 1] = real_value 8) := by
  constructor
  · have hw : ∀ l ∈ (StackEntry.image A A.header.datatype.is_complex).image_leaves ++
        (StackEntry.value v).image_leaves, l.well_formed = true := by
      intro l hl
      simp only [StackEntry.image_leaves, List.append_nil, List.mem_singleton] at hl
      rw [hl]; exact hwA
    have hK : (if (StackEntry.image A A.header.datatype.is_complex).is_complex ||
        (StackEntry.value v).is_complex then op.Z
        else op.R.map fun R x y => R x.real y.real) = some fun x y => R x.real y.real := by
      rw [value_not_complex v hv]
      simp [StackEntry.is_complex, hreal, hR]
    obtain ⟨output, axes, hrun, hoa, hov⟩ := run_binary_spec env m id op (Expr.operand nameA)
      (Expr.operand s) _ _ out A.header _ hop (tree_image env m nameA A hA)
      (tree_value env m s v hs) rfl rfl rfl rfl rfl rfl rfl hw
      (get_header_image_left id op A _ v) hK hcreate hax
    refine ⟨output, hrun, by simp only [Header.sizes, hoa], ?_⟩
    intro p hp
    obtain ⟨hx, hv1⟩ := hov p hp
    rw [hv1, voxel_image env A _ _ _ p hx, project_in_bounds A p hp]
    rfl
  · exact ⟨_, rfl, rfl, by with_unfolding_all rfl, by with_unfolding_all rfl,
      by with_unfolding_all rfl, by with_unfolding_all rfl, by with_unfolding_all rfl,
      by with_unfolding_all rfl, by with_unfolding_all rfl, by with_unfolding_all rfl⟩

/-- C2, at the image `a.mif`, the number 2 and the operator `multiply`. -/
theorem C2_image_with_scalar_witness :
    ∃ output, run sample_env no_math [Token.operand "a.mif", Token.operand "2",
        Token.option "multiply", Token.operand "out.mif"]
        = .ok (Result.written "out.mif" output) ∧
      output.header.sizes = [2, 2] ∧
      ∀ p, in_bounds [2, 2] p → output.data p
        = complex_type.ofReal ((image_a.data p).real.mul (real_type.fin 2)) :=
  (C2_image_with_scalar sample_env no_math "multiply" "a.mif" "2" "out.mif" OpMultiply image_a
    (real_value 2) (fun a b => complex_type.ofReal (a.mul b)) rfl rfl rfl rfl rfl rfl rfl
    (fun _ => rfl)
    (fun h hh => by
      have h3 : h.ndim = 2 := hh
      exact ⟨by show (0 : Nat) ≠ 1; decide, by show 0 < h.ndim; omega,
        by show 1 < h.ndim; omega⟩)).1

/-- The run of the command on two numbers and a binary operator: the folded value
is printed. -/
theorem run_binary_values (env : Env) (m : StdMath) (id : String) (op : OpBinary)
    (sa sb : String) (x y r : complex_type)
    (hop : (binary_operations m).lookup id = some op)
    (ha : (StackEntry.arg sa).load env [] = .ok (StackEntry.value x, []))
    (hb : (StackEntry.arg sb).load env [] = .ok (StackEntry.value y, []))
    (hr : binary_fold op x y = some r) :
    run env m [Token.operand sa, Token.operand sb, Token.option id]
      = .ok (Result.printed r) := by
  have h1 : run_loop env m [Token.operand sa, Token.operand sb, Token.option id] false ⟨[], []⟩
      = (none, ⟨[StackEntry.value r], []⟩) := by
    have h0 : run_loop env m [Token.operand sa, Token.operand sb, Token.option id] false
        ⟨[], []⟩
        = run_loop env m [Token.option id] false ⟨[StackEntry.arg sb, StackEntry.arg sa], []⟩ :=
      rfl
    rw [h0, run_loop_binary env m id op [] _ hop,
      binary_operation_loaded env id op _ _ _ _ [] _ _ _ ha hb]
    simp [StackEntry.is_node_operand, StackEntry.has_evaluator, StackEntry.has_image,
      StackEntry.has_rng, StackEntry.get_value, hr, run_loop]
  simp [run, build, h1, load_bottom, StackEntry.load, run_operations, get_header, Header.empty,
    Header.ndim, bind, Except.bind, pure, Except.pure, StackEntry.get_value,
    StackEntry.has_evaluator, StackEntry.has_image]

/-- The run of the command on `s A -op out`, for a number s and an image A:
every voxel of the output is the kernel that the operands select, applied to s
and to the voxel of A, in this order. -/
theorem run_scalar_image (env : Env) (m : StdMath) (id nameA s out : String)
    (op : OpBinary) (A : Image) (v : complex_type)
    (K : complex_type → complex_type → complex_type)
    (hop : (binary_operations m).lookup id = some op)
    (hA : env.open_image nameA = some A) (hwA : A.well_formed = true)
    (hs : (StackEntry.arg s).load env [] = .ok (StackEntry.value v, []))
    (hK : (if (StackEntry.value v).is_complex || A.header.datatype.is_complex then op.Z
      else op.R.map fun R x y => R x.real y.real) = some K)
    (hcreate : ∀ h, env.can_create out h = true)
    (hax : ∀ h : Header, h.ndim = A.ndim →
      (env.inner_axes h).1 ≠ (env.inner_axes h).2 ∧ (env.inner_axes h).1 < h.ndim ∧
        (env.inner_axes h).2 < h.ndim) :
    ∃ output, run env m [Token.operand s, Token.operand nameA, Token.option id,
        Token.operand out] = .ok (Result.written out output) ∧
      ∀ p, in_bounds A.header.sizes p → output.data p = K v (A.data p) := by
  have hw : ∀ l ∈ (StackEntry.value v).image_leaves ++
      (StackEntry.image A A.header.datatype.is_complex).image_leaves,
      l.well_formed = true := by
    intro l hl
    simp only [StackEntry.image_leaves, List.nil_append, List.mem_singleton] at hl
    rw [hl]; exact hwA
  obtain ⟨output, axes, hrun, _, hov⟩ := run_binary_spec env m id op (Expr.operand s)
    (Expr.operand nameA) _ _ out A.header K hop (tree_value env m s v hs)
    (tree_image env m nameA A hA) rfl rfl rfl rfl rfl rfl rfl hw
    (get_header_image_right id op A _ v) hK hcreate hax
  refine ⟨output, hrun, ?_⟩
  intro p hp
  obtain ⟨hx, hv1⟩ := hov p hp
  rw [hv1, voxel_image env A _ _ _ p hx, project_in_bounds A p hp]
  rfl

/-- The run of the command on `A s -op out`, for an image A and a number s:
every voxel of the output is the kernel that the operands select, applied to
the voxel of A and to s, in this order. -/
theorem run_image_scalar (env : Env) (m : StdMath) (id nameA s out : String)
    (op : OpBinary) (A : Image) (v : complex_type)
    (K : complex_type → complex_type → complex_type)
    (hop : (binary_operations m).lookup id = some op)
    (hA : env.open_image nameA = some A) (hwA : A.well_formed = true)
    (hs : (StackEntry.arg s).load env [] = .ok (StackEntry.value v, []))
    (hK : (if A.header.datatype.is_complex || (StackEntry.value v).is_complex then op.Z
      else op.R.map fun R x y => R x.real y.real) = some K)
    (hcreate : ∀ h, env.can_create out h = true)
    (hax : ∀ h : Header, h.ndim = A.ndim →
      (env.inner_axes h).1 ≠ (env.inner_axes h).2 ∧ (env.inner_axes h).1 < h.ndim ∧
        (env.inner_axes h).2 < h.ndim) :
    ∃ output, run env m [Token.operand nameA, Token.operand s, Token.option id,
        Token.operand out] = .ok (Result.written out output) ∧
      ∀ p, in_bounds A.header.sizes p → output.data p = K (A.data p) v := by
  have hw : ∀ l ∈ (StackEntry.image A A.header.datatype.is_complex).image_leaves ++
      (StackEntry.value v).image_leaves, l.well_formed = true := by
    intro l hl
    simp only [StackEntry.image_leaves, List.append_nil, List.mem_singleton] at hl
    rw [hl]; exact hwA
  obtain ⟨output, axes, hrun, _, hov⟩ := run_binary_spec env m id op (Expr.operand nameA)
    (Expr.operand s) _ _ out A.header K hop (tree_image env m nameA A hA)
    (tree_value env m s v hs) rfl rfl rfl rfl rfl rfl rfl hw
    (get_header_image_left id op A _ v) hK hcreate hax
  refine ⟨output, hrun, ?_⟩
  intro p hp
  obtain ⟨hx, hv1⟩ := hov p hp
  rw [hv1, voxel_image env A _ _ _ p hx, project_in_bounds A p hp]
  rfl

theorem sample_axes (n : Nat) (hn : 2 ≤ n) (h : Header) (hh : h.ndim = n) :
    (sample_env.inner_axes h).1 ≠ (sample_env.inner_axes h).2 ∧
      (sample_env.inner_axes h).1 < h.ndim ∧ (sample_env.inner_axes h).2 < h.ndim :=
  ⟨by show (0 : Nat) ≠ 1; decide, by show 0 < h.ndim; omega, by show 1 < h.ndim; omega⟩

theorem in_bounds_sample : in_bounds image_a.header.sizes [1, 1] := by
  refine ⟨rfl, ?_⟩
  intro n hn
  have hn2 : n < 2 := hn
  interval_cases n <;> decide

/-- C6. For a binary operator of the catalogue the first argument of the kernel
is the operand pushed first (the entry below the top of the stack) and the
second is the operand pushed last (the top): so it is when two numbers are
folded and the result is printed, and when the node of two operands is
evaluated over the tiles of an output image; the kernels of `subtract`,
`divide` and `pow` compute a - b, a / b (the negative zero for the quotient of
zero by a negative number) and a raised to b, so that `5 3 -subtract` prints 2
and `a.mif 5 -subtract out` holds 4 - 5 where `a.mif` holds 4. -/
theorem C6_operand_order (env : Env) (m : StdMath) (id : String) (op : OpBinary)
    (hop : (binary_operations m).lookup id = some op) :
    (∀ (sa sb : String) (x y : complex_type) (K : complex_type → complex_type → complex_type),
      (StackEntry.arg sa).load env [] = .ok (StackEntry.value x, []) →
      (StackEntry.arg sb).load env [] = .ok (StackEntry.value y, []) →
      (if x.imag.eq (real_type.fin 0) && y.imag.eq (real_type.fin 0) then
          op.R.map fun R a b => R a.real b.real
        else op.Z) = some K →
      run env m [Token.operand sa, Token.operand sb, Token.option id]
        = .ok (Result.printed (K x y))) ∧
    (∀ (ea eb : Expr) (ta tb : StackEntry) (out : String) (header : Header)
        (K : complex_type → complex_type → complex_type),
      ea.tree env m = some ta → eb.tree env m = some tb →
      ta.no_scalar_node = true → tb.no_scalar_node = true →
      ta.kernels_exist = true → tb.kernels_exist = true →
      ta.rng_count = 0 → tb.rng_count = 0 →
      (ta.is_broadcast && tb.is_broadcast) = false →
      (∀ l ∈ ta.image_leaves ++ tb.image_leaves, l.well_formed = true) →
      get_header (StackEntry.binary id op ta tb) Header.empty = .ok header →
      (if ta.is_complex || tb.is_complex then op.Z
        else op.R.map fun R a b => R a.real b.real) = some K →
      (∀ h, env.can_create out h = true) →
      (∀ h : Header, h.ndim = header.ndim →
        (env.inner_axes h).1 ≠ (env.inner_axes h).2 ∧ (env.inner_axes h).1 < h.ndim ∧
          (env.inner_axes h).2 < h.ndim) →
      ∃ output axes,
        run env m (ea.tokens ++ eb.tokens ++ [Token.option id, Token.operand out])
          = .ok (Result.written out output) ∧
        ∀ p, in_bounds header.sizes p →
          output.data p = K (ta.voxel env axes (header.size axes.1, header.size axes.2) p)
            (tb.voxel env axes (header.size axes.1, header.size axes.2) p)) ∧
    ((binary_operations m).lookup "subtract" = some OpSubtract ∧
      (binary_operations m).lookup "divide" = some OpDivide ∧
      (binary_operations m).lookup "pow" = some (OpPow m) ∧
      ∀ a b : ℚ,
        OpSubtract.R.map (fun R => R (real_type.fin a) (real_type.fin b))
          = some (real_value (a - b)) ∧
        (b ≠ 0 → OpDivide.R.map (fun R => R (real_type.fin a) (real_type.fin b))
          = some (complex_type.ofReal
              (if a = 0 ∧ b < 0 then real_type.neg_zero else real_type.fin (a / b)))) ∧
        (OpPow m).R.map (fun R => R (real_type.fin a) (real_type.fin b))
          = some (complex_type.ofReal (m.pow (real_type.fin a) (real_type.fin b)))) ∧
    (run sample_env m [Token.operand "5", Token.operand "3", Token.option "subtract"]
        = .ok (Result.printed (real_value 2)) ∧
      run sample_env m [Token.operand "3", Token.operand "5", Token.option "subtract"]
        = .ok (Result.printed (real_value (-2))) ∧
      run sample_env m [Token.operand "5", Token.operand "2", Token.option "divide"]
        = .ok (Result.printed (real_value (5 / 2))) ∧
      run sample_env m [Token.operand "2", Token.operand "5", Token.option "divide"]
        = .ok (Result.printed (real_value (2 / 5))) ∧
      run sample_env m [Token.operand "2", Token.operand "3", Token.option "pow"]
        = .ok (Result.printed
            (complex_type.ofReal (m.pow (real_type.fin 2) (real_type.fin 3)))) ∧
      image_a.data [1, 1] = real_value 4 ∧
      (∃ output, run sample_env m [Token.operand "a.mif", Token.operand "5",
          Token.option "subtract", Token.operand "out.mif"]
          = .ok (Result.written "out.mif" output) ∧ output.data [1, 1] = real_value (-1)) ∧
      (∃ output, run sample_env m [Token.operand "5", Token.operand "a.mif",
          Token.option "subtract", Token.operand "out.mif"]
          = .ok (Result.written "out.mif" output) ∧ output.data [1, 1] = real_value 1) ∧
      (∃ output, run sample_env m [Token.operand "a.mif", Token.operand "5",
          Token.option "divide", Token.operand "out.mif"]
          = .ok (Result.written "out.mif" output) ∧ output.data [1, 1] = real_value (4 / 5)) ∧
      (∃ output, run sample_env m [Token.operand "5", Token.operand "a.mif",
          Token.option "divide", Token.operand "out.mif"]
          = .ok (Result.written "out.mif" output) ∧ output.data [1, 1] = real_value (5 / 4)) ∧
      (∃ output, run sample_env m [Token.operand "a.mif", Token.operand "5",
          Token.option "pow", Token.operand "out.mif"]
          = .ok (Result.written "out.mif" output) ∧
        output.data [1, 1]
          = complex_type.ofReal (m.pow (real_type.fin 4) (real_type.fin 5))) ∧
      (∃ output, run sample_env m [Token.operand "5", Token.operand "a.mif",
          Token.option "pow", Token.operand "out.mif"]
          = .ok (Result.written "out.mif" output) ∧
        output.data [1, 1]
          = complex_type.ofReal (m.pow (real_type.fin 5) (real_type.fin 4)))) := by
  refine ⟨?_, ?_, ⟨rfl, rfl, rfl, ?_⟩, ?_⟩
  · intro sa sb x y K ha hb hK
    refine run_binary_values env m id op sa sb x y _ hop ha hb ?_
    simp only [binary_fold]
    by_cases hc : (x.imag.eq (real_type.fin 0) && y.imag.eq (real_type.fin 0)) = true
    · rw [if_pos hc] at hK ⊢
      cases hR : op.R with
      | none => simp [hR] at hK
      | some R =>
        simp only [hR, Option.map_some', Option.some.injEq] at hK ⊢
        rw [← hK]
    · rw [if_neg hc] at hK ⊢
      rw [hK]; rfl
  · intro ea eb ta tb out header K hta htb hna hnb hka hkb hra hrb hbc hw hh hK hcreate hax
    obtain ⟨output, axes, hrun, _, hov⟩ := run_binary_spec env m id op ea eb ta tb out header K
      hop hta htb hna hnb hka hkb hra hrb hbc hw hh hK hcreate hax
    exact ⟨output, axes, hrun, fun p hp => (hov p hp).2⟩
  · intro a b
    refine ⟨?_, ?_, rfl⟩
    · by_cases hb : b = 0
      · simp [OpSubtract, complex_type.ofReal, real_value, real_type.sub, real_type.add,
          real_type.neg, hb]
      · simp [OpSubtract, complex_type.ofReal, real_value, real_type.sub, real_type.add,
          real_type.neg, hb, sub_eq_add_neg]
    · intro hb
      by_cases ha : a = 0
      · by_cases hn : b < 0
        · simp [OpDivide, complex_type.ofReal, real_type.div, real_type.is_zero,
            real_type.zero, real_type.sign, hb, ha, hn]
        · simp [OpDivide, complex_type.ofReal, real_type.div, real_type.is_zero,
            real_type.zero, real_type.sign, hb, ha, hn]
      · simp [OpDivide, complex_type.ofReal, real_type.div, real_type.is_zero,
          real_type.value, hb, ha]
  · obtain ⟨o1, hr1, hv1⟩ := run_image_scalar sample_env m "subtract" "a.mif" "5" "out.mif"
      OpSubtract image_a (real_value 5) (fun x y => complex_type.ofReal (x.real.sub y.real))
      rfl rfl rfl rfl rfl (fun _ => rfl) (sample_axes 2 (by decide))
    obtain ⟨o2, hr2, hv2⟩ := run_scalar_image sample_env m "subtract" "a.mif" "5" "out.mif"
      OpSubtract image_a (real_value 5) (fun x y => complex_type.ofReal (x.real.sub y.real))
      rfl rfl rfl rfl rfl (fun _ => rfl) (sample_axes 2 (by decide))
    obtain ⟨o3, hr3, hv3⟩ := run_image_scalar sample_env m "divide" "a.mif" "5" "out.mif"
      OpDivide image_a (real_value 5) (fun x y => complex_type.ofReal (x.real.div y.real))
      rfl rfl rfl rfl rfl (fun _ => rfl) (sample_axes 2 (by decide))
    obtain ⟨o4, hr4, hv4⟩ := run_scalar_image sample_env m "divide" "a.mif" "5" "out.mif"
      OpDivide image_a (real_value 5) (fun x y => complex_type.ofReal (x.real.div y.real))
      rfl rfl rfl rfl rfl (fun _ => rfl) (sample_axes 2 (by decide))
    obtain ⟨o5, hr5, hv5⟩ := run_image_scalar sample_env m "pow" "a.mif" "5" "out.mif"
      (OpPow m) image_a (real_value 5) (fun x y => complex_type.ofReal (m.pow x.real y.real))
      rfl rfl rfl rfl rfl (fun _ => rfl) (sample_axes 2 (by decide))
    obtain ⟨o6, hr6, hv6⟩ := run_scalar_image sample_env m "pow" "a.mif" "5" "out.mif"
      (OpPow m) image_a (real_value 5) (fun x y => complex_type.ofReal (m.pow x.real y.real))
      rfl rfl rfl rfl rfl (fun _ => rfl) (sample_axes 2 (by decide))
    refine ⟨?_, ?_, ?_, ?_, ?_, ?_,
      ⟨o1, hr1, (hv1 _ in_bounds_sample).trans ?_⟩, ⟨o2, hr2, (hv2 _ in_bounds_sample).trans ?_⟩,
      ⟨o3, hr3, (hv3 _ in_bounds_sample).trans ?_⟩, ⟨o4, hr4, (hv4 _ in_bounds_sample).trans ?_⟩,
      ⟨o5, hr5, (hv5 _ in_bounds_sample).trans ?_⟩,
      ⟨o6, hr6, (hv6 _ in_bounds_sample).trans ?_⟩⟩ <;> with_unfolding_all rfl

/-- C6, at the operator `subtract` and the numbers 5 and 3. -/
theorem C6_operand_order_witness :
    run sample_env no_math [Token.operand "5", Token.operand "3", Token.option "subtract"]
      = .ok (Result.printed
          (complex_type.ofReal ((real_type.fin 5).sub (real_type.fin 3)))) :=
  (C6_operand_order sample_env no_math "subtract" OpSubtract rfl).1 "5" "3" (real_value 5)
    (real_value 3) (fun a b => complex_type.ofReal (a.real.sub b.real)) rfl rfl rfl

theorem unary_flag_names (m : StdMath) (id : String) (op : OpUnary)
    (h : (unary_operations m).lookup id = some op) :
    op.ZtoR = ZtoR_operators.contains id ∧ op.RtoZ = false := by
  have hm := lookup_mem _ _ _ h
  simp only [unary_operations, List.mem_cons, Prod.mk.injEq, List.mem_nil_iff, or_false] at hm
  rcases hm with h | h | h | h | h | h | h | h | h | h | h | h | h | h | h | h | h | h | h | h | h
    | h | h | h | h | h | h | h <;> (rw [h.1, h.2]; exact ⟨rfl, rfl⟩)

theorem binary_flag_names (m : StdMath) (id : String) (op : OpBinary)
    (h : (binary_operations m).lookup id = some op) :
    op.ZtoR = ZtoR_operators.contains id ∧ op.RtoZ = decide (id = "complex") ∧
      (id = "complex" → ZtoR_operators.contains id = false) := by
  have hm := lookup_mem _ _ _ h
  simp only [binary_operations, List.mem_cons, Prod.mk.injEq, List.mem_nil_iff, or_false] at hm
  rcases hm with h | h | h | h | h | h | h | h | h | h | h | h | h | h <;>
    (rw [h.1, h.2]; exact ⟨rfl,
      rfl, by decide⟩)

theorem ternary_flag_names (id : String) (op : OpTernary)
    (h : ternary_operations.lookup id = some op) :
    op.ZtoR = ZtoR_operators.contains id ∧ op.RtoZ = false := by
  have hm := lookup_mem _ _ _ h
  simp only [ternary_operations, List.mem_cons, Prod.mk.injEq, List.mem_nil_iff, or_false] at hm
  rw [hm.1, hm.2]; exact ⟨by decide, rfl⟩

/-- C11. For a tree over the catalogue, the root is not complex when the tree
has neither a complex leaf (a complex image, or a number whose imaginary part
is not zero) nor a `complex` operator, and it is complex when some complex leaf
or some `complex` operator node has none of the operators abs, real, imag,
phase, isnan, isinf, finite, eq and neq strictly above it. -/
theorem C11_complex_closure (m : StdMath) (t : StackEntry) (h : t.over_catalogue m) :
    (t.has_complex_source = false → t.is_complex = false) ∧
    (t.has_exposed_source = true → t.is_complex = true) := by
  induction t with
  | arg _ => exact h.elim
  | image img c =>
    simp only [StackEntry.over_catalogue] at h
    simp [StackEntry.has_complex_source, StackEntry.has_exposed_source,
      StackEntry.is_complex_leaf, StackEntry.is_complex, h]
  | rng _ =>
    simp [StackEntry.has_complex_source, StackEntry.has_exposed_source,
      StackEntry.is_complex_leaf, StackEntry.is_complex]
  | value v =>
    simp [StackEntry.has_complex_source, StackEntry.has_exposed_source,
      StackEntry.is_complex_leaf, StackEntry.is_complex]
  | unary id op a iha =>
    obtain ⟨hop, ha⟩ := h
    obtain ⟨hz, hr⟩ := unary_flag_names m id op hop
    obtain ⟨i1, i2⟩ := iha ha
    simp only [StackEntry.has_complex_source, StackEntry.has_exposed_source,
      StackEntry.is_complex, hz, hr]
    cases hca : a.is_complex <;> cases hsa : a.has_complex_source <;>
      cases hea : a.has_exposed_source <;> cases hc : ZtoR_operators.contains id <;> simp_all
  | binary id op a b iha ihb =>
    obtain ⟨hop, ha, hb⟩ := h
    obtain ⟨hz, hr, hcz⟩ := binary_flag_names m id op hop
    obtain ⟨i1, i2⟩ := iha ha
    obtain ⟨j1, j2⟩ := ihb hb
    simp only [StackEntry.has_complex_source, StackEntry.has_exposed_source,
      StackEntry.is_complex, hz, hr]
    by_cases hid : id = "complex"
    · have := hcz hid
      cases hca : a.is_complex <;> cases hcb : b.is_complex <;> simp_all
    · cases hca : a.is_complex <;> cases hcb : b.is_complex <;>
        cases hsa : a.has_complex_source <;> cases hsb : b.has_complex_source <;>
        cases hea : a.has_exposed_source <;> cases heb : b.has_exposed_source <;>
        cases hc : ZtoR_operators.contains id <;> simp_all
  | ternary id op a b c iha ihb ihc =>
    obtain ⟨hop, ha, hb, hc⟩ := h
    obtain ⟨hz, hr⟩ := ternary_flag_names id op hop
    obtain ⟨i1, i2⟩ := iha ha
    obtain ⟨j1, j2⟩ := ihb hb
    obtain ⟨k1, k2⟩ := ihc hc
    simp only [StackEntry.has_complex_source, StackEntry.has_exposed_source,
      StackEntry.is_complex, hz, hr]
    generalize ZtoR_operators.contains id = z
    constructor
    · intro hs
      simp only [Bool.or_eq_false_iff] at hs
      simp [i1 hs.1.1, j1 hs.1.2, k1 hs.2]
    · intro he
      simp only [Bool.and_eq_true, Bool.not_eq_true', Bool.or_eq_true] at he
      obtain ⟨hz1, hor⟩ := he
      rcases hor with (h1 | h1) | h1
      · simp [i2 h1, hz1]
      · cases hca : a.is_complex <;> simp [j2 h1, hz1]
      · cases hca : a.is_complex <;> cases hcb : b.is_complex <;> simp [k2 h1, hz1]

/-- C11, at the sum of `abs` of a complex image and of `complex` over a real
image and a number: the `complex` node has only `add` above it. -/
theorem C11_complex_closure_witness :
    (StackEntry.binary "add" OpAdd
      (StackEntry.unary "abs" (OpAbs no_math) (StackEntry.image image_d true))
      (StackEntry.binary "complex" OpComplex (StackEntry.image image_a false)
        (StackEntry.value (real_value 2)))).is_complex = true :=
  (C11_complex_closure no_math
    (StackEntry.binary "add" OpAdd
      (StackEntry.unary "abs" (OpAbs no_math) (StackEntry.image image_d true))
      (StackEntry.binary "complex" OpComplex (StackEntry.image image_a false)
        (StackEntry.value (real_value 2))))
    ⟨rfl, ⟨rfl, rfl⟩, rfl, rfl, trivial⟩).2 rfl

theorem tree_over_catalogue (env : Env) (m : StdMath) (e : Expr) :
    ∀ t, e.tree env m = some t → t.over_catalogue m := by
  induction e with
  | operand s =>
    intro t h
    have hna := tree_not_arg env m _ t h
    simp only [Expr.tree] at h
    split at h
    · rename_i r hr
      simp only [Option.some.injEq] at h
      subst h
      simp only [StackEntry.load, List.lookup] at hr
      split at hr
      · simp only [Except.ok.injEq] at hr
        rw [← hr]; rfl
      · repeat' split at hr
        all_goals first
          | (simp only [Except.ok.injEq] at hr; rw [← hr]; trivial)
          | cases hr
    · simp at h
  | unary id a iha =>
    intro t h
    simp only [Expr.tree, Option.bind_eq_bind, Option.pure_def, Option.bind_eq_some] at h
    obtain ⟨op, hop, ta, hta, h⟩ := h
    simp only [Option.some.injEq] at h
    subst h
    exact ⟨hop, iha ta hta⟩
  | binary id a b iha ihb =>
    intro t h
    simp only [Expr.tree, Option.bind_eq_bind, Option.pure_def, Option.bind_eq_some] at h
    obtain ⟨op, hop, ta, hta, tb, htb, h⟩ := h
    simp only [Option.some.injEq] at h
    subst h
    exact ⟨hop, iha ta hta, ihb tb htb⟩
  | ternary id a b c iha ihb ihc =>
    intro t h
    simp only [Expr.tree, Option.bind_eq_bind, Option.pure_def, Option.bind_eq_some] at h
    obtain ⟨op, hop, ta, hta, tb, htb, tc, htc, h⟩ := h
    simp only [Option.some.injEq] at h
    subst h
    exact ⟨hop, iha ta hta, ihb tb htb, ihc tc htc⟩

/-- C12, as stated, fails on `a.mif a.mif -complex out`: the node `complex`
over two real images is complex, its operation has no Z kernel, and yet the
evaluation succeeds: the R kernel is applied to the real operands. -/
theorem C12_counterexample :
    (StackEntry.binary "complex" OpComplex (StackEntry.image image_a false)
      (StackEntry.image image_a false)).is_complex = true ∧
    OpComplex.Z.isNone = true ∧
    ∃ output, run sample_env no_math [Token.operand "a.mif", Token.operand "a.mif",
        Token.option "complex", Token.operand "out.mif"]
        = .ok (Result.written "out.mif" output) ∧
      output.data [1, 1] = ⟨real_type.fin 4, real_type.fin 4⟩ :=
  ⟨rfl, rfl, _, rfl, by with_unfolding_all rfl⟩

/-- C12. On a tile of at least one element, the evaluator of an operator node
applies the Z kernel exactly when one of the operands of the node is complex
and the R kernel, on the real parts, exactly when none is; the operands that
are numbers give their value to every element. The bit of the node itself
agrees with this choice unless its operation is ZtoR and an operand is complex,
or is RtoZ and no operand is complex. -/
theorem C12_kernel_dispatch (N : Nat) (hN : 1 ≤ N) :
    (∀ (op : OpUnary) (a : StackEntry) (r : Nat) (st : ThreadLocalStorage)
        (f : Nat → complex_type),
      a.is_broadcast = false → chunk_holds N a.is_broadcast f (st.chunk r) →
      UnaryEvaluator.evaluate op a r st =
        match (if a.is_complex then op.Z else op.R.map fun R v => R v.real) with
        | some K => .ok (r, st.set_data r ((List.range N).map fun k => K (f k)))
        | none => .error Error.OperationNotSupported) ∧
    (∀ (op : OpBinary) (a b : StackEntry) (ra rb : Nat) (st : ThreadLocalStorage)
        (fa fb : Nat → complex_type),
      (a.is_broadcast && b.is_broadcast) = false →
      chunk_holds N a.is_broadcast fa (st.chunk ra) →
      chunk_holds N b.is_broadcast fb (st.chunk rb) →
      BinaryEvaluator.evaluate op a b ra rb st =
        match (if a.is_complex || b.is_complex then op.Z
               else op.R.map fun R x y => R x.real y.real) with
        | some K => .ok (if a.is_broadcast then rb else ra,
            st.set_data (if a.is_broadcast then rb else ra)
              ((List.range N).map fun k => K (fa k) (fb k)))
        | none => .error Error.OperationNotSupported) ∧
    (∀ (op : OpTernary) (a b c : StackEntry) (ra rb rc : Nat) (st : ThreadLocalStorage)
        (fa fb fc : Nat → complex_type),
      (a.is_broadcast && b.is_broadcast && c.is_broadcast) = false →
      chunk_holds N a.is_broadcast fa (st.chunk ra) →
      chunk_holds N b.is_broadcast fb (st.chunk rb) →
      chunk_holds N c.is_broadcast fc (st.chunk rc) →
      TernaryEvaluator.evaluate op a b c ra rb rc st =
        match (if a.is_complex || b.is_complex || c.is_complex then op.Z
               else op.R.map fun R x y z => R x.real y.real z.real) with
        | some K => .ok (if a.is_broadcast then (if b.is_broadcast then rc else rb) else ra,
            st.set_data (if a.is_broadcast then (if b.is_broadcast then rc else rb) else ra)
              ((List.range N).map fun k => K (fa k) (fb k) (fc k)))
        | none => .error Error.OperationNotSupported) ∧
    (∀ (id : String) (op : OpUnary) (a : StackEntry),
      ((StackEntry.unary id op a).is_complex = a.is_complex ↔
        if a.is_complex then op.ZtoR = false else op.RtoZ = false)) ∧
    (∀ (id : String) (op : OpBinary) (a b : StackEntry),
      ((StackEntry.binary id op a b).is_complex = (a.is_complex || b.is_complex) ↔
        if a.is_complex || b.is_complex then op.ZtoR = false else op.RtoZ = false)) ∧
    (∀ (id : String) (op : OpTernary) (a b c : StackEntry),
      ((StackEntry.ternary id op a b c).is_complex
          = (a.is_complex || b.is_complex || c.is_complex) ↔
        if a.is_complex || b.is_complex || c.is_complex then op.ZtoR = false
        else op.RtoZ = false)) := by
  refine ⟨?_, ?_, ?_, ?_, ?_, ?_⟩
  · intro op a r st f hb hc
    rw [unary_evaluate_spec op a r st N f hc]
    have hN0 : ¬ N = 0 := by omega
    simp only [hb, Bool.false_eq_true, if_false, hN0]
  · intro op a b ra rb st fa fb hb ha hb1
    rw [binary_evaluate_spec op a b ra rb st N hN fa fb ha hb1]
    simp only [hb, Bool.false_eq_true, if_false]
  · intro op a b c ra rb rc st fa fb fc hb ha hb1 hc1
    rw [ternary_evaluate_spec op a b c ra rb rc st N hN fa fb fc ha hb1 hc1]
    simp only [hb, Bool.false_eq_true, if_false]
  · intro id op a
    simp only [StackEntry.is_complex]
    cases a.is_complex <;> cases op.ZtoR <;> cases op.RtoZ <;> simp
  · intro id op a b
    simp only [StackEntry.is_complex]
    cases a.is_complex <;> cases b.is_complex <;> cases op.ZtoR <;> cases op.RtoZ <;> simp
  · intro id op a b c
    simp only [StackEntry.is_complex]
    cases a.is_complex <;> cases b.is_complex <;> cases c.is_complex <;> cases op.ZtoR <;>
      cases op.RtoZ <;> simp

/-- C12, at the node `abs` over a complex image and a chunk that holds 3 + 4i:
the node is not complex and the Z kernel is applied. -/
theorem C12_kernel_dispatch_witness :
    UnaryEvaluator.evaluate (OpAbs no_math) (StackEntry.image image_d true) 0 sample_storage
      = .ok (0, sample_storage.set_data 0
          [complex_type.ofReal (no_math.cabs ⟨real_type.fin 3, real_type.fin 4⟩)]) :=
  (C12_kernel_dispatch 1 (by decide)).1 (OpAbs no_math) (StackEntry.image image_d true) 0
    sample_storage (fun _ => ⟨real_type.fin 3, real_type.fin 4⟩) rfl rfl

theorem not_broadcast_of_no_scalar_node (t : StackEntry) :
    t.no_scalar_node = true → t.is_node_operand = true → t.is_broadcast = false := by
  induction t with
  | arg _ => intro _ h; simp [StackEntry.is_node_operand, StackEntry.has_evaluator,
      StackEntry.has_image, StackEntry.has_rng] at h
  | value _ => intro _ h; simp [StackEntry.is_node_operand, StackEntry.has_evaluator,
      StackEntry.has_image, StackEntry.has_rng] at h
  | image _ _ => intro _ _; rfl
  | rng _ => intro _ _; rfl
  | unary id op a iha =>
    intro hn _
    simp only [StackEntry.no_scalar_node, Bool.and_eq_true] at hn
    simp only [StackEntry.is_broadcast]
    exact iha hn.2 hn.1
  | binary id op a b iha ihb =>
    intro hn _
    simp only [StackEntry.no_scalar_node, Bool.and_eq_true, Bool.or_eq_true] at hn
    simp only [StackEntry.is_broadcast]
    rcases hn.1.1 with h | h
    · simp [iha hn.1.2 h]
    · simp [ihb hn.2 h]
  | ternary id op a b c iha ihb ihc =>
    intro hn _
    simp only [StackEntry.no_scalar_node, Bool.and_eq_true, Bool.or_eq_true] at hn
    simp only [StackEntry.is_broadcast]
    rcases hn.1.1.1 with (h | h) | h
    · simp [iha hn.1.1.2 h]
    · simp [ihb hn.1.2 h]
    · simp [ihc hn.2 h]

theorem kernels_exist_of_lacks_kernel (t : StackEntry) (hn : t.no_scalar_node = true)
    (hl : t.lacks_kernel = true) : t.kernels_exist = false := by
  cases t with
  | arg _ => simp [StackEntry.lacks_kernel] at hl
  | value _ => simp [StackEntry.lacks_kernel] at hl
  | image _ _ => simp [StackEntry.lacks_kernel] at hl
  | rng _ => simp [StackEntry.lacks_kernel] at hl
  | unary id op a =>
    have hb := not_broadcast_of_no_scalar_node _ hn rfl
    simp only [StackEntry.is_broadcast] at hb
    simp only [StackEntry.lacks_kernel] at hl
    simp only [StackEntry.kernels_exist, hb, Bool.false_or]
    by_cases hc : a.is_complex = true
    · rw [if_pos hc] at hl ⊢
      cases hZ : op.Z <;> simp_all
    · rw [if_neg hc] at hl ⊢
      cases hR : op.R <;> simp_all
  | binary id op a b =>
    have hb := not_broadcast_of_no_scalar_node _ hn rfl
    simp only [StackEntry.is_broadcast] at hb
    simp only [StackEntry.lacks_kernel] at hl
    simp only [StackEntry.kernels_exist, hb, Bool.false_or]
    by_cases hc : (a.is_complex || b.is_complex) = true
    · rw [if_pos hc] at hl ⊢
      cases hZ : op.Z <;> simp_all
    · rw [if_neg hc] at hl ⊢
      cases hR : op.R <;> simp_all
  | ternary id op a b c =>
    have hb := not_broadcast_of_no_scalar_node _ hn rfl
    simp only [StackEntry.is_broadcast] at hb
    simp only [StackEntry.lacks_kernel] at hl
    simp only [StackEntry.kernels_exist, hb, Bool.false_or]
    by_cases hc : (a.is_complex || b.is_complex || c.is_complex) = true
    · rw [if_pos hc] at hl ⊢
      cases hZ : op.Z <;> simp_all
    · rw [if_neg hc] at hl ⊢
      cases hR : op.R <;> simp_all

/-- C13. The evaluation over a tile of at least one element of an operator node
that the builder has made, when its operation lacks the kernel that its operands
select (Z when an operand is complex, R when none is), throws
OperationNotSupported and returns no chunk; `round`, `acos`, `min` and `lt`
have no Z kernel, `real` and `conj` have no R kernel. -/
theorem C13_unsupported_kernel (env : Env) (m : StdMath) (t : StackEntry)
    (st : ThreadLocalStorage) (hN : 1 ≤ st.size.1 * st.size.2)
    (hfit : storage_fits (st.size.1 * st.size.2) t st.items st.current)
    (hn : t.no_scalar_node = true) (hl : t.lacks_kernel = true) :
    t.evaluate env st = .error Error.OperationNotSupported ∧
    ((unary_operations m).lookup "round" = some OpRound ∧ OpRound.Z.isNone = true) ∧
    ((unary_operations m).lookup "acos" = some (OpAcos m) ∧ (OpAcos m).Z.isNone = true) ∧
    ((binary_operations m).lookup "min" = some OpMin ∧ OpMin.Z.isNone = true) ∧
    ((binary_operations m).lookup "lt" = some OpLessThan ∧ OpLessThan.Z.isNone = true) ∧
    ((unary_operations m).lookup "real" = some OpReal ∧ OpReal.R.isNone = true) ∧
    ((unary_operations m).lookup "conj" = some OpConj ∧ OpConj.R.isNone = true) :=
  ⟨(evaluate_spec env t st hN hfit).2 (kernels_exist_of_lacks_kernel t hn hl),
    ⟨rfl, rfl⟩, ⟨rfl, rfl⟩, ⟨rfl, rfl⟩, ⟨rfl, rfl⟩, ⟨rfl, rfl⟩, ⟨rfl, rfl⟩⟩

/-- C13, at the node `round` over a complex image and a tile of one element. -/
theorem C13_unsupported_kernel_witness :
    (StackEntry.unary "round" OpRound (StackEntry.image image_d true)).evaluate sample_env
      { items := allocate_storage 1
          (StackEntry.unary "round" OpRound (StackEntry.image image_d true)) [],
        axes := (0, 1), size := (1, 1) }
      = .error Error.OperationNotSupported :=
  (C13_unsupported_kernel sample_env no_math
    (StackEntry.unary "round" OpRound (StackEntry.image image_d true))
    { items := allocate_storage 1
        (StackEntry.unary "round" OpRound (StackEntry.image image_d true)) [],
      axes := (0, 1), size := (1, 1) }
    (by decide)
    (allocate_storage_fits 1 (StackEntry.unary "round" OpRound (StackEntry.image image_d true)) [])
    rfl rfl).1

theorem load_value_list (env : Env) (s : String) (v : complex_type)
    (il il1 : List (String × LoadedImage))
    (h : (StackEntry.arg s).load env il = .ok (StackEntry.value v, il1)) : il1 = il := by
  simp only [StackEntry.load] at h
  repeat' split at h
  all_goals first
    | (simp only [Except.ok.injEq, Prod.mk.injEq] at h; exact h.2.symm)
    | (simp only [Except.ok.injEq, Prod.mk.injEq] at h; exact absurd h.1 (by simp))
    | cases h

theorem load_arg_leaf (env : Env) (s : String) (il : List (String × LoadedImage))
    (r : StackEntry × List (String × LoadedImage))
    (h : (StackEntry.arg s).load env il = .ok r) : r.1.has_evaluator = false := by
  simp only [StackEntry.load] at h
  repeat' split at h
  all_goals first
    | (simp only [Except.ok.injEq] at h; rw [← h]; rfl)
    | cases h

theorem tree_scalar_operand (env : Env) (m : StdMath) (s : String) (t : StackEntry)
    (ht : (Expr.operand s).tree env m = some t) (hs : t.scalars_only = true) :
    ∃ v, t = StackEntry.value v ∧ (StackEntry.arg s).load env [] = .ok (StackEntry.value v, []) := by
  simp only [Expr.tree] at ht
  split at ht
  · rename_i r hr
    simp only [Option.some.injEq] at ht
    cases t with
    | value v =>
      refine ⟨v, rfl, ?_⟩
      obtain ⟨r1, r2⟩ := r
      simp only at ht
      subst ht
      rw [hr, load_value_list env s v [] r2 hr]
    | unary _ _ _ =>
      have := load_arg_leaf env s [] r hr
      rw [ht] at this; simp [StackEntry.has_evaluator] at this
    | binary _ _ _ _ =>
      have := load_arg_leaf env s [] r hr
      rw [ht] at this; simp [StackEntry.has_evaluator] at this
    | ternary _ _ _ _ _ =>
      have := load_arg_leaf env s [] r hr
      rw [ht] at this; simp [StackEntry.has_evaluator] at this
    | _ => simp [StackEntry.scalars_only] at hs
  · simp at ht

theorem load_value (env : Env) (v : complex_type) (il : List (String × LoadedImage)) :
    (StackEntry.value v).load env il = .ok (StackEntry.value v, il) := rfl

/-- The loop of `run` over the arguments of an expression whose operands are all
numbers: the expression is folded to one entry, which loads as the folded
value, or the loop throws OperationNotSupported. -/
theorem run_loop_scalars (env : Env) (m : StdMath) (e : Expr) :
    ∀ (t : StackEntry) (stk : List StackEntry) (rest : List Token),
      e.tree env m = some t → t.scalars_only = true →
      (∀ v, t.folded = some v →
        ∃ p, run_loop env m (e.tokens ++ rest) false ⟨stk, []⟩
            = run_loop env m rest false ⟨p :: stk, []⟩ ∧
          p.load env [] = .ok (StackEntry.value v, [])) ∧
      (t.folded = none →
        ∃ s, run_loop env m (e.tokens ++ rest) false ⟨stk, []⟩
          = (some Error.OperationNotSupported, s)) := by
  induction e with
  | operand s =>
    intro t stk rest ht hs
    obtain ⟨v, rfl, hl⟩ := tree_scalar_operand env m s t ht hs
    constructor
    · intro v1 hv1
      simp only [StackEntry.folded, Option.some.injEq] at hv1
      subst hv1
      exact ⟨StackEntry.arg s, rfl, hl⟩
    · intro h; simp [StackEntry.folded] at h
  | unary id a iha =>
    intro t stk rest ht hs
    simp only [Expr.tree, Option.bind_eq_bind, Option.pure_def, Option.bind_eq_some] at ht
    obtain ⟨op, hop, ta, hta, ht⟩ := ht
    simp only [Option.some.injEq] at ht
    subst ht
    simp only [StackEntry.scalars_only] at hs
    obtain ⟨i1, i2⟩ := iha ta stk (Token.option id :: rest) hta hs
    have htok : (Expr.unary id a).tokens ++ rest = a.tokens ++ Token.option id :: rest := by
      simp [Expr.tokens]
    rw [htok]
    cases hfa : ta.folded with
    | none =>
      obtain ⟨s, hs1⟩ := i2 hfa
      exact ⟨fun v hv => by simp [StackEntry.folded, hfa] at hv, fun _ => ⟨s, hs1⟩⟩
    | some x =>
      obtain ⟨p, hrun, hload⟩ := i1 x hfa
      rw [hrun, run_loop_unary env m id op rest _ hop,
        unary_operation_loaded env id op p _ stk [] [] hload]
      simp only [StackEntry.is_node_operand, StackEntry.has_evaluator, StackEntry.has_image,
        StackEntry.has_rng, Bool.or_self, Bool.false_eq_true, if_false, StackEntry.get_value,
        StackEntry.folded, hfa, Option.some_bind]
      cases hf : unary_fold op x with
      | none => exact ⟨fun v hv => by simp at hv, fun _ => ⟨_, rfl⟩⟩
      | some v =>
        refine ⟨fun v1 hv1 => ?_, fun h => by simp at h⟩
        simp only [Option.some.injEq] at hv1
        subst hv1
        exact ⟨StackEntry.value v, rfl, rfl⟩
  | binary id a b iha ihb =>
    intro t stk rest ht hs
    simp only [Expr.tree, Option.bind_eq_bind, Option.pure_def, Option.bind_eq_some] at ht
    obtain ⟨op, hop, ta, hta, tb, htb, ht⟩ := ht
    simp only [Option.some.injEq] at ht
    subst ht
    simp only [StackEntry.scalars_only, Bool.and_eq_true] at hs
    have htok : (Expr.binary id a b).tokens ++ rest
        = a.tokens ++ (b.tokens ++ Token.option id :: rest) := by
      simp [Expr.tokens]
    rw [htok]
    obtain ⟨i1, i2⟩ := iha ta stk (b.tokens ++ Token.option id :: rest) hta hs.1
    cases hfa : ta.folded with
    | none =>
      obtain ⟨s, hs1⟩ := i2 hfa
      exact ⟨fun v hv => by simp [StackEntry.folded, hfa] at hv, fun _ => ⟨s, hs1⟩⟩
    | some x =>
      obtain ⟨pa, hruna, hloada⟩ := i1 x hfa
      obtain ⟨j1, j2⟩ := ihb tb (pa :: stk) (Token.option id :: rest) htb hs.2
      rw [hruna]
      cases hfb : tb.folded with
      | none =>
        obtain ⟨s, hs1⟩ := j2 hfb
        exact ⟨fun v hv => by simp [StackEntry.folded, hfa, hfb] at hv, fun _ => ⟨s, hs1⟩⟩
      | some y =>
        obtain ⟨pb, hrunb, hloadb⟩ := j1 y hfb
        rw [hrunb, run_loop_binary env m id op rest _ hop,
          binary_operation_loaded env id op pa pb _ _ stk [] [] [] hloada hloadb]
        simp only [StackEntry.is_node_operand, StackEntry.has_evaluator, StackEntry.has_image,
          StackEntry.has_rng, Bool.or_self, Bool.false_eq_true, if_false, StackEntry.get_value,
          StackEntry.folded, hfa, hfb, Option.some_bind]
        cases hf : binary_fold op x y with
        | none => exact ⟨fun v hv => by simp at hv, fun _ => ⟨_, rfl⟩⟩
        | some v =>
          refine ⟨fun v1 hv1 => ?_, fun h => by simp at h⟩
          simp only [Option.some.injEq] at hv1
          subst hv1
          exact ⟨StackEntry.value v, rfl, rfl⟩
  | ternary id a b c iha ihb ihc =>
    intro t stk rest ht hs
    simp only [Expr.tree, Option.bind_eq_bind, Option.pure_def, Option.bind_eq_some] at ht
    obtain ⟨op, hop, ta, hta, tb, htb, tc, htc, ht⟩ := ht
    simp only [Option.some.injEq] at ht
    subst ht
    simp only [StackEntry.scalars_only, Bool.and_eq_true] at hs
    have htok : (Expr.ternary id a b c).tokens ++ rest
        = a.tokens ++ (b.tokens ++ (c.tokens ++ Token.option id :: rest)) := by
      simp [Expr.tokens]
    rw [htok]
    obtain ⟨i1, i2⟩ := iha ta stk (b.tokens ++ (c.tokens ++ Token.option id :: rest)) hta hs.1.1
    cases hfa : ta.folded with
    | none =>
      obtain ⟨s, hs1⟩ := i2 hfa
      exact ⟨fun v hv => by simp [StackEntry.folded, hfa] at hv, fun _ => ⟨s, hs1⟩⟩
    | some x =>
      obtain ⟨pa, hruna, hloada⟩ := i1 x hfa
      obtain ⟨j1, j2⟩ := ihb tb (pa :: stk) (c.tokens ++ Token.option id :: rest) htb hs.1.2
      rw [hruna]
      cases hfb : tb.folded with
      | none =>
        obtain ⟨s, hs1⟩ := j2 hfb
        exact ⟨fun v hv => by simp [StackEntry.folded, hfa, hfb] at hv, fun _ => ⟨s, hs1⟩⟩
      | some y =>
        obtain ⟨pb, hrunb, hloadb⟩ := j1 y hfb
        obtain ⟨k1, k2⟩ := ihc tc (pb :: pa :: stk) (Token.option id :: rest) htc hs.2
        rw [hrunb]
        cases hfc : tc.folded with
        | none =>
          obtain ⟨s, hs1⟩ := k2 hfc
          exact ⟨fun v hv => by simp [StackEntry.folded, hfa, hfb, hfc] at hv,
            fun _ => ⟨s, hs1⟩⟩
        | some z =>
          obtain ⟨pc, hrunc, hloadc⟩ := k1 z hfc
          rw [hrunc, run_loop_ternary env m id op rest _ hop,
            ternary_operation_loaded env id op pa pb pc _ _ _ stk [] [] [] [] hloada hloadb
              hloadc]
          simp only [StackEntry.is_node_operand, StackEntry.has_evaluator,
            StackEntry.has_image, StackEntry.has_rng, Bool.or_self, Bool.false_eq_true,
            if_false, StackEntry.get_value, StackEntry.folded, hfa, hfb, hfc, Option.some_bind]
          cases hf : ternary_fold op x y z with
          | none => exact ⟨fun v hv => by simp at hv, fun _ => ⟨_, rfl⟩⟩
          | some v =>
            refine ⟨fun v1 hv1 => ?_, fun h => by simp at h⟩
            simp only [Option.some.injEq] at hv1
            subst hv1
            exact ⟨StackEntry.value v, rfl, rfl⟩

/-- The run of the command on an expression whose operands are all numbers: the
folded value is printed, or the command throws OperationNotSupported. -/
theorem run_scalars (env : Env) (m : StdMath) (e : Expr) (t : StackEntry)
    (ht : e.tree env m = some t) (hs : t.scalars_only = true) :
    run env m e.tokens = match t.folded with
      | some v => .ok (Result.printed v)
      | none => .error Error.OperationNotSupported := by
  obtain ⟨i1, i2⟩ := run_loop_scalars env m e t [] [] ht hs
  simp only [List.append_nil] at i1 i2
  cases hf : t.folded with
  | none =>
    obtain ⟨s, hs1⟩ := i2 hf
    simp [run, build, hs1]
  | some v =>
    obtain ⟨p, hrun, hload⟩ := i1 v hf
    simp [run, build, hrun, run_loop, load_bottom, hload, run_operations, get_header,
      Header.empty, Header.ndim, bind, Except.bind, pure, Except.pure, StackEntry.get_value,
      StackEntry.has_evaluator, StackEntry.has_image]
theorem forced_is_complex (t : StackEntry) (hs : t.scalars_only = true) :
    t.forced.is_complex = t.is_complex := by
  induction t with
  | value v => rfl
  | unary id op a iha =>
    simp only [StackEntry.scalars_only] at hs
    simp only [StackEntry.forced, StackEntry.is_complex, iha hs]
  | binary id op a b iha ihb =>
    simp only [StackEntry.scalars_only, Bool.and_eq_true] at hs
    simp only [StackEntry.forced, StackEntry.is_complex, iha hs.1, ihb hs.2]
  | ternary id op a b c iha ihb ihc =>
    simp only [StackEntry.scalars_only, Bool.and_eq_true] at hs
    simp only [StackEntry.forced, StackEntry.is_complex, iha hs.1.1, ihb hs.1.2, ihc hs.2]
  | _ => simp [StackEntry.scalars_only] at hs

theorem forced_not_broadcast (t : StackEntry) (hs : t.scalars_only = true) :
    t.forced.is_broadcast = false := by
  induction t with
  | value v => rfl
  | unary id op a iha =>
    simp only [StackEntry.scalars_only] at hs
    simp only [StackEntry.forced, StackEntry.is_broadcast, iha hs]
  | binary id op a b iha ihb =>
    simp only [StackEntry.scalars_only, Bool.and_eq_true] at hs
    simp only [StackEntry.forced, StackEntry.is_broadcast, iha hs.1, ihb hs.2, Bool.and_self]
  | ternary id op a b c iha ihb ihc =>
    simp only [StackEntry.scalars_only, Bool.and_eq_true] at hs
    simp only [StackEntry.forced, StackEntry.is_broadcast, iha hs.1.1, ihb hs.1.2, ihc hs.2,
      Bool.and_self]
  | _ => simp [StackEntry.scalars_only] at hs

/-- The forced tree of a tree of numbers in which the builder and the evaluator
select the same kernels: its kernels exist exactly when the tree folds, and its
cell holds the folded value. -/
theorem forced_cell (env : Env) (iter : List Nat) (axes size : Nat × Nat) (t : StackEntry) :
    t.scalars_only = true → t.same_dispatch →
    t.forced.kernels_exist = t.folded.isSome ∧
      ∀ v, t.folded = some v → ∀ d k, t.forced.cell env iter axes size d k = v := by
  induction t with
  | value v =>
    intro _ _
    refine ⟨rfl, ?_⟩
    intro v1 hv1 d k
    simp only [StackEntry.folded, Option.some.injEq] at hv1
    subst hv1
    rfl
  | unary id op a iha =>
    intro hs hd
    simp only [StackEntry.scalars_only] at hs
    obtain ⟨hda, hsel⟩ := hd
    obtain ⟨i1, i2⟩ := iha hs hda
    simp only [StackEntry.forced, StackEntry.kernels_exist, StackEntry.cell, StackEntry.folded,
      forced_not_broadcast a hs, forced_is_complex a hs, i1, Bool.false_or, Bool.false_eq_true,
      if_false]
    cases hfa : a.folded with
    | none => simp
    | some x =>
      have hc := hsel x hfa
      simp only [Option.isSome_some, Bool.true_and, Option.some_bind, unary_fold]
      cases hx : x.imag.eq (real_type.fin 0)
      · simp only [hx, Bool.not_false] at hc
        simp only [hc, if_true, Bool.false_eq_true, if_false]
        cases hZ : op.Z with
        | none => simp
        | some Z =>
          refine ⟨rfl, ?_⟩
          intro v hv d k
          simp only [Option.map_some', Option.some.injEq] at hv
          rw [i2 x hfa]; exact hv
      · simp only [hx, Bool.not_true] at hc
        simp only [hc, if_true, Bool.false_eq_true, if_false]
        cases hR : op.R with
        | none => simp
        | some R =>
          refine ⟨rfl, ?_⟩
          intro v hv d k
          simp only [Option.map_some', Option.some.injEq] at hv
          rw [i2 x hfa]; exact hv
  | binary id op a b iha ihb =>
    intro hs hd
    simp only [StackEntry.scalars_only, Bool.and_eq_true] at hs
    obtain ⟨hda, hdb, hsel⟩ := hd
    obtain ⟨i1, i2⟩ := iha hs.1 hda
    obtain ⟨j1, j2⟩ := ihb hs.2 hdb
    simp only [StackEntry.forced, StackEntry.kernels_exist, StackEntry.cell, StackEntry.folded,
      forced_not_broadcast a hs.1, forced_not_broadcast b hs.2, forced_is_complex a hs.1,
      forced_is_complex b hs.2, i1, j1, Bool.false_or, Bool.false_eq_true, if_false,
      Bool.and_self]
    cases hfa : a.folded with
    | none => simp
    | some x =>
      cases hfb : b.folded with
      | none => simp
      | some y =>
        have hc := hsel x y hfa hfb
        simp only [Option.isSome_some, Bool.true_and, Option.some_bind, binary_fold]
        cases hx : (x.imag.eq (real_type.fin 0) && y.imag.eq (real_type.fin 0))
        · simp only [hx, Bool.not_false] at hc
          simp only [hc, if_true, Bool.false_eq_true, if_false]
          cases hZ : op.Z with
          | none => simp
          | some Z =>
            refine ⟨rfl, ?_⟩
            intro v hv d k
            simp only [Option.map_some', Option.some.injEq] at hv
            rw [i2 x hfa, j2 y hfb]; exact hv
        · simp only [hx, Bool.not_true] at hc
          simp only [hc, if_true, Bool.false_eq_true, if_false]
          cases hR : op.R with
          | none => simp
          | some R =>
            refine ⟨rfl, ?_⟩
            intro v hv d k
            simp only [Option.map_some', Option.some.injEq] at hv
            rw [i2 x hfa, j2 y hfb]; exact hv
  | ternary id op a b c iha ihb ihc =>
    intro hs hd
    simp only [StackEntry.scalars_only, Bool.and_eq_true] at hs
    obtain ⟨hda, hdb, hdc, hsel⟩ := hd
    obtain ⟨i1, i2⟩ := iha hs.1.1 hda
    obtain ⟨j1, j2⟩ := ihb hs.1.2 hdb
    obtain ⟨k1, k2⟩ := ihc hs.2 hdc
    simp only [StackEntry.forced, StackEntry.kernels_exist, StackEntry.cell, StackEntry.folded,
      forced_not_broadcast a hs.1.1, forced_not_broadcast b hs.1.2, forced_not_broadcast c hs.2,
      forced_is_complex a hs.1.1, forced_is_complex b hs.1.2, forced_is_complex c hs.2,
      i1, j1, k1, Bool.false_or, Bool.false_eq_true, if_false, Bool.and_self]
    cases hfa : a.folded with
    | none => simp
    | some x =>
      cases hfb : b.folded with
      | none => simp
      | some y =>
        cases hfc : c.folded with
        | none => simp
        | some z =>
          have hc := hsel x y z hfa hfb hfc
          simp only [Option.isSome_some, Bool.true_and, Option.some_bind, ternary_fold]
          cases hx : (x.imag.eq (real_type.fin 0) && y.imag.eq (real_type.fin 0)
              && z.imag.eq (real_type.fin 0))
          · simp only [hx, Bool.not_false] at hc
            simp only [hc, if_true, Bool.false_eq_true, if_false]
            cases hZ : op.Z with
            | none => simp
            | some Z =>
              refine ⟨rfl, ?_⟩
              intro v hv d k
              simp only [Option.map_some', Option.some.injEq] at hv
              rw [i2 x hfa, j2 y hfb, k2 z hfc]; exact hv
          · simp only [hx, Bool.not_true] at hc
            simp only [hc, if_true, Bool.false_eq_true, if_false]
            cases hR : op.R with
            | none => simp
            | some R =>
              refine ⟨rfl, ?_⟩
              intro v hv d k
              simp only [Option.map_some', Option.some.injEq] at hv
              rw [i2 x hfa, j2 y hfb, k2 z hfc]; exact hv
  | _ => intro hs; simp [StackEntry.scalars_only] at hs

/-- The forced evaluation of a tree of numbers in which the builder and the
evaluator select the same kernels gives the folded value, or throws
OperationNotSupported when the tree does not fold. -/
theorem forced_evaluation_spec (env : Env) (t : StackEntry) (hs : t.scalars_only = true)
    (hd : t.same_dispatch) :
    forced_evaluation env t = match t.folded with
      | some v => .ok v
      | none => .error Error.OperationNotSupported := by
  obtain ⟨hk, hcell⟩ := forced_cell env [0, 0] (0, 1) (1, 1) t hs hd
  have hspec := evaluate_spec env t.forced
    { items := allocate_storage 1 t.forced [], iter := [0, 0], axes := (0, 1), size := (1, 1) }
    (show 1 ≤ 1 * 1 by decide) (allocate_storage_fits 1 t.forced [])
  cases hf : t.folded with
  | none =>
    rw [hf] at hk
    simp only [forced_evaluation, hspec.2 hk, bind, Except.bind]
  | some v =>
    rw [hf] at hk
    obtain ⟨r, st1, hev, _, _, _, _, _, _, _, _, _, hch, _⟩ := hspec.1 hk
    simp only [chunk_holds, forced_not_broadcast t hs, Bool.false_eq_true, if_false] at hch
    have hget : (st1.chunk r).data.get? 0 = some v := by
      have hr1 : List.range (1 * 1) = [0] := rfl
      rw [hch, hr1]
      simp only [List.map, List.get?]
      rw [hcell v hf]
    simp only [forced_evaluation, hev, bind, Except.bind, hget, pure, Except.pure]
theorem unary_real_kernel (m : StdMath) (id : String) (op : OpUnary)
    (h : (unary_operations m).lookup id = some op) (R : real_type → complex_type)
    (hR : op.R = some R) (x : real_type) : (R x).imag.eq (real_type.fin 0) = true := by
  have hm := lookup_mem _ _ _ h
  simp only [unary_operations, List.mem_cons, Prod.mk.injEq, List.mem_nil_iff, or_false] at hm
  rcases hm with h | h | h | h | h | h | h | h | h | h | h | h | h | h | h | h | h | h | h | h | h
    | h | h | h | h | h | h | h <;>
    (rw [h.2] at hR
     cases hR <;> simp [complex_type.ofReal, complex_type.ofBool, real_type.eq])

theorem binary_real_kernel (m : StdMath) (id : String) (op : OpBinary)
    (h : (binary_operations m).lookup id = some op) (hid : id ≠ "complex")
    (R : real_type → real_type → complex_type)
    (hR : op.R = some R) (x y : real_type) : (R x y).imag.eq (real_type.fin 0) = true := by
  have hm := lookup_mem _ _ _ h
  simp only [binary_operations, List.mem_cons, Prod.mk.injEq, List.mem_nil_iff, or_false] at hm
  rcases hm with h | h | h | h | h | h | h | h | h | h | h | h | h | h <;>
    (rw [h.2] at hR
     first
       | exact absurd h.1 hid
       | (cases hR <;> simp [complex_type.ofReal, complex_type.ofBool, real_type.eq]))

theorem ternary_real_kernel (id : String) (op : OpTernary)
    (h : ternary_operations.lookup id = some op)
    (R : real_type → real_type → real_type → complex_type)
    (hR : op.R = some R) (x y z : real_type) : (R x y z).imag.eq (real_type.fin 0) = true := by
  have hm := lookup_mem _ _ _ h
  simp only [ternary_operations, List.mem_cons, Prod.mk.injEq, List.mem_nil_iff, or_false] at hm
  rw [hm.2] at hR
  simp only [OpIf, Option.some.injEq] at hR
  rw [← hR]
  simp only
  split <;> simp [complex_type.ofReal, real_type.eq]

/-- A tree of real numbers over the catalogue, without the operator `complex`:
the builder and the evaluator select the R kernel at every operator. -/
theorem same_dispatch_of_real (m : StdMath) (t : StackEntry) :
    t.scalars_only = true → t.over_catalogue m → t.has_complex_source = false →
    t.same_dispatch ∧ t.is_complex = false ∧
      ∀ v, t.folded = some v → v.imag.eq (real_type.fin 0) = true := by
  induction t with
  | value v =>
    intro _ _ hc
    simp only [StackEntry.has_complex_source, StackEntry.is_complex_leaf, real_type.ne,
      Bool.not_eq_false'] at hc
    refine ⟨trivial, by simp [StackEntry.is_complex, real_type.ne, hc], ?_⟩
    intro v1 hv1
    simp only [StackEntry.folded, Option.some.injEq] at hv1
    rw [← hv1]; exact hc
  | unary id op a iha =>
    intro hs ho hc
    simp only [StackEntry.scalars_only] at hs
    simp only [StackEntry.has_complex_source] at hc
    obtain ⟨hop, hoa⟩ := ho
    obtain ⟨i1, i2, i3⟩ := iha hs hoa hc
    refine ⟨⟨i1, fun x hx => by rw [i2, i3 x hx]; rfl⟩, ?_, ?_⟩
    · simp [StackEntry.is_complex, i2, (unary_flag_names m id op hop).2]
    · intro v hv
      simp only [StackEntry.folded, Option.bind_eq_some] at hv
      obtain ⟨x, hx, hf⟩ := hv
      simp only [unary_fold, i3 x hx, if_true, Option.map_eq_some'] at hf
      obtain ⟨R, hR, hv1⟩ := hf
      rw [← hv1]
      exact unary_real_kernel m id op hop R hR _
  | binary id op a b iha ihb =>
    intro hs ho hc
    simp only [StackEntry.scalars_only, Bool.and_eq_true] at hs
    simp only [StackEntry.has_complex_source, Bool.or_eq_false_iff, decide_eq_false_iff_not]
      at hc
    obtain ⟨hop, hoa, hob⟩ := ho
    obtain ⟨i1, i2, i3⟩ := iha hs.1 hoa hc.1.2
    obtain ⟨j1, j2, j3⟩ := ihb hs.2 hob hc.2
    have hr := (binary_flag_names m id op hop).2.1
    refine ⟨⟨i1, j1, fun x y hx hy => by rw [i2, j2, i3 x hx, j3 y hy]; rfl⟩, ?_, ?_⟩
    · simp [StackEntry.is_complex, i2, j2, hr, hc.1.1]
    · intro v hv
      simp only [StackEntry.folded, Option.bind_eq_some] at hv
      obtain ⟨x, hx, y, hy, hf⟩ := hv
      simp only [binary_fold, i3 x hx, j3 y hy, Bool.and_self, if_true,
        Option.map_eq_some'] at hf
      obtain ⟨R, hR, hv1⟩ := hf
      rw [← hv1]
      exact binary_real_kernel m id op hop hc.1.1 R hR _ _
  | ternary id op a b c iha ihb ihc =>
    intro hs ho hc
    simp only [StackEntry.scalars_only, Bool.and_eq_true] at hs
    simp only [StackEntry.has_complex_source, Bool.or_eq_false_iff] at hc
    obtain ⟨hop, hoa, hob, hoc⟩ := ho
    obtain ⟨i1, i2, i3⟩ := iha hs.1.1 hoa hc.1.1
    obtain ⟨j1, j2, j3⟩ := ihb hs.1.2 hob hc.1.2
    obtain ⟨k1, k2, k3⟩ := ihc hs.2 hoc hc.2
    refine ⟨⟨i1, j1, k1, fun x y z hx hy hz => by
      rw [i2, j2, k2, i3 x hx, j3 y hy, k3 z hz]; rfl⟩, ?_, ?_⟩
    · simp [StackEntry.is_complex, i2, j2, k2, (ternary_flag_names id op hop).2]
    · intro v hv
      simp only [StackEntry.folded, Option.bind_eq_some] at hv
      obtain ⟨x, hx, y, hy, z, hz, hf⟩ := hv
      simp only [ternary_fold, i3 x hx, j3 y hy, k3 z hz, Bool.and_self, if_true,
        Option.map_eq_some'] at hf
      obtain ⟨R, hR, hv1⟩ := hf
      rw [← hv1]
      exact ternary_real_kernel id op hop R hR _ _ _
  | _ => intro hs; simp [StackEntry.scalars_only] at hs

/-- C14, as stated, fails on `1+2i 1+2i -subtract -round`: the builder folds the
difference to 0, whose imaginary part is zero, and rounds it with the R kernel;
in the tree the node `subtract` over complex leaves is complex, `round` has no
Z kernel, and the evaluation throws. -/
theorem C14_counterexample :
    (Expr.unary "round" (Expr.binary "subtract" (Expr.operand "1+2i")
        (Expr.operand "1+2i"))).tokens
      = [Token.operand "1+2i", Token.operand "1+2i", Token.option "subtract",
          Token.option "round"] ∧
    (Expr.unary "round" (Expr.binary "subtract" (Expr.operand "1+2i")
        (Expr.operand "1+2i"))).tree sample_env no_math
      = some (StackEntry.unary "round" OpRound (StackEntry.binary "subtract" OpSubtract
          (StackEntry.value ⟨real_type.fin 1, real_type.fin 2⟩)
          (StackEntry.value ⟨real_type.fin 1, real_type.fin 2⟩))) ∧
    run sample_env no_math [Token.operand "1+2i", Token.operand "1+2i",
      Token.option "subtract", Token.option "round"] = .ok (Result.printed (real_value 0)) ∧
    forced_evaluation sample_env
      (StackEntry.unary "round" OpRound (StackEntry.binary "subtract" OpSubtract
        (StackEntry.value ⟨real_type.fin 1, real_type.fin 2⟩)
        (StackEntry.value ⟨real_type.fin 1, real_type.fin 2⟩)))
      = .error Error.OperationNotSupported :=
  ⟨rfl, rfl, by with_unfolding_all rfl, rfl⟩

/-- C14. For an expression whose operands are all numbers, the value that the
command prints (or its error) is the result of the forced evaluation of the
tree of the expression, in which each number is a single-voxel leaf flagged
complex exactly when its imaginary part is not zero, provided that at every
operator the builder and the evaluator select the same kernel: the folded
operands all have a zero imaginary part exactly when none of their subtrees is
flagged complex. This is so for every expression over real numbers without the
operator `complex`. -/
theorem C14_folding_equivalence (env : Env) (m : StdMath) (e : Expr) (t : StackEntry)
    (ht : e.tree env m = some t) (hs : t.scalars_only = true) :
    (t.same_dispatch → run env m e.tokens = (forced_evaluation env t).map Result.printed) ∧
    (t.has_complex_source = false →
      run env m e.tokens = (forced_evaluation env t).map Result.printed) := by
  have key : t.same_dispatch →
      run env m e.tokens = (forced_evaluation env t).map Result.printed := by
    intro hd
    rw [run_scalars env m e t ht hs, forced_evaluation_spec env t hs hd]
    cases t.folded <;> rfl
  exact ⟨key, fun hc =>
    key (same_dispatch_of_real m t hs (tree_over_catalogue env m e t ht) hc).1⟩

/-- C14, at the expression `2 3 -add -round`. -/
theorem C14_folding_equivalence_witness :
    run sample_env no_math [Token.operand "2", Token.operand "3", Token.option "add",
        Token.option "round"]
      = (forced_evaluation sample_env
          (StackEntry.unary "round" OpRound (StackEntry.binary "add" OpAdd
            (StackEntry.value (real_value 2)) (StackEntry.value (real_value 3))))).map
          Result.printed :=
  (C14_folding_equivalence sample_env no_math
    (Expr.unary "round" (Expr.binary "add" (Expr.operand "2") (Expr.operand "3"))) _
    rfl rfl).2 (by with_unfolding_all rfl)

theorem voxel_unary (env : Env) (id : String) (op : OpUnary) (a : StackEntry)
    (axes size : Nat × Nat) (p : List Nat) (K : complex_type → complex_type)
    (hbc : a.is_broadcast = false)
    (hK : (if a.is_complex then op.Z else op.R.map fun R x => R x.real) = some K) :
    (StackEntry.unary id op a).voxel env axes size p = K (a.voxel env axes size p) := by
  simp only [StackEntry.voxel, StackEntry.cell, hbc]
  cases hc : a.is_complex
  · simp only [hc, Bool.false_eq_true, if_false] at hK ⊢
    cases hR : op.R with
    | none => simp [hR] at hK
    | some R =>
      simp only [hR, Option.map_some', Option.some.injEq] at hK
      subst hK
      rfl
  · simp only [hc, if_true, Bool.false_eq_true, if_false] at hK ⊢
    rw [hK]

/-- The run of the command on `a b -complex -real out`, for two operand
expressions that are not complex and have no random source: every voxel of the
output is the real part of the value of `a`. -/
theorem run_real_complex (env : Env) (m : StdMath) (ea eb : Expr) (ta tb : StackEntry)
    (out : String) (header : Header)
    (hta : ea.tree env m = some ta) (htb : eb.tree env m = some tb)
    (hna : ta.no_scalar_node = true) (hnb : tb.no_scalar_node = true)
    (hka : ta.kernels_exist = true) (hkb : tb.kernels_exist = true)
    (hra : ta.rng_count = 0) (hrb : tb.rng_count = 0)
    (hca : ta.is_complex = false) (hcb : tb.is_complex = false)
    (hbc : (ta.is_broadcast && tb.is_broadcast) = false)
    (hw : ∀ l ∈ ta.image_leaves ++ tb.image_leaves, l.well_formed = true)
    (hh : get_header (StackEntry.binary "complex" OpComplex ta tb) Header.empty = .ok header)
    (hcreate : ∀ h, env.can_create out h = true)
    (hax : ∀ h : Header, h.ndim = header.ndim →
      (env.inner_axes h).1 ≠ (env.inner_axes h).2 ∧ (env.inner_axes h).1 < h.ndim ∧
        (env.inner_axes h).2 < h.ndim) :
    ∃ output axes, run env m (ea.tokens ++ eb.tokens ++
          [Token.option "complex", Token.option "real", Token.operand out])
        = .ok (Result.written out output) ∧
      output.header.axes = header.axes ∧
      ∀ p, in_bounds header.sizes p →
        p.getD axes.1 0 < header.size axes.1 ∧
        output.data p = complex_type.ofReal
          (ta.voxel env axes (header.size axes.1, header.size axes.2) p).real := by
  have htree : (Expr.unary "real" (Expr.binary "complex" ea eb)).tree env m
      = some (StackEntry.unary "real" OpReal (StackEntry.binary "complex" OpComplex ta tb)) := by
    have h1 : (unary_operations m).lookup "real" = some OpReal := rfl
    have h2 : (binary_operations m).lookup "complex" = some OpComplex := rfl
    simp [Expr.tree, h1, h2, hta, htb]
  have htok : (Expr.unary "real" (Expr.binary "complex" ea eb)).tokens ++ [Token.operand out]
      = ea.tokens ++ eb.tokens ++
          [Token.option "complex", Token.option "real", Token.operand out] := by
    simp [Expr.tokens]
  have hnode : (ta.is_node_operand || tb.is_node_operand) = true := by
    cases hba : ta.is_broadcast
    · simp [is_node_operand_of_not_broadcast ta hba]
    · cases hbb : tb.is_broadcast
      · simp [is_node_operand_of_not_broadcast tb hbb]
      · simp [hba, hbb] at hbc
  have hn : (StackEntry.unary "real" OpReal
      (StackEntry.binary "complex" OpComplex ta tb)).no_scalar_node = true := by
    show ((StackEntry.binary "complex" OpComplex ta tb).is_node_operand &&
      ((ta.is_node_operand || tb.is_node_operand) && ta.no_scalar_node && tb.no_scalar_node))
      = true
    rw [hnode, hna, hnb]; rfl
  have hk : (StackEntry.unary "real" OpReal
      (StackEntry.binary "complex" OpComplex ta tb)).kernels_exist = true := by
    simp [StackEntry.kernels_exist, StackEntry.is_broadcast, StackEntry.is_complex, hka, hkb,
      hbc, hca, hcb, OpComplex, OpReal]
  have hb : (StackEntry.unary "real" OpReal
      (StackEntry.binary "complex" OpComplex ta tb)).is_broadcast = false := by
    simp only [StackEntry.is_broadcast, hbc]
  have hr : (StackEntry.unary "real" OpReal
      (StackEntry.binary "complex" OpComplex ta tb)).rng_count = 0 := by
    simp [StackEntry.rng_count, hra, hrb]
  have hh1 : get_header (StackEntry.unary "real" OpReal
      (StackEntry.binary "complex" OpComplex ta tb)) Header.empty = .ok header := by
    rw [← hh]; rfl
  obtain ⟨ax, hax1⟩ : ∃ ax, env.inner_axes { header with
    datatype := if (StackEntry.unary "real" OpReal
      (StackEntry.binary "complex" OpComplex ta tb)).is_complex then DataType.CFloat32
      else DataType.Float32, name := out } = ax := ⟨_, rfl⟩
  obtain ⟨h0, h1, h2⟩ := hax { header with
    datatype := if (StackEntry.unary "real" OpReal
      (StackEntry.binary "complex" OpComplex ta tb)).is_complex then DataType.CFloat32
      else DataType.Float32, name := out } rfl
  rw [hax1] at h0 h1 h2
  have h1a : ax.1 < header.ndim := h1
  obtain ⟨output, hrun, hoh, hov⟩ := run_spec env m
    (Expr.unary "real" (Expr.binary "complex" ea eb)) _ out header ax _
    htree hn hw hh1 rfl (hcreate _) hax1 h0 h1 h2 hk hb hr
  rw [htok] at hrun
  refine ⟨output, ax, hrun, by rw [hoh], ?_⟩
  intro p hp
  have hlt : p.getD ax.1 0 < header.size ax.1 := by
    have hl : header.sizes.length = header.ndim := by simp [Header.sizes, Header.ndim]
    have := hp.2 _ (by rw [hl]; exact h1a)
    rwa [header_sizes_getD header _ h1a] at this
  refine ⟨hlt, ?_⟩
  rw [hov p hp, voxel_unary env "real" OpReal (StackEntry.binary "complex" OpComplex ta tb) _ _ p
      (fun v => complex_type.ofReal v.real) hbc
      (by simp [StackEntry.is_complex, hca, hcb, OpComplex, OpReal]),
    voxel_binary env "complex" OpComplex ta tb _ _ p (fun x y => ⟨x.real, y.real⟩) hra hbc
      (by simp [hca, hcb, OpComplex])]
/-- C15, as stated, fails on `2 0 -complex -real`: the builder folds
`2 0 -complex` to the value 2 + 0i, whose imaginary part is zero, so that it
calls the R kernel of `real`, which the operation does not have. -/
theorem C15_counterexample :
    run sample_env no_math [Token.operand "2", Token.operand "0", Token.option "complex",
      Token.option "real"] = .error Error.OperationNotSupported := by
  with_unfolding_all rfl

/-- C15. The expression `a b -complex -real` over two operands that are not
complex: for two real numbers it prints a when b is not zero and throws
OperationNotSupported when b is zero; for two operand expressions without random
source that are not both numbers it writes an output of which every voxel is the
real part of the value of a; so for a real image A and a real number s the
output of `A s -complex -real out` holds the real part of A at every voxel, and
that of `s A -complex -real out` holds s. -/
theorem C15_real_complex (env : Env) (m : StdMath) :
    (∀ (sa sb : String) (x y : complex_type),
      (StackEntry.arg sa).load env [] = .ok (StackEntry.value x, []) →
      (StackEntry.arg sb).load env [] = .ok (StackEntry.value y, []) →
      x.imag = real_type.fin 0 → y.imag = real_type.fin 0 →
      run env m [Token.operand sa, Token.operand sb, Token.option "complex",
          Token.option "real"]
        = if y.real.eq (real_type.fin 0) then .error Error.OperationNotSupported
          else .ok (Result.printed (complex_type.ofReal x.real))) ∧
    (∀ (ea eb : Expr) (ta tb : StackEntry) (out : String) (header : Header),
      ea.tree env m = some ta → eb.tree env m = some tb →
      ta.no_scalar_node = true → tb.no_scalar_node = true →
      ta.kernels_exist = true → tb.kernels_exist = true →
      ta.rng_count = 0 → tb.rng_count = 0 →
      ta.is_complex = false → tb.is_complex = false →
      (ta.is_broadcast && tb.is_broadcast) = false →
      (∀ l ∈ ta.image_leaves ++ tb.image_leaves, l.well_formed = true) →
      get_header (StackEntry.binary "complex" OpComplex ta tb) Header.empty = .ok header →
      (∀ h, env.can_create out h = true) →
      (∀ h : Header, h.ndim = header.ndim →
        (env.inner_axes h).1 ≠ (env.inner_axes h).2 ∧ (env.inner_axes h).1 < h.ndim ∧
          (env.inner_axes h).2 < h.ndim) →
      ∃ output axes, run env m (ea.tokens ++ eb.tokens ++
            [Token.option "complex", Token.option "real", Token.operand out])
          = .ok (Result.written out output) ∧
        ∀ p, in_bounds header.sizes p →
          output.data p = complex_type.ofReal
            (ta.voxel env axes (header.size axes.1, header.size axes.2) p).real) ∧
    (∀ (nameA s out : String) (A : Image) (v : complex_type),
      env.open_image nameA = some A → A.header.datatype.is_complex = false →
      A.well_formed = true →
      (StackEntry.arg s).load env [] = .ok (StackEntry.value v, []) →
      v.imag = real_type.fin 0 →
      (∀ h, env.can_create out h = true) →
      (∀ h : Header, h.ndim = A.ndim →
        (env.inner_axes h).1 ≠ (env.inner_axes h).2 ∧ (env.inner_axes h).1 < h.ndim ∧
          (env.inner_axes h).2 < h.ndim) →
      (∃ output, run env m [Token.operand nameA, Token.operand s, Token.option "complex",
            Token.option "real", Token.operand out] = .ok (Result.written out output) ∧
          output.header.sizes = A.header.sizes ∧
          ∀ p, in_bounds A.header.sizes p →
            output.data p = complex_type.ofReal (A.data p).real) ∧
      (∃ output, run env m [Token.operand s, Token.operand nameA, Token.option "complex",
            Token.option "real", Token.operand out] = .ok (Result.written out output) ∧
          output.header.sizes = A.header.sizes ∧
          ∀ p, in_bounds A.header.sizes p →
            output.data p = complex_type.ofReal v.real)) := by
  refine ⟨?_, ?_, ?_⟩
  · intro sa sb x y ha hb hx hy
    have h1 : (unary_operations m).lookup "real" = some OpReal := rfl
    have h2 : (binary_operations m).lookup "complex" = some OpComplex := rfl
    have htree : (Expr.unary "real" (Expr.binary "complex" (Expr.operand sa)
        (Expr.operand sb))).tree env m
        = some (StackEntry.unary "real" OpReal (StackEntry.binary "complex" OpComplex
            (StackEntry.value x) (StackEntry.value y))) := by
      simp [Expr.tree, h1, h2, ha, hb]
    have hrun := run_scalars env m _ _ htree rfl
    have htok : (Expr.unary "real" (Expr.binary "complex" (Expr.operand sa)
        (Expr.operand sb))).tokens
        = [Token.operand sa, Token.operand sb, Token.option "complex", Token.option "real"] :=
      rfl
    rw [htok] at hrun
    rw [hrun]
    have hz : (real_type.fin 0).eq (real_type.fin 0) = true := by simp [real_type.eq]
    simp only [StackEntry.folded, Option.some_bind, binary_fold, hx, hy, hz, Bool.and_self,
      if_true, OpComplex, Option.map_some', unary_fold, OpReal]
    cases hy0 : y.real.eq (real_type.fin 0) <;> simp
  · intro ea eb ta tb out header hta htb hna hnb hka hkb hra hrb hca hcb hbc hw hh hcreate hax
    obtain ⟨output, axes, hrun, _, hov⟩ := run_real_complex env m ea eb ta tb out header
      hta htb hna hnb hka hkb hra hrb hca hcb hbc hw hh hcreate hax
    exact ⟨output, axes, hrun, fun p hp => (hov p hp).2⟩
  · intro nameA s out A v hA hreal hwA hs hv hcreate hax
    constructor
    · have hw : ∀ l ∈ (StackEntry.image A A.header.datatype.is_complex).image_leaves ++
          (StackEntry.value v).image_leaves, l.well_formed = true := by
        intro l hl
        simp only [StackEntry.image_leaves, List.append_nil, List.mem_singleton] at hl
        rw [hl]; exact hwA
      obtain ⟨output, axes, hrun, hoa, hov⟩ := run_real_complex env m (Expr.operand nameA)
        (Expr.operand s) _ _ out A.header (tree_image env m nameA A hA)
        (tree_value env m s v hs) rfl rfl rfl rfl rfl rfl hreal (value_not_complex v hv) rfl hw
        (get_header_image_left "complex" OpComplex A _ v) hcreate hax
      refine ⟨output, hrun, by simp only [Header.sizes, hoa], ?_⟩
      intro p hp
      obtain ⟨hx, hv1⟩ := hov p hp
      rw [hv1, voxel_image env A _ _ _ p hx, project_in_bounds A p hp]
    · have hw : ∀ l ∈ (StackEntry.value v).image_leaves ++
          (StackEntry.image A A.header.datatype.is_complex).image_leaves,
          l.well_formed = true := by
        intro l hl
        simp only [StackEntry.image_leaves, List.nil_append, List.mem_singleton] at hl
        rw [hl]; exact hwA
      obtain ⟨output, axes, hrun, hoa, hov⟩ := run_real_complex env m (Expr.operand s)
        (Expr.operand nameA) _ _ out A.header (tree_value env m s v hs)
        (tree_image env m nameA A hA) rfl rfl rfl rfl rfl rfl (value_not_complex v hv) hreal
        rfl hw (get_header_image_right "complex" OpComplex A _ v) hcreate hax
      refine ⟨output, hrun, by simp only [Header.sizes, hoa], ?_⟩
      intro p hp
      obtain ⟨hx, hv1⟩ := hov p hp
      rw [hv1]
      rfl

/-- C15, at the image `a.mif` and the number 0. -/
theorem C15_real_complex_witness :
    ∃ output, run sample_env no_math [Token.operand "a.mif", Token.operand "0",
        Token.option "complex", Token.option "real", Token.operand "out.mif"]
        = .ok (Result.written "out.mif" output) ∧
      output.header.sizes = [2, 2] ∧
      ∀ p, in_bounds [2, 2] p → output.data p = complex_type.ofReal (image_a.data p).real :=
  ((C15_real_complex sample_env no_math).2.2 "a.mif" "0" "out.mif" image_a (real_value 0)
    rfl rfl rfl rfl rfl (fun _ => rfl) (sample_axes 2 (by decide))).1

theorem real_type.neg_neg (a : real_type) : a.neg.neg = a := by
  cases a with
  | nan s => simp [real_type.neg]
  | inf s => simp [real_type.neg]
  | fin q =>
    by_cases h : q = 0
    · simp [real_type.neg, h]
    · simp [real_type.neg, h]
  | neg_zero => simp [real_type.neg]

theorem cell_neg_neg (env : Env) (iter : List Nat) (axes size : Nat × Nat) (t : StackEntry)
    (hc : t.is_complex = false) (hb : t.is_broadcast = false) (d k : Nat) :
    (StackEntry.unary "neg" OpNeg (StackEntry.unary "neg" OpNeg t)).cell env iter axes size d k
      = complex_type.ofReal (t.cell env iter axes size d k).real := by
  simp [StackEntry.cell, StackEntry.is_broadcast, StackEntry.is_complex, hc, hb, OpNeg,
    complex_type.ofReal, real_type.neg_neg]

theorem get_header_image_unary (id1 id2 : String) (op1 op2 : OpUnary) (A : Image) (cA : Bool) :
    get_header (StackEntry.unary id1 op1 (StackEntry.unary id2 op2 (StackEntry.image A cA)))
      Header.empty = .ok A.header := by
  simp [get_header, get_header_image, Header.empty, Header.ndim]

/-- C16. The expression `a -neg -neg` gives a for every real-valued a: for a
real number the builder folds it to the number itself, which is printed; for a
tree that is not complex (a real image, a random source) the evaluation over a
tile of `a -neg -neg` returns the chunk that the evaluation of a returns, each
element being reduced to its real part; and the output of `A -neg -neg out`
for a real image A holds the real part of A at every voxel. -/
theorem C16_double_negation (env : Env) (m : StdMath) :
    (∀ (s : String) (x : complex_type),
      (StackEntry.arg s).load env [] = .ok (StackEntry.value x, []) →
      x.imag = real_type.fin 0 →
      run env m [Token.operand s, Token.option "neg", Token.option "neg"]
        = .ok (Result.printed x)) ∧
    (∀ (t : StackEntry) (st : ThreadLocalStorage),
      1 ≤ st.size.1 * st.size.2 →
      storage_fits (st.size.1 * st.size.2) t st.items st.current →
      t.kernels_exist = true → t.is_broadcast = false → t.is_complex = false →
      ∃ r0 st0 r1 st1, t.evaluate env st = .ok (r0, st0) ∧
        (StackEntry.unary "neg" OpNeg (StackEntry.unary "neg" OpNeg t)).evaluate env st
          = .ok (r1, st1) ∧
        (st1.chunk r1).data = (st0.chunk r0).data.map fun v => complex_type.ofReal v.real) ∧
    (∀ (g : Bool) (st : ThreadLocalStorage),
      1 ≤ st.size.1 * st.size.2 →
      storage_fits (st.size.1 * st.size.2) (StackEntry.rng g) st.items st.current →
      ∃ r0 st0 r1 st1, (StackEntry.rng g).evaluate env st = .ok (r0, st0) ∧
        (StackEntry.unary "neg" OpNeg
          (StackEntry.unary "neg" OpNeg (StackEntry.rng g))).evaluate env st = .ok (r1, st1) ∧
        (st1.chunk r1).data = (st0.chunk r0).data) ∧
    (∀ (nameA out : String) (A : Image),
      env.open_image nameA = some A → A.header.datatype.is_complex = false →
      A.well_formed = true →
      (∀ h, env.can_create out h = true) →
      (∀ h : Header, h.ndim = A.ndim →
        (env.inner_axes h).1 ≠ (env.inner_axes h).2 ∧ (env.inner_axes h).1 < h.ndim ∧
          (env.inner_axes h).2 < h.ndim) →
      ∃ output, run env m [Token.operand nameA, Token.option "neg", Token.option "neg",
          Token.operand out] = .ok (Result.written out output) ∧
        output.header.sizes = A.header.sizes ∧
        ∀ p, in_bounds A.header.sizes p →
          output.data p = complex_type.ofReal (A.data p).real) := by
  have h1 : (unary_operations m).lookup "neg" = some OpNeg := rfl
  have tile : ∀ (t : StackEntry) (st : ThreadLocalStorage),
      1 ≤ st.size.1 * st.size.2 →
      storage_fits (st.size.1 * st.size.2) t st.items st.current →
      t.kernels_exist = true → t.is_broadcast = false → t.is_complex = false →
      ∃ r0 st0 r1 st1, t.evaluate env st = .ok (r0, st0) ∧
        (StackEntry.unary "neg" OpNeg (StackEntry.unary "neg" OpNeg t)).evaluate env st
          = .ok (r1, st1) ∧
        (st0.chunk r0).data
          = (List.range (st.size.1 * st.size.2)).map (t.cell env st.iter st.axes st.size st.draws) ∧
        (st1.chunk r1).data = (st0.chunk r0).data.map fun v => complex_type.ofReal v.real := by
    intro t st hN hfit hk hb hc
    obtain ⟨r0, st0, hev0, _, _, _, _, _, _, _, _, _, hch0, _⟩ :=
      (evaluate_spec env t st hN hfit).1 hk
    have hk1 : (StackEntry.unary "neg" OpNeg (StackEntry.unary "neg" OpNeg t)).kernels_exist
        = true := by
      simp [StackEntry.kernels_exist, StackEntry.is_broadcast, StackEntry.is_complex, hk, hb,
        hc, OpNeg]
    obtain ⟨r1, st1, hev1, _, _, _, _, _, _, _, _, _, hch1, _⟩ :=
      (evaluate_spec env (StackEntry.unary "neg" OpNeg (StackEntry.unary "neg" OpNeg t)) st hN
        hfit).1 hk1
    simp only [chunk_holds, hb, StackEntry.is_broadcast, Bool.false_eq_true, if_false]
      at hch0 hch1
    refine ⟨r0, st0, r1, st1, hev0, hev1, hch0, ?_⟩
    rw [hch1, hch0, List.map_map]
    apply List.map_congr_left
    intro k _
    exact cell_neg_neg env _ _ _ t hc hb _ k
  refine ⟨?_, ?_, ?_, ?_⟩
  · intro s x hs hx
    have htree : (Expr.unary "neg" (Expr.unary "neg" (Expr.operand s))).tree env m
        = some (StackEntry.unary "neg" OpNeg (StackEntry.unary "neg" OpNeg
            (StackEntry.value x))) := by
      simp [Expr.tree, h1, hs]
    have hrun := run_scalars env m _ _ htree rfl
    have htok : (Expr.unary "neg" (Expr.unary "neg" (Expr.operand s))).tokens
        = [Token.operand s, Token.option "neg", Token.option "neg"] := rfl
    rw [htok] at hrun
    rw [hrun]
    have hz : (real_type.fin 0).eq (real_type.fin 0) = true := by simp [real_type.eq]
    have hxe : x = complex_type.ofReal x.real := by
      cases x; simp only [complex_type.ofReal] at *; simp [hx]
    simp only [StackEntry.folded, Option.some_bind, unary_fold, hx, hz, if_true, OpNeg,
      Option.map_some', complex_type.ofReal, real_type.neg_neg]
    rw [hxe]; rfl
  · intro t st hN hfit hk hb hc
    obtain ⟨r0, st0, r1, st1, h0, h1, _, h3⟩ := tile t st hN hfit hk hb hc
    exact ⟨r0, st0, r1, st1, h0, h1, h3⟩
  · intro g st hN hfit
    obtain ⟨r0, st0, r1, st1, h0, h1, h2, h3⟩ := tile (StackEntry.rng g) st hN hfit rfl rfl rfl
    refine ⟨r0, st0, r1, st1, h0, h1, ?_⟩
    rw [h3, h2, List.map_map]
    conv_rhs => rw [← List.map_id ((List.range (st.size.1 * st.size.2)))]
    rw [List.map_map]
    apply List.map_congr_left
    intro k _
    simp [StackEntry.cell, complex_type.ofReal]
  · intro nameA out A hA hreal hwA hcreate hax
    have htree : (Expr.unary "neg" (Expr.unary "neg" (Expr.operand nameA))).tree env m
        = some (StackEntry.unary "neg" OpNeg (StackEntry.unary "neg" OpNeg
            (StackEntry.image A A.header.datatype.is_complex))) := by
      simp [Expr.tree, h1, StackEntry.load, hA]
    have hw : ∀ l ∈ (StackEntry.unary "neg" OpNeg (StackEntry.unary "neg" OpNeg
        (StackEntry.image A A.header.datatype.is_complex))).image_leaves,
        l.well_formed = true := by
      intro l hl
      simp only [StackEntry.image_leaves, List.mem_singleton] at hl
      rw [hl]; exact hwA
    obtain ⟨ax, hax1⟩ : ∃ ax, env.inner_axes { A.header with
      datatype := if (StackEntry.unary "neg" OpNeg (StackEntry.unary "neg" OpNeg
        (StackEntry.image A A.header.datatype.is_complex))).is_complex then DataType.CFloat32
        else DataType.Float32, name := out } = ax := ⟨_, rfl⟩
    obtain ⟨h0, h1a, h2⟩ := hax { A.header with
      datatype := if (StackEntry.unary "neg" OpNeg (StackEntry.unary "neg" OpNeg
        (StackEntry.image A A.header.datatype.is_complex))).is_complex then DataType.CFloat32
        else DataType.Float32, name := out } rfl
    rw [hax1] at h0 h1a h2
    have h1b : ax.1 < A.header.ndim := h1a
    obtain ⟨output, hrun, hoh, hov⟩ := run_spec env m
      (Expr.unary "neg" (Expr.unary "neg" (Expr.operand nameA))) _ out A.header ax _
      htree rfl hw (get_header_image_unary "neg" "neg" OpNeg OpNeg A _) rfl (hcreate _) hax1
      h0 h1a h2 (by simp [StackEntry.kernels_exist, StackEntry.is_broadcast,
        StackEntry.is_complex, hreal, OpNeg]) rfl rfl
    refine ⟨output, hrun, by rw [hoh]; rfl, ?_⟩
    intro p hp
    have hlt : p.getD ax.1 0 < A.header.size ax.1 := by
      have hl : A.header.sizes.length = A.header.ndim := by simp [Header.sizes, Header.ndim]
      have := hp.2 _ (by rw [hl]; exact h1b)
      rwa [header_sizes_getD A.header _ h1b] at this
    rw [hov p hp]
    simp only [StackEntry.voxel]
    rw [cell_neg_neg env p ax _ (StackEntry.image A A.header.datatype.is_complex) hreal rfl]
    have := voxel_image env A A.header.datatype.is_complex ax
      (A.header.size ax.1, A.header.size ax.2) p hlt
    simp only [StackEntry.voxel] at this
    rw [this, project_in_bounds A p hp]

/-- C16, at the number 3. -/
theorem C16_double_negation_witness :
    run sample_env no_math [Token.operand "3", Token.option "neg", Token.option "neg"]
      = .ok (Result.printed (real_value 3)) :=
  (C16_double_negation sample_env no_math).1 "3" (real_value 3) rfl rfl

theorem real_add_comm (a b : real_type) (h : a.opposite_nans b = false) :
    a.add b = b.add a := by
  cases a with
  | nan s =>
    cases b with
    | nan t =>
      have e : s = t := by simpa [real_type.opposite_nans] using h
      subst e; rfl
    | inf t => rfl
    | fin q => rfl
    | neg_zero => rfl
  | inf s =>
    cases b with
    | nan t => rfl
    | inf t => cases s <;> cases t <;> rfl
    | fin q => rfl
    | neg_zero => rfl
  | fin p =>
    cases b with
    | nan t => rfl
    | inf t => rfl
    | fin q => simp only [real_type.add, Rat.add_comm]
    | neg_zero => rfl
  | neg_zero =>
    cases b with
    | nan t => rfl
    | inf t => rfl
    | fin q => rfl
    | neg_zero => rfl

theorem real_mul_comm (a b : real_type) (h : a.opposite_nans b = false) :
    a.mul b = b.mul a := by
  cases a with
  | nan s =>
    cases b with
    | nan t =>
      have e : s = t := by simpa [real_type.opposite_nans] using h
      subst e; rfl
    | inf t => rfl
    | fin q => rfl
    | neg_zero => rfl
  | inf s =>
    cases b with
    | nan t => rfl
    | inf t => cases s <;> cases t <;> rfl
    | fin q => simp only [real_type.mul, real_type.sign, Bool.xor_comm]
    | neg_zero => simp only [real_type.mul, real_type.sign, Bool.xor_comm]
  | fin p =>
    cases b with
    | nan t => rfl
    | inf t => simp only [real_type.mul, real_type.sign, Bool.xor_comm]
    | fin q =>
      simp only [real_type.mul, real_type.sign, real_type.value, Bool.xor_comm, Bool.or_comm,
        Rat.mul_comm]
    | neg_zero =>
      simp only [real_type.mul, real_type.sign, real_type.value, Bool.xor_comm, Bool.or_comm,
        Rat.mul_comm]
  | neg_zero =>
    cases b with
    | nan t => rfl
    | inf t => simp only [real_type.mul, real_type.sign, Bool.xor_comm]
    | fin q =>
      simp only [real_type.mul, real_type.sign, real_type.value, Bool.xor_comm, Bool.or_comm,
        Rat.mul_comm]
    | neg_zero => rfl

theorem real_eq_comm (a b : real_type) : a.eq b = b.eq a := by
  cases a with
  | nan s => cases b <;> rfl
  | inf s =>
    cases b with
    | nan t => rfl
    | inf t => cases s <;> cases t <;> rfl
    | fin q => rfl
    | neg_zero => rfl
  | fin p =>
    cases b with
    | nan t => rfl
    | inf t => rfl
    | fin q => simp only [real_type.eq, eq_comm]
    | neg_zero => simp only [real_type.eq, eq_comm]
  | neg_zero =>
    cases b with
    | nan t => rfl
    | inf t => rfl
    | fin q => simp only [real_type.eq, eq_comm]
    | neg_zero => rfl

/-- A product of two values that are not NaN is NaN only as the NaN that an
invalid operation gives. -/
theorem mul_default_nan (a b : real_type) (ha : a.isnan = false) (hb : b.isnan = false)
    (s : Bool) (h : a.mul b = real_type.nan s) : s = true := by
  cases a with
  | nan s => simp [real_type.isnan] at ha
  | inf s1 =>
    cases b with
    | nan t => simp [real_type.isnan] at hb
    | inf t => simp [real_type.mul, real_type.is_zero] at h
    | fin q =>
      simp only [real_type.mul] at h
      split at h
      · injection h with e; exact e.symm
      · cases h
    | neg_zero =>
      simp only [real_type.mul] at h
      split at h
      · injection h with e; exact e.symm
      · cases h
  | fin p =>
    cases b with
    | nan t => simp [real_type.isnan] at hb
    | inf t =>
      simp only [real_type.mul] at h
      split at h
      · injection h with e; exact e.symm
      · cases h
    | fin q =>
      simp only [real_type.mul, real_type.zero] at h
      split at h
      · split at h <;> cases h
      · cases h
    | neg_zero =>
      simp only [real_type.mul, real_type.zero] at h
      split at h
      · split at h <;> cases h
      · cases h
  | neg_zero =>
    cases b with
    | nan t => simp [real_type.isnan] at hb
    | inf t =>
      simp only [real_type.mul] at h
      split at h
      · injection h with e; exact e.symm
      · cases h
    | fin q =>
      simp only [real_type.mul, real_type.zero] at h
      split at h
      · split at h <;> cases h
      · cases h
    | neg_zero =>
      simp only [real_type.mul, real_type.zero] at h
      split at h
      · split at h <;> cases h
      · cases h

theorem opposite_nans_of_default (a b : real_type) (ha : ∀ s, a = real_type.nan s → s = true)
    (hb : ∀ s, b = real_type.nan s → s = true) : a.opposite_nans b = false := by
  cases a with
  | nan s =>
    cases b with
    | nan t =>
      have e1 := ha s rfl
      have e2 := hb t rfl
      subst e1; subst e2; rfl
    | inf t => rfl
    | fin q => rfl
    | neg_zero => rfl
  | inf s => rfl
  | fin p => rfl
  | neg_zero => rfl

theorem opposite_nans_of_not_nan (a b : real_type) (ha : a.isnan = false) :
    a.opposite_nans b = false := by
  cases a with
  | nan s => simp [real_type.isnan] at ha
  | inf s => rfl
  | fin p => rfl
  | neg_zero => rfl

theorem complex_add_comm (a b : complex_type) (h1 : a.real.opposite_nans b.real = false)
    (h2 : a.imag.opposite_nans b.imag = false) : a.add b = b.add a := by
  simp only [complex_type.add, real_add_comm a.real b.real h1, real_add_comm a.imag b.imag h2]

theorem complex_mul_comm (a b : complex_type) (ha : a.no_nan = true) (hb : b.no_nan = true) :
    a.mul b = b.mul a := by
  simp only [complex_type.no_nan, Bool.and_eq_true, Bool.not_eq_true'] at ha hb
  have e1 := real_mul_comm a.real b.real (opposite_nans_of_not_nan _ _ ha.1)
  have e2 := real_mul_comm a.imag b.imag (opposite_nans_of_not_nan _ _ ha.2)
  have e3 := real_mul_comm a.real b.imag (opposite_nans_of_not_nan _ _ ha.1)
  have e4 := real_mul_comm a.imag b.real (opposite_nans_of_not_nan _ _ ha.2)
  have e5 := real_add_comm (a.real.mul b.imag) (a.imag.mul b.real)
    (opposite_nans_of_default _ _ (fun s h => mul_default_nan _ _ ha.1 hb.2 s h)
      (fun s h => mul_default_nan _ _ ha.2 hb.1 s h))
  simp only [complex_type.mul, ← e1, ← e2, ← e3, ← e4, e5]

theorem complex_eq_comm (a b : complex_type) : a.eq b = b.eq a := by
  simp only [complex_type.eq, real_eq_comm a.real, real_eq_comm a.imag]

theorem real_lt_asymm (a b : real_type) : a.lt b = true → b.lt a = false := by
  intro hab
  cases a with
  | nan s => simp [real_type.lt] at hab
  | inf s =>
    cases b with
    | nan t => simp [real_type.lt] at hab
    | inf t => cases s <;> cases t <;> simp [real_type.lt] at hab ⊢
    | fin q => cases s <;> simp [real_type.lt] at hab ⊢
    | neg_zero => cases s <;> simp [real_type.lt] at hab ⊢
  | fin p =>
    cases b with
    | nan t => simp [real_type.lt] at hab
    | inf t => cases t <;> simp [real_type.lt] at hab ⊢
    | fin q =>
      simp only [real_type.lt, real_type.value, decide_eq_true_eq, decide_eq_false_iff_not,
        not_lt] at hab ⊢
      exact le_of_lt hab
    | neg_zero =>
      simp only [real_type.lt, real_type.value, decide_eq_true_eq, decide_eq_false_iff_not,
        not_lt] at hab ⊢
      exact le_of_lt hab
  | neg_zero =>
    cases b with
    | nan t => simp [real_type.lt] at hab
    | inf t => cases t <;> simp [real_type.lt] at hab ⊢
    | fin q =>
      simp only [real_type.lt, real_type.value, decide_eq_true_eq, decide_eq_false_iff_not,
        not_lt] at hab ⊢
      exact le_of_lt hab
    | neg_zero => simp [real_type.lt, real_type.value] at hab

/-- The function `std::min` gives the same value on its two arguments in either
order exactly when one is less than the other or they are the same value. -/
theorem real_min_comm (a b : real_type) :
    real_type.min a b = real_type.min b a ↔ (a.lt b = true ∨ b.lt a = true ∨ a = b) := by
  constructor
  · intro h
    cases hba : b.lt a with
    | true => exact Or.inr (Or.inl rfl)
    | false =>
      cases hab : a.lt b with
      | true => exact Or.inl rfl
      | false =>
        simp only [real_type.min, hba, hab, Bool.false_eq_true, if_false] at h
        exact Or.inr (Or.inr h)
  · rintro (h | h | h)
    · simp only [real_type.min, h, real_lt_asymm a b h, Bool.false_eq_true, if_false, if_true]
    · simp only [real_type.min, h, real_lt_asymm b a h, Bool.false_eq_true, if_false, if_true]
    · rw [h]

/-- The function `std::max` gives the same value on its two arguments in either
order exactly when one is less than the other or they are the same value. -/
theorem real_max_comm (a b : real_type) :
    real_type.max a b = real_type.max b a ↔ (a.lt b = true ∨ b.lt a = true ∨ a = b) := by
  constructor
  · intro h
    cases hba : b.lt a with
    | true => exact Or.inr (Or.inl rfl)
    | false =>
      cases hab : a.lt b with
      | true => exact Or.inl rfl
      | false =>
        simp only [real_type.max, hba, hab, Bool.false_eq_true, if_false] at h
        exact Or.inr (Or.inr h)
  · rintro (h | h | h)
    · simp only [real_type.max, h, real_lt_asymm a b h, Bool.false_eq_true, if_false, if_true]
    · simp only [real_type.max, h, real_lt_asymm b a h, Bool.false_eq_true, if_false, if_true]
    · rw [h]

/-- The sum of two values is the same in either order exactly when they are
not NaNs of opposite sign. -/
theorem real_add_comm_iff (a b : real_type) :
    a.add b = b.add a ↔ a.opposite_nans b = false := by
  constructor
  · intro h
    cases a with
    | nan s =>
      cases b with
      | nan t =>
        simp only [real_type.add, real_type.nan.injEq] at h
        simp [real_type.opposite_nans, h]
      | inf t => rfl
      | fin q => rfl
      | neg_zero => rfl
    | inf s => exact opposite_nans_of_not_nan _ _ rfl
    | fin p => exact opposite_nans_of_not_nan _ _ rfl
    | neg_zero => exact opposite_nans_of_not_nan _ _ rfl
  · exact real_add_comm a b

/-- The product of two values is the same in either order exactly when they are
not NaNs of opposite sign. -/
theorem real_mul_comm_iff (a b : real_type) :
    a.mul b = b.mul a ↔ a.opposite_nans b = false := by
  constructor
  · intro h
    cases a with
    | nan s =>
      cases b with
      | nan t =>
        simp only [real_type.mul, real_type.nan.injEq] at h
        simp [real_type.opposite_nans, h]
      | inf t => rfl
      | fin q => rfl
      | neg_zero => rfl
    | inf s => exact opposite_nans_of_not_nan _ _ rfl
    | fin p => exact opposite_nans_of_not_nan _ _ rfl
    | neg_zero => exact opposite_nans_of_not_nan _ _ rfl
  · exact real_mul_comm a b

/-- The kernels of `add`, `multiply`, `min`, `max`, `eq` and `neq` give the same
result on two operand values in either order, when the values hide the order of
the operands of the operator. -/
theorem kernel_comm (m : StdMath) (id : String) (op : OpBinary)
    (hop : (binary_operations m).lookup id = some op)
    (hid : id ∈ ["add", "multiply", "min", "max", "eq", "neq"]) (c : Bool)
    (K : complex_type → complex_type → complex_type)
    (hK : (if c then op.Z else op.R.map fun R x y => R x.real y.real) = some K)
    (x y : complex_type) (h : order_hidden id c x y) : K x y = K y x := by
  simp only [List.mem_cons, List.mem_singleton, List.mem_nil_iff, or_false] at hid
  rcases hid with e | e | e | e | e | e <;> subst e
  · have h1 : (binary_operations m).lookup "add" = some OpAdd := rfl
    rw [h1] at hop; injection hop with e; subst e
    have h2 : x.real.opposite_nans y.real = false ∧
        (c = true → x.imag.opposite_nans y.imag = false) := by
      simpa [order_hidden] using h
    cases c
    · simp only [OpAdd, Bool.false_eq_true, if_false, Option.map_some', Option.some.injEq] at hK
      rw [← hK]; simp only [real_add_comm x.real y.real h2.1]
    · simp only [OpAdd, if_true, Option.some.injEq] at hK
      rw [← hK]; exact complex_add_comm x y h2.1 (h2.2 rfl)
  · have h1 : (binary_operations m).lookup "multiply" = some OpMultiply := rfl
    rw [h1] at hop; injection hop with e; subst e
    cases c
    · have h2 : x.real.opposite_nans y.real = false := by simpa [order_hidden] using h
      simp only [OpMultiply, Bool.false_eq_true, if_false, Option.map_some',
        Option.some.injEq] at hK
      rw [← hK]; simp only [real_mul_comm x.real y.real h2]
    · have h2 : x.no_nan = true ∧ y.no_nan = true := by simpa [order_hidden] using h
      simp only [OpMultiply, if_true, Option.some.injEq] at hK
      rw [← hK]; exact complex_mul_comm x y h2.1 h2.2
  · have h1 : (binary_operations m).lookup "min" = some OpMin := rfl
    rw [h1] at hop; injection hop with e; subst e
    have h2 : x.real.lt y.real = true ∨ y.real.lt x.real = true ∨ x.real = y.real := by
      simpa [order_hidden] using h
    cases c
    · simp only [OpMin, Bool.false_eq_true, if_false, Option.map_some', Option.some.injEq] at hK
      rw [← hK]; simp only [(real_min_comm x.real y.real).mpr h2]
    · simp [OpMin] at hK
  · have h1 : (binary_operations m).lookup "max" = some OpMax := rfl
    rw [h1] at hop; injection hop with e; subst e
    have h2 : x.real.lt y.real = true ∨ y.real.lt x.real = true ∨ x.real = y.real := by
      simpa [order_hidden] using h
    cases c
    · simp only [OpMax, Bool.false_eq_true, if_false, Option.map_some', Option.some.injEq] at hK
      rw [← hK]; simp only [(real_max_comm x.real y.real).mpr h2]
    · simp [OpMax] at hK
  · have h1 : (binary_operations m).lookup "eq" = some OpEqual := rfl
    rw [h1] at hop; injection hop with e; subst e
    cases c
    · simp only [OpEqual, Bool.false_eq_true, if_false, Option.map_some',
        Option.some.injEq] at hK
      rw [← hK]; simp only [real_eq_comm x.real]
    · simp only [OpEqual, if_true, Option.some.injEq] at hK
      rw [← hK]; simp only [complex_eq_comm x]
  · have h1 : (binary_operations m).lookup "neq" = some OpNotEqual := rfl
    rw [h1] at hop; injection hop with e; subst e
    cases c
    · simp only [OpNotEqual, Bool.false_eq_true, if_false, Option.map_some',
        Option.some.injEq] at hK
      rw [← hK]; simp only [real_type.ne, real_eq_comm x.real]
    · simp only [OpNotEqual, if_true, Option.some.injEq] at hK
      rw [← hK]; simp only [complex_type.ne, complex_eq_comm x]

/-- The value of a tree without random source at a position does not depend on
the inner axes of the loop. -/
theorem voxel_congr (env : Env) (axes size axes1 size1 : Nat × Nat) (p : List Nat)
    (hx : p.getD axes.1 0 < size.1) (hx1 : p.getD axes1.1 0 < size1.1) (t : StackEntry) :
    t.rng_count = 0 → t.voxel env axes size p = t.voxel env axes1 size1 p := by
  induction t with
  | arg _ => intro _; rfl
  | value _ => intro _; rfl
  | rng _ => intro h; simp [StackEntry.rng_count] at h
  | image img cx =>
    intro _
    rw [voxel_image env img cx axes size p hx, voxel_image env img cx axes1 size1 p hx1]
  | unary id op a iha =>
    intro h
    simp only [StackEntry.rng_count] at h
    have ha := iha h
    simp only [StackEntry.voxel] at ha ⊢
    simp only [StackEntry.cell, ha]
  | binary id op a b iha ihb =>
    intro h
    simp only [StackEntry.rng_count] at h
    have h1 : a.rng_count = 0 := by omega
    have h2 : b.rng_count = 0 := by omega
    have ha := iha h1
    have hb := ihb h2
    simp only [StackEntry.voxel] at ha hb ⊢
    simp only [StackEntry.cell, h1, Nat.mul_zero, Nat.add_zero, ha, hb]
  | ternary id op a b c iha ihb ihc =>
    intro h
    simp only [StackEntry.rng_count] at h
    have h1 : a.rng_count = 0 := by omega
    have h2 : b.rng_count = 0 := by omega
    have h3 : c.rng_count = 0 := by omega
    have ha := iha h1
    have hb := ihb h2
    have hc := ihc h3
    simp only [StackEntry.voxel] at ha hb hc ⊢
    simp only [StackEntry.cell, h1, h2, Nat.mul_zero, Nat.add_zero, ha, hb, hc]

/-- Two headers that `get_header` computes from the same images have the same
number of axes and the same sizes. -/
theorem header_invariant_unique (L L1 : List Image) (h h1 : Header)
    (hi : header_invariant L h) (hi1 : header_invariant L1 h1)
    (hL : ∀ l, l ∈ L ↔ l ∈ L1) : h.ndim = h1.ndim ∧ ∀ a, h.size a = h1.size a := by
  obtain ⟨a1, a2, a3, a4, a5, _⟩ := hi
  obtain ⟨b1, b2, b3, b4, b5, _⟩ := hi1
  constructor
  · apply Nat.le_antisymm
    · rcases a3 with h0 | ⟨l, hl, he⟩
      · omega
      · rw [← he]; exact b2 l ((hL l).mp hl)
    · rcases b3 with h0 | ⟨l, hl, he⟩
      · omega
      · rw [← he]; exact a2 l ((hL l).mpr hl)
  · intro a
    by_cases hgt : 1 < h.size a
    · obtain ⟨l, hl, he⟩ := a5 a hgt
      rcases b4 l ((hL l).mp hl) a with e | e
      · omega
      · rw [← he, e]
    · by_cases hgt1 : 1 < h1.size a
      · obtain ⟨l, hl, he⟩ := b5 a hgt1
        rcases a4 l ((hL l).mpr hl) a with e | e
        · omega
        · rw [← he, e]
      · have := a1 a
        have := b1 a
        omega

theorem sizes_eq_of_size (h h1 : Header) (hn : h.ndim = h1.ndim)
    (hs : ∀ a, h.size a = h1.size a) : h.sizes = h1.sizes := by
  apply list_eq_of_getD
  · simpa [Header.sizes, Header.ndim] using hn
  · intro n hn1
    have hn2 : n < h.ndim := by simpa [Header.sizes, Header.ndim] using hn1
    rw [header_sizes_getD h n hn2, header_sizes_getD h1 n (hn ▸ hn2), hs]

/-- The header of a binary node and that of the node with its operands swapped. -/
theorem get_header_swap (id : String) (op : OpBinary) (a b : StackEntry) (header : Header)
    (hw : ∀ l ∈ a.image_leaves ++ b.image_leaves, l.well_formed = true)
    (hh : get_header (StackEntry.binary id op a b) Header.empty = .ok header) :
    ∃ header1, get_header (StackEntry.binary id op b a) Header.empty = .ok header1 ∧
      header1.ndim = header.ndim ∧ header1.sizes = header.sizes := by
  have hw1 : ∀ l ∈ (StackEntry.binary id op a b).image_leaves, l.well_formed = true := hw
  have hw2 : ∀ l ∈ (StackEntry.binary id op b a).image_leaves, l.well_formed = true := by
    intro l hl
    simp only [StackEntry.image_leaves, List.mem_append] at hl
    exact hw l (List.mem_append.mpr hl.symm)
  have hL : ∀ l, l ∈ (StackEntry.binary id op b a).image_leaves ↔
      l ∈ (StackEntry.binary id op a b).image_leaves := by
    intro l
    simp only [StackEntry.image_leaves, List.mem_append]
    exact Or.comm
  rcases get_header_spec _ hw1 with ⟨_, he⟩ | ⟨hno, h1, hok, hinv⟩
  · rw [he] at hh; cases hh
  · rw [hok] at hh
    simp only [Except.ok.injEq] at hh
    subst hh
    rcases get_header_spec _ hw2 with ⟨⟨l1, hl1, l2, hl2, hm⟩, _⟩ | ⟨_, h2, hok2, hinv2⟩
    · exact absurd ⟨l1, (hL l1).mp hl1, l2, (hL l2).mp hl2, hm⟩ hno
    · obtain ⟨e1, e2⟩ := header_invariant_unique _ _ h2 h1 hinv2 hinv hL
      exact ⟨h2, hok2, e1, sizes_eq_of_size h2 h1 e1 e2⟩
/-- The run of the command on `a b -op out` and on `b a -op out`, for two operand
expressions without random source, when the kernel gives the same value on the
operands in either order: the two outputs have the same sizes and the same
voxels. -/
theorem run_binary_swap (env : Env) (m : StdMath) (id : String) (op : OpBinary) (ea eb : Expr)
    (ta tb : StackEntry) (out : String) (header : Header)
    (K : complex_type → complex_type → complex_type)
    (hop : (binary_operations m).lookup id = some op)
    (hta : ea.tree env m = some ta) (htb : eb.tree env m = some tb)
    (hna : ta.no_scalar_node = true) (hnb : tb.no_scalar_node = true)
    (hka : ta.kernels_exist = true) (hkb : tb.kernels_exist = true)
    (hra : ta.rng_count = 0) (hrb : tb.rng_count = 0)
    (hbc : (ta.is_broadcast && tb.is_broadcast) = false)
    (hw : ∀ l ∈ ta.image_leaves ++ tb.image_leaves, l.well_formed = true)
    (hh : get_header (StackEntry.binary id op ta tb) Header.empty = .ok header)
    (hK : (if ta.is_complex || tb.is_complex then op.Z
      else op.R.map fun R x y => R x.real y.real) = some K)
    (hcreate : ∀ h, env.can_create out h = true)
    (hax : ∀ h : Header, h.ndim = header.ndim →
      (env.inner_axes h).1 ≠ (env.inner_axes h).2 ∧ (env.inner_axes h).1 < h.ndim ∧
        (env.inner_axes h).2 < h.ndim)
    (hcomm : ∀ axes size p, K (ta.voxel env axes size p) (tb.voxel env axes size p)
      = K (tb.voxel env axes size p) (ta.voxel env axes size p)) :
    ∃ o1 o2,
      run env m (ea.tokens ++ eb.tokens ++ [Token.option id, Token.operand out])
        = .ok (Result.written out o1) ∧
      run env m (eb.tokens ++ ea.tokens ++ [Token.option id, Token.operand out])
        = .ok (Result.written out o2) ∧
      o1.header.sizes = o2.header.sizes ∧
      ∀ p, in_bounds o1.header.sizes p → o1.data p = o2.data p := by
  obtain ⟨o1, ax1, hrun1, hoa1, hov1⟩ := run_binary_spec env m id op ea eb ta tb out header K
    hop hta htb hna hnb hka hkb hra hrb hbc hw hh hK hcreate hax
  obtain ⟨header1, hh1, hnd1, hsz1⟩ := get_header_swap id op ta tb header hw hh
  have hw1 : ∀ l ∈ tb.image_leaves ++ ta.image_leaves, l.well_formed = true := by
    intro l hl
    exact hw l (List.mem_append.mpr (List.mem_append.mp hl).symm)
  obtain ⟨o2, ax2, hrun2, hoa2, hov2⟩ := run_binary_spec env m id op eb ea tb ta out header1 K
    hop htb hta hnb hna hkb hka hrb hra (by rw [Bool.and_comm]; exact hbc) hw1 hh1
    (by rw [Bool.or_comm]; exact hK) hcreate (fun h e => hax h (e.trans hnd1))
  have hs1 : o1.header.sizes = header.sizes := by simp only [Header.sizes, hoa1]
  have hs2 : o2.header.sizes = header1.sizes := by simp only [Header.sizes, hoa2]
  refine ⟨o1, o2, hrun1, hrun2, by rw [hs1, hs2, hsz1], ?_⟩
  intro p hp
  rw [hs1] at hp
  obtain ⟨hx1, hv1⟩ := hov1 p hp
  obtain ⟨hx2, hv2⟩ := hov2 p (by rw [hsz1]; exact hp)
  rw [hv1, hv2, voxel_congr env ax2 _ ax1 (header.size ax1.1, header.size ax1.2) p hx2 hx1 tb hrb,
    voxel_congr env ax2 _ ax1 (header.size ax1.1, header.size ax1.2) p hx2 hx1 ta hra]
  exact hcomm _ _ p

theorem binary_fold_comm (m : StdMath) (id : String) (op : OpBinary)
    (hop : (binary_operations m).lookup id = some op)
    (hid : id ∈ ["add", "multiply", "min", "max", "eq", "neq"])
    (x y : complex_type)
    (h : order_hidden id (!(x.imag.eq (real_type.fin 0) && y.imag.eq (real_type.fin 0))) x y) :
    binary_fold op x y = binary_fold op y x := by
  simp only [binary_fold, Bool.and_comm (y.imag.eq (real_type.fin 0))]
  revert h
  generalize (x.imag.eq (real_type.fin 0) && y.imag.eq (real_type.fin 0)) = c
  intro h
  have key : ∀ K, (if !c then op.Z else op.R.map fun R x y => R x.real y.real) = some K →
      K x y = K y x := fun K hK => kernel_comm m id op hop hid (!c) K hK x y h
  cases c
  · simp only [Bool.not_false, if_true, Bool.false_eq_true, if_false] at key ⊢
    cases hZ : op.Z with
    | none => rfl
    | some Z => simp only [Option.map_some', key Z hZ]
  · simp only [Bool.not_true, Bool.false_eq_true, if_false, if_true] at key ⊢
    cases hR : op.R with
    | none => rfl
    | some R =>
      have := key (fun x y => R x.real y.real) (by rw [hR]; rfl)
      simp only [Option.map_some'] at this ⊢
      rw [this]

theorem rat_lt_or_gt_or_eq (a b : ℚ) : a < b ∨ b < a ∨ a = b := by
  rcases lt_trichotomy a b with h | h | h
  · exact Or.inl h
  · exact Or.inr (Or.inr h)
  · exact Or.inr (Or.inl h)

/-- C17, as stated, fails for `min` (and `max`) where neither operand is less
than the other and they are not the same value: `std::min (a, b)` is
`(b < a) ? b : a`, the first argument then. With a NaN, `a.mif nan -min out`
holds the voxels of `a.mif` and `nan a.mif -min out` holds NaN, and `3 nan -min`
prints 3 where `nan 3 -min` prints NaN; with the zeros of opposite sign,
`0 -neg 0 -min` prints the negative zero and `0 0 -neg -min` the positive one. -/
theorem C17_counterexample :
    (∃ o1 o2,
      run sample_env no_math [Token.operand "a.mif", Token.operand "nan", Token.option "min",
          Token.operand "out.mif"] = .ok (Result.written "out.mif" o1) ∧
      run sample_env no_math [Token.operand "nan", Token.operand "a.mif", Token.option "min",
          Token.operand "out.mif"] = .ok (Result.written "out.mif" o2) ∧
      o1.data [1, 1] = real_value 4 ∧
      o2.data [1, 1] = complex_type.ofReal (real_type.nan false)) ∧
    run sample_env no_math [Token.operand "3", Token.operand "nan", Token.option "min"]
      = .ok (Result.printed (real_value 3)) ∧
    run sample_env no_math [Token.operand "nan", Token.operand "3", Token.option "min"]
      = .ok (Result.printed (complex_type.ofReal (real_type.nan false))) ∧
    run sample_env no_math [Token.operand "0", Token.option "neg", Token.operand "0",
        Token.option "min"]
      = .ok (Result.printed (complex_type.ofReal real_type.neg_zero)) ∧
    run sample_env no_math [Token.operand "0", Token.operand "0", Token.option "neg",
        Token.option "min"]
      = .ok (Result.printed (complex_type.ofReal (real_type.fin 0))) := by
  obtain ⟨o1, hr1, hv1⟩ := run_image_scalar sample_env no_math "min" "a.mif" "nan" "out.mif"
    OpMin image_a (complex_type.ofReal (real_type.nan false))
    (fun x y => complex_type.ofReal (real_type.min x.real y.real))
    rfl rfl rfl rfl rfl (fun _ => rfl) (sample_axes 2 (by decide))
  obtain ⟨o2, hr2, hv2⟩ := run_scalar_image sample_env no_math "min" "a.mif" "nan" "out.mif"
    OpMin image_a (complex_type.ofReal (real_type.nan false))
    (fun x y => complex_type.ofReal (real_type.min x.real y.real))
    rfl rfl rfl rfl rfl (fun _ => rfl) (sample_axes 2 (by decide))
  refine ⟨⟨o1, o2, hr1, hr2, (hv1 _ in_bounds_sample).trans ?_,
    (hv2 _ in_bounds_sample).trans ?_⟩, ?_, ?_, ?_, ?_⟩ <;> with_unfolding_all rfl

/-- C17. For the operators add, multiply, min, max, eq and neq, swapping the two
operands changes neither the value printed for two numbers nor the sizes and
the voxels of the output written for two operand expressions without random
source, where the operand values hide the order of the operands: always for eq
and neq; for add and multiply unless the operand values are NaNs of opposite
sign (for the complex product, when no part of an operand value is NaN); for
min and max when one operand value is less than the other or the two are the
same value, which leaves out a NaN beside another value and the two zeros of
opposite sign. On real values these conditions are the exact ones: `std::min`
and `std::max`, the sum and the product give the same value in either order
if and only if they hold, and `==` does so always. -/
theorem C17_broadcast_commutativity (env : Env) (m : StdMath) (id : String) (op : OpBinary)
    (hop : (binary_operations m).lookup id = some op)
    (hid : id ∈ ["add", "multiply", "min", "max", "eq", "neq"]) :
    (∀ (sa sb : String) (x y : complex_type),
      (StackEntry.arg sa).load env [] = .ok (StackEntry.value x, []) →
      (StackEntry.arg sb).load env [] = .ok (StackEntry.value y, []) →
      order_hidden id (!(x.imag.eq (real_type.fin 0) && y.imag.eq (real_type.fin 0))) x y →
      run env m [Token.operand sa, Token.operand sb, Token.option id]
        = run env m [Token.operand sb, Token.operand sa, Token.option id]) ∧
    (∀ (ea eb : Expr) (ta tb : StackEntry) (out : String) (header : Header)
        (K : complex_type → complex_type → complex_type),
      ea.tree env m = some ta → eb.tree env m = some tb →
      ta.no_scalar_node = true → tb.no_scalar_node = true →
      ta.kernels_exist = true → tb.kernels_exist = true →
      ta.rng_count = 0 → tb.rng_count = 0 →
      (ta.is_broadcast && tb.is_broadcast) = false →
      (∀ l ∈ ta.image_leaves ++ tb.image_leaves, l.well_formed = true) →
      get_header (StackEntry.binary id op ta tb) Header.empty = .ok header →
      (if ta.is_complex || tb.is_complex then op.Z
        else op.R.map fun R x y => R x.real y.real) = some K →
      (∀ h, env.can_create out h = true) →
      (∀ h : Header, h.ndim = header.ndim →
        (env.inner_axes h).1 ≠ (env.inner_axes h).2 ∧ (env.inner_axes h).1 < h.ndim ∧
          (env.inner_axes h).2 < h.ndim) →
      (∀ axes size p, order_hidden id (ta.is_complex || tb.is_complex)
        (ta.voxel env axes size p) (tb.voxel env axes size p)) →
      ∃ o1 o2,
        run env m (ea.tokens ++ eb.tokens ++ [Token.option id, Token.operand out])
          = .ok (Result.written out o1) ∧
        run env m (eb.tokens ++ ea.tokens ++ [Token.option id, Token.operand out])
          = .ok (Result.written out o2) ∧
        o1.header.sizes = o2.header.sizes ∧
        ∀ p, in_bounds o1.header.sizes p → o1.data p = o2.data p) ∧
    (∀ a b : real_type,
      (real_type.min a b = real_type.min b a
        ↔ (a.lt b = true ∨ b.lt a = true ∨ a = b)) ∧
      (real_type.max a b = real_type.max b a
        ↔ (a.lt b = true ∨ b.lt a = true ∨ a = b)) ∧
      (a.add b = b.add a ↔ a.opposite_nans b = false) ∧
      (a.mul b = b.mul a ↔ a.opposite_nans b = false) ∧
      a.eq b = b.eq a) := by
  refine ⟨?_, ?_, fun a b => ⟨real_min_comm a b, real_max_comm a b, real_add_comm_iff a b,
    real_mul_comm_iff a b, real_eq_comm a b⟩⟩
  · intro sa sb x y ha hb hord
    have h1 : (Expr.binary id (Expr.operand sa) (Expr.operand sb)).tree env m
        = some (StackEntry.binary id op (StackEntry.value x) (StackEntry.value y)) := by
      simp [Expr.tree, hop, ha, hb]
    have h2 : (Expr.binary id (Expr.operand sb) (Expr.operand sa)).tree env m
        = some (StackEntry.binary id op (StackEntry.value y) (StackEntry.value x)) := by
      simp [Expr.tree, hop, ha, hb]
    have r1 := run_scalars env m _ _ h1 rfl
    have r2 := run_scalars env m _ _ h2 rfl
    have t1 : (Expr.binary id (Expr.operand sa) (Expr.operand sb)).tokens
        = [Token.operand sa, Token.operand sb, Token.option id] := rfl
    have t2 : (Expr.binary id (Expr.operand sb) (Expr.operand sa)).tokens
        = [Token.operand sb, Token.operand sa, Token.option id] := rfl
    rw [t1] at r1
    rw [t2] at r2
    rw [r1, r2]
    simp only [StackEntry.folded, Option.some_bind,
      binary_fold_comm m id op hop hid x y hord]
  · intro ea eb ta tb out header K hta htb hna hnb hka hkb hra hrb hbc hw hh hK hcreate hax hord
    apply run_binary_swap env m id op ea eb ta tb out header K hop hta htb hna hnb hka hkb hra
      hrb hbc hw hh hK hcreate hax
    intro axes size p
    exact kernel_comm m id op hop hid _ K hK _ _ (hord axes size p)

/-- C17, at the smaller of the images `b.mif`, of shape 2×2×1, and `c.mif`, of
shape 1×1×3, whose voxels are numbers other than the negative zero. -/
theorem C17_broadcast_commutativity_witness :
    ∃ o1 o2,
      run sample_env no_math [Token.operand "b.mif", Token.operand "c.mif", Token.option "min",
          Token.operand "out.mif"] = .ok (Result.written "out.mif" o1) ∧
      run sample_env no_math [Token.operand "c.mif", Token.operand "b.mif", Token.option "min",
          Token.operand "out.mif"] = .ok (Result.written "out.mif" o2) ∧
      o1.header.sizes = o2.header.sizes ∧
      ∀ p, in_bounds o1.header.sizes p → o1.data p = o2.data p :=
  (C17_broadcast_commutativity sample_env no_math "min" OpMin rfl (by decide)).2.1
    (Expr.operand "b.mif") (Expr.operand "c.mif") (StackEntry.image image_b false)
    (StackEntry.image image_c false) "out.mif"
    (Header.mk "b.mif" [⟨2, none⟩, ⟨2, none⟩, ⟨3, none⟩] DataType.Float32)
    (fun x y => complex_type.ofReal (real_type.min x.real y.real))
    rfl rfl rfl rfl rfl rfl rfl rfl rfl (by decide) rfl rfl (fun _ => rfl)
    (sample_axes 3 (by decide))
    (fun axes size p => by
      simp only [order_hidden, StackEntry.voxel, StackEntry.cell, image_b, image_c, sample_image,
        real_value, complex_type.ofReal, real_type.lt, real_type.value, true_or, if_true,
        decide_eq_true_eq, real_type.fin.injEq]
      exact rat_lt_or_gt_or_eq _ _)

theorem mapM_error_elim {α β : Type} (f : α → Except Error β) (l : List α) (e : Error)
    (h : l.mapM f = .error e) : ∃ x ∈ l, f x = .error e := by
  induction l with
  | nil => cases h
  | cons x l ih =>
    rw [List.mapM_cons] at h
    cases hx : f x with
    | error e1 =>
      rw [hx] at h
      have : e1 = e := by injection h
      exact ⟨x, by simp, by rw [← this]; exact hx⟩
    | ok y =>
      rw [hx] at h
      cases hl : l.mapM f with
      | error e1 =>
        rw [hl] at h
        have : e1 = e := by injection h
        obtain ⟨z, hz, hfz⟩ := ih (by rw [← this]; exact hl)
        exact ⟨z, by simp [hz], hfz⟩
      | ok ys =>
        rw [hl] at h
        cases h

theorem foldlM_outcome {α β : Type} (f : β → α → Except Error β) (P : β → Prop)
    (Q : Error → Prop) (l : List α)
    (hstep : ∀ b a, P b → (∀ c, f b a = .ok c → P c) ∧ (∀ e, f b a = .error e → Q e)) :
    ∀ init, P init →
      (∀ c, l.foldlM f init = .ok c → P c) ∧ (∀ e, l.foldlM f init = .error e → Q e) := by
  induction l with
  | nil =>
    intro init h0
    constructor
    · intro c h
      have : init = c := by injection h
      rw [← this]; exact h0
    · intro e h; cases h
  | cons a l ih =>
    intro init h0
    rw [List.foldlM_cons]
    cases ha : f init a with
    | error e1 =>
      constructor
      · intro c h; cases h
      · intro e h
        have : e1 = e := by injection h
        rw [← this]; exact (hstep init a h0).2 e1 ha
    | ok b => exact ih b ((hstep init a h0).1 b ha)

theorem call_kernel_error {α : Type} (k : Option α) (e : Error)
    (h : call_kernel k = .error e) : e = Error.OperationNotSupported := by
  cases k with
  | none => injection h with h1; exact h1.symm
  | some _ => cases h

theorem operand_error (c : Chunk) (n : Nat) (e : Error)
    (h : c.operand n = .error e) : e = Error.OutOfBounds := by
  simp only [Chunk.operand] at h
  split at h
  · split at h
    · cases h
    · injection h with h1; exact h1.symm
  · cases h

theorem next_error (st : ThreadLocalStorage) (e : Error)
    (h : st.next = .error e) : e = Error.OutOfBounds := by
  simp only [ThreadLocalStorage.next] at h
  split at h
  · injection h with h1; exact h1.symm
  · split at h <;> cases h

theorem bind_error {α β : Type} (x : Except Error α) (f : α → Except Error β) (e : Error)
    (h : x >>= f = .error e) : x = .error e ∨ ∃ a, x = .ok a ∧ f a = .error e := by
  cases x with
  | error e1 => left; simpa [bind, Except.bind] using h
  | ok a => right; exact ⟨a, rfl, by simpa [bind, Except.bind] using h⟩

theorem unary_evaluate_error (op : OpUnary) (a : StackEntry) (r : Nat)
    (st : ThreadLocalStorage) (e : Error)
    (h : UnaryEvaluator.evaluate op a r st = .error e) : evaluation_error e := by
  simp only [UnaryEvaluator.evaluate] at h
  split at h <;>
  · rcases bind_error _ _ e h with h1 | ⟨_, _, h1⟩
    · obtain ⟨v, _, hv⟩ := mapM_error_elim _ _ e h1
      rcases bind_error _ _ e hv with h2 | ⟨_, _, h2⟩
      · exact Or.inl (call_kernel_error _ e h2)
      · cases h2
    · cases h1

theorem binary_evaluate_error (op : OpBinary) (a b : StackEntry) (ra rb : Nat)
    (st : ThreadLocalStorage) (e : Error)
    (h : BinaryEvaluator.evaluate op a b ra rb st = .error e) : evaluation_error e := by
  simp only [BinaryEvaluator.evaluate] at h
  split at h <;>
  · rcases bind_error _ _ e h with h1 | ⟨_, _, h1⟩
    · obtain ⟨v, _, hv⟩ := mapM_error_elim _ _ e h1
      rcases bind_error _ _ e hv with h2 | ⟨_, _, h2⟩
      · exact Or.inr (operand_error _ _ e h2)
      · rcases bind_error _ _ e h2 with h3 | ⟨_, _, h3⟩
        · exact Or.inr (operand_error _ _ e h3)
        · rcases bind_error _ _ e h3 with h4 | ⟨_, _, h4⟩
          · exact Or.inl (call_kernel_error _ e h4)
          · cases h4
    · cases h1

theorem ternary_evaluate_error (op : OpTernary) (a b c : StackEntry) (ra rb rc : Nat)
    (st : ThreadLocalStorage) (e : Error)
    (h : TernaryEvaluator.evaluate op a b c ra rb rc st = .error e) : evaluation_error e := by
  simp only [TernaryEvaluator.evaluate] at h
  split at h <;>
  · rcases bind_error _ _ e h with h1 | ⟨_, _, h1⟩
    · obtain ⟨v, _, hv⟩ := mapM_error_elim _ _ e h1
      rcases bind_error _ _ e hv with h2 | ⟨_, _, h2⟩
      · exact Or.inr (operand_error _ _ e h2)
      · rcases bind_error _ _ e h2 with h3 | ⟨_, _, h3⟩
        · exact Or.inr (operand_error _ _ e h3)
        · rcases bind_error _ _ e h3 with h4 | ⟨_, _, h4⟩
          · exact Or.inr (operand_error _ _ e h4)
          · rcases bind_error _ _ e h4 with h5 | ⟨_, _, h5⟩
            · exact Or.inl (call_kernel_error _ e h5)
            · cases h5
    · cases h1

/-- The evaluation of a tree throws nothing but "operation not supported" (or
reads outside a vector). -/
theorem evaluate_error (env : Env) (t : StackEntry) :
    ∀ (st : ThreadLocalStorage) (e : Error), t.evaluate env st = .error e →
      evaluation_error e := by
  induction t with
  | arg _ => intro st e h; exact Or.inr (next_error st e h)
  | value _ => intro st e h; exact Or.inr (next_error st e h)
  | image _ _ => intro st e h; exact Or.inr (next_error st e h)
  | rng g =>
    intro st e h
    simp only [StackEntry.evaluate] at h
    rcases bind_error _ _ e h with h1 | ⟨_, _, h1⟩
    · exact Or.inr (next_error st e h1)
    · cases h1
  | unary id op a iha =>
    intro st e h
    simp only [StackEntry.evaluate] at h
    rcases bind_error _ _ e h with h1 | ⟨_, _, h1⟩
    · exact iha st e h1
    · exact unary_evaluate_error _ _ _ _ e h1
  | binary id op a b iha ihb =>
    intro st e h
    simp only [StackEntry.evaluate] at h
    rcases bind_error _ _ e h with h1 | ⟨_, _, h1⟩
    · exact iha st e h1
    · rcases bind_error _ _ e h1 with h2 | ⟨_, _, h2⟩
      · exact ihb _ e h2
      · exact binary_evaluate_error _ _ _ _ _ _ e h2
  | ternary id op a b c iha ihb ihc =>
    intro st e h
    simp only [StackEntry.evaluate] at h
    rcases bind_error _ _ e h with h1 | ⟨_, _, h1⟩
    · exact iha st e h1
    · rcases bind_error _ _ e h1 with h2 | ⟨_, _, h2⟩
      · exact ihb _ e h2
      · rcases bind_error _ _ e h2 with h3 | ⟨_, _, h3⟩
        · exact ihc _ e h3
        · exact ternary_evaluate_error _ _ _ _ _ _ _ _ e h3

theorem write_chunk_outcome (image : Image) (axes : Nat × Nat) (iter : List Nat)
    (chunk : Chunk) :
    (∀ image1, write_chunk image axes iter chunk = .ok image1 →
      image1.header = image.header) ∧
    (∀ e, write_chunk image axes iter chunk = .error e → evaluation_error e) := by
  have inner : ∀ (y : Nat) (l : List Nat) (r : Image × Nat), r.1.header = image.header →
      (∀ c, l.foldlM (write_x axes iter chunk y) r = .ok c → c.1.header = image.header) ∧
      (∀ e, l.foldlM (write_x axes iter chunk y) r = .error e → evaluation_error e) := by
    intro y l
    apply foldlM_outcome _ (fun r : Image × Nat => r.1.header = image.header)
    intro b a hb
    simp only [write_x]
    split
    · constructor
      · intro c hc
        injection hc with hc
        rw [← hc]; exact hb
      · intro e he; cases he
    · constructor
      · intro c hc; cases hc
      · intro e he
        injection he with he
        exact Or.inr he.symm
  have outer := foldlM_outcome
    (fun (r : Image × Nat) (y : Nat) =>
      (List.range (image.size axes.1)).foldlM (write_x axes iter chunk y) r)
    (fun r : Image × Nat => r.1.header = image.header) evaluation_error
    (List.range (image.size axes.2)) (fun b a hb => inner a _ b hb) (image, 0) rfl
  constructor
  · intro image1 h
    simp only [write_chunk] at h
    cases hf : (List.range (image.size axes.2)).foldlM
        (fun r y => (List.range (image.size axes.1)).foldlM (write_x axes iter chunk y) r)
        (image, 0) with
    | error e1 => rw [hf] at h; cases h
    | ok r =>
      rw [hf] at h
      injection h with h
      rw [← h]
      exact outer.1 r hf
  · intro e h
    simp only [write_chunk] at h
    rcases bind_error _ _ e h with h1 | ⟨_, _, h1⟩
    · exact outer.2 e h1
    · cases h1

theorem call_outcome (env : Env) (f : ThreadFunctor) (iter : List Nat) :
    (∀ f1, f.call env iter = .ok f1 →
      f1.image.header = f.image.header ∧ f1.top_entry = f.top_entry) ∧
    (∀ e, f.call env iter = .error e → evaluation_error e) := by
  constructor
  · intro f1 h
    simp only [ThreadFunctor.call] at h
    cases hev : f.top_entry.evaluate env (f.storage.reset iter) with
    | error e1 => rw [hev] at h; cases h
    | ok r =>
      rw [hev] at h
      cases hw : write_chunk f.image f.storage.axes iter (r.2.chunk r.1) with
      | error e1 =>
        simp only [bind, Except.bind, hw] at h
        cases h
      | ok image1 =>
        simp only [bind, Except.bind, hw, pure, Except.pure] at h
        injection h with h
        rw [← h]
        exact ⟨(write_chunk_outcome _ _ _ _).1 image1 hw, rfl⟩
  · intro e h
    simp only [ThreadFunctor.call] at h
    rcases bind_error _ _ e h with h1 | ⟨_, _, h1⟩
    · exact evaluate_error env _ _ e h1
    · rcases bind_error _ _ e h1 with h2 | ⟨_, _, h2⟩
      · exact (write_chunk_outcome _ _ _ _).2 e h2
      · cases h2

/-- The loop over the tiles keeps the header of the output and throws nothing
but the errors of the evaluator. -/
theorem run_outer_outcome (env : Env) (f : ThreadFunctor) (positions : List (List Nat)) :
    (∀ f1, run_outer env f positions = .ok f1 → f1.image.header = f.image.header) ∧
    (∀ e, run_outer env f positions = .error e → evaluation_error e) :=
  foldlM_outcome (ThreadFunctor.call env)
    (fun f1 : ThreadFunctor => f1.image.header = f.image.header) evaluation_error positions
    (fun b a hb => ⟨fun c hc => ((call_outcome env b a).1 c hc).1.trans hb,
      (call_outcome env b a).2⟩) f rfl

theorem get_header_no_image (e : StackEntry) (h : e.image_leaves = []) (header : Header) :
    get_header e header = .ok header := by
  rw [get_header_leaves, h]; rfl

/-- C18. When the bottom entry of the stack has no image leaf, `run_operations`
is in calculator mode and creates no image: with further entries above that
entry the run throws StackImbalance, and with that entry alone its member
`value` is printed, unless the build has assertions and the entry holds an
evaluator, when `assert (!stack[0].evaluator)` aborts the run. So `2 3 -add`
prints 5 and `2 3` throws; `rand -neg` leaves the node `neg` over a random
source alone on the stack: a build with assertions aborts, and a build without
them prints the 0 of the member `value`. -/
theorem C18_calculator_mode (env : Env) (cmdline : List Token) (s0 : StackEntry)
    (up : List StackEntry) (h : s0.image_leaves = []) :
    (up = [] → run_operations env cmdline [s0]
      = if env.assertions && s0.has_evaluator then .error Error.AssertionFailed
        else .ok (Result.printed s0.get_value)) ∧
    (up ≠ [] → run_operations env cmdline (up ++ [s0]) = .error Error.StackImbalance) ∧
    created_output env cmdline (up ++ [s0]) = none ∧
    run sample_env no_math [Token.operand "2", Token.operand "3", Token.option "add"]
      = .ok (Result.printed (real_value 5)) ∧
    run sample_env no_math [Token.operand "2", Token.operand "3"]
      = .error Error.StackImbalance ∧
    (build sample_env no_math [Token.operand "rand", Token.option "neg"]).2.stack
      = [StackEntry.unary "neg" OpNeg (StackEntry.rng false)] ∧
    run sample_env no_math [Token.operand "rand", Token.option "neg"]
      = .error Error.AssertionFailed ∧
    run { sample_env with assertions := false } no_math
        [Token.operand "rand", Token.option "neg"]
      = .ok (Result.printed (real_value 0)) := by
  have hh := get_header_no_image s0 h Header.empty
  have hnd : Header.empty.ndim = 0 := rfl
  have himg : s0.has_image = false := by
    cases s0 <;> simp [StackEntry.has_image, StackEntry.image_leaves] at h ⊢
  have hget : (up ++ [s0]).reverse.get? 0 = some s0 := by simp
  refine ⟨?_, ?_, ?_, by with_unfolding_all rfl, by with_unfolding_all rfl, by rfl, by rfl,
    by rfl⟩
  · intro _
    simp only [run_operations, List.reverse_cons, List.reverse_nil, List.nil_append,
      List.get?_cons_zero, hh, bind, Except.bind, hnd, if_true, List.length_singleton,
      ne_eq, not_true_eq_false, if_false, pure, Except.pure, himg, Bool.and_false,
      Bool.false_eq_true]
  · intro hup
    have hlen : (up ++ [s0]).reverse.length ≠ 1 := by
      cases up with
      | nil => exact absurd rfl hup
      | cons a l => simp
    simp only [run_operations, hget, hh, bind, Except.bind, hnd, if_true]
    rw [if_pos hlen]
  · simp only [created_output, hget, hh, hnd, if_true]

/-- C18, at the stack that holds the value 5 and an unresolved operand above
it. -/
theorem C18_calculator_mode_witness :
    run_operations sample_env [] [StackEntry.arg "3", StackEntry.value (real_value 5)]
      = .error Error.StackImbalance :=
  (C18_calculator_mode sample_env [] (StackEntry.value (real_value 5)) [StackEntry.arg "3"]
    rfl).2.1 (by simp)

/-- The run of the operations on a stack of the root and the name of the output,
the root having an image: the datatype is settled, the output is created and
the loop runs. -/
theorem run_operations_output (env : Env) (cmdline : List Token) (s0 : StackEntry)
    (out : String) (header : Header)
    (hh : get_header s0 Header.empty = .ok header) (hnd : header.ndim ≠ 0) :
    run_operations env cmdline [StackEntry.arg out, s0] =
      (output_datatype env cmdline s0).bind fun dt =>
        if !env.can_create out { header with datatype := dt } then .error Error.IOError
        else (run_outer env
          (ThreadFunctor.create (env.inner_axes { header with datatype := dt, name := out }) s0
            ⟨{ header with datatype := dt, name := out },
              fun _ => ⟨real_type.fin 0, real_type.fin 0⟩⟩)
          (outer_positions ({ header with datatype := dt, name := out } : Header).sizes
            (env.inner_axes { header with datatype := dt, name := out }))).map
          fun f => Result.written out f.image := by
  simp only [run_operations, List.reverse_cons, List.reverse_nil, List.nil_append,
    List.singleton_append, List.get?_cons_zero, hh, bind, Except.bind, hnd, if_false,
    List.length_cons, List.length_nil, List.get?_cons_succ, StackEntry.has_arg,
    StackEntry.get_arg, pure, Except.pure, output_datatype]
  cases hcx : s0.is_complex
  · simp only [Bool.false_eq_true, if_false]
    cases from_command_line env cmdline DataType.Float32 with
    | error e => rfl
    | ok dt =>
      simp only [Nat.reduceAdd, Nat.reduceEqDiff, gt_iff_lt, Nat.lt_irrefl, if_false,
        Bool.not_true, Bool.false_eq_true]
      cases env.can_create out { header with datatype := dt }
      · rfl
      · simp only [Bool.not_true, Bool.false_eq_true, if_false]
        cases run_outer env _ _ <;> rfl
  · simp only [if_true]
    cases from_command_line env cmdline DataType.CFloat32 with
    | error e => rfl
    | ok dt =>
      simp only [Nat.reduceAdd, Nat.reduceEqDiff, gt_iff_lt, Nat.lt_irrefl, if_false,
        Bool.not_true, Bool.false_eq_true]
      cases dt.is_complex
      · rfl
      · simp only [Bool.not_true, Bool.false_eq_true, if_false]
        cases env.can_create out { header with datatype := dt }
        · rfl
        · simp only [Bool.not_true, Bool.false_eq_true, if_false]
          cases run_outer env _ _ <;> rfl
/-- The image that `run_operations` has created on a stack of the root and the
name of the output, the root having an image: the one of the path `out`, with
the header of the broadcast and the datatype settled, if `Header::create`
succeeds. -/
theorem created_output_eq (env : Env) (cmdline : List Token) (s0 : StackEntry)
    (out : String) (header : Header)
    (hh : get_header s0 Header.empty = .ok header) (hnd : header.ndim ≠ 0) :
    created_output env cmdline [StackEntry.arg out, s0] =
      match output_datatype env cmdline s0 with
      | .error _ => none
      | .ok dt =>
        if !env.can_create out { header with datatype := dt } then none
        else some (out, { header with datatype := dt, name := out }) := by
  simp only [created_output, List.reverse_cons, List.reverse_nil, List.nil_append,
    List.singleton_append, List.get?_cons_zero, hh, hnd, if_false,
    List.length_cons, List.length_nil, List.get?_cons_succ, StackEntry.has_arg,
    StackEntry.get_arg, output_datatype, Nat.reduceAdd, Nat.reduceEqDiff, gt_iff_lt,
    Nat.lt_irrefl, Bool.not_true, Bool.false_eq_true]

/-- The image that `run_operations` writes is the one that `created_output`
gives: the same path and the same header. -/
theorem run_operations_created (env : Env) (cmdline : List Token) (stack : List StackEntry)
    (out : String) (img : Image)
    (h : run_operations env cmdline stack = .ok (Result.written out img)) :
    created_output env cmdline stack = some (out, img.header) := by
  have hshape : ∃ a s0 header, stack = [StackEntry.arg a, s0] ∧
      get_header s0 Header.empty = .ok header ∧ header.ndim ≠ 0 := by
    unfold run_operations at h
    simp only at h
    cases hv : stack.reverse with
    | nil => rw [hv] at h; cases h
    | cons s0 rest =>
      rw [hv] at h
      simp only [List.get?_cons_zero, bind, Except.bind] at h
      cases hh : get_header s0 Header.empty with
      | error e => rw [hh] at h; cases h
      | ok header =>
        rw [hh] at h
        simp only at h
        by_cases hnd : header.ndim = 0
        · rw [if_pos hnd] at h
          split at h
          · cases h
          · split at h
            · cases h
            · split at h <;> cases h
        · rw [if_neg hnd] at h
          cases rest with
          | nil => simp at h
          | cons s1 rest2 =>
            cases rest2 with
            | cons s2 rest3 => simp at h
            | nil =>
              cases s1 with
              | arg a =>
                refine ⟨a, s0, header, ?_, hh, hnd⟩
                have := congrArg List.reverse hv
                simpa using this
              | _ => simp [StackEntry.has_arg] at h
  obtain ⟨a, s0, header, rfl, hh, hnd⟩ := hshape
  rw [run_operations_output env cmdline s0 a header hh hnd] at h
  rw [created_output_eq env cmdline s0 a header hh hnd]
  cases hd : output_datatype env cmdline s0 with
  | error e => rw [hd] at h; cases h
  | ok dt =>
    rw [hd] at h
    simp only [Except.bind] at h ⊢
    cases hc : env.can_create a { header with datatype := dt } with
    | false => rw [hc] at h; cases h
    | true =>
      rw [hc] at h
      simp only [Bool.not_true, Bool.false_eq_true, if_false] at h ⊢
      cases hr : run_outer env
          (ThreadFunctor.create
            (env.inner_axes { header with datatype := dt, name := a }) s0
            ⟨{ header with datatype := dt, name := a },
              fun _ => ⟨real_type.fin 0, real_type.fin 0⟩⟩)
          (outer_positions
            ({ header with datatype := dt, name := a } : Header).sizes
            (env.inner_axes { header with datatype := dt, name := a }))
        with
      | error e => rw [hr] at h; cases h
      | ok f =>
        rw [hr] at h
        simp only [Except.map, Except.ok.injEq, Result.written.injEq] at h
        have hhd := (run_outer_outcome env _ _).1 f hr
        rw [← h.1, ← h.2, hhd]
        rfl

theorem output_datatype_default (env : Env) (cmdline : List Token) (root : StackEntry)
    (h : datatype_option cmdline = none) :
    output_datatype env cmdline root
      = .ok (if root.is_complex then DataType.CFloat32 else DataType.Float32) := by
  simp only [output_datatype, from_command_line, h]
  cases root.is_complex <;> rfl

theorem run_operations_result (env : Env) (cmdline : List Token) (s0 : StackEntry)
    (out : String) (header : Header) (dt : DataType)
    (hh : get_header s0 Header.empty = .ok header) (hnd : header.ndim ≠ 0)
    (hd : output_datatype env cmdline s0 = .ok dt) :
    (∀ r, run_operations env cmdline [StackEntry.arg out, s0] = .ok r →
      ∃ output, r = Result.written out output ∧
        output.header = { header with datatype := dt, name := out }) ∧
    (∀ e, run_operations env cmdline [StackEntry.arg out, s0] = .error e →
      e = Error.IOError ∨ evaluation_error e) := by
  rw [run_operations_output env cmdline s0 out header hh hnd, hd]
  simp only [Except.bind]
  cases env.can_create out { header with datatype := dt }
  · simp
  · simp only [Bool.not_true, Bool.false_eq_true, if_false]
    cases hr : run_outer env
        (ThreadFunctor.create (env.inner_axes { header with datatype := dt, name := out })
          s0 ⟨{ header with datatype := dt, name := out },
            fun _ => ⟨real_type.fin 0, real_type.fin 0⟩⟩)
        (outer_positions ({ header with datatype := dt, name := out } : Header).sizes
          (env.inner_axes { header with datatype := dt, name := out })) with
    | error e =>
      constructor
      · intro r h; cases h
      · intro e1 h
        simp only [Except.map] at h
        injection h with h
        rw [← h]
        exact Or.inr ((run_outer_outcome env _ _).2 e hr)
    | ok f =>
      constructor
      · intro r h
        simp only [Except.map] at h
        injection h with h
        exact ⟨f.image, h.symm, (run_outer_outcome env _ _).1 f hr⟩
      · intro e h; cases h

/-- C20, as stated, fails on `a.mif -datatype cfloat32 out.mif`: the root is not
complex and the datatype asked for is complex, yet the run succeeds and the
output is complex; only a complex root checks the datatype. -/
theorem C20_counterexample :
    (StackEntry.image image_a false).is_complex = false ∧
    DataType.CFloat32.is_complex = true ∧
    ∃ output, run sample_env no_math [Token.operand "a.mif", Token.option "datatype",
        Token.operand "cfloat32", Token.operand "out.mif"]
        = .ok (Result.written "out.mif" output) ∧
      output.header.datatype = DataType.CFloat32 :=
  ⟨rfl, rfl, _, rfl, rfl⟩

/-- C20. On a stack of the root, which has an image, and the name of the
output: without a datatype on the command line the run never throws
DatatypeMismatch and the output, when the run completes, is CFloat32 for a
complex root and Float32 otherwise; with a datatype on the command line the run
throws DatatypeMismatch if and only if the root is complex and the datatype is
not, and the output, when the run completes, has the datatype asked for: a
complex datatype is accepted for a root that is not complex. -/
theorem C20_output_datatype (env : Env) (cmdline : List Token) (s0 : StackEntry)
    (out : String) (header : Header)
    (hh : get_header s0 Header.empty = .ok header) (hnd : header.ndim ≠ 0) :
    (datatype_option cmdline = none →
      run_operations env cmdline [StackEntry.arg out, s0] ≠ .error Error.DatatypeMismatch ∧
      ∀ r, run_operations env cmdline [StackEntry.arg out, s0] = .ok r →
        ∃ output, r = Result.written out output ∧
          output.header.datatype
            = if s0.is_complex then DataType.CFloat32 else DataType.Float32) ∧
    (∀ (a : String) (dt : DataType),
      datatype_option cmdline = some a → env.parse_datatype a = some dt →
      (run_operations env cmdline [StackEntry.arg out, s0] = .error Error.DatatypeMismatch ↔
        (s0.is_complex = true ∧ dt.is_complex = false)) ∧
      ∀ r, run_operations env cmdline [StackEntry.arg out, s0] = .ok r →
        ∃ output, r = Result.written out output ∧ output.header.datatype = dt) := by
  have hne : ∀ e, (e = Error.IOError ∨ evaluation_error e) → e ≠ Error.DatatypeMismatch := by
    intro e h
    rcases h with h | h | h <;> subst h <;> simp
  constructor
  · intro hdt
    obtain ⟨h1, h2⟩ := run_operations_result env cmdline s0 out header _ hh hnd
      (output_datatype_default env cmdline s0 hdt)
    constructor
    · intro h
      exact hne _ (h2 _ h) rfl
    · intro r hr
      obtain ⟨output, e1, e2⟩ := h1 r hr
      exact ⟨output, e1, by rw [e2]⟩
  · intro a dt ha hp
    have hfrom : ∀ d, from_command_line env cmdline d = .ok dt := by
      intro d; simp only [from_command_line, ha, hp]
    by_cases hbad : s0.is_complex = true ∧ dt.is_complex = false
    · have hd : output_datatype env cmdline s0 = .error Error.DatatypeMismatch := by
        simp [output_datatype, hbad.1, hbad.2, hfrom, bind, Except.bind]
      have hro : run_operations env cmdline [StackEntry.arg out, s0]
          = .error Error.DatatypeMismatch := by
        rw [run_operations_output env cmdline s0 out header hh hnd, hd]; rfl
      refine ⟨⟨fun _ => hbad, fun _ => hro⟩, ?_⟩
      intro r hr
      rw [hro] at hr; cases hr
    · have hd : output_datatype env cmdline s0 = .ok dt := by
        simp only [output_datatype, hfrom, bind, Except.bind, pure, Except.pure]
        cases hc : s0.is_complex
        · simp
        · cases hdc : dt.is_complex
          · exact absurd ⟨hc, hdc⟩ hbad
          · simp
      obtain ⟨h1, h2⟩ := run_operations_result env cmdline s0 out header dt hh hnd hd
      refine ⟨⟨fun h => absurd rfl (hne _ (h2 _ h)), fun h => absurd h hbad⟩, ?_⟩
      intro r hr
      obtain ⟨output, e1, e2⟩ := h1 r hr
      exact ⟨output, e1, by rw [e2]⟩

/-- C20, at the complex root `d.mif` and the datatype `float32`. -/
theorem C20_output_datatype_witness :
    run_operations sample_env
        [Token.operand "d.mif", Token.option "datatype", Token.operand "float32",
          Token.operand "out.mif"]
        [StackEntry.arg "out.mif", StackEntry.image image_d true]
      = .error Error.DatatypeMismatch :=
  ((C20_output_datatype sample_env
      [Token.operand "d.mif", Token.option "datatype", Token.operand "float32",
        Token.operand "out.mif"]
      (StackEntry.image image_d true) "out.mif" image_d.header rfl (by decide)).2
    "float32" DataType.Float32 rfl rfl).1.mpr ⟨rfl, rfl⟩

theorem toBool_iff (x : real_type) : x.toBool = !x.is_zero := by
  cases x <;>
    simp [real_type.toBool, real_type.ne, real_type.eq, real_type.is_zero, real_type.value]

theorem is_zero_iff (x : real_type) :
    x.is_zero = true ↔ x = real_type.fin 0 ∨ x = real_type.neg_zero := by
  cases x <;> simp [real_type.is_zero]

/-- C21. The operator `if` is `OpIf`. Its R kernel returns its second argument
when the condition is not zero (a NaN is not zero) and its third argument when
it is zero, of either sign; its Z kernel decides on the real part of the
condition alone, so a condition with a zero real part selects the third
argument whatever its imaginary part. On a tile of at least one element, the evaluator of a node
whose operands are not all numbers applies the Z kernel to the elements when an
operand is complex and the R kernel to their real parts when none is. -/
theorem C21_if_semantics :
    ternary_operations.lookup "if" = some OpIf ∧
    (∃ R, OpIf.R = some R ∧ ∀ cond a b : real_type,
      (cond.is_zero = false → R cond a b = complex_type.ofReal a) ∧
      (cond.is_zero = true → R cond a b = complex_type.ofReal b)) ∧
    (∀ x : real_type, (x.is_zero = true ↔ x = real_type.fin 0 ∨ x = real_type.neg_zero) ∧
      (real_type.nan false).is_zero = false ∧ (real_type.nan true).is_zero = false) ∧
    (∃ Z, OpIf.Z = some Z ∧ ∀ cond a b : complex_type,
      (cond.real.is_zero = false → Z cond a b = a) ∧
      (cond.real.is_zero = true → Z cond a b = b) ∧
      ∀ y : real_type, Z ⟨real_type.fin 0, y⟩ a b = b) ∧
    (∀ (N : Nat) (a b c : StackEntry) (ra rb rc : Nat) (st : ThreadLocalStorage)
        (fa fb fc : Nat → complex_type), 1 ≤ N →
      (a.is_broadcast && b.is_broadcast && c.is_broadcast) = false →
      chunk_holds N a.is_broadcast fa (st.chunk ra) →
      chunk_holds N b.is_broadcast fb (st.chunk rb) →
      chunk_holds N c.is_broadcast fc (st.chunk rc) →
      TernaryEvaluator.evaluate OpIf a b c ra rb rc st =
        .ok (if a.is_broadcast then (if b.is_broadcast then rc else rb) else ra,
          st.set_data (if a.is_broadcast then (if b.is_broadcast then rc else rb) else ra)
            ((List.range N).map fun k =>
              if a.is_complex || b.is_complex || c.is_complex then
                (if (fa k).real.is_zero then fc k else fb k)
              else
                (if (fa k).real.is_zero then complex_type.ofReal (fc k).real
                 else complex_type.ofReal (fb k).real)))) := by
  refine ⟨rfl, ⟨_, rfl, ?_⟩, fun x => ⟨is_zero_iff x, rfl, rfl⟩, ⟨_, rfl, ?_⟩, ?_⟩
  · intro cond a b
    constructor
    · intro h
      simp only [toBool_iff, h, Bool.not_false, if_true]
    · intro h
      simp only [toBool_iff, h, Bool.not_true, Bool.false_eq_true, if_false]
  · intro cond a b
    refine ⟨?_, ?_, ?_⟩
    · intro h
      simp only [toBool_iff, h, Bool.not_false, if_true]
    · intro h
      simp only [toBool_iff, h, Bool.not_true, Bool.false_eq_true, if_false]
    · intro y
      rfl
  · intro N a b c ra rb rc st fa fb fc hN hbc ha hb hc
    rw [ternary_evaluate_spec OpIf a b c ra rb rc st N hN fa fb fc ha hb hc]
    simp only [hbc, Bool.false_eq_true, if_false]
    have key : ∀ (x : real_type) (p q : complex_type),
        (if x.toBool then p else q) = if x.is_zero then q else p := by
      intro x p q
      rw [toBool_iff]
      cases x.is_zero <;> rfl
    generalize (a.is_complex || b.is_complex || c.is_complex) = z
    cases z <;> simp [OpIf, key]

/-- C21, on the command line: `0 2 -complex 3 5 -if` has the condition 0 + 2i and
prints 5; `nan 2 3 -if` prints 2 and `0 2 3 -if` prints 3; `d.mif 2 3 -if out.mif`
writes 3 at the voxel where `d.mif` holds 0 + 1i and 2 where it holds 1 + 0i; and
over a chunk that holds 3 + 4i as the condition the Z kernel selects the second
operand. -/
theorem C21_if_semantics_witness :
    run sample_env no_math [Token.operand "0", Token.operand "2", Token.option "complex",
      Token.operand "3", Token.operand "5", Token.option "if"]
      = .ok (Result.printed (real_value 5)) ∧
    run sample_env no_math [Token.operand "nan", Token.operand "2", Token.operand "3",
      Token.option "if"] = .ok (Result.printed (real_value 2)) ∧
    run sample_env no_math [Token.operand "0", Token.operand "2", Token.operand "3",
      Token.option "if"] = .ok (Result.printed (real_value 3)) ∧
    (∃ output, run sample_env no_math [Token.operand "d.mif", Token.operand "2",
        Token.operand "3", Token.option "if", Token.operand "out.mif"]
        = .ok (Result.written "out.mif" output) ∧
      image_d.data [0, 1] = ⟨real_type.fin 0, real_type.fin 1⟩ ∧
      output.data [0, 1] = real_value 3 ∧ output.data [1, 0] = real_value 2) ∧
    TernaryEvaluator.evaluate OpIf (StackEntry.image image_d true)
        (StackEntry.image image_d true) (StackEntry.image image_d true) 0 0 0 sample_storage
      = .ok (0, sample_storage.set_data 0 [⟨real_type.fin 3, real_type.fin 4⟩]) :=
  ⟨by rfl, by rfl, by rfl,
   ⟨_, rfl, by with_unfolding_all rfl, by with_unfolding_all rfl, by with_unfolding_all rfl⟩,
   C21_if_semantics.2.2.2.2 1 (StackEntry.image image_d true) (StackEntry.image image_d true)
    (StackEntry.image image_d true) 0 0 0 sample_storage
    (fun _ => ⟨real_type.fin 3, real_type.fin 4⟩) (fun _ => ⟨real_type.fin 3, real_type.fin 4⟩)
    (fun _ => ⟨real_type.fin 3, real_type.fin 4⟩) (by decide) rfl rfl rfl rfl⟩

/-- C22. The operators `isnan`, `isinf` and `finite` are `OpIsNaN`, `OpIsInf` and
`OpFinite`. On a real operand `finite` returns 1 exactly when `isnan` and
`isinf` both return 0, and each of the three returns 0 or 1. On a complex
operand `isnan` and `isinf` return 1 when either part is NaN or infinite, but
`finite` returns 1 as soon as one of the two parts is finite: on 2 + NaN i both
`finite` and `isnan` return 1, on the command line as well. -/
theorem C22_finite (m : StdMath) :
    (unary_operations m).lookup "isnan" = some OpIsNaN ∧
    (unary_operations m).lookup "isinf" = some OpIsInf ∧
    (unary_operations m).lookup "finite" = some OpFinite ∧
    (∃ N I F, OpIsNaN.R = some N ∧ OpIsInf.R = some I ∧ OpFinite.R = some F ∧
      (∀ x : real_type,
        (F x = real_value 1 ↔ N x = real_value 0 ∧ I x = real_value 0) ∧
        (F x = real_value 0 ↔ ¬ (N x = real_value 0 ∧ I x = real_value 0)) ∧
        (N x = real_value 1 ↔ ∃ s, x = real_type.nan s) ∧
        (N x = real_value 0 ↔ ∀ s, x ≠ real_type.nan s) ∧
        (I x = real_value 1 ↔ ∃ s, x = real_type.inf s) ∧
        (I x = real_value 0 ↔ ∀ s, x ≠ real_type.inf s)) ∧
      N (real_type.nan false) = real_value 1 ∧ N (real_type.nan true) = real_value 1 ∧
      N (real_type.fin 0) = real_value 0 ∧
      I (real_type.inf false) = real_value 1 ∧ F (real_type.nan false) = real_value 0) ∧
    (∃ N I F, OpIsNaN.Z = some N ∧ OpIsInf.Z = some I ∧ OpFinite.Z = some F ∧
      (∀ z : complex_type,
        (F z = real_value 1 ↔ z.real.isfinite = true ∨ z.imag.isfinite = true) ∧
        (N z = real_value 0 ∧ I z = real_value 0 ↔
          z.real.isfinite = true ∧ z.imag.isfinite = true)) ∧
      F ⟨real_type.fin 2, real_type.nan false⟩ = real_value 1 ∧
      N ⟨real_type.fin 2, real_type.nan false⟩ = real_value 1) ∧
    run sample_env no_math [Token.operand "2", Token.operand "nan", Token.option "complex",
      Token.option "finite"] = .ok (Result.printed (real_value 1)) ∧
    run sample_env no_math [Token.operand "2", Token.operand "nan", Token.option "complex",
      Token.option "isnan"] = .ok (Result.printed (real_value 1)) := by
  refine ⟨rfl, rfl, rfl, ⟨_, _, _, rfl, rfl, rfl, ?_, rfl, rfl, rfl, rfl, rfl⟩,
    ⟨_, _, _, rfl, rfl, rfl, ?_, rfl, rfl⟩, by rfl, by rfl⟩
  · intro x
    cases x <;>
      simp [real_value, complex_type.ofBool, complex_type.ofReal, real_type.ofBool,
        real_type.isnan, real_type.isinf, real_type.isfinite]
  · intro z
    obtain ⟨x, y⟩ := z
    cases x <;> cases y <;>
      simp [real_value, complex_type.ofBool, complex_type.ofReal, real_type.ofBool,
        real_type.isnan, real_type.isinf, real_type.isfinite]

/-- C23. The method `load`, on a chunk of `size[0] * size[1]` elements and a
cursor that is at zero on the axes where its image has a single voxel (as it is
when allocated, and as `load` leaves it): the chunk keeps its length and its
value, and its element `y * size[0] + x` is the value of the image at the
position that is `x` on the first inner axis, `y` on the second one and
`iter[n]` on any other axis `n`, where the image has more than one voxel, and 0
on the axes where the image has a single voxel. The evaluation of an image leaf
returns the chunk so filled. -/
theorem C23_tile_fill (st : ThreadLocalStorage) (chunk : Chunk) (cur : Cursor)
    (hcur : cur.at_origin) (hL : chunk.data.length = st.size.1 * st.size.2) :
    (st.load chunk cur).1.data.length = st.size.1 * st.size.2 ∧
    (∀ x y, x < st.size.1 → y < st.size.2 →
      ∃ pos, (st.load chunk cur).1.data.get? (y * st.size.1 + x) = some (cur.image.data pos) ∧
        pos.length = cur.image.ndim ∧
        ∀ n, n < cur.image.ndim → pos.getD n 0 =
          if cur.image.size n > 1 then
            (if n = st.axes.1 then x else if n = st.axes.2 then y else st.iter.getD n 0)
          else 0) ∧
    (st.load chunk cur).1.value = chunk.value ∧
    (st.load chunk cur).2.image = cur.image ∧ (st.load chunk cur).2.at_origin ∧
    (∀ (env : Env) (cx : Bool) (st2 : ThreadLocalStorage),
      storage_fits (st2.size.1 * st2.size.2) (StackEntry.image cur.image cx) st2.items
        st2.current →
      ∃ st3, (StackEntry.image cur.image cx).evaluate env st2 = .ok (st2.current, st3) ∧
        (st3.chunk st2.current).data = (List.range (st2.size.1 * st2.size.2)).map fun k =>
          cur.image.data
            (tile_position cur.image st2.iter st2.axes (k % st2.size.1) (k / st2.size.1))) := by
  obtain ⟨h1, h2, h3, h4⟩ := load_spec st chunk cur hcur hL
  refine ⟨by rw [h2]; simp, ?_, h1, h3, h4, ?_⟩
  · intro x y hx hy
    refine ⟨tile_position cur.image st.iter st.axes x y, ?_, tile_position_length _ _ _ _ _,
      fun n hn => tile_position_getD _ _ _ _ _ n hn⟩
    have hlt : y * st.size.1 + x < st.size.1 * st.size.2 := by
      calc y * st.size.1 + x < y * st.size.1 + st.size.1 := by omega
        _ = st.size.1 * (y + 1) := by ring
        _ ≤ st.size.1 * st.size.2 := Nat.mul_le_mul_left _ hy
    have hmod : (y * st.size.1 + x) % st.size.1 = x := by
      rw [Nat.add_comm, Nat.add_mul_mod_self_right, Nat.mod_eq_of_lt hx]
    have hdiv : (y * st.size.1 + x) / st.size.1 = y := by
      have hpos : 0 < st.size.1 := by omega
      rw [Nat.add_comm, Nat.add_mul_div_right _ _ hpos, Nat.div_eq_of_lt hx, Nat.zero_add]
    rw [h2]
    simp [List.getElem?_map, List.getElem?_range hlt, hmod, hdiv]
  · intro env cx st2 hf
    obtain ⟨r, st3, he, hp⟩ := evaluate_image_leaf env cur.image cx st2 hf
    obtain ⟨-, -, -, -, -, -, -, hr1, hr2, hch, -⟩ := hp
    simp only [StackEntry.leaf_count] at hr2
    have hr : r = st2.current := by omega
    subst hr
    refine ⟨st3, he, ?_⟩
    simpa [chunk_holds, StackEntry.is_broadcast, StackEntry.cell] using hch

/-- C23, for the 2×2 image `a.mif` with rows 1 2 and 3 4 and a tile of 2×2
elements: the chunk is filled with 1, 3, 2, 4, the first axis running
fastest. -/
theorem C23_tile_fill_witness :
    ((⟨[], [0, 0], (0, 1), (2, 2), 0, 0⟩ : ThreadLocalStorage).load
        ⟨List.replicate 4 (real_value 0), real_value 0⟩ ⟨image_a, [0, 0]⟩).1.data.length = 2 * 2 ∧
    ((⟨[], [0, 0], (0, 1), (2, 2), 0, 0⟩ : ThreadLocalStorage).load
        ⟨List.replicate 4 (real_value 0), real_value 0⟩ ⟨image_a, [0, 0]⟩).1.data
      = [real_value 1, real_value 3, real_value 2, real_value 4] :=
  ⟨(C23_tile_fill ⟨[], [0, 0], (0, 1), (2, 2), 0, 0⟩
      ⟨List.replicate 4 (real_value 0), real_value 0⟩ ⟨image_a, [0, 0]⟩
      (replicate_at_origin image_a) rfl).1, by with_unfolding_all rfl⟩

theorem unary_real_kernel_imag (m : StdMath) (id : String) (op : OpUnary)
    (h : (unary_operations m).lookup id = some op) (R : real_type → complex_type)
    (hR : op.R = some R) (x : real_type) : (R x).imag = real_type.fin 0 := by
  have hm := lookup_mem _ _ _ h
  simp only [unary_operations, List.mem_cons, Prod.mk.injEq, List.mem_nil_iff, or_false] at hm
  rcases hm with h | h | h | h | h | h | h | h | h | h | h | h | h | h | h | h | h | h | h | h | h
    | h | h | h | h | h | h | h <;>
    (rw [h.2] at hR
     cases hR <;> rfl)

theorem binary_real_kernel_imag (m : StdMath) (id : String) (op : OpBinary)
    (h : (binary_operations m).lookup id = some op) (hid : id ≠ "complex")
    (R : real_type → real_type → complex_type)
    (hR : op.R = some R) (x y : real_type) : (R x y).imag = real_type.fin 0 := by
  have hm := lookup_mem _ _ _ h
  simp only [binary_operations, List.mem_cons, Prod.mk.injEq, List.mem_nil_iff, or_false] at hm
  rcases hm with h | h | h | h | h | h | h | h | h | h | h | h | h | h <;>
    (rw [h.2] at hR
     first
       | exact absurd h.1 hid
       | (cases hR <;> rfl))

theorem ternary_real_kernel_imag (id : String) (op : OpTernary)
    (h : ternary_operations.lookup id = some op)
    (R : real_type → real_type → real_type → complex_type)
    (hR : op.R = some R) (x y z : real_type) : (R x y z).imag = real_type.fin 0 := by
  have hm := lookup_mem _ _ _ h
  simp only [ternary_operations, List.mem_cons, Prod.mk.injEq, List.mem_nil_iff, or_false] at hm
  rw [hm.2] at hR
  simp only [OpIf, Option.some.injEq] at hR
  rw [← hR]
  simp only
  split <;> rfl

theorem unary_ZtoR_kernel (m : StdMath) (id : String) (op : OpUnary)
    (h : (unary_operations m).lookup id = some op) (hz : op.ZtoR = true)
    (Z : complex_type → complex_type) (hZ : op.Z = some Z) (x : complex_type) :
    (Z x).imag = real_type.fin 0 := by
  have hm := lookup_mem _ _ _ h
  simp only [unary_operations, List.mem_cons, Prod.mk.injEq, List.mem_nil_iff, or_false] at hm
  rcases hm with h | h | h | h | h | h | h | h | h | h | h | h | h | h | h | h | h | h | h | h | h
    | h | h | h | h | h | h | h <;>
    (rw [h.2] at hZ hz
     first
       | (cases hZ; rfl)
       | (exact absurd hz (by decide))
       | (cases hz))

theorem binary_ZtoR_kernel (m : StdMath) (id : String) (op : OpBinary)
    (h : (binary_operations m).lookup id = some op) (hz : op.ZtoR = true)
    (Z : complex_type → complex_type → complex_type) (hZ : op.Z = some Z) (x y : complex_type) :
    (Z x y).imag = real_type.fin 0 := by
  have hm := lookup_mem _ _ _ h
  simp only [binary_operations, List.mem_cons, Prod.mk.injEq, List.mem_nil_iff, or_false] at hm
  rcases hm with h | h | h | h | h | h | h | h | h | h | h | h | h | h <;>
    (rw [h.2] at hZ hz
     first
       | (cases hZ; rfl)
       | (exact absurd hz (by decide))
       | (cases hz))

/-- The value of a cell of a tree that is not complex has a zero imaginary
part. -/
theorem cell_real (env : Env) (m : StdMath) (iter : List Nat) (axes size : Nat × Nat)
    (t : StackEntry) (hc : t.over_catalogue m) (hk : t.kernels_exist = true)
    (hb : t.is_broadcast = false) (hz : t.is_complex = false) (hr : t.real_images)
    (d k : Nat) : (t.cell env iter axes size d k).imag = real_type.fin 0 := by
  cases t with
  | arg _ => simp [StackEntry.is_broadcast] at hb
  | value _ => simp [StackEntry.is_broadcast] at hb
  | rng g => simp [StackEntry.cell, complex_type.ofReal]
  | image img cx =>
    simp only [StackEntry.is_complex] at hz
    exact hr hz _
  | unary id op a =>
    simp only [StackEntry.is_broadcast] at hb
    simp only [StackEntry.over_catalogue] at hc
    simp only [StackEntry.kernels_exist, hb, Bool.false_or, Bool.and_eq_true] at hk
    simp only [StackEntry.is_complex] at hz
    simp only [StackEntry.cell, hb, Bool.false_eq_true, if_false]
    by_cases ha : a.is_complex = true
    · simp only [ha, if_true] at hz hk ⊢
      obtain ⟨Z, hZ⟩ := Option.isSome_iff_exists.mp hk.2
      rw [hZ]
      exact unary_ZtoR_kernel m id op hc.1 (by simpa using hz) Z hZ _
    · simp only [ha, if_false] at hz hk ⊢
      obtain ⟨R, hR⟩ := Option.isSome_iff_exists.mp hk.2
      rw [hR]
      exact unary_real_kernel_imag m id op hc.1 R hR _
  | binary id op a b =>
    simp only [StackEntry.is_broadcast] at hb
    simp only [StackEntry.over_catalogue] at hc
    simp only [StackEntry.kernels_exist, hb, Bool.false_or, Bool.and_eq_true] at hk
    simp only [StackEntry.is_complex] at hz
    simp only [StackEntry.cell, hb, Bool.false_eq_true, if_false]
    by_cases hab : (a.is_complex || b.is_complex) = true
    · simp only [hab, if_true] at hk ⊢
      obtain ⟨Z, hZ⟩ := Option.isSome_iff_exists.mp hk.2
      rw [hZ]
      have hzr : op.ZtoR = true := by
        cases ha : a.is_complex <;> cases hb1 : b.is_complex <;>
          simp_all
      exact binary_ZtoR_kernel m id op hc.1 hzr Z hZ _ _
    · simp only [hab, if_false] at hk ⊢
      obtain ⟨R, hR⟩ := Option.isSome_iff_exists.mp hk.2
      rw [hR]
      have hrz : op.RtoZ = false := by
        cases ha : a.is_complex <;> cases hb1 : b.is_complex <;>
          simp_all
      have hid : id ≠ "complex" := by
        intro hid
        have := (binary_flag_names m id op hc.1).2.1
        rw [hrz] at this
        simp [hid] at this
      exact binary_real_kernel_imag m id op hc.1 hid R hR _ _
  | ternary id op a b c =>
    simp only [StackEntry.is_broadcast] at hb
    simp only [StackEntry.over_catalogue] at hc
    simp only [StackEntry.kernels_exist, hb, Bool.false_or, Bool.and_eq_true] at hk
    simp only [StackEntry.is_complex] at hz
    simp only [StackEntry.cell, hb, Bool.false_eq_true, if_false]
    have hzt : op.ZtoR = false := by
      rw [(ternary_flag_names id op hc.1).1]; 
      have hm := lookup_mem _ _ _ hc.1
      simp only [ternary_operations, List.mem_cons, Prod.mk.injEq, List.mem_nil_iff,
        or_false] at hm
      rw [hm.1]; decide
    have hab : (a.is_complex || b.is_complex || c.is_complex) = false := by
      cases ha : a.is_complex <;> cases hb1 : b.is_complex <;> cases hc1 : c.is_complex <;>
        simp_all
    simp only [hab, Bool.false_eq_true, if_false] at hk ⊢
    obtain ⟨R, hR⟩ := Option.isSome_iff_exists.mp hk.2
    rw [hR]
    exact ternary_real_kernel_imag id op hc.1 R hR _ _ _

/-- C24. For a tree over the catalogue whose root is not complex and whose
image leaves that are not complex hold values with a zero imaginary part, on a
tile of at least one element and a storage that holds the items of its leaves:
every element of the chunk that a successful evaluation of the root returns has
an imaginary part that is exactly zero. -/
theorem C24_real_output (env : Env) (m : StdMath) (t : StackEntry) (st st1 : ThreadLocalStorage)
    (r : Nat) (hN : 1 ≤ st.size.1 * st.size.2)
    (hfit : storage_fits (st.size.1 * st.size.2) t st.items st.current)
    (hc : t.over_catalogue m) (hz : t.is_complex = false) (hr : t.real_images)
    (he : t.evaluate env st = .ok (r, st1)) :
    ∀ v ∈ (st1.chunk r).data, v.imag = real_type.fin 0 := by
  obtain ⟨i1, i2⟩ := evaluate_spec env t st hN hfit
  cases hk : t.kernels_exist with
  | false => rw [i2 hk] at he; cases he
  | true =>
    obtain ⟨r1, st2, he1, hp⟩ := i1 hk
    rw [he1] at he
    cases he
    obtain ⟨-, -, -, -, -, -, -, -, -, hch, -⟩ := hp
    intro v hv
    cases hb : t.is_broadcast with
    | true =>
      simp only [chunk_holds, hb, if_true] at hch
      rw [hch.1] at hv
      cases hv
    | false =>
      simp only [chunk_holds, hb, Bool.false_eq_true, if_false] at hch
      rw [hch] at hv
      obtain ⟨k, -, rfl⟩ := List.mem_map.mp hv
      exact cell_real env m st.iter st.axes st.size t hc hk hb hz hr st.draws k
/-- C24, at the node `neg` over the real image `a.mif` and the tile of one
element at the origin: the chunk returned holds -1, whose imaginary part is
zero. -/
theorem C24_real_output_witness :
    (StackEntry.unary "neg" OpNeg (StackEntry.image image_a false)).evaluate sample_env
        { items := allocate_storage 1
            (StackEntry.unary "neg" OpNeg (StackEntry.image image_a false)) [],
          iter := [0, 0], axes := (0, 1), size := (1, 1) }
      = .ok (0, { items := [⟨⟨[real_value (-1)], real_value 0⟩, some ⟨image_a, [0, 0]⟩⟩],
                  iter := [0, 0], axes := (0, 1), size := (1, 1), current := 1 }) ∧
    (real_value (-1)).imag = real_type.fin 0 :=
  ⟨by with_unfolding_all rfl,
   C24_real_output sample_env no_math
    (StackEntry.unary "neg" OpNeg (StackEntry.image image_a false))
    { items := allocate_storage 1
        (StackEntry.unary "neg" OpNeg (StackEntry.image image_a false)) [],
      iter := [0, 0], axes := (0, 1), size := (1, 1) }
    { items := [⟨⟨[real_value (-1)], real_value 0⟩, some ⟨image_a, [0, 0]⟩⟩],
      iter := [0, 0], axes := (0, 1), size := (1, 1), current := 1 }
    0 (by decide)
    (allocate_storage_fits 1 (StackEntry.unary "neg" OpNeg (StackEntry.image image_a false)) [])
    ⟨rfl, rfl⟩ rfl (fun _ _ => rfl) (by with_unfolding_all rfl) (real_value (-1))
    (List.mem_singleton.2 rfl)⟩

/-- C26, as claimed, fails: the node `add` over the numbers 2 and 3, evaluated
over a tile, returns the chunk of its second operand, whose value is still 3,
although the kernel gives 5. -/
theorem C26_counterexample :
    ∃ st1, (StackEntry.binary "add" OpAdd (StackEntry.value (real_value 2))
        (StackEntry.value (real_value 3))).evaluate sample_env
        { items := allocate_storage 1 (StackEntry.binary "add" OpAdd
            (StackEntry.value (real_value 2)) (StackEntry.value (real_value 3))) [],
          iter := [0, 0], axes := (0, 1), size := (1, 1) } = .ok (1, st1) ∧
      (st1.chunk 1).data = [] ∧ (st1.chunk 1).value = real_value 3 ∧
      binary_fold OpAdd (real_value 2) (real_value 3) = some (real_value 5) ∧
      (st1.chunk 1).value ≠ real_value 5 :=
  ⟨_, rfl, rfl, rfl, by with_unfolding_all rfl, by with_unfolding_all decide⟩

/-- C26, corrected. The evaluator of a binary or ternary operator node whose
operand chunks all have no element returns the chunk of the last operand and
leaves every chunk as it was: the result is a chunk without element whose value
is the value of the last operand; no kernel is called, so that the evaluation
succeeds even when the operation has none. -/
theorem C26_all_broadcast :
    (∀ (op : OpBinary) (a b : StackEntry) (ra rb : Nat) (st : ThreadLocalStorage),
      (st.chunk ra).data.length = 0 → (st.chunk rb).data.length = 0 →
      BinaryEvaluator.evaluate op a b ra rb st = .ok (rb, st.set_data rb []) ∧
      ((st.set_data rb []).chunk rb).data = [] ∧
      ((st.set_data rb []).chunk rb).value = (st.chunk rb).value ∧
      ∀ j, (st.set_data rb []).chunk j = st.chunk j) ∧
    (∀ (op : OpTernary) (a b c : StackEntry) (ra rb rc : Nat) (st : ThreadLocalStorage),
      (st.chunk ra).data.length = 0 → (st.chunk rb).data.length = 0 →
      (st.chunk rc).data.length = 0 →
      TernaryEvaluator.evaluate op a b c ra rb rc st = .ok (rc, st.set_data rc []) ∧
      ((st.set_data rc []).chunk rc).data = [] ∧
      ((st.set_data rc []).chunk rc).value = (st.chunk rc).value ∧
      ∀ j, (st.set_data rc []).chunk j = st.chunk j) := by
  have key : ∀ (st : ThreadLocalStorage) (r : Nat), (st.chunk r).data.length = 0 →
      ∀ j, (st.set_data r []).chunk j = st.chunk j := by
    intro st r h j
    rw [set_data_chunk]
    split
    · rename_i hj
      rw [← hj.1]
      have : (st.chunk r).data = [] := List.length_eq_zero.mp h
      cases hc : st.chunk r with
      | mk d v =>
        rw [hc] at this
        simp only at this
        rw [this]
    · rfl
  constructor
  · intro op a b ra rb st ha hb
    have hk := key st rb hb
    refine ⟨?_, ?_, ?_, hk⟩
    · simp only [BinaryEvaluator.evaluate, ha, hb, ne_eq, not_true_eq_false, if_false,
        List.range_zero, List.mapM_nil, ite_self, bind, Except.bind, pure, Except.pure]
    · rw [hk]; exact List.length_eq_zero.mp hb
    · rw [hk]
  · intro op a b c ra rb rc st ha hb hc
    have hk := key st rc hc
    refine ⟨?_, ?_, ?_, hk⟩
    · simp only [TernaryEvaluator.evaluate, ha, hb, hc, ne_eq, not_true_eq_false, if_false,
        List.range_zero, List.mapM_nil, ite_self, bind, Except.bind, pure, Except.pure]
    · rw [hk]; exact List.length_eq_zero.mp hc
    · rw [hk]

/-- C26, corrected, at the operation `add` and the chunks of the numbers 2 and
3: the chunk of the second operand is returned, and its value is 3. -/
theorem C26_all_broadcast_witness :
    BinaryEvaluator.evaluate OpAdd (StackEntry.value (real_value 2))
        (StackEntry.value (real_value 3)) 0 1
        ⟨[⟨⟨[], real_value 2⟩, none⟩, ⟨⟨[], real_value 3⟩, none⟩], [0, 0], (0, 1), (1, 1), 2, 0⟩
      = .ok (1, (⟨[⟨⟨[], real_value 2⟩, none⟩, ⟨⟨[], real_value 3⟩, none⟩], [0, 0], (0, 1),
          (1, 1), 2, 0⟩ : ThreadLocalStorage).set_data 1 []) ∧
    (((⟨[⟨⟨[], real_value 2⟩, none⟩, ⟨⟨[], real_value 3⟩, none⟩], [0, 0], (0, 1),
          (1, 1), 2, 0⟩ : ThreadLocalStorage).set_data 1 []).chunk 1).value = real_value 3 :=
  ⟨(C26_all_broadcast.1 OpAdd (StackEntry.value (real_value 2))
      (StackEntry.value (real_value 3)) 0 1
      ⟨[⟨⟨[], real_value 2⟩, none⟩, ⟨⟨[], real_value 3⟩, none⟩], [0, 0], (0, 1), (1, 1), 2, 0⟩
      rfl rfl).1,
   (C26_all_broadcast.1 OpAdd (StackEntry.value (real_value 2))
      (StackEntry.value (real_value 3)) 0 1
      ⟨[⟨⟨[], real_value 2⟩, none⟩, ⟨⟨[], real_value 3⟩, none⟩], [0, 0], (0, 1), (1, 1), 2, 0⟩
      rfl rfl).2.2.1⟩

theorem lookup_none_of_not_open (env : Env) (il : List (String × LoadedImage))
    (hc : consistent env il) (a : String) (ho : env.open_image a = none) :
    il.lookup a = none := by
  cases hl : il.lookup a with
  | none => rfl
  | some li =>
    have := (hc a li hl).1
    rw [ho] at this
    cases this

/-- C27. The method `load` on an unresolved operand, the list of loaded images
holding what `Header::open` gives. An operand that opens as an image becomes
the leaf of that image, flagged complex as its datatype says, whatever it
spells. An operand that does not open becomes, in any case of letters, the
number NaN for `nan` and the NaN of negative sign for `-nan`, plus or minus
infinity for `inf` and `-inf`, a uniform random source for `rand`, a normal one for `randn`, and otherwise the
number that `to<complex_type>` reads, the conversion error being thrown when
it reads none. Loading an entry that has been loaded changes nothing. -/
theorem C27_operand_resolution (env : Env) (a : String) (il : List (String × LoadedImage))
    (hc : consistent env il) :
    (∀ img, env.open_image a = some img →
      ∃ il1, (StackEntry.arg a).load env il
          = .ok (StackEntry.image img img.header.datatype.is_complex, il1) ∧
        consistent env il1) ∧
    (env.open_image a = none →
      (lowercase a = "nan" → (StackEntry.arg a).load env il
        = .ok (StackEntry.value ⟨real_type.nan false, real_type.fin 0⟩, il)) ∧
      (lowercase a = "-nan" → (StackEntry.arg a).load env il
        = .ok (StackEntry.value ⟨real_type.nan true, real_type.fin 0⟩, il)) ∧
      (lowercase a = "inf" → (StackEntry.arg a).load env il
        = .ok (StackEntry.value ⟨real_type.inf false, real_type.fin 0⟩, il)) ∧
      (lowercase a = "-inf" → (StackEntry.arg a).load env il
        = .ok (StackEntry.value ⟨real_type.inf true, real_type.fin 0⟩, il)) ∧
      (lowercase a = "rand" → (StackEntry.arg a).load env il
        = .ok (StackEntry.rng false, il)) ∧
      (lowercase a = "randn" → (StackEntry.arg a).load env il
        = .ok (StackEntry.rng true, il)) ∧
      (lowercase a ∉ ["nan", "-nan", "inf", "-inf", "rand", "randn"] →
        (∀ v, env.to_complex a = some v →
          (StackEntry.arg a).load env il = .ok (StackEntry.value v, il)) ∧
        (env.to_complex a = none →
          (StackEntry.arg a).load env il = .error Error.ParseError))) ∧
    (∀ (e e1 : StackEntry) (il0 il1 : List (String × LoadedImage)),
      e.load env il0 = .ok (e1, il1) → e1.load env il1 = .ok (e1, il1)) := by
  refine ⟨?_, ?_, ?_⟩
  · intro img ho
    cases hl : il.lookup a with
    | some li =>
      obtain ⟨h1, h2⟩ := hc a li hl
      rw [ho] at h1
      cases h1
      refine ⟨il, ?_, hc⟩
      simp only [StackEntry.load, hl, h2]
    | none =>
      refine ⟨(a, ⟨img, img.header.datatype.is_complex⟩) :: il, ?_, ?_⟩
      · simp only [StackEntry.load, hl, ho]
      · intro k li hk
        simp only [List.lookup] at hk
        split at hk
        · rename_i heq
          have hka : k = a := by simpa using heq
          cases hk
          rw [hka]
          exact ⟨ho, rfl⟩
        · exact hc k li hk
  · intro ho
    have hl := lookup_none_of_not_open env il hc a ho
    refine ⟨?_, ?_, ?_, ?_, ?_, ?_, ?_⟩
    · intro h
      simp [StackEntry.load, hl, ho, h, complex_type.ofReal]
    · intro h
      simp [StackEntry.load, hl, ho, h, complex_type.ofReal, real_type.neg]
    · intro h
      simp [StackEntry.load, hl, ho, h, complex_type.ofReal]
    · intro h
      simp [StackEntry.load, hl, ho, h, complex_type.ofReal, real_type.neg]
    · intro h
      simp [StackEntry.load, hl, ho, h]
    · intro h
      simp [StackEntry.load, hl, ho, h]
    · intro h
      simp only [List.mem_cons, List.mem_nil_iff, or_false, not_or] at h
      obtain ⟨h1, h2, h3, h4, h5, h6⟩ := h
      constructor
      · intro v hv
        simp [StackEntry.load, hl, ho, h1, h2, h3, h4, h5, h6, hv]
      · intro hv
        simp [StackEntry.load, hl, ho, h1, h2, h3, h4, h5, h6, hv]
  · intro e e1 il0 il1 h
    cases e with
    | arg s => exact load_not_arg env e1 il1 (load_arg_not_arg env s il0 il1 e1 h)
    | image _ _ => simp only [StackEntry.load, Except.ok.injEq, Prod.mk.injEq] at h; rw [← h.1]; rfl
    | rng _ => simp only [StackEntry.load, Except.ok.injEq, Prod.mk.injEq] at h; rw [← h.1]; rfl
    | value _ => simp only [StackEntry.load, Except.ok.injEq, Prod.mk.injEq] at h; rw [← h.1]; rfl
    | unary _ _ _ =>
      simp only [StackEntry.load, Except.ok.injEq, Prod.mk.injEq] at h; rw [← h.1]; rfl
    | binary _ _ _ _ =>
      simp only [StackEntry.load, Except.ok.injEq, Prod.mk.injEq] at h; rw [← h.1]; rfl
    | ternary _ _ _ _ _ =>
      simp only [StackEntry.load, Except.ok.injEq, Prod.mk.injEq] at h; rw [← h.1]; rfl

/-- C27, at the operands `NaN` and `-NaN`: where no image has that name they
are the number NaN and the NaN of negative sign, and where `Header::open` opens
`NaN` as the image `a.mif` it is that image. -/
theorem C27_operand_resolution_witness :
    (StackEntry.arg "NaN").load sample_env []
      = .ok (StackEntry.value ⟨real_type.nan false, real_type.fin 0⟩, []) ∧
    (StackEntry.arg "-NaN").load sample_env []
      = .ok (StackEntry.value ⟨real_type.nan true, real_type.fin 0⟩, []) ∧
    ∃ il1, (StackEntry.arg "NaN").load { sample_env with open_image := fun _ => some image_a } []
        = .ok (StackEntry.image image_a image_a.header.datatype.is_complex, il1) ∧
      consistent { sample_env with open_image := fun _ => some image_a } il1 :=
  ⟨((C27_operand_resolution sample_env "NaN" [] (consistent_nil sample_env)).2.1 rfl).1
      (by decide),
   ((C27_operand_resolution sample_env "-NaN" [] (consistent_nil sample_env)).2.1 rfl).2.1
      (by decide),
   (C27_operand_resolution { sample_env with open_image := fun _ => some image_a } "NaN" []
      (consistent_nil _)).1 image_a rfl⟩

theorem find_cons (c : Char) (s pat : List Char) :
    find (c :: s) pat =
      if (c :: s).take pat.length = pat then some 0 else (find s pat).map fun pos => pos + 1 :=
  rfl

theorem find_eq_none_cons (x : Char) (r pat : List Char) (h : find (x :: r) pat = none) :
    ¬ (x :: r).take pat.length = pat ∧ find r pat = none := by
  rw [find_cons] at h
  split at h
  · cases h
  · rename_i hne
    refine ⟨hne, ?_⟩
    cases hr : find r pat with
    | none => rfl
    | some v => rw [hr] at h; cases h

theorem find_no_percent (pat1 : List Char) :
    ∀ s : List Char, percent ∉ s → find s (percent :: pat1) = none := by
  intro s
  induction s with
  | nil => intro _; simp [find]
  | cons x r ih =>
    intro h
    have hx : x ≠ percent := fun e => h (by simp [e])
    have hr : percent ∉ r := fun e => h (List.mem_cons_of_mem _ e)
    have hne : ¬ List.take (percent :: pat1).length (x :: r) = percent :: pat1 := by
      intro e
      simp only [List.length_cons, List.take_succ_cons, List.cons.injEq] at e
      exact hx e.1
    rw [find_cons, if_neg hne, ih hr]
    rfl

/-- A placeholder that follows a string without it is the first one that
`find` meets. -/
theorem find_placeholder (dk : Char) (post : List Char) (hdk : dk ≠ percent) :
    ∀ pre : List Char, find pre [percent, dk] = none →
      find (pre ++ percent :: dk :: post) [percent, dk] = some pre.length := by
  intro pre
  induction pre with
  | nil => intro _; simp [find]
  | cons x r ih =>
    intro h
    obtain ⟨h1, h2⟩ := find_eq_none_cons x r _ h
    have hne : ¬ List.take [percent, dk].length (x :: (r ++ percent :: dk :: post))
        = [percent, dk] := by
      intro e
      cases r with
      | nil =>
        simp only [List.length_cons, List.length_nil, List.nil_append, List.take_succ_cons,
          List.cons.injEq] at e
        exact hdk e.2.1.symm
      | cons y r1 =>
        apply h1
        simp only [List.length_cons, List.length_nil, List.cons_append, List.take_succ_cons,
          List.cons.injEq, List.take_zero, and_true] at e ⊢
        exact e
    rw [List.cons_append, find_cons, if_neg hne, ih h2]
    rfl

theorem find_parenthesised (dk : Char) (post : List Char) (hdk : dk ≠ lparen)
    (hdk1 : dk ≠ percent) (hpost : find post [lparen, percent, dk, rparen] = none) :
    ∀ pre : List Char, find pre [percent, dk] = none →
      (pre.getLast? ≠ some lparen ∨ post.head? ≠ some rparen) →
      find (pre ++ percent :: dk :: post) [lparen, percent, dk, rparen] = none := by
  intro pre
  induction pre with
  | nil =>
    intro _ _
    have h1 : ¬ List.take [lparen, percent, dk, rparen].length (percent :: dk :: post)
        = [lparen, percent, dk, rparen] := by
      intro e
      simp only [List.length_cons, List.length_nil, List.take_succ_cons, List.cons.injEq] at e
      exact absurd e.1 (by decide)
    have h2 : ¬ List.take [lparen, percent, dk, rparen].length (dk :: post)
        = [lparen, percent, dk, rparen] := by
      intro e
      simp only [List.length_cons, List.length_nil, List.take_succ_cons, List.cons.injEq] at e
      exact hdk e.1
    rw [List.nil_append, find_cons, if_neg h1, find_cons, if_neg h2, hpost]
    rfl
  | cons x r ih =>
    intro h hl
    obtain ⟨hx, hr⟩ := find_eq_none_cons x r _ h
    have hne : ¬ List.take [lparen, percent, dk, rparen].length
        (x :: (r ++ percent :: dk :: post)) = [lparen, percent, dk, rparen] := by
      intro e
      cases r with
      | nil =>
        cases post with
        | nil => simp at e
        | cons p post1 =>
          simp only [List.length_cons, List.length_nil, List.nil_append, List.take_succ_cons,
            List.cons.injEq] at e
          rcases hl with hl | hl
          · exact hl (by simp [e.1])
          · exact hl (by simp [e.2.2.2.1])
      | cons y r1 =>
        cases r1 with
        | nil =>
          simp only [List.length_cons, List.length_nil, List.cons_append, List.nil_append,
            List.take_succ_cons, List.cons.injEq] at e
          exact hdk1 e.2.2.1.symm
        | cons z r2 =>
          obtain ⟨hy, _⟩ := find_eq_none_cons y (z :: r2) _ hr
          apply hy
          simp only [List.length_cons, List.length_nil, List.cons_append, List.take_succ_cons,
            List.cons.injEq, List.take_zero, and_true] at e ⊢
          exact ⟨e.2.1, e.2.2.1⟩
    have hl1 : r.getLast? ≠ some lparen ∨ post.head? ≠ some rparen := by
      cases r with
      | nil => exact Or.inl (by simp)
      | cons y r1 =>
        rcases hl with hl | hl
        · exact Or.inl (by simpa [List.getLast?_cons_cons] using hl)
        · exact Or.inr hl
    rw [List.cons_append, find_cons, if_neg hne, ih hr hl1]
    rfl

/-- The placeholder `%n` occurs in neither of two strings, nor across their
junction: it does not occur in the two strings joined. -/
theorem find_append_apart (dk : Char) (b : List Char) (hb : find b [percent, dk] = none) :
    ∀ a : List Char, find a [percent, dk] = none →
      (a.getLast? ≠ some percent ∨ b.head? ≠ some dk) →
      find (a ++ b) [percent, dk] = none := by
  intro a
  induction a with
  | nil => intro _ _; exact hb
  | cons x r ih =>
    intro h hl
    obtain ⟨hx, hr⟩ := find_eq_none_cons x r _ h
    have hne : ¬ List.take [percent, dk].length (x :: (r ++ b)) = [percent, dk] := by
      intro e
      cases r with
      | nil =>
        cases b with
        | nil => simp at e
        | cons c b1 =>
          simp only [List.length_cons, List.length_nil, List.nil_append, List.take_succ_cons,
            List.cons.injEq] at e
          rcases hl with hl | hl
          · exact hl (by simp [e.1])
          · exact hl (by simp [e.2.1])
      | cons y r1 =>
        apply hx
        simp only [List.length_cons, List.length_nil, List.cons_append, List.take_succ_cons,
          List.cons.injEq, List.take_zero, and_true] at e ⊢
        exact e
    have hl1 : r.getLast? ≠ some percent ∨ b.head? ≠ some dk := by
      cases r with
      | nil => exact Or.inl (by simp)
      | cons y r1 =>
        rcases hl with hl | hl
        · exact Or.inl (by simpa [List.getLast?_cons_cons] using hl)
        · exact Or.inr hl
    rw [List.cons_append, find_cons, if_neg hne, ih hr hl1]
    rfl

theorem getLast_no_percent (s : List Char) (h : percent ∉ s) : s.getLast? ≠ some percent := by
  induction s with
  | nil => simp
  | cons x r ih =>
    cases r with
    | nil =>
      intro e
      simp only [List.getLast?_singleton, Option.some.injEq] at e
      exact h (by simp [e])
    | cons y r1 =>
      rw [List.getLast?_cons_cons]
      exact ih (fun e => h (List.mem_cons_of_mem _ e))

/-- The function `replace` on a string in which the placeholder looked for
follows a part without it, when the parenthesised placeholder is not found. -/
theorem replace_spec (orig pre post value : List Char) (n : Nat) (dk : Char)
    (horig : orig = pre ++ percent :: dk :: post) (hd : str (n + 1) = [dk])
    (hpre : find pre [percent, dk] = none) (hdk : dk ≠ lparen) (hdk1 : dk ≠ percent)
    (hb : (orig.head? ≠ some lparen ∨ orig.getLast? ≠ some rparen) ∨
      ((pre.getLast? ≠ some lparen ∨ post.head? ≠ some rparen) ∧
        find post [lparen, percent, dk, rparen] = none)) :
    replace orig n value = pre ++ value ++ post := by
  have h2 : find orig (percent :: str (n + 1)) = some pre.length := by
    rw [hd, horig]; exact find_placeholder dk post hdk1 pre hpre
  have h4 : (if orig.head? = some lparen ∧ orig.getLast? = some rparen then
      find orig ([lparen, percent] ++ str (n + 1) ++ [rparen]) else none) = none := by
    rcases hb with hb | ⟨hb1, hb2⟩
    · rw [if_neg]
      intro hc
      rcases hb with hb | hb
      · exact hb hc.1
      · exact hb hc.2
    · have : find orig ([lparen, percent] ++ str (n + 1) ++ [rparen]) = none := by
        rw [hd, horig]
        exact find_parenthesised dk post hdk hdk1 hb2 pre hpre hb1
      rw [this]
      simp
  unfold replace
  rw [h4]
  simp only [h2]
  rw [horig]
  simp [List.take_append_eq_append_take, List.drop_append_eq_append_drop]

theorem substitute_plain (ps : List (List Char)) (s : List Char) :
    ∀ pre : List Char, percent ∉ pre → substitute ps (pre ++ s) = pre ++ substitute ps s := by
  intro pre
  induction pre with
  | nil => intro _; rfl
  | cons x r ih =>
    intro h
    have hx : x ≠ percent := fun e => h (by simp [e])
    have hr : percent ∉ r := fun e => h (List.mem_cons_of_mem _ e)
    cases hrs : r ++ s with
    | nil =>
      have h1 : r = [] := (List.append_eq_nil.mp hrs).1
      have h2 : s = [] := (List.append_eq_nil.mp hrs).2
      subst h1 h2
      simp [substitute]
    | cons d rest =>
      rw [List.cons_append, hrs]
      simp only [substitute, hx, false_and, if_false]
      rw [← hrs, ih hr]
      rfl

theorem substitute_nil (ps : List (List Char)) (s : List Char) (h : percent ∉ s) :
    substitute ps s = s := by
  have := substitute_plain ps [] s h
  simpa [substitute] using this

theorem substitute_placeholder (ps : List (List Char)) (dk : Char) (post : List Char)
    (h1 : 49 ≤ dk.toNat) (h2 : dk.toNat - 49 < ps.length) :
    substitute ps (percent :: dk :: post) = ps.getD (dk.toNat - 49) [] ++ substitute ps post := by
  simp [substitute, h1, h2]

theorem not_contains_percent (s : List Char) (h : (!s.contains percent) = true) :
    percent ∉ s := by
  simpa using h

theorem find_plain (pat : List Char) (c : Char) (pat1 : List Char)
    (hp : pat = c :: percent :: pat1) :
    ∀ s : List Char, percent ∉ s → find s pat = none := by
  intro s
  induction s with
  | nil => intro _; simp [find, hp]
  | cons x r ih =>
    intro h
    have hr : percent ∉ r := fun e => h (List.mem_cons_of_mem _ e)
    have hne : ¬ List.take pat.length (x :: r) = pat := by
      intro e
      have hm : percent ∈ List.take pat.length (x :: r) := by rw [e, hp]; simp
      exact h (List.mem_of_mem_take hm)
    rw [find_cons, if_neg hne, ih hr]
    rfl

theorem getLast_append_plain (a b : List Char) (hb : b ≠ []) :
    (a ++ b).getLast? = b.getLast? := by
  induction a with
  | nil => rfl
  | cons x r ih =>
    cases hr : r ++ b with
    | nil => exact absurd (List.append_eq_nil.mp hr).2 hb
    | cons y t =>
      rw [List.cons_append, hr, List.getLast?_cons_cons, ← hr, ih]

/-- The placeholder `%n` occurs neither in the text `s0` of a format before an
operand string `p`, nor in `p`, nor in the text `s1` after it, which does not
start with the digit n: it does not occur in the three joined. -/
theorem find_operand_apart (dk : Char) (s0 p s1 : List Char) (h0 : percent ∉ s0)
    (hp : find p [percent, dk] = none) (h1 : percent ∉ s1) (hh : s1.head? ≠ some dk) :
    find (s0 ++ p ++ s1) [percent, dk] = none := by
  apply find_append_apart dk s1 (find_no_percent _ s1 h1)
  · exact find_append_apart dk p hp s0 (find_no_percent _ s0 h0)
      (Or.inl (getLast_no_percent s0 h0))
  · exact Or.inr hh

theorem unary_string (F p : List Char) (h : unary_format_ok F = true) :
    replace F 0 p = substitute [p] F := by
  simp only [unary_format_ok, Bool.and_eq_true, decide_eq_true_eq] at h
  obtain ⟨⟨⟨hF, h0⟩, h1⟩, hb⟩ := h
  have h0 := not_contains_percent _ h0
  have h1 := not_contains_percent _ h1
  generalize before_percent F = s0 at hF h0 hb
  generalize after_percent F = s1 at hF h1 hb
  have hr : replace F 0 p = s0 ++ p ++ s1 := by
    refine replace_spec F s0 s1 p 0 (Char.ofNat 49) hF rfl (find_no_percent _ s0 h0)
      (by decide) (by decide) ?_
    rcases hb with hb | hb
    · exact Or.inl hb
    · exact Or.inr ⟨hb, find_plain _ lparen _ rfl s1 h1⟩
  have hs : substitute [p] F = s0 ++ p ++ s1 := by
    rw [hF, substitute_plain _ _ s0 h0,
      substitute_placeholder [p] (Char.ofNat 49) s1 (by decide) (show 0 < 1 by decide),
      substitute_nil _ s1 h1]
    simp only [List.append_assoc]
    rfl
  exact hr.trans hs.symm

theorem binary_string (F p q : List Char) (h : binary_format_ok F = true)
    (hp : find p [percent, Char.ofNat 50] = none) :
    replace (replace F 0 p) 1 q = substitute [p, q] F := by
  simp only [binary_format_ok, Bool.and_eq_true, decide_eq_true_eq] at h
  obtain ⟨⟨⟨⟨⟨⟨⟨hF, h0⟩, h1⟩, h2⟩, hne⟩, hl⟩, hb⟩, hh⟩ := h
  have h0 := not_contains_percent _ h0
  have h1 := not_contains_percent _ h1
  have h2 := not_contains_percent _ h2
  generalize before_percent F = s0 at hF h0 hb
  generalize before_percent (after_percent F) = s1 at hF h1 hne hl hb hh
  generalize after_percent (after_percent F) = s2 at hF h2 hb
  have hr1 : replace F 0 p = (s0 ++ p ++ s1) ++ percent :: Char.ofNat 50 :: s2 := by
    rw [replace_spec F s0 (s1 ++ percent :: Char.ofNat 50 :: s2) p 0 (Char.ofNat 49) hF rfl
      (find_no_percent _ s0 h0) (by decide) (by decide) hb]
    simp only [List.append_assoc]
  have hpre : find (s0 ++ p ++ s1) [percent, Char.ofNat 50] = none :=
    find_operand_apart _ s0 p s1 h0 hp h1 hh
  have hr2 : replace (replace F 0 p) 1 q = s0 ++ p ++ s1 ++ q ++ s2 := by
    refine replace_spec _ (s0 ++ p ++ s1) s2 q 1 (Char.ofNat 50) hr1 rfl hpre (by decide)
      (by decide) ?_
    refine Or.inr ⟨Or.inl ?_, find_plain _ lparen _ rfl s2 h2⟩
    rw [getLast_append_plain _ s1 hne]
    exact hl
  have hs : substitute [p, q] F = s0 ++ p ++ s1 ++ q ++ s2 := by
    rw [hF, substitute_plain _ _ s0 h0,
      substitute_placeholder [p, q] (Char.ofNat 49) _ (by decide) (show 0 < 2 by decide),
      substitute_plain _ _ s1 h1,
      substitute_placeholder [p, q] (Char.ofNat 50) _ (by decide) (show 1 < 2 by decide),
      substitute_nil _ s2 h2]
    simp only [List.append_assoc]
    rfl
  exact hr2.trans hs.symm

theorem ternary_string (F p q r : List Char) (h : ternary_format_ok F = true)
    (hp2 : find p [percent, Char.ofNat 50] = none)
    (hp3 : find p [percent, Char.ofNat 51] = none)
    (hq3 : find q [percent, Char.ofNat 51] = none) :
    replace (replace (replace F 0 p) 1 q) 2 r = substitute [p, q, r] F := by
  simp only [ternary_format_ok, Bool.and_eq_true, decide_eq_true_eq] at h
  obtain ⟨⟨⟨⟨⟨⟨⟨⟨⟨⟨⟨⟨⟨hF, h0⟩, h1⟩, h2⟩, h3⟩, hne1⟩, hl1⟩, hne2⟩, hl2⟩, hf2⟩, hb⟩, hh12⟩, hh13⟩,
    hh23⟩ := h
  have h0 := not_contains_percent _ h0
  have h1 := not_contains_percent _ h1
  have h2 := not_contains_percent _ h2
  have h3 := not_contains_percent _ h3
  generalize before_percent F = s0 at hF h0 hb
  generalize before_percent (after_percent F) = s1 at hF h1 hne1 hl1 hb hh12 hh13
  generalize before_percent (after_percent (after_percent F)) = s2 at hF h2 hne2 hl2 hf2 hb hh23
  generalize after_percent (after_percent (after_percent F)) = s3 at hF h3 hf2 hb
  have hr1 : replace F 0 p = (s0 ++ p ++ s1) ++ percent :: Char.ofNat 50 ::
      (s2 ++ percent :: Char.ofNat 51 :: s3) := by
    rw [replace_spec F s0 _ p 0 (Char.ofNat 49) hF rfl (find_no_percent _ s0 h0) (by decide)
      (by decide) hb]
    simp only [List.append_assoc]
  have hpre1 : find (s0 ++ p ++ s1) [percent, Char.ofNat 50] = none :=
    find_operand_apart _ s0 p s1 h0 hp2 h1 hh12
  have hr2 : replace (replace F 0 p) 1 q
      = (s0 ++ p ++ s1 ++ q ++ s2) ++ percent :: Char.ofNat 51 :: s3 := by
    rw [replace_spec _ (s0 ++ p ++ s1) (s2 ++ percent :: Char.ofNat 51 :: s3) q 1
      (Char.ofNat 50) hr1 rfl hpre1 (by decide) (by decide)
      (Or.inr ⟨Or.inl (by rw [getLast_append_plain _ s1 hne1]; exact hl1), hf2⟩)]
    simp only [List.append_assoc]
  have hpre2 : find (s0 ++ p ++ s1 ++ q ++ s2) [percent, Char.ofNat 51] = none := by
    have e1 : find (s0 ++ p ++ s1) [percent, Char.ofNat 51] = none :=
      find_operand_apart _ s0 p s1 h0 hp3 h1 hh13
    have e2 : find (s0 ++ p ++ s1 ++ q) [percent, Char.ofNat 51] = none := by
      apply find_append_apart _ q hq3 _ e1
      left
      rw [getLast_append_plain _ s1 hne1]
      exact getLast_no_percent s1 h1
    exact find_append_apart _ s2 (find_no_percent _ s2 h2) _ e2 (Or.inr hh23)
  have hr3 : replace (replace (replace F 0 p) 1 q) 2 r
      = s0 ++ p ++ s1 ++ q ++ s2 ++ r ++ s3 := by
    refine replace_spec _ (s0 ++ p ++ s1 ++ q ++ s2) s3 r 2 (Char.ofNat 51) hr2 rfl hpre2
      (by decide) (by decide) ?_
    refine Or.inr ⟨Or.inl ?_, find_plain _ lparen _ rfl s3 h3⟩
    rw [getLast_append_plain _ s2 hne2]
    exact hl2
  have hs : substitute [p, q, r] F = s0 ++ p ++ s1 ++ q ++ s2 ++ r ++ s3 := by
    rw [hF, substitute_plain _ _ s0 h0,
      substitute_placeholder [p, q, r] (Char.ofNat 49) _ (by decide) (show 0 < 3 by decide),
      substitute_plain _ _ s1 h1,
      substitute_placeholder [p, q, r] (Char.ofNat 50) _ (by decide) (show 1 < 3 by decide),
      substitute_plain _ _ s2 h2,
      substitute_placeholder [p, q, r] (Char.ofNat 51) _ (by decide) (show 2 < 3 by decide),
      substitute_nil _ s3 h3]
    simp only [List.append_assoc]
    rfl
  exact hr3.trans hs.symm

theorem unary_formats_ok (m : StdMath) (id : String) (op : OpUnary)
    (h : (unary_operations m).lookup id = some op) : unary_format_ok op.format.data = true := by
  have hm := lookup_mem _ _ _ h
  simp only [unary_operations, List.mem_cons, Prod.mk.injEq, List.mem_nil_iff, or_false] at hm
  rcases hm with h | h | h | h | h | h | h | h | h | h | h | h | h | h | h | h | h | h | h | h | h
    | h | h | h | h | h | h | h <;> (rw [h.2]; rfl)

theorem binary_formats_ok (m : StdMath) (id : String) (op : OpBinary)
    (h : (binary_operations m).lookup id = some op) : binary_format_ok op.format.data = true := by
  have hm := lookup_mem _ _ _ h
  simp only [binary_operations, List.mem_cons, Prod.mk.injEq, List.mem_nil_iff, or_false] at hm
  rcases hm with h | h | h | h | h | h | h | h | h | h | h | h | h | h <;> (rw [h.2]; rfl)

theorem ternary_formats_ok (id : String) (op : OpTernary)
    (h : ternary_operations.lookup id = some op) : ternary_format_ok op.format.data = true := by
  have hm := lookup_mem _ _ _ h
  simp only [ternary_operations, List.mem_cons, Prod.mk.injEq, List.mem_nil_iff, or_false] at hm
  rw [hm.2]; rfl

/-- The string that `operation_string` returns for an operator node of the
catalogue none of whose operand strings holds the placeholder of a later
operand: the format of the node with `%1`, `%2` and `%3` replaced by the strings
of the first, second and third operand. -/
theorem operation_string_apart (m : StdMath) (str_value : complex_type → String)
    (t : StackEntry) (hc : t.is_catalogue_node m)
    (hp : placeholders_apart (t.operands.map (operation_string str_value))) :
    operation_string str_value t
      = substitute (t.operands.map (operation_string str_value)) t.format := by
  cases t with
  | arg _ => exact absurd hc (by simp [StackEntry.is_catalogue_node])
  | value _ => exact absurd hc (by simp [StackEntry.is_catalogue_node])
  | image _ _ => exact absurd hc (by simp [StackEntry.is_catalogue_node])
  | rng _ => exact absurd hc (by simp [StackEntry.is_catalogue_node])
  | unary id op a => exact unary_string op.format.data _ (unary_formats_ok m id op hc)
  | binary id op a b =>
    exact binary_string op.format.data _ _ (binary_formats_ok m id op hc)
      (hp 0 1 (by decide) (by simp [StackEntry.operands]))
  | ternary id op a b c =>
    exact ternary_string op.format.data _ _ _ (ternary_formats_ok id op hc)
      (hp 0 1 (by decide) (by simp [StackEntry.operands]))
      (hp 0 2 (by decide) (by simp [StackEntry.operands]))
      (hp 1 2 (by decide) (by simp [StackEntry.operands]))

/-- C28. For an operator node of the catalogue none of whose operand strings
holds the placeholder of a later operand (`%2` or `%3` in the string of the
first operand, `%3` in that of the second), `operation_string` returns the
format of the node with `%1`, `%2` and `%3` replaced by the strings of the
first, second and third operand; so the node `add` over operands that print as
p and q prints as `(p + q)`. But the node `add` over the images `a%2.mif` and
`b.mif`: the first call of `replace` makes `(a%2.mif + %2)` of the format
`(%1 + %2)`, the second call replaces the first `%2` it finds, the one of the
name, and `operation_string` returns `(ab.mif.mif + %2)`, where the format with
`%1` and `%2` replaced by the two names is `(a%2.mif + b.mif)`. Likewise the
node `if` over `a%3.mif`, `b.mif` and `c.mif` prints as
`(ac.mif.mif ? b.mif : %3)`. -/
theorem C28_provenance_string (m : StdMath) (str_value : complex_type → String)
    (t : StackEntry) (hc : t.is_catalogue_node m)
    (hp : placeholders_apart (t.operands.map (operation_string str_value))) :
    operation_string str_value t
      = substitute (t.operands.map (operation_string str_value)) t.format ∧
    (∀ (id : String) (a b : StackEntry), t = StackEntry.binary id OpAdd a b →
      operation_string str_value t
        = "(".data ++ operation_string str_value a ++ " + ".data
            ++ operation_string str_value b ++ ")".data) ∧
    (String.mk (replace OpAdd.format.data 0 "a%2.mif".data) = "(a%2.mif + %2)" ∧
      String.mk (operation_string (fun _ => "0") (StackEntry.binary "add" OpAdd
        (StackEntry.image (named_image "a%2.mif") false)
        (StackEntry.image (named_image "b.mif") false))) = "(ab.mif.mif + %2)" ∧
      String.mk (substitute ["a%2.mif".data, "b.mif".data] OpAdd.format.data)
        = "(a%2.mif + b.mif)" ∧
      ¬ placeholders_apart ["a%2.mif".data, "b.mif".data] ∧
      String.mk (operation_string (fun _ => "0") (StackEntry.ternary "if" OpIf
        (StackEntry.image (named_image "a%3.mif") false)
        (StackEntry.image (named_image "b.mif") false)
        (StackEntry.image (named_image "c.mif") false))) = "(ac.mif.mif ? b.mif : %3)" ∧
      String.mk (substitute ["a%3.mif".data, "b.mif".data, "c.mif".data] OpIf.format.data)
        = "(a%3.mif ? b.mif : c.mif)") := by
  have h1 := operation_string_apart m str_value t hc hp
  refine ⟨h1, ?_, by decide, by decide, by decide, ?_, by decide, by decide⟩
  · intro id a b e
    subst e
    have hf : OpAdd.format.data = "(".data ++ percent :: Char.ofNat 49 ::
        (" + ".data ++ percent :: Char.ofNat 50 :: ")".data) := by decide
    have e1 : operation_string str_value (StackEntry.binary id OpAdd a b)
        = substitute [operation_string str_value a, operation_string str_value b]
            OpAdd.format.data := h1
    rw [e1, hf, substitute_plain _ _ _ (by decide),
      substitute_placeholder [operation_string str_value a, operation_string str_value b]
        (Char.ofNat 49) _ (by decide) (show 0 < 2 by decide),
      substitute_plain _ _ _ (by decide),
      substitute_placeholder [operation_string str_value a, operation_string str_value b]
        (Char.ofNat 50) _ (by decide) (show 1 < 2 by decide),
      substitute_nil _ _ (by decide)]
    simp only [List.append_assoc]
    rfl
  · intro h
    have := h 0 1 (by decide) (by decide)
    revert this
    decide

/-- C28, at the node `add` over the images `a%1.mif` and `50%.mif`, whose names
hold the character `%` but not the placeholder `%2`: the node prints as
`(a%1.mif + 50%.mif)`. -/
theorem C28_provenance_string_witness :
    String.mk (operation_string (fun _ => "0") (StackEntry.binary "add" OpAdd
      (StackEntry.image (named_image "a%1.mif") false)
      (StackEntry.image (named_image "50%.mif") false))) = "(a%1.mif + 50%.mif)" ∧
    operation_string (fun _ => "0") (StackEntry.binary "add" OpAdd
      (StackEntry.image (named_image "a%1.mif") false)
      (StackEntry.image (named_image "50%.mif") false))
      = substitute ((StackEntry.binary "add" OpAdd
            (StackEntry.image (named_image "a%1.mif") false)
            (StackEntry.image (named_image "50%.mif") false)).operands.map
              (operation_string fun _ => "0"))
          (StackEntry.binary "add" OpAdd (StackEntry.image (named_image "a%1.mif") false)
            (StackEntry.image (named_image "50%.mif") false)).format :=
  ⟨by decide,
   (C28_provenance_string no_math (fun _ => "0") (StackEntry.binary "add" OpAdd
      (StackEntry.image (named_image "a%1.mif") false)
      (StackEntry.image (named_image "50%.mif") false)) rfl
      (by
        intro i j hij hj
        have hj1 : j < 2 := hj
        have e1 : j = 1 := by omega
        have e0 : i = 0 := by omega
        subst e1 e0
        decide)).1⟩

/-- C30. The command line `rand -neg` is accepted by the builder and reaches the
assertions of the calculator branch with one entry that is the operator node
`neg` over a uniform random source: the first assertion fails, so that a build
with assertions aborts, and what a build without them prints is the zero of the
member `value`, not the value of the expression.
With `rand` alone the entry is a random source: the assertions hold and zero is
printed. With `2 3 -add` the entry is the folded number 5, the assertions hold
and 5 is printed. -/
theorem C30_calculator_assertions :
    calculator_entry sample_env no_math [Token.operand "rand", Token.option "neg"]
      = some (StackEntry.unary "neg" OpNeg (StackEntry.rng false)) ∧
    calculator_assertions (StackEntry.unary "neg" OpNeg (StackEntry.rng false)) = false ∧
    run sample_env no_math [Token.operand "rand", Token.option "neg"]
      = .error Error.AssertionFailed ∧
    run { sample_env with assertions := false } no_math
        [Token.operand "rand", Token.option "neg"]
      = .ok (Result.printed (real_value 0)) ∧
    calculator_entry sample_env no_math [Token.operand "rand"] = some (StackEntry.rng false) ∧
    calculator_assertions (StackEntry.rng false) = true ∧
    run sample_env no_math [Token.operand "rand"] = .ok (Result.printed (real_value 0)) ∧
    calculator_entry sample_env no_math [Token.operand "2", Token.operand "3",
      Token.option "add"] = some (StackEntry.value (real_value 5)) ∧
    calculator_assertions (StackEntry.value (real_value 5)) = true ∧
    run sample_env no_math [Token.operand "2", Token.operand "3", Token.option "add"]
      = .ok (Result.printed (real_value 5)) :=
  ⟨by rfl, rfl, by rfl, by rfl, by rfl, rfl, by rfl, by with_unfolding_all rfl, rfl,
    by with_unfolding_all rfl⟩

theorem two_pow_64 : (2 : Nat) ^ 64 = 18446744073709551616 := by norm_num

theorem to_size_t_nat (n : Nat) (h : n < 2 ^ 64) : to_size_t (n : Int) = n := by
  unfold to_size_t
  rw [two_pow_64] at h
  have : ((n : Int) % 2 ^ 64) = n := by
    apply Int.emod_eq_of_lt
    · omega
    · norm_num
      omega
  rw [this]
  simp

theorem lower_margin_spec (b : Nat) (h : b < 2 ^ 64) : lower_margin b = b - 1 := by
  unfold lower_margin size_t_sub
  rw [two_pow_64] at *
  split
  · omega
  · omega

theorem upper_margin_spec (dim top bottom : Nat) (hd : 1 ≤ dim) (hd1 : dim < 2 ^ 64)
    (ht : top + 2 < 2 ^ 64) (hb : bottom ≤ top + 2) :
    upper_margin dim top bottom = min (dim - 1) (top + 2 - bottom) := by
  unfold upper_margin
  have e1 : to_size_t ((dim : Int) - 1) = dim - 1 := by
    have : ((dim : Int) - 1) = ((dim - 1 : Nat) : Int) := by omega
    rw [this]
    exact to_size_t_nat _ (by omega)
  have e2 : size_t_sub (size_t_add top 2) bottom = top + 2 - bottom := by
    unfold size_t_sub size_t_add
    rw [two_pow_64] at *
    omega
  rw [e1, e2]

theorem mem_loop_positions (data : Buffer) (p : Nat × Nat × Nat) :
    p ∈ loop_positions data ↔
      p.1 < data.dim.1 ∧ p.2.1 < data.dim.2.1 ∧ p.2.2 < data.dim.2.2 := by
  obtain ⟨x, y, z⟩ := p
  simp only [loop_positions, List.mem_flatMap, List.mem_range, List.mem_map, Prod.mk.injEq]
  constructor
  · rintro ⟨z1, hz, y1, hy, x1, hx, rfl, rfl, rfl⟩
    exact ⟨hx, hy, hz⟩
  · rintro ⟨hx, hy, hz⟩
    exact ⟨z, hz, y, hy, x, hx, rfl, rfl, rfl⟩

theorem coordinate_cases (P : Nat → Prop) (h0 : P 0) (h1 : P 1) (h2 : ∀ a, 2 ≤ a → P a) :
    ∀ a, P a := by
  intro a
  match a with
  | 0 => exact h0
  | 1 => exact h1
  | n + 2 => exact h2 _ (by omega)

theorem coordinate_two (p : Nat × Nat × Nat) (a : Nat) (h : 2 ≤ a) : coordinate p a = p.2.2 := by
  match a with
  | 0 => omega
  | 1 => omega
  | n + 2 => rfl

/-- The body of the loop at a positive voxel, axis by axis. -/
theorem get_mask_step_positive (data : Buffer) (s : Locals) (p : Nat × Nat × Nat)
    (hp : (data.value p).gt (real_type.fin 0) = true)
    (hb : ∀ a, coordinate p a < 2 ^ 64) :
    ∃ s1, get_mask_step data s p = .ok s1 ∧ ∀ a,
      coordinate s1.bottom a
        = (if coordinate p a < coordinate s.bottom a then coordinate p a
           else coordinate s.bottom a) ∧
      coordinate s1.top a
        = (if coordinate p a > coordinate s.top a then coordinate p a
           else coordinate s.top a) := by
  have h0 := to_size_t_nat p.1 (hb 0)
  have h1 := to_size_t_nat p.2.1 (hb 1)
  have h2 := to_size_t_nat p.2.2 (hb 2)
  refine ⟨_, by simp only [get_mask_step, hp, if_true]; rfl, ?_⟩
  rw [h0, h1, h2]
  apply coordinate_cases
  · exact ⟨rfl, rfl⟩
  · exact ⟨rfl, rfl⟩
  · intro a ha
    simp only [coordinate_two _ a ha]
    exact ⟨trivial, trivial⟩
/-- What the loop of `ROI::get_mask` makes of `bottom` and `top` over a list of
voxels none of which is negative: on each axis they become the least and the
greatest coordinate of the positive voxels met, `bottom` unless it was smaller
and `top` unless it was greater. -/
theorem get_mask_loop (data : Buffer) (L : List (Nat × Nat × Nat)) :
    ∀ s0 : Locals,
      (∀ p ∈ L, (data.value p).lt (real_type.fin 0) = false ∧ ∀ a, coordinate p a < 2 ^ 64) →
      ∃ s, L.foldlM (get_mask_step data) s0 = .ok s ∧ ∀ a,
        (∀ p ∈ L, (data.value p).gt (real_type.fin 0) = true →
          coordinate s.bottom a ≤ coordinate p a ∧ coordinate p a ≤ coordinate s.top a) ∧
        coordinate s.bottom a ≤ coordinate s0.bottom a ∧
        coordinate s0.top a ≤ coordinate s.top a ∧
        (coordinate s.bottom a = coordinate s0.bottom a ∨
          ∃ p ∈ L, (data.value p).gt (real_type.fin 0) = true ∧
            coordinate p a = coordinate s.bottom a) ∧
        (coordinate s.top a = coordinate s0.top a ∨
          ∃ p ∈ L, (data.value p).gt (real_type.fin 0) = true ∧
            coordinate p a = coordinate s.top a) := by
  induction L with
  | nil =>
    intro s0 _
    refine ⟨s0, rfl, fun a => ⟨?_, le_refl _, le_refl _, Or.inl rfl, Or.inl rfl⟩⟩
    intro p hp
    cases hp
  | cons q L ih =>
    intro s0 hL
    have hq := hL q (List.mem_cons_self _ _)
    have hL1 : ∀ p ∈ L, (data.value p).lt (real_type.fin 0) = false ∧
        ∀ a, coordinate p a < 2 ^ 64 := fun p hp => hL p (List.mem_cons_of_mem _ hp)
    by_cases hpos : (data.value q).gt (real_type.fin 0) = true
    · obtain ⟨s1, hs1, hax⟩ := get_mask_step_positive data s0 q hpos hq.2
      obtain ⟨s, hs, hinv⟩ := ih s1 hL1
      refine ⟨s, by simp only [List.foldlM, hs1, bind, Except.bind]; exact hs, ?_⟩
      intro a
      obtain ⟨i1, i2, i3, i4, i5⟩ := hinv a
      obtain ⟨b1, t1⟩ := hax a
      have hb1 : coordinate s1.bottom a ≤ coordinate s0.bottom a ∧
          coordinate s1.bottom a ≤ coordinate q a := by
        rw [b1]; split <;> omega
      have ht1 : coordinate s0.top a ≤ coordinate s1.top a ∧
          coordinate q a ≤ coordinate s1.top a := by
        rw [t1]; split <;> omega
      refine ⟨?_, by omega, by omega, ?_, ?_⟩
      · intro p hp hv
        simp only [List.mem_cons] at hp
        rcases hp with rfl | hp
        · omega
        · exact i1 p hp hv
      · rcases i4 with i4 | ⟨p, hp, hv, he⟩
        · by_cases hlt : coordinate q a < coordinate s0.bottom a
          · right
            refine ⟨q, List.mem_cons_self _ _, hpos, ?_⟩
            rw [i4, b1, if_pos hlt]
          · left
            rw [i4, b1, if_neg hlt]
        · exact Or.inr ⟨p, List.mem_cons_of_mem _ hp, hv, he⟩
      · rcases i5 with i5 | ⟨p, hp, hv, he⟩
        · by_cases hgt : coordinate q a > coordinate s0.top a
          · right
            refine ⟨q, List.mem_cons_self _ _, hpos, ?_⟩
            rw [i5, t1, if_pos hgt]
          · left
            rw [i5, t1, if_neg hgt]
        · exact Or.inr ⟨p, List.mem_cons_of_mem _ hp, hv, he⟩
    · have hs1 : get_mask_step data s0 q = .ok s0 := by
        simp only [get_mask_step, hpos, hq.1, Bool.false_eq_true, if_false]
      obtain ⟨s, hs, hinv⟩ := ih s0 hL1
      refine ⟨s, by simp only [List.foldlM, hs1, bind, Except.bind]; exact hs, ?_⟩
      intro a
      obtain ⟨i1, i2, i3, i4, i5⟩ := hinv a
      refine ⟨?_, i2, i3, ?_, ?_⟩
      · intro p hp hv
        simp only [List.mem_cons] at hp
        rcases hp with rfl | hp
        · exact absurd hv hpos
        · exact i1 p hp hv
      · rcases i4 with i4 | ⟨p, hp, hv, he⟩
        · exact Or.inl i4
        · exact Or.inr ⟨p, List.mem_cons_of_mem _ hp, hv, he⟩
      · rcases i5 with i5 | ⟨p, hp, hv, he⟩
        · exact Or.inl i5
        · exact Or.inr ⟨p, List.mem_cons_of_mem _ hp, hv, he⟩

theorem positive_coordinate (data : Buffer) (p : Nat × Nat × Nat) (hp : data.positive p) :
    ∀ a, coordinate p a < coordinate data.dim a := by
  apply coordinate_cases
  · exact hp.1
  · exact hp.2.1
  · intro a ha
    rw [coordinate_two _ a ha, coordinate_two _ a ha]
    exact hp.2.2.1

theorem coordinate_const (c a : Nat) : coordinate (c, c, c) a = c := by
  match a with
  | 0 => rfl
  | 1 => rfl
  | n + 2 => rfl

theorem coordinate_map (f : Nat → Nat) (x : Nat × Nat × Nat) (a : Nat) :
    coordinate (f x.1, f x.2.1, f x.2.2) a = f (coordinate x a) := by
  match a with
  | 0 => rfl
  | 1 => rfl
  | n + 2 => rfl

theorem coordinate_map3 (g : Nat → Nat → Nat → Nat) (x y z : Nat × Nat × Nat) (a : Nat) :
    coordinate (g x.1 y.1 z.1, g x.2.1 y.2.1 z.2.1, g x.2.2 y.2.2 z.2.2) a
      = g (coordinate x a) (coordinate y a) (coordinate z a) := by
  match a with
  | 0 => rfl
  | 1 => rfl
  | n + 2 => rfl

/-- The method `ROI::get_mask` on an image without negative voxel and with a
positive one: it returns, and on each axis `bottom` is the least coordinate
`lo` of the positive voxels, less one unless it is zero, and `top` is the
smaller of the size less one and of `hi + 2 - bottom`, where `hi` is the
greatest coordinate of the positive voxels; the operations on `size_t` do not
wrap around. -/
theorem get_mask_spec (data : Buffer) (hd : data.well_sized) (hn : data.no_negative)
    (p0 : Nat × Nat × Nat) (hp0 : data.positive p0) :
    ∃ r lo hi, get_mask data = .ok r ∧ ∀ a,
      (∀ p, data.positive p →
        coordinate lo a ≤ coordinate p a ∧ coordinate p a ≤ coordinate hi a) ∧
      (∃ p, data.positive p ∧ coordinate p a = coordinate lo a) ∧
      (∃ p, data.positive p ∧ coordinate p a = coordinate hi a) ∧
      coordinate hi a < coordinate data.dim a ∧
      coordinate r.bottom a = coordinate lo a - 1 ∧
      coordinate r.top a
        = min (coordinate data.dim a - 1) (coordinate hi a + 2 - coordinate r.bottom a) := by
  have h64 := two_pow_64
  have hdim : ∀ a, coordinate data.dim a < 2 ^ 31 := fun a => (hd a).2
  have h31 : (2 : Nat) ^ 31 = 2147483648 := by norm_num
  have hL : ∀ p ∈ loop_positions data, (data.value p).lt (real_type.fin 0) = false ∧
      ∀ a, coordinate p a < 2 ^ 64 := by
    intro p hp
    rw [mem_loop_positions] at hp
    refine ⟨hn p hp.1 hp.2.1 hp.2.2, ?_⟩
    intro a
    have h1 := positive_coordinate { data with value := fun _ => real_type.fin 1 } p
      ⟨hp.1, hp.2.1, hp.2.2, rfl⟩ a
    have h2 := hdim a
    simp only at h1
    rw [h64]; rw [h31] at h2
    omega
  obtain ⟨s, hs, hinv⟩ := get_mask_loop data (loop_positions data)
    { bottom := (2 ^ 64 - 1, 2 ^ 64 - 1, 2 ^ 64 - 1), top := (0, 0, 0),
      sum := real_type.fin 0, max := real_type.fin 0 } hL
  have hmem : ∀ p, data.positive p → p ∈ loop_positions data := by
    intro p hp
    rw [mem_loop_positions]
    exact ⟨hp.1, hp.2.1, hp.2.2.1⟩
  have hpos : ∀ p ∈ loop_positions data, (data.value p).gt (real_type.fin 0) = true →
      data.positive p := by
    intro p hp hv
    rw [mem_loop_positions] at hp
    exact ⟨hp.1, hp.2.1, hp.2.2, hv⟩
  have hfacts : ∀ a,
      (∀ p, data.positive p →
        coordinate s.bottom a ≤ coordinate p a ∧ coordinate p a ≤ coordinate s.top a) ∧
      (∃ p, data.positive p ∧ coordinate p a = coordinate s.bottom a) ∧
      (∃ p, data.positive p ∧ coordinate p a = coordinate s.top a) ∧
      coordinate s.top a < coordinate data.dim a := by
    intro a
    obtain ⟨i1, i2, i3, i4, i5⟩ := hinv a
    have hb0 := i1 p0 (hmem p0 hp0) hp0.2.2.2
    have hc0 := positive_coordinate data p0 hp0 a
    have hda := hdim a
    rw [h31] at hda
    have hlo : ∃ p, data.positive p ∧ coordinate p a = coordinate s.bottom a := by
      rcases i4 with i4 | ⟨p, hp, hv, he⟩
      · exfalso
        have : coordinate s.bottom a = 2 ^ 64 - 1 := i4.trans (coordinate_const _ a)
        rw [h64] at this
        omega
      · exact ⟨p, hpos p hp hv, he⟩
    have hhi : ∃ p, data.positive p ∧ coordinate p a = coordinate s.top a := by
      rcases i5 with i5 | ⟨p, hp, hv, he⟩
      · refine ⟨p0, hp0, ?_⟩
        have : coordinate s.top a = 0 := i5.trans (coordinate_const _ a)
        omega
      · exact ⟨p, hpos p hp hv, he⟩
    refine ⟨fun p hp => i1 p (hmem p hp) hp.2.2.2, hlo, hhi, ?_⟩
    obtain ⟨p, hp, he⟩ := hhi
    rw [← he]
    exact positive_coordinate data p hp a
  refine ⟨_, s.bottom, s.top, by simp only [get_mask, hs, bind, Except.bind]; rfl, ?_⟩
  intro a
  obtain ⟨f1, f2, f3, f4⟩ := hfacts a
  have hda := hd a
  rw [h31] at hda
  have hbt := f1 p0 hp0
  have hbl : coordinate s.bottom a < 2 ^ 64 := by rw [h64]; omega
  have e1 : coordinate (lower_margin s.bottom.1, lower_margin s.bottom.2.1,
      lower_margin s.bottom.2.2) a = coordinate s.bottom a - 1 := by
    rw [coordinate_map lower_margin, lower_margin_spec _ hbl]
  refine ⟨f1, f2, f3, f4, e1, ?_⟩
  show coordinate
      (upper_margin data.dim.1 s.top.1 (lower_margin s.bottom.1),
        upper_margin data.dim.2.1 s.top.2.1 (lower_margin s.bottom.2.1),
        upper_margin data.dim.2.2 s.top.2.2 (lower_margin s.bottom.2.2)) a = _
  rw [e1, coordinate_map3 upper_margin data.dim s.top
    (lower_margin s.bottom.1, lower_margin s.bottom.2.1, lower_margin s.bottom.2.2), e1]
  apply upper_margin_spec
  · exact hda.1
  · rw [h64]; omega
  · rw [h64]; omega
  · omega
theorem subset_contains_iff (bottom top p : Nat × Nat × Nat) :
    subset_contains bottom top p ↔
      ∀ a, coordinate bottom a ≤ coordinate p a ∧
        coordinate p a < coordinate bottom a + coordinate top a := by
  constructor
  · intro h
    apply coordinate_cases
    · exact h.1
    · exact h.2.1
    · intro a ha
      simp only [coordinate_two _ a ha]
      exact h.2.2
  · intro h
    exact ⟨h 0, h 1, h 2⟩

theorem subset_inside_iff (bottom top dim : Nat × Nat × Nat) :
    subset_inside bottom top dim ↔
      ∀ a, coordinate bottom a + coordinate top a ≤ coordinate dim a := by
  constructor
  · intro h
    apply coordinate_cases
    · exact h.1
    · exact h.2.1
    · intro a ha
      simp only [coordinate_two _ a ha]
      exact h.2.2
  · intro h
    exact ⟨h 0, h 1, h 2⟩

theorem well_sized_of_dim (data : Buffer) (n : Nat) (h : data.dim = (n, n, n)) (h1 : 1 ≤ n)
    (h2 : n < 2 ^ 31) : data.well_sized := by
  intro a
  rw [h, coordinate_const]
  exact ⟨h1, h2⟩

theorem roi_full_hypotheses :
    roi_full.well_sized ∧ roi_full.no_negative ∧ roi_full.positive (1, 1, 1) :=
  ⟨well_sized_of_dim roi_full 2 rfl (by decide) (by norm_num),
   fun _ _ _ _ => by simp [roi_full, real_type.lt, real_type.value],
   by decide, by decide, by decide, by simp [roi_full, real_type.gt, real_type.lt, real_type.value]⟩

theorem roi_corner_hypotheses :
    roi_corner.well_sized ∧ roi_corner.no_negative ∧ roi_corner.positive (3, 3, 3) :=
  ⟨well_sized_of_dim roi_corner 4 rfl (by decide) (by norm_num),
   fun _ _ _ _ => by simp only [roi_corner]; split <;> simp [real_type.lt, real_type.value],
   by decide, by decide, by decide, by simp [roi_corner, real_type.gt, real_type.lt, real_type.value]⟩

theorem roi_middle_hypotheses :
    roi_middle.well_sized ∧ roi_middle.no_negative ∧ roi_middle.positive (2, 2, 2) :=
  ⟨well_sized_of_dim roi_middle 5 rfl (by decide) (by norm_num),
   fun _ _ _ _ => by simp only [roi_middle]; split <;> simp [real_type.lt, real_type.value],
   by decide, by decide, by decide, by simp [roi_middle, real_type.gt, real_type.lt, real_type.value]⟩

/-- C31. On a three-dimensional image without negative voxel and with a positive
one, `ROI::get_mask` returns, and the origin `bottom` is at or below every
positive voxel on every axis; but the sub-volume of origin `bottom` and extent
`top` contains every positive voxel only when on no axis `bottom` is 0 while a
positive voxel lies in the last plane of the image. On the 2×2×2 image whose
voxels all hold 1 the origin is (0, 0, 0) and the extent (1, 1, 1): the
positive voxel (1, 1, 1) is left out. -/
theorem C31_roi_cover (data : Buffer) (hd : data.well_sized) (hn : data.no_negative)
    (p0 : Nat × Nat × Nat) (hp0 : data.positive p0) :
    (∃ r, get_mask data = .ok r ∧
      (∀ p, data.positive p → ∀ a, coordinate r.bottom a ≤ coordinate p a) ∧
      ((∀ p, data.positive p → subset_contains r.bottom r.top p) ↔
        ∀ a, ¬ (coordinate r.bottom a = 0 ∧
          ∃ p, data.positive p ∧ coordinate p a + 1 = coordinate data.dim a))) ∧
    (roi_full.well_sized ∧ roi_full.no_negative ∧ roi_full.positive (1, 1, 1) ∧
      (get_mask roi_full).map (fun r => (r.bottom, r.top)) = .ok ((0, 0, 0), (1, 1, 1)) ∧
      ¬ subset_contains (0, 0, 0) (1, 1, 1) (1, 1, 1)) := by
  refine ⟨?_, roi_full_hypotheses.1, roi_full_hypotheses.2.1, roi_full_hypotheses.2.2, by rfl,
    by simp [subset_contains]⟩
  obtain ⟨r, lo, hi, hr, hax⟩ := get_mask_spec data hd hn p0 hp0
  refine ⟨r, hr, ?_, ?_⟩
  · intro p hp a
    obtain ⟨f1, -, -, -, f5, -⟩ := hax a
    have := (f1 p hp).1
    omega
  · constructor
    · intro hall a hbad
      obtain ⟨hb, p, hp, hpa⟩ := hbad
      obtain ⟨-, -, -, -, -, f6⟩ := hax a
      have hc := ((subset_contains_iff _ _ _).mp (hall p hp) a).2
      rw [f6, hb] at hc
      have := Nat.min_le_left (coordinate data.dim a - 1) (coordinate hi a + 2 - 0)
      omega
    · intro hgood p hp
      rw [subset_contains_iff]
      intro a
      obtain ⟨f1, f2, ⟨q, hq, hqa⟩, f4, f5, f6⟩ := hax a
      have h1 := f1 p hp
      have h2 := f1 q hq
      have hg := hgood a
      have hne : ¬ (coordinate r.bottom a = 0 ∧ coordinate q a + 1 = coordinate data.dim a) :=
        fun h => hg ⟨h.1, q, hq, h.2⟩
      refine ⟨by omega, ?_⟩
      rw [f6, Nat.min_def]
      split <;> omega

/-- C31, at the 5×5×5 image whose only positive voxel is the middle one: the
sub-volume has origin (1, 1, 1) and extent (3, 3, 3) and contains the voxel. -/
theorem C31_roi_cover_witness :
    (∃ r, get_mask roi_middle = .ok r ∧
      (∀ p, roi_middle.positive p → ∀ a, coordinate r.bottom a ≤ coordinate p a) ∧
      ((∀ p, roi_middle.positive p → subset_contains r.bottom r.top p) ↔
        ∀ a, ¬ (coordinate r.bottom a = 0 ∧
          ∃ p, roi_middle.positive p ∧ coordinate p a + 1 = coordinate roi_middle.dim a))) ∧
    (get_mask roi_middle).map (fun r => (r.bottom, r.top)) = .ok ((1, 1, 1), (3, 3, 3)) :=
  ⟨(C31_roi_cover roi_middle roi_middle_hypotheses.1 roi_middle_hypotheses.2.1 (2, 2, 2)
      roi_middle_hypotheses.2.2).1, by rfl⟩

/-- C32. On a three-dimensional image without negative voxel and with a positive
one, `ROI::get_mask` computes `bottom` and `top` without wrap-around: on each
axis `bottom` is the least coordinate `lo` of the positive voxels, less one
unless it is zero, and `top` is the smaller of the size less one and of
`hi + 2 - bottom`, `hi` being their greatest coordinate. But `bottom + top`
stays within the size only when on no axis `bottom` is 2 or more while a
positive voxel lies in the last plane of the image. On the 4×4×4 image whose
only positive voxel is (3, 3, 3) the origin is (2, 2, 2) and the extent
(3, 3, 3): 2 + 3 exceeds 4. -/
theorem C32_roi_inside (data : Buffer) (hd : data.well_sized) (hn : data.no_negative)
    (p0 : Nat × Nat × Nat) (hp0 : data.positive p0) :
    (∃ r lo hi, get_mask data = .ok r ∧
      (∀ a,
        (∀ p, data.positive p →
          coordinate lo a ≤ coordinate p a ∧ coordinate p a ≤ coordinate hi a) ∧
        (∃ p, data.positive p ∧ coordinate p a = coordinate lo a) ∧
        (∃ p, data.positive p ∧ coordinate p a = coordinate hi a) ∧
        coordinate r.bottom a = coordinate lo a - 1 ∧
        coordinate r.bottom a ≤ coordinate hi a + 2 ∧
        coordinate r.top a
          = min (coordinate data.dim a - 1) (coordinate hi a + 2 - coordinate r.bottom a)) ∧
      (subset_inside r.bottom r.top data.dim ↔
        ∀ a, ¬ (2 ≤ coordinate r.bottom a ∧
          ∃ p, data.positive p ∧ coordinate p a + 1 = coordinate data.dim a))) ∧
    (roi_corner.well_sized ∧ roi_corner.no_negative ∧ roi_corner.positive (3, 3, 3) ∧
      (get_mask roi_corner).map (fun r => (r.bottom, r.top)) = .ok ((2, 2, 2), (3, 3, 3)) ∧
      ¬ subset_inside (2, 2, 2) (3, 3, 3) roi_corner.dim) := by
  refine ⟨?_, roi_corner_hypotheses.1, roi_corner_hypotheses.2.1, roi_corner_hypotheses.2.2,
    by rfl, by simp [subset_inside, roi_corner]⟩
  obtain ⟨r, lo, hi, hr, hax⟩ := get_mask_spec data hd hn p0 hp0
  refine ⟨r, lo, hi, hr, ?_, ?_⟩
  · intro a
    obtain ⟨f1, f2, f3, f4, f5, f6⟩ := hax a
    have := f1 p0 hp0
    exact ⟨f1, f2, f3, f5, by omega, f6⟩
  · rw [subset_inside_iff]
    constructor
    · intro hall a hbad
      obtain ⟨hb, p, hp, hpa⟩ := hbad
      obtain ⟨f1, -, -, f4, f5, f6⟩ := hax a
      have h1 := f1 p hp
      have hc := hall a
      rw [f6, Nat.min_def] at hc
      split at hc <;> omega
    · intro hgood a
      obtain ⟨f1, f2, ⟨q, hq, hqa⟩, f4, f5, f6⟩ := hax a
      have h2 := f1 q hq
      have hda := (hd a).1
      have hne : ¬ (2 ≤ coordinate r.bottom a ∧ coordinate q a + 1 = coordinate data.dim a) :=
        fun h => hgood a ⟨h.1, q, hq, h.2⟩
      rw [f6, Nat.min_def]
      split <;> omega

/-- C32, at the 5×5×5 image whose only positive voxel is the middle one: the
origin is (1, 1, 1) and the extent (3, 3, 3), within the image. -/
theorem C32_roi_inside_witness :
    (∃ r lo hi, get_mask roi_middle = .ok r ∧
      (∀ a,
        (∀ p, roi_middle.positive p →
          coordinate lo a ≤ coordinate p a ∧ coordinate p a ≤ coordinate hi a) ∧
        (∃ p, roi_middle.positive p ∧ coordinate p a = coordinate lo a) ∧
        (∃ p, roi_middle.positive p ∧ coordinate p a = coordinate hi a) ∧
        coordinate r.bottom a = coordinate lo a - 1 ∧
        coordinate r.bottom a ≤ coordinate hi a + 2 ∧
        coordinate r.top a
          = min (coordinate roi_middle.dim a - 1)
              (coordinate hi a + 2 - coordinate r.bottom a)) ∧
      (subset_inside r.bottom r.top roi_middle.dim ↔
        ∀ a, ¬ (2 ≤ coordinate r.bottom a ∧
          ∃ p, roi_middle.positive p ∧ coordinate p a + 1 = coordinate roi_middle.dim a))) ∧
    subset_inside (1, 1, 1) (3, 3, 3) roi_middle.dim :=
  ⟨(C32_roi_inside roi_middle roi_middle_hypotheses.1 roi_middle_hypotheses.2.1 (2, 2, 2)
      roi_middle_hypotheses.2.2).1, by simp [subset_inside, roi_middle]⟩

end MRCalc
